import Mathlib

/-!
# RAMCloud: hash table, fast transport, buffer and segment

A shallow embedding of `src/HashTable.h`, of the message reassembly and
windowing code, the client and server session code and the packet dispatch of
`src/FastTransport.cc`, of the `Buffer` operations exercised by
`src/BufferTest.cc` and of the append path of `src/Segment.cc`, together with
theorems about them.

Machine integers are natural numbers; where the C++ arithmetic is done in
`uint64_t` the wrap-around is written out with `% 2 ^ 64`.
-/

namespace RAMCloud

/-- How a call of a C++ function ends. -/
inductive Outcome (α : Type) where
  /-- the call returns normally -/
  | ok (a : α)
  /-- the call throws a C++ `Exception` -/
  | thrown
  /-- an `assert` in the call fails -/
  | aborted
  /-- the call has undefined behaviour: it dereferences an address at which
  no object lives, or shifts a signed integer out of range -/
  | undefined
  /-- the call loops forever -/
  | diverges
  deriving DecidableEq

/-- The modulus of `uint64_t` arithmetic. -/
def U64 : Nat := 2 ^ 64

/-- Bitwise complement `~x` of a `uint64_t`. -/
def not64 (x : Nat) : Nat := U64 - 1 - x

namespace HashTable

/-- Embeds `HashTable::MAX_TYPEBITS`. -/
def MAX_TYPEBITS : Nat := 8

/-- Embeds `HashTable::MAX_NUMTYPES = (1 << MAX_TYPEBITS)`. -/
def MAX_NUMTYPES : Nat := 1 <<< MAX_TYPEBITS

/-- Embeds `HashTable::ENTRIES_PER_CACHE_LINE = BYTES_PER_CACHE_LINE / sizeof(Entry)`. -/
def ENTRIES_PER_CACHE_LINE : Nat := 64 / 8

/-- Embeds `HashTable::Entry::UnpackedEntry`. -/
structure UnpackedEntry where
  hash : Nat
  chain : Bool
  type : Nat
  ptr : Nat
  deriving DecidableEq

namespace Entry

/-- Embeds `Entry::clear`: the value of an unused entry. -/
def clear : Nat := 0

/-- Embeds `Entry::pack(hash, chain, ptr, type, typeBits)`: the new `value` of the
entry, or how the call fails.  The statements are taken in source order: the
assertion on a null pointer, the two type checks (only when `typeBits > 0`),
the pointer check, the assertion on the hash, the store. -/
def pack (hash : Nat) (chain : Bool) (ptr : Nat) (type : Nat) (typeBits : Nat) :
    Outcome Nat :=
  if ptr = 0 ∧ ¬ (hash = 0 ∧ chain = false) then .aborted
  else if 0 < typeBits ∧ MAX_TYPEBITS < typeBits then .thrown
  else if 0 < typeBits ∧ type &&& not64 ((1 <<< typeBits) - 1) ≠ 0 then .thrown
  else
    let typeField := if 0 < typeBits then (type <<< (47 - typeBits)) % U64 else 0
    if ptr &&& not64 (0x00007fffffffffff >>> typeBits) ≠ 0 then .thrown
    else if hash &&& not64 0x000000000000ffff ≠ 0 then .aborted
    else
      let c : Nat := if chain then 1 else 0
      .ok (((hash <<< 48) % U64) ||| (c <<< 47) ||| typeField ||| ptr)

/-- Embeds `Entry::unpack(typeBits)` applied to an entry holding `value`.  The
`downCast<uint8_t>` of the type field is exact for `typeBits ≤ 8`. -/
def unpack (typeBits : Nat) (value : Nat) : UnpackedEntry :=
  { hash := (value >>> 48) &&& 0x000000000000ffff
    chain := (value >>> 47) &&& 0x0000000000000001 ≠ 0
    ptr := value &&& (0x00007fffffffffff >>> typeBits)
    type := if typeBits ≠ 0 then
        (value >>> (47 - typeBits)) &&& ((1 <<< typeBits) - 1)
      else 0 }

/-- Embeds `Entry::setReferant(hash, ptr, type, typeBits)`. -/
def setReferant (hash ptr type typeBits : Nat) : Outcome Nat :=
  if ptr = 0 then .aborted else pack hash false ptr type typeBits

/-- Embeds `Entry::setChainPointer(ptr)`: `pack(0, true, ptr)`, the C++ default
arguments `type = 0` and `typeBits = 0` being used. -/
def setChainPointer (ptr : Nat) : Outcome Nat :=
  if ptr = 0 then .aborted else pack 0 true ptr 0 0

/-- Embeds `Entry::isAvailable(typeBits)`. -/
def isAvailable (typeBits : Nat) (value : Nat) : Bool :=
  (unpack typeBits value).ptr = 0

/-- Embeds `Entry::getReferant(typeBits, &type)`: the referant address and its
type; the assertion is that the entry is a referant entry. -/
def getReferant (typeBits : Nat) (value : Nat) : Outcome (Nat × Nat) :=
  let ue := unpack typeBits value
  if ¬ (ue.chain = false ∧ ue.ptr ≠ 0) then .aborted else .ok (ue.ptr, ue.type)

/-- Embeds `Entry::getChainPointer(typeBits)`; `0` is `NULL`. -/
def getChainPointer (typeBits : Nat) (value : Nat) : Nat :=
  let ue := unpack typeBits value
  if ue.chain = false then 0 else ue.ptr

/-- Embeds `Entry::hashMatches(hash, typeBits)`. -/
def hashMatches (hash typeBits : Nat) (value : Nat) : Bool :=
  let ue := unpack typeBits value
  ue.chain = false ∧ ue.ptr ≠ 0 ∧ ue.hash = hash

end Entry

/-- A `CacheLine`: the values of its `ENTRIES_PER_CACHE_LINE` entries, in
slot order. -/
abbrev CacheLine := List Nat

/-- The memory the table reads through referant pointers: `mem p` is
`(p->key1(), p->key2())`. -/
abbrev Referants := Nat → Nat × Nat

/-- A `CacheLine*`: a line of the bucket array, or a line that `xmemalign`
returned, named by its address. -/
inductive LineRef where
  | bucket (index : Nat)
  | chained (addr : Nat)
  deriving DecidableEq

/-- The state of a `HashTable`: its fields and the cache lines chained to
its buckets (address and contents of every line obtained from `xmemalign`,
most recent first). -/
structure Table where
  numBuckets : Nat
  numTypes : Nat
  typeBits : Nat
  buckets : List CacheLine
  heap : List (Nat × CacheLine)
  deriving DecidableEq

/-- Embeds `HashTable::nearestPowerOfTwo`.  The loop returns `(1 << i)`, a shift of
the `int` constant `1`: it is defined only for `i < 31`. -/
def nearestPowerOfTwoLoop (n : Nat) : Nat → Outcome Nat
  | 0 => .ok 0
  | i + 1 => if (1 <<< i) % U64 ≤ n then (if i < 31 then .ok (1 <<< i) else .undefined)
             else nearestPowerOfTwoLoop n i

/-- Embeds `HashTable::nearestPowerOfTwo(n)`; `n - 1` is computed in `uint64_t`. -/
def nearestPowerOfTwo (n : Nat) : Outcome Nat :=
  if n &&& ((n + U64 - 1) % U64) = 0 then .ok n else nearestPowerOfTwoLoop n 64

/-- The loop of the constructor that counts the bits set in `typeMask`. -/
def countTypeBits (typeMask : Nat) : Nat :=
  ((List.range 64).filter (fun i => typeMask &&& (1 <<< i) ≠ 0)).length

/-- Embeds `HashTable::BYTES_PER_CACHE_LINE`, which is `sizeof(CacheLine)`. -/
def BYTES_PER_CACHE_LINE : Nat := 64

/-- The number of bytes that a process can address: the user-space addresses
of x86-64 lie below `2 ^ 47`, which is why an `Entry` keeps its pointer in 47
bits (`pack`). -/
def ADDRESS_SPACE_BYTES : Nat := 2 ^ 47

/-- Modelled from the spec: the allocation of the bucket array in the
initialiser list of the constructor, `buckets(this->numBuckets * sizeof(CacheLine))`,
a `LargeBlockOfMemory` (`LargeBlockOfMemory.h` is not among the sources).  The
hash index "surfaces only ProgrammerError and allocation failure": an array of
`numBuckets` cache lines whose bytes do not fit in the address space is not
obtained and the allocation throws; otherwise the array is there, all of its
entries zero.  (The byte count is a `size_t`: from `2 ^ 58` buckets on the
product does not fit in 64 bits, and there is no array of `numBuckets` lines
either.) -/
def allocateBuckets (numBuckets : Nat) : Outcome (List CacheLine) :=
  if ADDRESS_SPACE_BYTES ≤ numBuckets * BYTES_PER_CACHE_LINE then .thrown
  else .ok (List.replicate numBuckets (List.replicate ENTRIES_PER_CACHE_LINE Entry.clear))

/-- Embeds `HashTable::HashTable(numBuckets, numTypes)`.  The initialiser list
rounds `numBuckets` with `nearestPowerOfTwo` and allocates the bucket array
before the body checks the arguments. -/
def init (numBuckets numTypes : Nat) : Outcome Table :=
  match nearestPowerOfTwo numBuckets with
  | .ok nb =>
    match allocateBuckets nb with
    | .ok buckets =>
      if numBuckets = 0 then .thrown
      else if numTypes = 0 ∨ MAX_NUMTYPES < numTypes then .thrown
      else if 1 < numTypes then
        match nearestPowerOfTwo numTypes with
        | .ok p2 =>
          let power2Types := if p2 ≠ numTypes then (p2 <<< 1) % U64 else p2
          let typeMask := (power2Types + U64 - 1) % U64
          .ok { numBuckets := nb, numTypes := numTypes, typeBits := countTypeBits typeMask,
                buckets := buckets, heap := [] }
        | .thrown => .thrown
        | .aborted => .aborted
        | .undefined => .undefined
        | .diverges => .diverges
      else
        .ok { numBuckets := nb, numTypes := numTypes, typeBits := 0,
              buckets := buckets, heap := [] }
    | .thrown => .thrown
    | .aborted => .aborted
    | .undefined => .undefined
    | .diverges => .diverges
  | .thrown => .thrown
  | .aborted => .aborted
  | .undefined => .undefined
  | .diverges => .diverges

/-- Embeds `HashTable::hash`, the 64-bit to 64-bit hash function. -/
def hash (key : Nat) : Nat :=
  let key := (not64 key + (key <<< 21) % U64) % U64
  let key := key ^^^ (key >>> 24)
  let key := ((key + (key <<< 3) % U64) % U64 + (key <<< 8) % U64) % U64
  let key := key ^^^ (key >>> 14)
  let key := ((key + (key <<< 2) % U64) % U64 + (key <<< 4) % U64) % U64
  let key := key ^^^ (key >>> 28)
  let key := (key + (key <<< 31) % U64) % U64
  key

/-- Embeds `HashTable::findBucket(key1, key2, &secondaryHash)`: the index of the
bucket and the secondary hash. -/
def findBucket (t : Table) (key1 key2 : Nat) : Nat × Nat :=
  let hashValue := hash key1 ^^^ hash key2
  let bucketHash := hashValue &&& 0x0000ffffffffffff
  (bucketHash &&& ((t.numBuckets + U64 - 1) % U64), hashValue >>> 48)

/-- The cache line a `CacheLine*` points to, if there is one. -/
def Table.line? (t : Table) : LineRef → Option CacheLine
  | .bucket i => t.buckets[i]?
  | .chained a => t.heap.lookup a

/-- The value of entry `slot` of the line `cl`. -/
def Table.entry (t : Table) (cl : LineRef) (slot : Nat) : Nat :=
  ((t.line? cl).getD []).getD slot 0

/-- Store `v` in entry `slot` of the chained line at address `a`. -/
def heapSet : List (Nat × CacheLine) → Nat → Nat → Nat → List (Nat × CacheLine)
  | [], _, _, _ => []
  | (a', l) :: h, a, slot, v =>
    if a' = a then (a', l.set slot v) :: h else (a', l) :: heapSet h a slot v

/-- Store `v` in entry `slot` of the line `cl`. -/
def Table.setEntry (t : Table) (cl : LineRef) (slot : Nat) (v : Nat) : Table :=
  match cl with
  | .bucket i => { t with buckets := t.buckets.set i ((t.buckets.getD i []).set slot v) }
  | .chained a => { t with heap := heapSet t.heap a slot v }

/-- The `for` loop of `lookupEntry` over one cache line, from slot `i` on:
the slot of the first entry whose secondary hash matches and whose referant
has the key looked for.  The referant is what `getReferant` returns, the
`ptr` field of the entry: its assertion holds when `hashMatches` does. -/
def scanLine (mem : Referants) (typeBits secondaryHash key1 key2 : Nat) :
    CacheLine → Nat → Option Nat
  | [], _ => none
  | e :: es, i =>
    if Entry.hashMatches secondaryHash typeBits e = true ∧
        mem (Entry.unpack typeBits e).ptr = (key1, key2) then some i
    else scanLine mem typeBits secondaryHash key1 key2 es (i + 1)

/-- The `while (1)` loop of `HashTable::lookupEntry`, run for at most `fuel`
cache lines, starting at the line `cl`. -/
def lookupEntryLoop (mem : Referants) (t : Table) (secondaryHash key1 key2 : Nat) :
    Nat → LineRef → Outcome (Option (LineRef × Nat))
  | 0, _ => .diverges
  | fuel + 1, cl =>
    match t.line? cl with
    | none => .undefined
    | some line =>
      match scanLine mem t.typeBits secondaryHash key1 key2 line 0 with
      | some i => .ok (some (cl, i))
      | none =>
        let next := Entry.getChainPointer t.typeBits
          (line.getD (ENTRIES_PER_CACHE_LINE - 1) 0)
        if next = 0 then .ok none
        else lookupEntryLoop mem t secondaryHash key1 key2 fuel (.chained next)

/-- Embeds `HashTable::lookupEntry(bucket, secondaryHash, key1, key2)`: where the
entry is, or `none` for `NULL`.  The table has `heap.length + 1` cache lines
at most in one chain, so a walk that is longer has come back to a line it
has already scanned and never ends. -/
def lookupEntry (mem : Referants) (t : Table) (bucket secondaryHash key1 key2 : Nat) :
    Outcome (Option (LineRef × Nat)) :=
  lookupEntryLoop mem t secondaryHash key1 key2 (t.heap.length + 1) (.bucket bucket)

/-- Embeds `HashTable::lookup(key1, key2, &retType)`: `none` is `NULL`, otherwise
the referant address and its type. -/
def lookup (mem : Referants) (t : Table) (key1 key2 : Nat) : Outcome (Option (Nat × Nat)) :=
  let (bucket, secondaryHash) := findBucket t key1 key2
  match lookupEntry mem t bucket secondaryHash key1 key2 with
  | .ok none => .ok none
  | .ok (some (cl, i)) =>
    (match Entry.getReferant t.typeBits (t.entry cl i) with
     | .ok r => .ok (some r)
     | _ => .aborted)
  | .thrown => .thrown
  | .aborted => .aborted
  | .undefined => .undefined
  | .diverges => .diverges

/-- Embeds `HashTable::remove(key1, key2, &retPtr, &retType)`: how the call ends
(the return value with what is stored through `retPtr` and `retType`) and
the table afterwards. -/
def remove (mem : Referants) (t : Table) (key1 key2 : Nat) :
    Outcome (Bool × Option (Nat × Nat)) × Table :=
  let (bucket, secondaryHash) := findBucket t key1 key2
  match lookupEntry mem t bucket secondaryHash key1 key2 with
  | .ok none => (.ok (false, none), t)
  | .ok (some (cl, i)) =>
    (match Entry.getReferant t.typeBits (t.entry cl i) with
     | .ok r => (.ok (true, some r), t.setEntry cl i Entry.clear)
     | _ => (.aborted, t))
  | .thrown => (.thrown, t)
  | .aborted => (.aborted, t)
  | .undefined => (.undefined, t)
  | .diverges => (.diverges, t)

/-- The `for` loop of `replace` over one cache line, from slot `i` on: the
slot of the first available entry. -/
def firstAvailable (typeBits : Nat) : CacheLine → Nat → Option Nat
  | [], _ => none
  | e :: es, i =>
    if Entry.isAvailable typeBits e = true then some i else firstAvailable typeBits es (i + 1)

/-- The `while (1)` loop of `HashTable::replace` that looks for an available
entry, run for at most `fuel` cache lines.  `alloc` is the address that
`xmemalign` returns when the loop has to chain a new cache line. -/
def insertLoop (alloc secondaryHash ptr type : Nat) :
    Nat → Table → LineRef → Outcome Bool × Table
  | 0, t, _ => (.diverges, t)
  | fuel + 1, t, cl =>
    match t.line? cl with
    | none => (.undefined, t)
    | some line =>
      match firstAvailable t.typeBits line 0 with
      | some i =>
        (match Entry.setReferant secondaryHash ptr type t.typeBits with
         | .ok v => (.ok false, t.setEntry cl i v)
         | .thrown => (.thrown, t)
         | .aborted => (.aborted, t)
         | .undefined => (.undefined, t)
         | .diverges => (.diverges, t))
      | none =>
        let last := line.getD (ENTRIES_PER_CACHE_LINE - 1) 0
        let next := Entry.getChainPointer t.typeBits last
        if next = 0 then
          let t1 := { t with heap := (alloc, last ::
            List.replicate (ENTRIES_PER_CACHE_LINE - 1) Entry.clear) :: t.heap }
          (match Entry.setChainPointer alloc with
           | .ok v =>
             insertLoop alloc secondaryHash ptr type fuel
               (t1.setEntry cl (ENTRIES_PER_CACHE_LINE - 1) v) (.chained alloc)
           | .thrown => (.thrown, t1)
           | .aborted => (.aborted, t1)
           | .undefined => (.undefined, t1)
           | .diverges => (.diverges, t1))
        else insertLoop alloc secondaryHash ptr type fuel t (.chained next)

/-- Embeds `HashTable::replace(ptr, type, &retPtr, &retType)`: how the call ends
(the return value with what is stored through `retPtr` and `retType`, which
the code leaves alone when nothing is replaced) and the table afterwards.
`alloc` is the address `xmemalign` returns if the call allocates. -/
def replace (mem : Referants) (t : Table) (alloc ptr type : Nat) :
    Outcome (Bool × Option (Nat × Nat)) × Table :=
  if ptr = 0 then (.undefined, t)
  else
    let key1 := (mem ptr).1
    let key2 := (mem ptr).2
    let (bucket, secondaryHash) := findBucket t key1 key2
    match lookupEntry mem t bucket secondaryHash key1 key2 with
    | .ok (some (cl, i)) =>
      (match Entry.getReferant t.typeBits (t.entry cl i) with
       | .ok r =>
         (match Entry.setReferant secondaryHash ptr type t.typeBits with
          | .ok v => (.ok (true, some r), t.setEntry cl i v)
          | .thrown => (.thrown, t)
          | .aborted => (.aborted, t)
          | .undefined => (.undefined, t)
          | .diverges => (.diverges, t))
       | _ => (.aborted, t))
    | .ok none =>
      (match insertLoop alloc secondaryHash ptr type (t.heap.length + 2) t (.bucket bucket) with
       | (.ok b, t') => (.ok (b, none), t')
       | (.thrown, t') => (.thrown, t')
       | (.aborted, t') => (.aborted, t')
       | (.undefined, t') => (.undefined, t')
       | (.diverges, t') => (.diverges, t'))
    | .thrown => (.thrown, t)
    | .aborted => (.aborted, t)
    | .undefined => (.undefined, t)
    | .diverges => (.diverges, t)

/-- The `for` loop of `forEachInBucket` over one cache line: the arguments
`(ptr, type)` of the callbacks fired, in order.  An entry that is not
available and has no chain pointer passes the assertion of `getReferant`. -/
def forEachInLine (typeBits : Nat) : CacheLine → List (Nat × Nat)
  | [] => []
  | e :: es =>
    if Entry.isAvailable typeBits e = false ∧ Entry.getChainPointer typeBits e = 0 then
      ((Entry.unpack typeBits e).ptr, (Entry.unpack typeBits e).type) ::
        forEachInLine typeBits es
    else forEachInLine typeBits es

/-- The `while (1)` loop of `HashTable::forEachInBucket`, run for at most
`fuel` cache lines: the callbacks fired and `numCalls`. -/
def forEachInBucketLoop (t : Table) :
    Nat → LineRef → List (Nat × Nat) → Nat → Outcome (List (Nat × Nat) × Nat)
  | 0, _, _, _ => .diverges
  | fuel + 1, cl, calls, numCalls =>
    match t.line? cl with
    | none => .undefined
    | some line =>
      let fired := forEachInLine t.typeBits line
      let next := Entry.getChainPointer t.typeBits
        (line.getD (ENTRIES_PER_CACHE_LINE - 1) 0)
      if next = 0 then .ok (calls ++ fired, numCalls + fired.length)
      else forEachInBucketLoop t fuel (.chained next) (calls ++ fired)
        (numCalls + fired.length)

/-- Embeds `HashTable::forEachInBucket(callback, cookie, bucket)`: the arguments of
the callbacks fired, in order, and the value returned. -/
def forEachInBucket (t : Table) (bucket : Nat) : Outcome (List (Nat × Nat) × Nat) :=
  forEachInBucketLoop t (t.heap.length + 1) (.bucket bucket) [] 0

/-- The `for` loop of `HashTable::forEach` over the buckets from `i` on,
`n` of them. -/
def forEachLoop (t : Table) : Nat → Nat → List (Nat × Nat) → Nat →
    Outcome (List (Nat × Nat) × Nat)
  | 0, _, calls, numCalls => .ok (calls, numCalls)
  | n + 1, i, calls, numCalls =>
    match forEachInBucket t i with
    | .ok (fired, k) => forEachLoop t n (i + 1) (calls ++ fired) (numCalls + k)
    | .thrown => .thrown
    | .aborted => .aborted
    | .undefined => .undefined
    | .diverges => .diverges

/-- Embeds `HashTable::forEach(callback, cookie)`: the arguments of the callbacks
fired, in order, and the value returned. -/
def forEach (t : Table) : Outcome (List (Nat × Nat) × Nat) :=
  forEachLoop t t.numBuckets 0 [] 0

/-- A call made on a table: `replace(ptr, type)`, during which `xmemalign`
returns `alloc` if it is called, or `remove(key1, key2)`. -/
inductive Call where
  | replace (alloc ptr type : Nat)
  | remove (key1 key2 : Nat)
  deriving DecidableEq

/-- The table after one call (whatever the call returned). -/
def step (mem : Referants) (t : Table) : Call → Table
  | .replace alloc ptr type => (replace mem t alloc ptr type).2
  | .remove key1 key2 => (remove mem t key1 key2).2

/-- The table after a sequence of calls. -/
def run (mem : Referants) (t : Table) (calls : List Call) : Table :=
  calls.foldl (step mem) t

/-- How the calls of a sequence end, one after the other. -/
def outcomes (mem : Referants) : Table → List Call → List (Outcome (Bool × Option (Nat × Nat)))
  | _, [] => []
  | t, .replace alloc ptr type :: rest =>
    (replace mem t alloc ptr type).1 :: outcomes mem (replace mem t alloc ptr type).2 rest
  | t, .remove key1 key2 :: rest =>
    (remove mem t key1 key2).1 :: outcomes mem (remove mem t key1 key2).2 rest

end HashTable

namespace FastTransport

/-- The constants that `FastTransport.cc` takes from `FastTransport.h`, which
is not among the sources: they are parameters of the model.  `ACKED` is the
special `sentTimes` value of an acknowledged fragment, `timeoutCycles` the
value of `timeoutCycles()`, `dataPerFragment` that of `dataPerFragment()`. -/
structure Constants where
  WINDOW_SIZE : Nat
  MAX_STAGING_FRAGMENTS : Nat
  REQ_ACK_AFTER : Nat
  ACKED : Nat
  timeoutCycles : Nat
  dataPerFragment : Nat
  deriving DecidableEq

/-- Modelled from the spec: the `Window<T, length>` template of
`FastTransport.h`, which is not among the sources.  The spec describes it as
"a fixed-size sliding array of slots indexed by absolute fragment number":
`slots` are the `length` elements with the indices `offset`,
`offset + 1`, ... in this order. -/
structure Window (α : Type) where
  offset : Nat
  slots : List α
  deriving DecidableEq

namespace Window

variable {α : Type} [Inhabited α]

/-- Modelled from the spec: `Window::reset()` on a window of `length`
slots: every slot is zeroed and the window starts at index 0. -/
def reset (length : Nat) : Window α := ⟨0, List.replicate length default⟩

/-- Modelled from the spec: `Window::getLength()`. -/
def getLength (w : Window α) : Nat := w.slots.length

/-- Modelled from the spec: reading `window[index]`. -/
def get (w : Window α) (index : Nat) : α :=
  if index < w.offset then default else w.slots.getD (index - w.offset) default

/-- Modelled from the spec: the assignment `window[index] = v`. -/
def set (w : Window α) (index : Nat) (v : α) : Window α :=
  if index < w.offset then w else { w with slots := w.slots.set (index - w.offset) v }

/-- Modelled from the spec: `Window::advance(distance)`: the window slides up
by `distance` indices, the slots that come in are zeroed. -/
def advance (w : Window α) (distance : Nat) : Window α :=
  ⟨w.offset + distance,
   w.slots.drop distance ++ List.replicate (min distance w.slots.length) default⟩

end Window

/-- The fields of `Header` that the message code reads or writes. -/
structure Header where
  fragNumber : Nat
  totalFrags : Nat
  requestAck : Bool
  deriving DecidableEq

/-- A `Driver::Received` holding a DATA packet: `payload` starts with the
`Header`, `body` are the `len - sizeof(Header)` bytes behind it. -/
structure Received where
  header : Header
  body : List Nat
  deriving DecidableEq

/-- A `PayloadChunk` appended to a `Buffer`: `data` are the bytes of the
chunk, `payload` is the packet memory that is released with the chunk. -/
structure PayloadChunk where
  data : List Nat
  payload : Received
  deriving DecidableEq

/-- Embeds `PayloadChunk::appendToBuffer(buffer, payload + sizeof(Header),
length - sizeof(Header), driver, payload)` for a stolen packet. -/
def appendToBuffer (buffer : List PayloadChunk) (r : Received) : List PayloadChunk :=
  buffer ++ [⟨r.body, r⟩]

/-- Embeds `AckResponse`, the body of an ACK packet. -/
structure AckResponse where
  firstMissingFrag : Nat
  stagingVector : Nat
  deriving DecidableEq

/-- The state of an `InboundMessage`.  A slot of `dataStagingWindow` is the
pair `(payload, length)` of a stolen packet, `none` when the pointer is
`NULL`; `dataBuffer` are the chunks of the destination `Buffer` (`none` for
`NULL`); `timer` is the time at which the timer fires, if it is running;
`acks` are the ACK packets sent so far. -/
structure InboundMessage where
  totalFrags : Nat
  firstMissingFrag : Nat
  dataStagingWindow : Window (Option Received)
  dataBuffer : Option (List PayloadChunk)
  timer : Option Nat
  useTimer : Bool
  acks : List AckResponse
  deriving DecidableEq

namespace InboundMessage

/-- The loop of `sendAck` that builds `stagingVector`, for the slots from
`i` on, `n` of them.  `stagingVector |= (1 << i)` shifts the `int` constant 1
and converts the result to the unsigned type of `stagingVector`: that is
bit `i` for the `i < 32` of a window that a 32-bit vector describes. -/
def stagingVector (m : InboundMessage) : Nat → Nat → Nat → Nat
  | 0, _, v => v
  | n + 1, i, v =>
    if (m.dataStagingWindow.get (m.firstMissingFrag + 1 + i)).isSome then
      stagingVector m n (i + 1) (v ||| (1 <<< i))
    else stagingVector m n (i + 1) v

/-- Embeds `InboundMessage::sendAck()`: one ACK packet is handed to the transport. -/
def sendAck (m : InboundMessage) : InboundMessage :=
  { m with acks := m.acks ++
      [⟨m.firstMissingFrag, stagingVector m m.dataStagingWindow.getLength 0 0⟩] }

/-- Embeds `InboundMessage::reset()`.  The staging window has
`MAX_STAGING_FRAGMENTS` slots (its length is declared in `FastTransport.h`;
the spec has it buffer the fragments from `firstMissingFrag + 1` to
`firstMissingFrag + MAX_STAGING_FRAGMENTS`). -/
def reset (c : Constants) (m : InboundMessage) : InboundMessage :=
  { m with totalFrags := 0
           dataStagingWindow := (Window.reset c.MAX_STAGING_FRAGMENTS).advance 1
           firstMissingFrag := 0
           dataBuffer := none
           timer := none }

/-- Embeds `InboundMessage::InboundMessage()` followed by `setup(.., useTimer)`. -/
def create (c : Constants) (useTimer : Bool) : InboundMessage :=
  { totalFrags := 0, firstMissingFrag := 0
    dataStagingWindow := (Window.reset c.MAX_STAGING_FRAGMENTS).advance 1
    dataBuffer := none, timer := none, useTimer := useTimer, acks := [] }

/-- Embeds `InboundMessage::init(totalFrags, dataBuffer)` at time `now`. -/
def init (c : Constants) (m : InboundMessage) (totalFrags : Nat)
    (dataBuffer : List PayloadChunk) (now : Nat) : InboundMessage :=
  let m1 := reset c m
  let m2 := { m1 with totalFrags := totalFrags, dataBuffer := some dataBuffer }
  if m2.useTimer then { m2 with timer := some (now + c.timeoutCycles) } else m2

/-- The `while (true)` loop of `processReceivedData` that advances the
staging window, run for at most `fuel` rounds. -/
def slide : Nat → InboundMessage → Outcome InboundMessage
  | 0, _ => .diverges
  | fuel + 1, m =>
    let pair := m.dataStagingWindow.get (m.firstMissingFrag + 1)
    let m1 := { m with dataStagingWindow := m.dataStagingWindow.advance 1
                       firstMissingFrag := m.firstMissingFrag + 1 }
    match pair with
    | none => .ok m1
    | some payload =>
      match m1.dataBuffer with
      | none => .undefined
      | some buffer => slide fuel { m1 with dataBuffer := some (appendToBuffer buffer payload) }

/-- The part of `processReceivedData` that depends on `fragNumber`. -/
def accept (c : Constants) (m : InboundMessage) (received : Received) :
    Outcome InboundMessage :=
  if received.header.fragNumber = m.firstMissingFrag then
    match m.dataBuffer with
    | none => .undefined
    | some buffer =>
      slide (m.dataStagingWindow.getLength + 1)
        { m with dataBuffer := some (appendToBuffer buffer received) }
  else if received.header.fragNumber > m.firstMissingFrag then
    if received.header.fragNumber - m.firstMissingFrag > c.MAX_STAGING_FRAGMENTS then .ok m
    else if (m.dataStagingWindow.get received.header.fragNumber).isNone then
      .ok { m with dataStagingWindow :=
              m.dataStagingWindow.set received.header.fragNumber (some received) }
    else .ok m
  else .ok m

/-- Embeds `InboundMessage::processReceivedData(received)` at time `now`: the value
returned and the message afterwards.  The window holds at most
`getLength()` staged fragments, so that the loop that advances it ends
within `getLength() + 1` rounds. -/
def processReceivedData (c : Constants) (m : InboundMessage) (received : Received)
    (now : Nat) : Outcome (Bool × InboundMessage) :=
  if received.header.totalFrags ≠ m.totalFrags then
    .ok (m.firstMissingFrag == m.totalFrags, m)
  else
    match accept c m received with
    | .ok m1 =>
      let m2 := if received.header.requestAck then sendAck m1 else m1
      let m3 := if m2.useTimer then { m2 with timer := some (now + c.timeoutCycles) } else m2
      .ok (m3.firstMissingFrag == m3.totalFrags, m3)
    | .thrown => .thrown
    | .aborted => .aborted
    | .undefined => .undefined
    | .diverges => .diverges

/-- The message after the packets of a list have been processed one after
the other (each with the time of its arrival), if every call returns. -/
def receiveAll (c : Constants) : InboundMessage → List (Received × Nat) → Outcome InboundMessage
  | m, [] => .ok m
  | m, (received, now) :: rest =>
    match processReceivedData c m received now with
    | .ok (_, m1) => receiveAll c m1 rest
    | .thrown => .thrown
    | .aborted => .aborted
    | .undefined => .undefined
    | .diverges => .diverges

end InboundMessage

/-- A DATA packet handed to the transport by `sendOneData`. -/
structure DataPacket where
  fragNumber : Nat
  totalFrags : Nat
  requestAck : Bool
  payload : List Nat
  deriving DecidableEq

/-- The state of an `OutboundMessage`.  `sendBuffer` are the bytes of the
`Buffer` being sent (`none` for `NULL`); `timer` is the time at which the
timer fires, if it is running; `packets` are the DATA packets sent so far. -/
structure OutboundMessage where
  sendBuffer : Option (List Nat)
  firstMissingFrag : Nat
  totalFrags : Nat
  packetsSinceAckReq : Nat
  sentTimes : Window Nat
  numAcked : Nat
  timer : Option Nat
  useTimer : Bool
  packets : List DataPacket
  deriving DecidableEq

/-- Embeds `FastTransport::numFrags(dataBuffer)` for a buffer of `totalLength`
bytes, in `uint32_t` arithmetic. -/
def numFrags (c : Constants) (totalLength : Nat) : Nat :=
  ((totalLength + c.dataPerFragment - 1) % 2 ^ 32) / c.dataPerFragment

namespace OutboundMessage

/-- Embeds `OutboundMessage::reset()`.  The `sentTimes` window has
`MAX_STAGING_FRAGMENTS + 1` slots (its length is declared in
`FastTransport.h`): one for `firstMissingFrag` and one for each bit of the
staging vector of an ACK. -/
def reset (c : Constants) (m : OutboundMessage) : OutboundMessage :=
  { m with sendBuffer := none, firstMissingFrag := 0, totalFrags := 0
           packetsSinceAckReq := 0
           sentTimes := Window.reset (c.MAX_STAGING_FRAGMENTS + 1)
           numAcked := 0, timer := none }

/-- Embeds `OutboundMessage::OutboundMessage()` followed by `setup(.., useTimer)`. -/
def create (c : Constants) (useTimer : Bool) : OutboundMessage :=
  { sendBuffer := none, firstMissingFrag := 0, totalFrags := 0, packetsSinceAckReq := 0
    sentTimes := Window.reset (c.MAX_STAGING_FRAGMENTS + 1)
    numAcked := 0, timer := none, useTimer := useTimer, packets := [] }

/-- Embeds `OutboundMessage::sendOneData(fragNumber, requestAck)`. -/
def sendOneData (c : Constants) (m : OutboundMessage) (fragNumber : Nat) (requestAck : Bool) :
    OutboundMessage :=
  { m with
    packets := m.packets ++ [⟨fragNumber, m.totalFrags, requestAck,
      (((m.sendBuffer.getD []).drop (fragNumber * c.dataPerFragment)).take c.dataPerFragment)⟩]
    packetsSinceAckReq := if requestAck then 0 else m.packetsSinceAckReq + 1 }

/-- The first `for` loop of `send()`: the fragments from `fragNumber` on, `n`
of them (`n = stop - fragNumber`). -/
def sendLoop (c : Constants) (now : Nat) : Nat → Nat → OutboundMessage → OutboundMessage
  | 0, _, m => m
  | n + 1, fragNumber, m =>
    let sentTime := m.sentTimes.get fragNumber
    if sentTime = c.ACKED ∨ (sentTime ≠ 0 ∧ (sentTime + c.timeoutCycles) % U64 ≥ now) then
      sendLoop c now n (fragNumber + 1) m
    else
      let isRetransmit : Bool := sentTime ≠ 0
      let requestAck : Bool := isRetransmit ||
        (m.packetsSinceAckReq == c.REQ_ACK_AFTER - 1 && fragNumber != m.totalFrags - 1)
      let m1 := sendOneData c m fragNumber requestAck
      let m2 := { m1 with sentTimes := m1.sentTimes.set fragNumber now }
      if isRetransmit then m2 else sendLoop c now n (fragNumber + 1) m2

/-- The second `for` loop of `send()`, which looks for the oldest send time
among the fragments from `fragNumber` on, `n` of them. -/
def oldestLoop (c : Constants) (m : OutboundMessage) : Nat → Nat → Nat → Nat
  | 0, _, oldest => oldest
  | n + 1, fragNumber, oldest =>
    let sentTime := m.sentTimes.get fragNumber
    if sentTime = 0 then oldest
    else if sentTime ≠ c.ACKED ∧ sentTime > 0 ∧ sentTime < oldest then
      oldestLoop c m n (fragNumber + 1) sentTime
    else oldestLoop c m n (fragNumber + 1) oldest

/-- The bound `stop` of the candidate range of `send()`. -/
def stop (c : Constants) (m : OutboundMessage) : Nat :=
  min (min m.totalFrags (m.numAcked + c.WINDOW_SIZE))
    (m.firstMissingFrag + c.MAX_STAGING_FRAGMENTS + 1)

/-- Embeds `OutboundMessage::send()` at time `now` (`Dispatch::currentTime`). -/
def send (c : Constants) (m : OutboundMessage) (now : Nat) : OutboundMessage :=
  let stop := stop c m
  let m1 := sendLoop c now (stop - m.firstMissingFrag) m.firstMissingFrag m
  if m1.useTimer then
    let oldest := oldestLoop c m1 (stop - m1.firstMissingFrag) m1.firstMissingFrag (U64 - 1)
    if oldest ≠ U64 - 1 then { m1 with timer := some (now + c.timeoutCycles) } else m1
  else m1

/-- Embeds `OutboundMessage::beginSending(dataBuffer)` at time `now`. -/
def beginSending (c : Constants) (m : OutboundMessage) (dataBuffer : List Nat) (now : Nat) :
    Outcome OutboundMessage :=
  if m.sendBuffer.isSome then .aborted
  else
    .ok (send c { m with sendBuffer := some dataBuffer
                         totalFrags := numFrags c dataBuffer.length } now)

/-- The loop of `processReceivedAck` over the bits of `stagingVector`, from
bit `i` on, `n` of them. -/
def ackLoop (c : Constants) (stagingVector : Nat) : Nat → Nat → OutboundMessage → OutboundMessage
  | 0, _, m => m
  | n + 1, i, m =>
    if (stagingVector >>> i) &&& 1 ≠ 0 then
      ackLoop c stagingVector n (i + 1)
        { m with sentTimes := m.sentTimes.set (m.firstMissingFrag + i + 1) c.ACKED
                 numAcked := m.numAcked + 1 }
    else ackLoop c stagingVector n (i + 1) m

/-- Embeds `OutboundMessage::processReceivedAck(received)` at time `now`: the value
returned and the message afterwards.  `ack` is the `AckResponse` of the
packet, `none` when the packet is too short to hold one. -/
def processReceivedAck (c : Constants) (m : OutboundMessage) (ack : Option AckResponse)
    (now : Nat) : Bool × OutboundMessage :=
  if m.sendBuffer.isNone then (false, m)
  else
    match ack with
    | none => (false, m)
    | some ack =>
      let m1 :=
        if ack.firstMissingFrag < m.firstMissingFrag then m
        else if ack.firstMissingFrag > m.totalFrags then m
        else if ack.firstMissingFrag > m.firstMissingFrag + m.sentTimes.getLength then m
        else
          ackLoop c ack.stagingVector (m.sentTimes.getLength - 1) 0
            { m with sentTimes := m.sentTimes.advance (ack.firstMissingFrag - m.firstMissingFrag)
                     firstMissingFrag := ack.firstMissingFrag
                     numAcked := ack.firstMissingFrag }
      let m2 := send c m1 now
      (m2.firstMissingFrag == m2.totalFrags, m2)

/-- The number of fragments whose `sentTimes` entry is neither 0 (never
sent) nor `ACKED`. -/
def inFlight (c : Constants) (m : OutboundMessage) : Nat :=
  m.sentTimes.slots.countP (fun t => t ≠ 0 ∧ t ≠ c.ACKED)

end OutboundMessage

end FastTransport

/-- Modelled from the spec: `Buffer` (`Buffer.cc` and `Buffer.h` are not
among the sources, only `BufferTest.cc` is).  The spec describes a Buffer as
"an ordered sequence of Chunks", a Chunk being a data pointer with a length:
`chunks` are the byte regions of the chunks, in buffer order. -/
structure Buffer where
  chunks : List (List Nat)
  deriving DecidableEq

namespace Buffer

/-- Modelled from the spec: a newly constructed `Buffer`, without chunks. -/
def empty : Buffer := ⟨[]⟩

/-- Modelled from the spec: `prepend(ptr, len)`, where `data` are the `len`
bytes at `ptr`: the region becomes the first chunk. -/
def prepend (b : Buffer) (data : List Nat) : Buffer := ⟨data :: b.chunks⟩

/-- Modelled from the spec: `append(ptr, len)`, where `data` are the `len`
bytes at `ptr`: the region becomes the last chunk. -/
def append (b : Buffer) (data : List Nat) : Buffer := ⟨b.chunks ++ [data]⟩

/-- Modelled from the spec: `totalLength()`, "total length = sum of chunk
lengths". -/
def totalLength (b : Buffer) : Nat := (b.chunks.map List.length).sum

/-- Modelled from the spec: the region `peek(offset, &outPtr)` reports, "the
contiguous run beginning at offset within whatever chunk it lands in"; the
empty run stands for length 0 with a null pointer. -/
def peekRun : List (List Nat) → Nat → List Nat
  | [], _ => []
  | chunk :: rest, offset =>
    if offset < chunk.length then chunk.drop offset else peekRun rest (offset - chunk.length)

/-- Modelled from the spec: `peek(offset, &outPtr)`, the length returned. -/
def peek (b : Buffer) (offset : Nat) : Nat := (peekRun b.chunks offset).length

/-- Modelled from the spec: the bytes `copy(offset, length, dest)` writes to
`dest`, chunk after chunk. -/
def copyChunks : List (List Nat) → Nat → Nat → List Nat
  | [], _, _ => []
  | chunk :: rest, offset, length =>
    if offset < chunk.length then
      (chunk.drop offset).take length ++
        copyChunks rest 0 (length - min length (chunk.length - offset))
    else copyChunks rest (offset - chunk.length) length

/-- Modelled from the spec: `getRange(offset, length)`: `none` is the null
pointer ("`getRange` with zero length or past-end returns null"), otherwise
the bytes of the contiguous region returned, which lies inside a chunk when
the range does and is a scratch range filled by copying when "the range
spans chunks". -/
def getRange (b : Buffer) (offset length : Nat) : Option (List Nat) :=
  if length = 0 ∨ offset + length > b.totalLength then none
  else if length ≤ b.peek offset then some ((peekRun b.chunks offset).take length)
  else some (copyChunks b.chunks offset length)

/-- A call that adds a region of bytes to a `Buffer`. -/
inductive Call where
  | prepend (data : List Nat)
  | append (data : List Nat)
  deriving DecidableEq

/-- The bytes of the region a call adds. -/
def Call.data : Call → List Nat
  | .prepend data => data
  | .append data => data

/-- The buffer after one call. -/
def step (b : Buffer) : Call → Buffer
  | .prepend data => b.prepend data
  | .append data => b.append data

/-- The buffer after a sequence of calls on an empty `Buffer`. -/
def run (calls : List Call) : Buffer := calls.foldl step empty

/-- The regions of the prepend calls of a sequence, in call order. -/
def prepended : List Call → List (List Nat)
  | [] => []
  | .prepend data :: rest => data :: prepended rest
  | .append _ :: rest => prepended rest

/-- The regions of the append calls of a sequence, in call order. -/
def appended : List Call → List (List Nat)
  | [] => []
  | .prepend _ :: rest => appended rest
  | .append data :: rest => data :: appended rest

/-- The inputs concatenated in buffer order: the prepended regions in
reverse call order, then the appended regions in call order. -/
def expectedBytes (calls : List Call) : List Nat :=
  ((prepended calls).reverse ++ appended calls).flatten

end Buffer

end RAMCloud

namespace RAMCloud
namespace HashTable

/-- The referant memory of the examples: the object at address `p` has the
key `(p, 0)`. -/
def exampleMem : Referants := fun p => (p, 0)

/-- The calls `replace(ptr, type)` for the addresses `ptrs`, for use where
no call has to chain a cache line (the address given for `xmemalign` is not
looked at). -/
def replaceEach (type : Nat) (ptrs : List Nat) : List Call :=
  ptrs.map (fun ptr => Call.replace 0 ptr type)

/-- The table `HashTable(1, 2)`: one bucket, two referant types, hence one
type bit. -/
def exampleOneBucket : Table :=
  { numBuckets := 1, numTypes := 2, typeBits := 1,
    buckets := [[0, 0, 0, 0, 0, 0, 0, 0]], heap := [] }

/-- Eight `replace` calls that fill the bucket of `exampleOneBucket`. -/
def exampleFillCalls : List Call :=
  replaceEach 1 [0x20000000, 0x20000040, 0x20000080, 0x200000c0, 0x20000100, 0x20000140,
    0x20000180, 0x200001c0]

/-- The table `exampleOneBucket` after eight referants have been stored: its
only bucket is full. -/
def exampleFullBucket : Table := run exampleMem exampleOneBucket exampleFillCalls

/-- The result of `replace(0x20000200, 1)` on `exampleFullBucket`, a call
that has to chain a cache line, when `xmemalign` returns the line at the
address `0x400000000000` (64-byte aligned, in user space, bit 46 set). -/
def exampleNinthReplace : Outcome (Bool × Option (Nat × Nat)) × Table :=
  replace exampleMem exampleFullBucket 0x400000000000 0x20000200 1

/-- The result of the same call `replace(0x20000200, 1)` on
`exampleFullBucket` when `xmemalign` returns the line at `0x7f3a5c000040`,
an address of the kind `mmap` hands out. -/
def exampleNinthReplaceHigh : Outcome (Bool × Option (Nat × Nat)) × Table :=
  replace exampleMem exampleFullBucket 0x7f3a5c000040 0x20000200 1

/-- The table `HashTable(2, 2)`: two buckets, one type bit. -/
def exampleTwoBuckets : Table :=
  { numBuckets := 2, numTypes := 2, typeBits := 1,
    buckets := [[0, 0, 0, 0, 0, 0, 0, 0], [0, 0, 0, 0, 0, 0, 0, 0]], heap := [] }

/-- Nine referants whose keys belong to bucket 0 are stored, the ninth
making `xmemalign` return the line at `0x1c3f040`; then nine referants whose
keys belong to bucket 1, the ninth making `xmemalign` return the line at
`0x400001c3f040`. -/
def exampleTwoChainsCalls : List Call :=
  replaceEach 1 [0x20000000, 0x200000c0, 0x20000180, 0x20000240, 0x20000280, 0x200002c0,
    0x20000340, 0x20000380] ++
  [Call.replace 0x1c3f040 0x20000480 1] ++
  replaceEach 0 [0x20000040, 0x20000080, 0x20000100, 0x20000140, 0x200001c0, 0x20000200,
    0x20000300, 0x200003c0] ++
  [Call.replace 0x400001c3f040 0x20000400 0]

/-- The table `exampleTwoBuckets` after `exampleTwoChainsCalls`. -/
def exampleTwoChains : Table := run exampleMem exampleTwoBuckets exampleTwoChainsCalls

end HashTable
end RAMCloud

namespace RAMCloud
namespace FastTransport
namespace InboundMessage

/-- The staging window of `m` is in step with `firstMissingFrag`: it starts
at `firstMissingFrag + 1`, has `MAX_STAGING_FRAGMENTS` slots, and slot `j`
is empty or holds a packet with the fragment number `firstMissingFrag + 1 + j`
that has the property `P`. -/
def Staged (c : Constants) (P : Received → Prop) (m : InboundMessage) : Prop :=
  m.dataStagingWindow.offset = m.firstMissingFrag + 1 ∧
  m.dataStagingWindow.slots.length = c.MAX_STAGING_FRAGMENTS ∧
  ∀ j r, m.dataStagingWindow.slots[j]? = some (some r) →
    r.header.fragNumber = m.firstMissingFrag + 1 + j ∧ P r

/-- The destination buffer `dataBuffer` consists of the chunks `initial` it
had at `init` followed by appended chunks, which are the bodies of packets
with the fragment numbers `0, 1, ..., n - 1`, in this order, each packet
having the property `P`. -/
def Delivered (P : Received → Prop) (initial : List PayloadChunk)
    (dataBuffer : Option (List PayloadChunk)) (n : Nat) : Prop :=
  ∃ chunks, dataBuffer = some (initial ++ chunks) ∧
    chunks.map (fun chunk => chunk.payload.header.fragNumber) = List.range n ∧
    ∀ chunk ∈ chunks, chunk.data = chunk.payload.body ∧ P chunk.payload

end InboundMessage
end FastTransport
end RAMCloud

namespace RAMCloud
namespace FastTransport
namespace OutboundMessage

/-- The ACK `ack` acknowledges in its staging vector only fragments that
`m` has sent: whenever `processReceivedAck` accepts `ack`, every bit `i` of
the staging vector that it looks at and finds set belongs to a fragment
`ack.firstMissingFrag + i + 1` whose `sentTimes` entry is not 0. -/
def Honest (m : OutboundMessage) (ack : AckResponse) : Prop :=
  m.firstMissingFrag ≤ ack.firstMissingFrag →
  ack.firstMissingFrag ≤ m.totalFrags →
  ack.firstMissingFrag ≤ m.firstMissingFrag + m.sentTimes.getLength →
  ∀ i, i < m.sentTimes.getLength - 1 → (ack.stagingVector >>> i) &&& 1 ≠ 0 →
    m.sentTimes.get (ack.firstMissingFrag + i + 1) ≠ 0

/-- The states of an `OutboundMessage` that calls of `reset`, `beginSending`,
`send` and `processReceivedAck` lead to, at arbitrary times, when every ACK
processed acknowledges only fragments that have been sent. -/
inductive Reachable (c : Constants) : OutboundMessage → Prop where
  | create (useTimer : Bool) : Reachable c (create c useTimer)
  | reset {m : OutboundMessage} : Reachable c m → Reachable c (reset c m)
  | beginSending {m m' : OutboundMessage} (dataBuffer : List Nat) (now : Nat) :
      Reachable c m → beginSending c m dataBuffer now = .ok m' → Reachable c m'
  | send {m : OutboundMessage} (now : Nat) : Reachable c m → Reachable c (send c m now)
  | processReceivedAck {m : OutboundMessage} (ack : Option AckResponse) (now : Nat) :
      Reachable c m → (∀ a, ack = some a → Honest m a) →
      Reachable c (processReceivedAck c m ack now).2

/-- The window invariant behind the bound on the fragments in flight: the
`sentTimes` window starts at `firstMissingFrag` and consists of `sent`, the
non-zero entries of the fragments sent so far, followed by zeros; at least
`numAcked - firstMissingFrag` of the entries are `ACKED`; at most
`WINDOW_SIZE` of them are not. -/
def WindowInv (c : Constants) (m : OutboundMessage) : Prop :=
  ∃ (sent : List Nat) (k : Nat),
    m.sentTimes = ⟨m.firstMissingFrag, sent ++ List.replicate k 0⟩ ∧
    (∀ t ∈ sent, t ≠ 0) ∧
    sent.length + k = c.MAX_STAGING_FRAGMENTS + 1 ∧
    m.firstMissingFrag ≤ m.numAcked ∧
    m.numAcked - m.firstMissingFrag ≤ sent.countP (fun t => t = c.ACKED) ∧
    sent.length - sent.countP (fun t => t = c.ACKED) ≤ c.WINDOW_SIZE

/-- The constants of the examples: the values the spec gives as examples
(`WINDOW_SIZE` 10, `MAX_STAGING_FRAGMENTS` 32, `REQ_ACK_AFTER` 5), with
`ACKED` the largest 64-bit value, a timeout of 1000 cycles and 4 bytes of
data per fragment. -/
def exampleConstants : Constants :=
  { WINDOW_SIZE := 10, MAX_STAGING_FRAGMENTS := 32, REQ_ACK_AFTER := 5,
    ACKED := 2 ^ 64 - 1, timeoutCycles := 1000, dataPerFragment := 4 }

/-- A message of 160 bytes (40 fragments) after `beginSending` at time 50:
the fragments 0 to 9 have been sent. -/
def exampleSending : OutboundMessage :=
  send exampleConstants
    { create exampleConstants true with
      sendBuffer := some (List.replicate 160 0)
      totalFrags := numFrags exampleConstants (List.replicate 160 0).length } 50

/-- An ACK whose staging vector has the bits 20 to 29 set: it acknowledges
the fragments 21 to 30, none of which has been sent. -/
def exampleForgedAck : AckResponse := ⟨0, 0x3ff00000⟩

end OutboundMessage
end FastTransport
end RAMCloud

namespace RAMCloud
namespace HashTable

/-- The table `HashTable(1024, 1)` builds. -/
def exampleKiloTable : Table :=
  { numBuckets := 1024, numTypes := 1, typeBits := 0,
    buckets := List.replicate 1024 (List.replicate ENTRIES_PER_CACHE_LINE Entry.clear),
    heap := [] }

end HashTable
end RAMCloud

namespace RAMCloud
namespace FastTransport
namespace OutboundMessage

/-- The ACK packets that `processReceivedAck` logs and ignores on the message
`m`: a packet too short to hold an `AckResponse` (`none`), a stale ACK, an
ACK beyond `totalFrags` and an ACK beyond the end of the `sentTimes` window. -/
def Ignored (m : OutboundMessage) (ack : Option AckResponse) : Prop :=
  ack = none ∨ ∃ a, ack = some a ∧
    (a.firstMissingFrag < m.firstMissingFrag ∨ m.totalFrags < a.firstMissingFrag ∨
      m.firstMissingFrag + m.sentTimes.getLength < a.firstMissingFrag)

/-- The message after `processReceivedAck` has been called for each ACK packet
of a list, each with the time of its arrival. -/
def processAcks (c : Constants) : OutboundMessage → List (Option AckResponse × Nat) →
    OutboundMessage
  | m, [] => m
  | m, (ack, now) :: rest => processAcks c (processReceivedAck c m ack now).2 rest

end OutboundMessage
end FastTransport
end RAMCloud

namespace RAMCloud
namespace FastTransport
namespace OutboundMessage

/-- The number of DATA packets at the end of a list of packets emitted that
neither carry `requestAck` nor are the last fragment of their message. -/
def sinceAckOrLast (packets : List DataPacket) : Nat :=
  packets.foldl
    (fun n p => if p.requestAck = true ∨ p.fragNumber + 1 = p.totalFrags then 0 else n + 1) 0

/-- Among any `REQ_ACK_AFTER` consecutive packets of the list at least one
carries `requestAck` or is the last fragment of its message. -/
def Paced (c : Constants) (packets : List DataPacket) : Prop :=
  ∀ a w b, packets = a ++ w ++ b → w.length = c.REQ_ACK_AFTER →
    ∃ p ∈ w, p.requestAck = true ∨ p.fragNumber + 1 = p.totalFrags

/-- The states of an `OutboundMessage` during the transmission of one message:
`beginSending` on a new message, then calls of `send` and of
`processReceivedAck` (with arbitrary ACK packets), all of them at times
that are not 0, the `sentTimes` value of a fragment never sent. -/
inductive Transmitting (c : Constants) : OutboundMessage → Prop where
  | beginSending {m : OutboundMessage} (useTimer : Bool) (dataBuffer : List Nat) (now : Nat) :
      now ≠ 0 → beginSending c (create c useTimer) dataBuffer now = .ok m → Transmitting c m
  | send {m : OutboundMessage} (now : Nat) :
      now ≠ 0 → Transmitting c m → Transmitting c (send c m now)
  | processReceivedAck {m : OutboundMessage} (ack : Option AckResponse) (now : Nat) :
      now ≠ 0 → Transmitting c m → Transmitting c (processReceivedAck c m ack now).2

/-- The invariant behind the pacing of ACK requests: the `sentTimes` window
is in step with `firstMissingFrag`; `packetsSinceAckReq` is at least the
number of packets emitted since the last one that requested an ACK or was a
last fragment; it is below `REQ_ACK_AFTER` unless every fragment from
`firstMissingFrag` on has been sent; and the packets emitted are paced. -/
def PacingInv (c : Constants) (m : OutboundMessage) : Prop :=
  m.sentTimes.offset = m.firstMissingFrag ∧
  m.sentTimes.slots.length = c.MAX_STAGING_FRAGMENTS + 1 ∧
  sinceAckOrLast m.packets ≤ m.packetsSinceAckReq ∧
  (m.packetsSinceAckReq + 1 ≤ c.REQ_ACK_AFTER ∨
    ∀ f, m.firstMissingFrag ≤ f → f < m.totalFrags → m.sentTimes.get f ≠ 0) ∧
  Paced c m.packets

/-- A message of 20 bytes (5 fragments) after `beginSending` at time 50. -/
def exampleFiveFragments : OutboundMessage :=
  send exampleConstants
    { create exampleConstants true with
      sendBuffer := some (List.replicate 20 0)
      totalFrags := numFrags exampleConstants (List.replicate 20 0).length } 50

end OutboundMessage
end FastTransport
end RAMCloud

namespace RAMCloud

/-- Sequencing of calls: the second call is made when the first one returns. -/
def Outcome.bind {α β : Type} (x : Outcome α) (f : α → Outcome β) : Outcome β :=
  match x with
  | .ok a => f a
  | .thrown => .thrown
  | .aborted => .aborted
  | .undefined => .undefined
  | .diverges => .diverges

/-- What a call returns, if it returns. -/
def Outcome.toOption {α : Type} : Outcome α → Option α
  | .ok a => some a
  | _ => none

namespace FastTransport

/-- Embeds `Session::INVALID_TOKEN`. -/
def INVALID_TOKEN : Nat := 0xcccccccccccccccc

/-- Embeds `ClientSession::INVALID_HINT`. -/
def INVALID_HINT : Nat := 0xcccccccc

/-- The values of `Header::PayloadType` that the session code tells apart
(the enumeration is declared in `FastTransport.h`); `RESERVED` stands for
every other value. -/
inductive PayloadType where
  | DATA
  | ACK
  | SESSION_OPEN
  | BAD_SESSION
  | RESERVED
  deriving DecidableEq

/-- The states of a `ClientRpc`. -/
inductive RpcState where
  | IN_PROGRESS
  | COMPLETED
  | ABORTED
  deriving DecidableEq

/-- A `ClientRpc` object: `handle` tells the objects apart (its address),
`requestBuffer` are the bytes of the request `Buffer`, `responseBuffer` the
chunks of the response `Buffer`. -/
structure ClientRpc where
  handle : Nat
  requestBuffer : List Nat
  responseBuffer : List PayloadChunk
  state : RpcState
  deriving DecidableEq

/-- The states of a `ClientChannel`. -/
inductive ClientChannelState where
  | IDLE
  | SENDING
  | RECEIVING
  deriving DecidableEq

/-- The state of a `ClientChannel`; `currentRpc` is `none` for the null pointer. -/
structure ClientChannel where
  state : ClientChannelState
  rpcId : Nat
  currentRpc : Option ClientRpc
  outboundMsg : OutboundMessage
  inboundMsg : InboundMessage
  deriving DecidableEq

/-- Modelled from the spec: `ClientChannel::setup` of `FastTransport.h`, which is
not among the sources: the channel is `IDLE` with `rpcId` 0 and no RPC, and
its messages use timers. -/
def ClientChannel.setup (c : Constants) : ClientChannel :=
  { state := .IDLE, rpcId := 0, currentRpc := none
    outboundMsg := OutboundMessage.create c true
    inboundMsg := InboundMessage.create c true }

/-- The header of a packet that a session hands to `transport->sendPacket`
itself (the DATA and ACK packets of its channels are recorded in their
messages). -/
structure SentHeader where
  payloadType : PayloadType
  clientSessionHint : Nat
  serverSessionHint : Nat
  sessionToken : Nat
  rpcId : Nat
  channelId : Nat
  requestAck : Bool
  deriving DecidableEq

/-- A packet as `ClientSession::processInboundPacket` and
`ServerSession::processInboundPacket` read it: the fields of the `Header`, and the
bytes behind the header seen as a DATA fragment (`received`), as an
`AckResponse` (`ack`, `none` when the packet is too short for one) and as a
`SessionOpenResponse` (`numChannels`). -/
structure InboundPacket where
  channelId : Nat
  rpcId : Nat
  payloadType : PayloadType
  serverSessionHint : Nat
  sessionToken : Nat
  received : Received
  ack : Option AckResponse
  numChannels : Nat
  deriving DecidableEq

/-- The state of a `ClientSession`.  `channels` is the array `channels` points
to (empty for the null pointer); `timer` is the time at which the session's
timer fires, if it is running; `sent` are the packets the session has sent
itself; `finished` are the RPCs that have left the session, completed or
aborted; `refCount` is the reference count of the base class `Session`. -/
structure ClientSession where
  id : Nat
  token : Nat
  refCount : Nat
  lastActivityTime : Nat
  channels : List ClientChannel
  numChannels : Nat
  channelQueue : List ClientRpc
  serverSessionHint : Nat
  timer : Option Nat
  sessionOpenRequestInFlight : Bool
  sent : List SentHeader
  finished : List ClientRpc
  deriving DecidableEq

namespace ClientSession

/-- Embeds `ClientSession::ClientSession(transport, sessionId)`; the constructor of
the base class `Session` (in `FastTransport.h`) leaves the token invalid and
the session unreferenced. -/
def create (sessionId : Nat) : ClientSession :=
  { id := sessionId, token := INVALID_TOKEN, refCount := 0, lastActivityTime := 0, channels := []
    numChannels := 0, channelQueue := [], serverSessionHint := INVALID_HINT
    timer := none, sessionOpenRequestInFlight := false, sent := [], finished := [] }

/-- Embeds `ClientSession::isConnected()`. -/
def isConnected (s : ClientSession) : Bool := s.numChannels != 0

/-- Embeds `ClientSession::sendSessionOpenRequest()` at time `now`. -/
def sendSessionOpenRequest (c : Constants) (s : ClientSession) (now : Nat) : ClientSession :=
  { s with
    sent := s.sent ++ [{ payloadType := .SESSION_OPEN, clientSessionHint := s.id
                         serverSessionHint := s.serverSessionHint, sessionToken := s.token
                         rpcId := 0, channelId := 0, requestAck := false }]
    lastActivityTime := now
    sessionOpenRequestInFlight := true
    timer := some (now + c.timeoutCycles) }

/-- Embeds `ClientSession::connect()` at time `now`. -/
def connect (c : Constants) (s : ClientSession) (now : Nat) : ClientSession :=
  if !s.sessionOpenRequestInFlight then sendSessionOpenRequest c s now else s

/-- Embeds `ClientSession::allocateChannels()`. -/
def allocateChannels (c : Constants) (s : ClientSession) : ClientSession :=
  { s with channels := List.replicate s.numChannels (ClientChannel.setup c) }

/-- Embeds `ClientSession::resetChannels()`. -/
def resetChannels (s : ClientSession) : ClientSession :=
  { s with numChannels := 0, channels := [] }

/-- The loop of `getAvailableChannel` over the channels from index `i` on. -/
def firstIdle : List ClientChannel → Nat → Option Nat
  | [], _ => none
  | ch :: chs, i => if ch.state = .IDLE then some i else firstIdle chs (i + 1)

/-- Embeds `ClientSession::getAvailableChannel()`: the index of the channel returned,
`none` for 0. -/
def getAvailableChannel (s : ClientSession) : Option Nat :=
  firstIdle (s.channels.take s.numChannels) 0

/-- Embeds `ClientSession::clientSend(request, response)` at time `now`; `handle`
tells the new `ClientRpc` from the others. -/
def clientSend (c : Constants) (s : ClientSession) (handle : Nat) (request : List Nat)
    (now : Nat) : Outcome ClientSession :=
  let rpc : ClientRpc :=
    { handle := handle, requestBuffer := request, responseBuffer := [], state := .IN_PROGRESS }
  let s := { s with lastActivityTime := now }
  if !isConnected s then
    let s1 := connect c s now
    .ok { s1 with channelQueue := s1.channelQueue ++ [rpc] }
  else
    match getAvailableChannel s with
    | none => .ok { s with channelQueue := s.channelQueue ++ [rpc] }
    | some i =>
      match s.channels[i]? with
      | none => .undefined
      | some channel =>
        if channel.state ≠ .IDLE then .aborted
        else
          (OutboundMessage.beginSending c channel.outboundMsg rpc.requestBuffer now).bind
            fun out =>
              let sending : ClientChannel :=
                { channel with state := .SENDING, currentRpc := some rpc, outboundMsg := out }
              .ok { s with channels := s.channels.set i sending }

/-- Embeds `ClientSession::processReceivedAck(channel, received)` at time `now`, for the
channel with index `i`. -/
def processReceivedAck (c : Constants) (s : ClientSession) (i : Nat)
    (ack : Option AckResponse) (now : Nat) : Outcome ClientSession :=
  match s.channels[i]? with
  | none => .undefined
  | some channel =>
    if channel.state = .SENDING then
      let acked : ClientChannel :=
        { channel with
          outboundMsg := (OutboundMessage.processReceivedAck c channel.outboundMsg ack now).2 }
      .ok { s with channels := s.channels.set i acked }
    else .ok s

/-- Embeds `ClientSession::processReceivedData(channel, received)` at time `now`, for the
channel with index `i`. -/
def processReceivedData (c : Constants) (s : ClientSession) (i : Nat) (received : Received)
    (now : Nat) : Outcome ClientSession :=
  match s.channels[i]? with
  | none => .undefined
  | some channel =>
    if channel.state = .IDLE then .ok s
    else
      let started : Outcome ClientChannel :=
        if channel.state = .SENDING then
          match channel.currentRpc with
          | none => .undefined
          | some rpc =>
            .ok { channel with
                  outboundMsg := OutboundMessage.reset c channel.outboundMsg
                  inboundMsg := InboundMessage.init c channel.inboundMsg
                    received.header.totalFrags rpc.responseBuffer now
                  state := .RECEIVING }
        else .ok channel
      started.bind fun ch1 =>
      (InboundMessage.processReceivedData c ch1.inboundMsg received now).bind fun r =>
        if r.1 = true then
          match ch1.currentRpc with
          | none => .undefined
          | some rpc =>
            let completed : ClientRpc :=
              { rpc with state := .COMPLETED
                         responseBuffer := r.2.dataBuffer.getD rpc.responseBuffer }
            let ch2 : ClientChannel :=
              { ch1 with rpcId := (ch1.rpcId + 1) % 2 ^ 32
                         outboundMsg := OutboundMessage.reset c ch1.outboundMsg
                         inboundMsg := InboundMessage.reset c r.2 }
            match s.channelQueue with
            | [] =>
              let idle : ClientChannel := { ch2 with state := .IDLE, currentRpc := none }
              .ok { s with channels := s.channels.set i idle
                           finished := s.finished ++ [completed] }
            | next :: rest =>
              (OutboundMessage.beginSending c ch2.outboundMsg next.requestBuffer now).bind
                fun out =>
                  let sending : ClientChannel :=
                    { ch2 with state := .SENDING, currentRpc := some next, outboundMsg := out }
                  .ok { s with channelQueue := rest
                               channels := s.channels.set i sending
                               finished := s.finished ++ [completed] }
        else
          let receiving : ClientChannel := { ch1 with inboundMsg := r.2 }
          .ok { s with channels := s.channels.set i receiving }

/-- The loop of `processSessionOpenResponse` that hands queued RPCs to the new
channels, one per channel, until the queue is empty. -/
def assignQueued (c : Constants) (now : Nat) :
    List ClientChannel → List ClientRpc → Outcome (List ClientChannel × List ClientRpc)
  | [], queue => .ok ([], queue)
  | ch :: chs, [] => .ok (ch :: chs, [])
  | ch :: chs, rpc :: queue =>
    (OutboundMessage.beginSending c ch.outboundMsg rpc.requestBuffer now).bind fun out =>
    (assignQueued c now chs queue).bind fun r =>
      .ok ({ ch with state := .SENDING, currentRpc := some rpc, outboundMsg := out } :: r.1, r.2)

/-- Embeds `ClientSession::processSessionOpenResponse(received)` at time `now`;
`MAX_NUM_CHANNELS_PER_SESSION` is a constant of `FastTransport.h`. -/
def processSessionOpenResponse (c : Constants) (MAX_NUM_CHANNELS_PER_SESSION : Nat)
    (s : ClientSession) (packet : InboundPacket) (now : Nat) : Outcome ClientSession :=
  if s.numChannels > 0 then .ok s
  else
    let s1 := allocateChannels c
      { s with timer := none
               serverSessionHint := packet.serverSessionHint
               token := packet.sessionToken
               numChannels := if MAX_NUM_CHANNELS_PER_SESSION < packet.numChannels
                              then MAX_NUM_CHANNELS_PER_SESSION else packet.numChannels }
    (assignQueued c now s1.channels s1.channelQueue).bind fun r =>
      .ok { s1 with channels := r.1, channelQueue := r.2 }

/-- Embeds `ClientSession::processInboundPacket(received)` at time `now`. -/
def processInboundPacket (c : Constants) (MAX_NUM_CHANNELS_PER_SESSION : Nat)
    (s : ClientSession) (packet : InboundPacket) (now : Nat) : Outcome ClientSession :=
  let s := { s with lastActivityTime := now }
  if packet.channelId ≥ s.numChannels then
    if packet.payloadType = .SESSION_OPEN then
      processSessionOpenResponse c MAX_NUM_CHANNELS_PER_SESSION s packet now
    else .ok s
  else
    match s.channels[packet.channelId]? with
    | none => .undefined
    | some channel =>
      if channel.rpcId = packet.rpcId then
        match packet.payloadType with
        | .DATA => processReceivedData c s packet.channelId packet.received now
        | .ACK => processReceivedAck c s packet.channelId packet.ack now
        | .BAD_SESSION =>
          let requeued := (s.channels.take s.numChannels).filterMap (fun ch => ch.currentRpc)
          let s1 := resetChannels { s with channelQueue := s.channelQueue ++ requeued }
          .ok (connect c { s1 with serverSessionHint := INVALID_HINT, token := INVALID_TOKEN } now)
        | _ => .ok s
      else .ok s

/-- A new session on which `clientSend` is called at time 100 with a request of
8 bytes: the session is not connected, sends a SESSION_OPEN request and
queues the RPC. -/
def exampleOpening : Outcome ClientSession :=
  clientSend OutboundMessage.exampleConstants (create 3) 1 (List.replicate 8 0) 100

/-- The SESSION_OPEN response of a server: 8 channels, its hint 5 and a token. -/
def exampleOpenResponse : InboundPacket :=
  { channelId := 0, rpcId := 0, payloadType := .SESSION_OPEN, serverSessionHint := 5
    sessionToken := 0x1122334455667788, received := ⟨⟨0, 0, false⟩, []⟩, ack := none
    numChannels := 8 }

/-- The session of `exampleOpening` after the SESSION_OPEN response has arrived
at time 200: it is connected and channel 0 is sending the RPC. -/
def exampleConnected : Outcome ClientSession :=
  exampleOpening.bind fun s =>
    processInboundPacket OutboundMessage.exampleConstants 8 s exampleOpenResponse 200

/-- A BAD_SESSION packet for channel 0 and its current `rpcId` 0. -/
def exampleBadSession : InboundPacket :=
  { channelId := 0, rpcId := 0, payloadType := .BAD_SESSION, serverSessionHint := 5
    sessionToken := 0x1122334455667788, received := ⟨⟨0, 0, false⟩, []⟩, ack := none
    numChannels := 0 }

/-- The session of `exampleConnected` after the BAD_SESSION packet has arrived
at time 300. -/
def exampleAfterBadSession : Outcome ClientSession :=
  exampleConnected.bind fun s =>
    processInboundPacket OutboundMessage.exampleConstants 8 s exampleBadSession 300

end ClientSession
end FastTransport
end RAMCloud

namespace RAMCloud
namespace HashTable

/-- The table of `exampleNinthReplaceHigh` after the ninth `replace`: the chain
pointer of the bucket, stored for the line at 0x7f3a5c000040, reads as
0x3f3a5c000040. -/
def exampleBrokenChain : Table := exampleNinthReplaceHigh.2

/-- On `exampleBrokenChain`, `replace` of the referant at 0x20000000, which the
table holds with type 1, with type 0. -/
def exampleReplaceStored : Outcome (Bool × Option (Nat × Nat)) × Table :=
  replace exampleMem exampleBrokenChain 0x7f3a5c000080 0x20000000 0

/-- On `exampleBrokenChain`, `remove` of the key of the referant at 0x20000000
followed by the `replace` of `exampleReplaceStored`. -/
def exampleRemoveThenReplace : Outcome (Bool × Option (Nat × Nat)) × Table :=
  replace exampleMem (remove exampleMem exampleBrokenChain 0x20000000 0).2
    0x7f3a5c000080 0x20000000 0

end HashTable
end RAMCloud

namespace RAMCloud
namespace FastTransport

namespace ClientRpc

/-- Embeds `ClientRpc::isReady()`. -/
def isReady (rpc : ClientRpc) : Bool := rpc.state != .IN_PROGRESS

/-- Embeds `ClientRpc::abort()`. -/
def abort (rpc : ClientRpc) : ClientRpc := { rpc with state := .ABORTED }

/-- Embeds `ClientRpc::complete()`. -/
def complete (rpc : ClientRpc) : ClientRpc := { rpc with state := .COMPLETED }

/-- Embeds `ClientRpc::wait()` on an RPC whose state no longer changes: it
returns for a `COMPLETED` RPC, throws `TransportException` for an `ABORTED`
one, and polls without end while the RPC stays `IN_PROGRESS`. -/
def wait (rpc : ClientRpc) : Outcome Unit :=
  match rpc.state with
  | .IN_PROGRESS => .diverges
  | .COMPLETED => .ok ()
  | .ABORTED => .thrown

end ClientRpc

namespace ClientSession

/-- The RPCs that are bound to a channel of the session (`channels[i].currentRpc`
for `i < numChannels`), in channel order. -/
def boundRpcs (s : ClientSession) : List ClientRpc :=
  (s.channels.take s.numChannels).filterMap (fun ch => ch.currentRpc)

/-- Embeds `ClientSession::close()`: the RPCs of the channels and then those of the
queue are aborted (they leave the session, `finished` records them), the
channels are released, hint and token are invalidated and the timer is
stopped. -/
def close (s : ClientSession) : ClientSession :=
  let aborted := (boundRpcs s ++ s.channelQueue).map ClientRpc.abort
  let s1 := resetChannels { s with channelQueue := [], finished := s.finished ++ aborted }
  { s1 with serverSessionHint := INVALID_HINT, token := INVALID_TOKEN, timer := none }

/-- The session `s1` is what closing leaves of the session `s`: no queued RPCs,
no channels, invalid token and hint, and every RPC that was queued in `s` or
bound to one of its channels has left the session in the state `ABORTED`, in
which `isReady()` is true and `wait()` throws. -/
def ClosedWithAborts (s s1 : ClientSession) : Prop :=
  s1.channelQueue = [] ∧ s1.numChannels = 0 ∧ s1.channels = [] ∧
  s1.token = INVALID_TOKEN ∧ s1.serverSessionHint = INVALID_HINT ∧
  ∀ rpc, (rpc ∈ s.channelQueue ∨
      ∃ ch, ch ∈ s.channels.take s.numChannels ∧ ch.currentRpc = some rpc) →
    rpc.abort ∈ s1.finished ∧ rpc.abort.handle = rpc.handle ∧
    rpc.abort.state = .ABORTED ∧ rpc.abort.isReady = true ∧ rpc.abort.wait = .thrown

/-- Embeds `ClientSession::expire()`: the value returned and the session afterwards. -/
def expire (s : ClientSession) : Bool × ClientSession :=
  if s.refCount > 0 then (false, s)
  else if (s.channels.take s.numChannels).any (fun ch => ch.currentRpc.isSome) then (false, s)
  else if !s.channelQueue.isEmpty then (false, s)
  else (true, close s)

/-- The test of the three timers of a client session,
`Dispatch::currentTime - session->lastActivityTime > sessionTimeoutCycles()`, in
`uint64_t` arithmetic; `sessionTimeoutCycles` is the value of
`sessionTimeoutCycles()`, a function of `FastTransport.h`. -/
def timedOut (sessionTimeoutCycles : Nat) (s : ClientSession) (now : Nat) : Bool :=
  decide ((now + U64 - s.lastActivityTime) % U64 > sessionTimeoutCycles)

/-- Embeds `ClientSession::Timer::operator()`, the timer of the open handshake,
firing at time `now`. -/
def timerFired (c : Constants) (sessionTimeoutCycles : Nat) (s : ClientSession) (now : Nat) :
    ClientSession :=
  if timedOut sessionTimeoutCycles s now then
    close { s with sessionOpenRequestInFlight := false }
  else sendSessionOpenRequest c { s with timer := none } now

/-- Embeds `OutboundMessage::Timer::operator()` for the outbound message of the
channel with index `i` of a client session, firing at time `now`. -/
def outboundTimerFired (c : Constants) (sessionTimeoutCycles : Nat) (s : ClientSession)
    (i : Nat) (now : Nat) : Outcome ClientSession :=
  match s.channels[i]? with
  | none => .undefined
  | some channel =>
    if timedOut sessionTimeoutCycles s now then .ok (close s)
    else
      let out := OutboundMessage.send c { channel.outboundMsg with timer := none } now
      .ok { s with channels := s.channels.set i { channel with outboundMsg := out } }

/-- Embeds `InboundMessage::Timer::operator()` for the inbound message of the
channel with index `i` of a client session, firing at time `now`. -/
def inboundTimerFired (c : Constants) (sessionTimeoutCycles : Nat) (s : ClientSession)
    (i : Nat) (now : Nat) : Outcome ClientSession :=
  match s.channels[i]? with
  | none => .undefined
  | some channel =>
    if timedOut sessionTimeoutCycles s now then .ok (close s)
    else
      let inb := InboundMessage.sendAck
        { channel.inboundMsg with timer := some (now + c.timeoutCycles) }
      .ok { s with channels := s.channels.set i { channel with inboundMsg := inb } }

/-- The session of `exampleConnected` (channel 0 sending the RPC with handle 1)
after `clientSend` has been called eight more times at time 250: the RPCs
with the handles 2 to 8 are bound to the channels 1 to 7 and the RPC with
handle 9 waits in the queue. -/
def exampleBusy : Outcome ClientSession :=
  [2, 3, 4, 5, 6, 7, 8, 9].foldl
    (fun r handle => r.bind fun s =>
      clientSend OutboundMessage.exampleConstants s handle (List.replicate 8 0) 250)
    exampleConnected

/-- The session that the call of `exampleOpening` leaves behind: no channels,
the RPC with handle 1 queued. -/
def exampleOpeningSession : ClientSession := exampleOpening.toOption.getD (create 3)

/-- The session that the calls of `exampleConnected` leave behind: 8 channels,
channel 0 sending the RPC with handle 1. -/
def exampleConnectedSession : ClientSession := exampleConnected.toOption.getD (create 3)

/-- The session that the calls of `exampleBusy` leave behind. -/
def exampleBusySession : ClientSession := exampleBusy.toOption.getD (create 3)

/-- The session of `exampleConnected` with the `rpcId` of channel 0 at the
largest 32-bit value, where 4294967295 RPCs have completed on the channel. -/
def exampleLastRpcId : ClientSession :=
  { exampleConnectedSession with
    channels := exampleConnectedSession.channels.modifyHead
      (fun ch => { ch with rpcId := 4294967295 }) }

/-- The only DATA packet of a response of 3 bytes. -/
def exampleResponse : Received := ⟨⟨0, 1, false⟩, [7, 8, 9]⟩

/-- Channel 0 of `exampleConnectedSession`, which is sending the RPC with
handle 1. -/
def exampleSendingChannel : ClientChannel :=
  exampleConnectedSession.channels.headD (ClientChannel.setup OutboundMessage.exampleConstants)

/-- The RPC with handle 1 of `exampleOpening`. -/
def exampleRpc : ClientRpc :=
  { handle := 1, requestBuffer := List.replicate 8 0, responseBuffer := [], state := .IN_PROGRESS }

/-- The inbound message of `exampleSendingChannel` after it has been
initialised for a response of one fragment and has received
`exampleResponse` at time 400. -/
def exampleCompleteInbound : InboundMessage :=
  ((InboundMessage.processReceivedData OutboundMessage.exampleConstants
      (InboundMessage.init OutboundMessage.exampleConstants exampleSendingChannel.inboundMsg 1
        [] 400) exampleResponse 400).toOption.getD
    (false, InboundMessage.create OutboundMessage.exampleConstants true)).2

end ClientSession
end FastTransport
end RAMCloud
namespace RAMCloud
namespace FastTransport

/-- The values of `Header::Direction`. -/
inductive Direction where
  | CLIENT_TO_SERVER
  | SERVER_TO_CLIENT
  deriving DecidableEq

/-- The states of a `ServerChannel`. -/
inductive ServerChannelState where
  | IDLE
  | RECEIVING
  | PROCESSING
  | SENDING_WAITING
  deriving DecidableEq

/-- A `ServerRpc` object: `session` is the id of the session it points to
(`none` for `NULL`), `recvPayload` are the chunks of the request `Buffer`,
`replyPayload` the bytes of the reply `Buffer`. -/
structure ServerRpc where
  session : Option Nat
  channelId : Nat
  recvPayload : List PayloadChunk
  replyPayload : List Nat
  deriving DecidableEq

/-- Embeds `ServerRpc::ServerRpc()`, with empty buffers; `ServerRpc::reset()` leaves
the same state behind. -/
def ServerRpc.create : ServerRpc :=
  { session := none, channelId := 0, recvPayload := [], replyPayload := [] }

/-- Modelled from the spec: `ServerRpc::setup(session, channelId)` of
`FastTransport.h`, which is not among the sources: the RPC is reset and bound
to the session and the channel. -/
def ServerRpc.setup (session channelId : Nat) : ServerRpc :=
  { session := some session, channelId := channelId, recvPayload := [], replyPayload := [] }

/-- The state of a `ServerChannel`. -/
structure ServerChannel where
  state : ServerChannelState
  rpcId : Nat
  currentRpc : ServerRpc
  inboundMsg : InboundMessage
  outboundMsg : OutboundMessage
  deriving DecidableEq

/-- Modelled from the spec: `ServerChannel::setup` of `FastTransport.h`, which is
not among the sources: the channel is `IDLE`, its `rpcId` is `~0U` (the value
`ServerSession::expire()` gives to a channel it resets, so that the first RPC has
`rpcId` 0), and its messages use no timers. -/
def ServerChannel.setup (c : Constants) : ServerChannel :=
  { state := .IDLE, rpcId := 2 ^ 32 - 1, currentRpc := ServerRpc.create
    inboundMsg := InboundMessage.create c false
    outboundMsg := OutboundMessage.create c false }

/-- A packet that the transport or a server session hands to
`FastTransport::sendPacket` itself: the destination, the fields of the header
that the code sets (the constructor of `Header` leaves the others zero) and,
for a SESSION_OPEN response, `numChannels` of the `SessionOpenResponse`. -/
structure SentPacket where
  address : Nat
  direction : Direction
  payloadType : PayloadType
  sessionToken : Nat
  rpcId : Nat
  clientSessionHint : Nat
  serverSessionHint : Nat
  channelId : Nat
  numChannels : Option Nat
  deriving DecidableEq

/-- The state of a `ServerSession`.  `channels` are the `NUM_CHANNELS_PER_SESSION`
channels; `clientAddress` is `none` when the pointer is reset; `readyQueue`
are the ids of the channels whose RPC is linked into
`transport->serverReadyQueue`, in queue order. -/
structure ServerSession where
  id : Nat
  token : Nat
  lastActivityTime : Nat
  clientAddress : Option Nat
  clientSessionHint : Nat
  channels : List ServerChannel
  readyQueue : List Nat
  deriving DecidableEq

namespace ServerSession

/-- Embeds `ServerSession::ServerSession(transport, sessionId)`;
`NUM_CHANNELS_PER_SESSION` is a constant of `FastTransport.h`, and the constructor
of the base class `Session` leaves the token invalid. -/
def create (c : Constants) (NUM_CHANNELS_PER_SESSION : Nat) (sessionId : Nat) : ServerSession :=
  { id := sessionId, token := INVALID_TOKEN, lastActivityTime := 0, clientAddress := none
    clientSessionHint := INVALID_HINT
    channels := List.replicate NUM_CHANNELS_PER_SESSION (ServerChannel.setup c)
    readyQueue := [] }

/-- Embeds `ServerSession::beginSending(channelId)` at time `now`. -/
def beginSending (c : Constants) (s : ServerSession) (channelId : Nat) (now : Nat) :
    Outcome ServerSession :=
  match s.channels[channelId]? with
  | none => .undefined
  | some channel =>
    if channel.state ≠ .PROCESSING then .aborted
    else
      (OutboundMessage.beginSending c channel.outboundMsg channel.currentRpc.replyPayload now).bind
        fun out =>
          let sending : ServerChannel :=
            { channel with state := .SENDING_WAITING, outboundMsg := out }
          .ok { s with channels := s.channels.set channelId sending, lastActivityTime := now }

/-- The body of the second loop of `ServerSession::expire()` for one channel. -/
def expireChannel (c : Constants) (channel : ServerChannel) : ServerChannel :=
  if channel.state = .IDLE then channel
  else
    { state := .IDLE, rpcId := 2 ^ 32 - 1, currentRpc := ServerRpc.create
      inboundMsg := InboundMessage.reset c channel.inboundMsg
      outboundMsg := OutboundMessage.reset c channel.outboundMsg }

/-- The indices, counted from `i`, of the channels of a list that are not `IDLE`:
the channels whose RPC `ServerSession::expire()` resets, which takes the RPC off
the ready queue (`maybeDequeue()`). -/
def busyChannels : List ServerChannel → Nat → List Nat
  | [], _ => []
  | channel :: rest, i =>
    if channel.state = .IDLE then busyChannels rest (i + 1) else i :: busyChannels rest (i + 1)

/-- Embeds `ServerSession::expire()`: the value returned and the session afterwards. -/
def expire (c : Constants) (s : ServerSession) : Bool × ServerSession :=
  if s.channels.any (fun channel => channel.state = .PROCESSING) then (false, s)
  else
    (true,
      { s with channels := s.channels.map (expireChannel c)
               readyQueue := s.readyQueue.filter (fun i => i ∉ busyChannels s.channels 0)
               token := INVALID_TOKEN
               clientSessionHint := INVALID_HINT
               clientAddress := none })

/-- Embeds `ServerSession::processReceivedAck(channel, received)` at time `now`, for the
channel with index `i`. -/
def processReceivedAck (c : Constants) (s : ServerSession) (i : Nat)
    (ack : Option AckResponse) (now : Nat) : Outcome ServerSession :=
  match s.channels[i]? with
  | none => .undefined
  | some channel =>
    if channel.state = .SENDING_WAITING then
      let acked : ServerChannel :=
        { channel with
          outboundMsg := (OutboundMessage.processReceivedAck c channel.outboundMsg ack now).2 }
      .ok { s with channels := s.channels.set i acked }
    else .ok s

/-- Embeds `ServerSession::processReceivedData(channel, received)` at time `now`, for the
channel with index `i`.  The inbound message appends to the `recvPayload` of
the channel's RPC, its `dataBuffer`. -/
def processReceivedData (c : Constants) (s : ServerSession) (i : Nat) (received : Received)
    (now : Nat) : Outcome ServerSession :=
  match s.channels[i]? with
  | none => .undefined
  | some channel =>
    match channel.state with
    | .IDLE => .ok s
    | .RECEIVING =>
      (InboundMessage.processReceivedData c channel.inboundMsg received now).bind fun r =>
        let rpc : ServerRpc :=
          { channel.currentRpc with
            recvPayload := r.2.dataBuffer.getD channel.currentRpc.recvPayload }
        if r.1 = true then
          let processing : ServerChannel :=
            { channel with state := .PROCESSING, currentRpc := rpc, inboundMsg := r.2 }
          .ok { s with channels := s.channels.set i processing
                       readyQueue := s.readyQueue ++ [i] }
        else
          let receiving : ServerChannel :=
            { channel with currentRpc := rpc, inboundMsg := r.2 }
          .ok { s with channels := s.channels.set i receiving }
    | .PROCESSING =>
      if received.header.requestAck then
        let acking : ServerChannel :=
          { channel with inboundMsg := InboundMessage.sendAck channel.inboundMsg }
        .ok { s with channels := s.channels.set i acking }
      else .ok s
    | .SENDING_WAITING =>
      let sending : ServerChannel :=
        { channel with outboundMsg := OutboundMessage.send c channel.outboundMsg now }
      .ok { s with channels := s.channels.set i sending }

/-- Embeds `ServerSession::processInboundPacket(received)` at time `now`; `rpcId` is a
32-bit field, so that `channel->rpcId + 1` wraps around. -/
def processInboundPacket (c : Constants) (NUM_CHANNELS_PER_SESSION : Nat)
    (s : ServerSession) (packet : InboundPacket) (now : Nat) : Outcome ServerSession :=
  let s := { s with lastActivityTime := now }
  if packet.channelId ≥ NUM_CHANNELS_PER_SESSION then .ok s
  else
    match s.channels[packet.channelId]? with
    | none => .undefined
    | some channel =>
      if channel.rpcId = packet.rpcId then
        match packet.payloadType with
        | .DATA => processReceivedData c s packet.channelId packet.received now
        | .ACK => processReceivedAck c s packet.channelId packet.ack now
        | _ => .ok s
      else if (channel.rpcId + 1) % 2 ^ 32 = packet.rpcId then
        match packet.payloadType with
        | .DATA =>
          let rpc := ServerRpc.setup s.id packet.channelId
          let next : ServerChannel :=
            { state := .RECEIVING
              rpcId := packet.rpcId
              currentRpc := rpc
              inboundMsg := InboundMessage.init c (InboundMessage.reset c channel.inboundMsg)
                packet.received.header.totalFrags rpc.recvPayload now
              outboundMsg := OutboundMessage.reset c channel.outboundMsg }
          processReceivedData c
            { s with channels := s.channels.set packet.channelId next
                     readyQueue := s.readyQueue.filter (fun i => i ≠ packet.channelId) }
            packet.channelId packet.received now
        | _ => .ok s
      else .ok s

/-- Embeds `ServerSession::startSession(clientAddress, clientSessionHint)` at time `now`:
the session afterwards and the SESSION_OPEN response it sends; `token` is the
value `generateRandom()` returns. -/
def startSession (NUM_CHANNELS_PER_SESSION : Nat) (s : ServerSession)
    (clientAddress clientSessionHint token now : Nat) : ServerSession × SentPacket :=
  ({ s with clientAddress := some clientAddress, clientSessionHint := clientSessionHint
            token := token, lastActivityTime := now },
   { address := clientAddress, direction := .SERVER_TO_CLIENT, payloadType := .SESSION_OPEN
     sessionToken := token, rpcId := 0, clientSessionHint := clientSessionHint
     serverSessionHint := s.id, channelId := 0
     numChannels := some NUM_CHANNELS_PER_SESSION })

/-- Embeds `FastTransport::serverRecv()` returning the RPC of channel `i`, which is at
the front of the queue, followed by the service writing `reply` into its
`replyPayload` and calling `ServerRpc::sendReply()` at time `now`. -/
def sendReply (c : Constants) (s : ServerSession) (i : Nat) (reply : List Nat) (now : Nat) :
    Outcome ServerSession :=
  match s.channels[i]? with
  | none => .undefined
  | some channel =>
    let replying : ServerChannel :=
      { channel with currentRpc := { channel.currentRpc with replyPayload := reply } }
    beginSending c
      { s with channels := s.channels.set i replying, readyQueue := s.readyQueue.erase i } i now

end ServerSession

/-- A packet as `FastTransport::handleIncomingPacket` reads it: the fields of the
header that the sessions read (`toInboundPacket`) and `clientSessionHint`,
`direction` and `pleaseDrop`, and the address of the sender. -/
structure ReceivedPacket extends InboundPacket where
  clientSessionHint : Nat
  direction : Direction
  pleaseDrop : Bool
  sender : Nat
  deriving DecidableEq

/-- The state of a `FastTransport`: the two session tables and the packets that
`sendBadSessionError` and `startSession` have handed to `sendPacket`. -/
structure Transport where
  serverSessions : List ServerSession
  clientSessions : List ClientSession
  sent : List SentPacket
  deriving DecidableEq

namespace Transport

/-- Embeds `FastTransport::sendBadSessionError(header, address)`; the `pleaseDrop` bit
that `sendPacket` sets at random in a build for testing is left out. -/
def sendBadSessionError (t : Transport) (packet : ReceivedPacket) : Transport :=
  { t with
    sent := t.sent ++
      [{ address := packet.sender, direction := .SERVER_TO_CLIENT, payloadType := .BAD_SESSION
         sessionToken := packet.sessionToken, rpcId := packet.rpcId
         clientSessionHint := packet.clientSessionHint
         serverSessionHint := packet.serverSessionHint, channelId := packet.channelId
         numChannels := none }] }

/-- Embeds `FastTransport::handleIncomingPacket(received)` at time `now`.  `received` is
`none` for a packet that is too short to hold a `Header`.  `SessionTable` is a
template of `FastTransport.h`, which is not among the sources: `sessionTableGet`
gives the server session table after `expire()` and `get()` together with the
index of the session that `get()` returns; `token` is the value
`generateRandom()` returns to `startSession`. -/
def handleIncomingPacket (c : Constants)
    (NUM_CHANNELS_PER_SESSION MAX_NUM_CHANNELS_PER_SESSION : Nat)
    (sessionTableGet : List ServerSession → List ServerSession × Nat) (token : Nat)
    (t : Transport) (received : Option ReceivedPacket) (now : Nat) : Outcome Transport :=
  match received with
  | none => .ok t
  | some packet =>
    if packet.pleaseDrop then .ok t
    else
      match packet.direction with
      | .CLIENT_TO_SERVER =>
        if packet.serverSessionHint ≥ t.serverSessions.length then
          if packet.payloadType = .SESSION_OPEN then
            let table := sessionTableGet t.serverSessions
            match table.1[table.2]? with
            | none => .undefined
            | some session =>
              let started := ServerSession.startSession NUM_CHANNELS_PER_SESSION session
                packet.sender packet.clientSessionHint token now
              .ok { t with serverSessions := table.1.set table.2 started.1
                           sent := t.sent ++ [started.2] }
          else .ok (sendBadSessionError t packet)
        else
          match t.serverSessions[packet.serverSessionHint]? with
          | none => .undefined
          | some session =>
            if session.token = packet.sessionToken then
              (ServerSession.processInboundPacket c NUM_CHANNELS_PER_SESSION session
                packet.toInboundPacket now).bind fun session1 =>
                  .ok { t with
                        serverSessions := t.serverSessions.set packet.serverSessionHint session1 }
            else .ok (sendBadSessionError t packet)
      | .SERVER_TO_CLIENT =>
        if packet.clientSessionHint < t.clientSessions.length then
          match t.clientSessions[packet.clientSessionHint]? with
          | none => .undefined
          | some session =>
            if session.token = packet.sessionToken ∨ packet.payloadType = .SESSION_OPEN then
              (ClientSession.processInboundPacket c MAX_NUM_CHANNELS_PER_SESSION session
                packet.toInboundPacket now).bind fun session1 =>
                  .ok { t with
                        clientSessions := t.clientSessions.set packet.clientSessionHint session1 }
            else .ok t
        else .ok t

end Transport
end FastTransport
end RAMCloud
namespace RAMCloud
namespace FastTransport
namespace ServerSession

/-- A server session with 8 channels and id 0 that `startSession` has opened at
time 100 for the client at address 7 with client hint 3. -/
def exampleStarted : ServerSession :=
  (startSession 8 (create OutboundMessage.exampleConstants 8 0) 7 3 0x1122334455667788 100).1

/-- The only DATA packet of a request of 3 bytes, for channel 0 and `rpcId` 0. -/
def exampleRequest : InboundPacket :=
  { channelId := 0, rpcId := 0, payloadType := .DATA, serverSessionHint := 0
    sessionToken := 0x1122334455667788, received := ⟨⟨0, 1, false⟩, [1, 2, 3]⟩, ack := none
    numChannels := 0 }

/-- The session of `exampleStarted` after the request has arrived at time 200:
channel 0 is PROCESSING the RPC with `rpcId` 0. -/
def exampleProcessing : Outcome ServerSession :=
  processInboundPacket OutboundMessage.exampleConstants 8 exampleStarted exampleRequest 200

/-- The session of `exampleProcessing` after the service has sent a reply of 8
bytes (two fragments of 4 bytes) at time 300: channel 0 is SENDING_WAITING. -/
def exampleReplying : Outcome ServerSession :=
  exampleProcessing.bind fun s =>
    sendReply OutboundMessage.exampleConstants s 0 [10, 11, 12, 13, 14, 15, 16, 17] 300

/-- The ACK packet of a client that has received both fragments of the reply. -/
def exampleFinalAck : InboundPacket :=
  { channelId := 0, rpcId := 0, payloadType := .ACK, serverSessionHint := 0
    sessionToken := 0x1122334455667788, received := ⟨⟨0, 0, false⟩, []⟩, ack := some ⟨2, 0⟩
    numChannels := 0 }

/-- The session of `exampleReplying` after the ACK has arrived at time 400. -/
def exampleReplyAcked : Outcome ServerSession :=
  exampleReplying.bind fun s =>
    processInboundPacket OutboundMessage.exampleConstants 8 s exampleFinalAck 400

/-- The first DATA packet of a request of two fragments with the next `rpcId`,
1, for channel 0. -/
def exampleNextRequest : InboundPacket :=
  { channelId := 0, rpcId := 1, payloadType := .DATA, serverSessionHint := 0
    sessionToken := 0x1122334455667788, received := ⟨⟨0, 2, false⟩, [4, 5, 6, 7]⟩, ack := none
    numChannels := 0 }

/-- The session of `exampleProcessing` after `exampleNextRequest` has arrived at
time 250, while channel 0 is PROCESSING the RPC with `rpcId` 0. -/
def exampleOverrun : Outcome ServerSession :=
  exampleProcessing.bind fun s =>
    processInboundPacket OutboundMessage.exampleConstants 8 s exampleNextRequest 250

/-- A DATA packet for channel 0 that asks for an ACK and carries the `rpcId` 7
of neither the current nor the next RPC. -/
def exampleStrayRequest : InboundPacket :=
  { channelId := 0, rpcId := 7, payloadType := .DATA, serverSessionHint := 0
    sessionToken := 0x1122334455667788, received := ⟨⟨0, 1, true⟩, [1, 2, 3]⟩, ack := none
    numChannels := 0 }

/-- The session of `exampleProcessing` after `exampleStrayRequest` has arrived at
time 250. -/
def exampleStray : Outcome ServerSession :=
  exampleProcessing.bind fun s =>
    processInboundPacket OutboundMessage.exampleConstants 8 s exampleStrayRequest 250

/-- The first DATA packet of a request of two fragments for channel 0 and
`rpcId` 0. -/
def exampleFirstHalf : InboundPacket :=
  { channelId := 0, rpcId := 0, payloadType := .DATA, serverSessionHint := 0
    sessionToken := 0x1122334455667788, received := ⟨⟨0, 2, false⟩, [1, 2, 3, 4]⟩, ack := none
    numChannels := 0 }

/-- The session of `exampleStarted` after `exampleFirstHalf` has arrived at time
200: channel 0 is RECEIVING and has one of the two fragments. -/
def exampleReceiving : Outcome ServerSession :=
  processInboundPacket OutboundMessage.exampleConstants 8 exampleStarted exampleFirstHalf 200

/-- The session that the calls of `exampleProcessing` leave behind. -/
def exampleProcessingSession : ServerSession := exampleProcessing.toOption.getD exampleStarted

/-- Channel 0 of `exampleProcessingSession`, which is PROCESSING. -/
def exampleProcessingChannel : ServerChannel :=
  exampleProcessingSession.channels.headD (ServerChannel.setup OutboundMessage.exampleConstants)

/-- A retransmission of `exampleRequest` that asks for an ACK. -/
def exampleRequestAgain : InboundPacket :=
  { exampleRequest with received := ⟨⟨0, 1, true⟩, [1, 2, 3]⟩ }

/-- The session that the calls of `exampleReplying` leave behind. -/
def exampleReplyingSession : ServerSession := exampleReplying.toOption.getD exampleStarted

/-- Channel 0 of `exampleReplyingSession`, which is SENDING_WAITING. -/
def exampleReplyingChannel : ServerChannel :=
  exampleReplyingSession.channels.headD (ServerChannel.setup OutboundMessage.exampleConstants)

end ServerSession
end FastTransport
end RAMCloud

namespace RAMCloud
namespace FastTransport
namespace Transport

/-- A transport whose only server session is `exampleStarted` (hint 0) and that
has no client sessions. -/
def exampleServer : Transport :=
  { serverSessions := [ServerSession.exampleStarted], clientSessions := [], sent := [] }

/-- A DATA packet from the client at address 9 that names the server session 5,
which the table of `exampleServer` does not have. -/
def exampleUnknownHint : ReceivedPacket :=
  { channelId := 2, rpcId := 6, payloadType := .DATA, serverSessionHint := 5
    sessionToken := 0xabc, received := ⟨⟨0, 1, false⟩, [1, 2, 3]⟩, ack := none
    numChannels := 0, clientSessionHint := 4, direction := .CLIENT_TO_SERVER
    pleaseDrop := false, sender := 9 }

/-- A SESSION_OPEN packet from the client at address 9 that names the server
session 0 of `exampleServer` with a token that is not the session's. -/
def exampleStaleToken : ReceivedPacket :=
  { channelId := 0, rpcId := 0, payloadType := .SESSION_OPEN, serverSessionHint := 0
    sessionToken := 0xabc, received := ⟨⟨0, 0, false⟩, []⟩, ack := none
    numChannels := 0, clientSessionHint := 4, direction := .CLIENT_TO_SERVER
    pleaseDrop := false, sender := 9 }

/-- A session table that grows by one new session with 8 channels, which
`get()` returns: what `expire()` and `get()` leave of a table without a free
session. -/
def exampleTableGet (sessions : List ServerSession) : List ServerSession × Nat :=
  (sessions ++ [ServerSession.create OutboundMessage.exampleConstants 8 sessions.length],
   sessions.length)

end Transport
end FastTransport
end RAMCloud

namespace RAMCloud
namespace Buffer

/-- Modelled from the spec: the pointer that `peek(offset, &outPtr)` stores in
`outPtr`, given as the index of the chunk it points into (the chunks of the
list are counted from `index`) and the offset of the byte within that chunk;
`none` is the null pointer of an out-of-range `peek`. -/
def peekPointer : List (List Nat) → Nat → Nat → Option (Nat × Nat)
  | [], _, _ => none
  | chunk :: rest, offset, index =>
    if offset < chunk.length then some (index, offset)
    else peekPointer rest (offset - chunk.length) (index + 1)

/-- Modelled from the spec: `copy(offset, length, dest)`, the value returned and
the bytes written to `dest`: "`copyOut` past the end clips to available
bytes", and nothing is copied from an offset at or behind the end. -/
def copy (b : Buffer) (offset length : Nat) : Nat × List Nat :=
  if offset ≥ b.totalLength then (0, [])
  else
    let clipped := if offset + length > b.totalLength then b.totalLength - offset else length
    (clipped, copyChunks b.chunks offset clipped)

/-- The buffer of the tests of `BufferTest.cc`: three chunks of 10 bytes,
"ABCDEFGHIJ", "abcdefghij" and "klmnopqrs" with its terminating zero. -/
def exampleTestBuffer : Buffer :=
  ⟨[[65, 66, 67, 68, 69, 70, 71, 72, 73, 74],
    [97, 98, 99, 100, 101, 102, 103, 104, 105, 106],
    [107, 108, 109, 110, 111, 112, 113, 114, 115, 0]]⟩

end Buffer
end RAMCloud
namespace RAMCloud
namespace Segment

/-- The sizes that `Segment.cc` takes from `Segment.h`, which is not among the
sources: `entry` is `sizeof(SegmentEntry)`, `header` is `sizeof(SegmentHeader)`
and `footer` is `sizeof(SegmentFooter)`.  They are parameters of the model. -/
structure Sizes where
  entry : Nat
  header : Nat
  footer : Nat
  deriving DecidableEq

/-- The values of `LogEntryType` that `Segment.cc` names (the enumeration is
declared in `LogTypes.h`); `OTHER` stands for every other value. -/
inductive LogEntryType where
  | SEGHEADER
  | SEGFOOTER
  | INVALID
  | OTHER
  deriving DecidableEq

end Segment

/-- The state of a `Segment` without a backup: `capacity`, `tail`, `bytesFreed`
and `closed` are the members of that name, `entries` are the entries written
to the backing memory, in order, each with its type and the bytes of its
contents.  The checksums are left out. -/
structure Segment where
  capacity : Nat
  tail : Nat
  bytesFreed : Nat
  closed : Bool
  entries : List (Segment.LogEntryType × List Nat)
  deriving DecidableEq

namespace Segment

/-- The value of `capacity - tail`, computed in `uint32_t`. -/
def freeBytes (s : Segment) : Nat := (s.capacity + 2 ^ 32 - s.tail) % 2 ^ 32

/-- Embeds `Segment::appendableBytes()`. -/
def appendableBytes (sz : Sizes) (s : Segment) : Outcome Nat :=
  if s.closed then .ok 0
  else
    let headRoom := sz.entry + sz.footer
    if freeBytes s < headRoom then .aborted
    else if freeBytes s - headRoom < sz.entry then .ok 0
    else .ok (freeBytes s - headRoom - sz.entry)

/-- Embeds `Segment::forceAppendBlob(buffer, length)`, as far as `tail` goes. -/
def forceAppendBlob (s : Segment) (length : Nat) : Outcome Segment :=
  if (s.tail + length) % 2 ^ 32 > s.capacity then .aborted
  else if s.closed then .aborted
  else .ok { s with tail := (s.tail + length) % 2 ^ 32 }

/-- Embeds `Segment::forceAppendWithEntry(type, buffer, length, lengthOfAppend, sync,
updateChecksum, expectedChecksum)` on a segment without a backup: the handle
returned, given as the offset of the entry in the segment (`none` for
`NULL`), and the segment afterwards.  `buffer` are the `length` bytes at
`buffer`; `mismatch` says that an expected checksum is given and differs from
the checksum of the entry. -/
def forceAppendWithEntry (sz : Sizes) (s : Segment) (type : LogEntryType) (buffer : List Nat)
    (mismatch : Bool) : Outcome (Option Nat × Segment) :=
  if s.closed then .aborted
  else if freeBytes s < sz.entry + buffer.length then .ok (none, s)
  else if mismatch then .thrown
  else
    (forceAppendBlob s sz.entry).bind fun s1 =>
    (forceAppendBlob s1 buffer.length).bind fun s2 =>
      .ok (some s.tail, { s2 with entries := s2.entries ++ [(type, buffer)] })

/-- Embeds `Segment::append(type, buffer, length, lengthInSegment, offsetInSegment,
sync, expectedChecksum)`: the handle returned and the segment afterwards. -/
def append (sz : Sizes) (s : Segment) (type : LogEntryType) (buffer : List Nat)
    (mismatch : Bool) : Outcome (Option Nat × Segment) :=
  if s.closed ∨ type = .SEGFOOTER then .ok (none, s)
  else
    (appendableBytes sz s).bind fun appendable =>
      if appendable < buffer.length then .ok (none, s)
      else forceAppendWithEntry sz s type buffer mismatch

/-- Embeds `Segment::close(sync)` on a segment without a backup; the bytes of the
footer, a checksum, are written as zeros. -/
def close (sz : Sizes) (s : Segment) : Outcome Segment :=
  if s.closed then .thrown
  else
    (forceAppendWithEntry sz s .SEGFOOTER (List.replicate sz.footer 0) false).bind fun r =>
      match r.1 with
      | none => .aborted
      | some _ => .ok { r.2 with closed := true }

/-- Embeds the constructors of `Segment` with `commonConstructor(type, buffer,
length)`, without a backup; the constructor that takes no initial entry
passes `LOG_ENTRY_TYPE_INVALID` and the length 0.  The bytes of the segment
header are written as zeros. -/
def create (sz : Sizes) (capacity : Nat) (type : LogEntryType) (buffer : List Nat) :
    Outcome Segment :=
  if capacity < sz.entry + sz.header + sz.entry + sz.footer then .aborted
  else
    let s0 : Segment :=
      { capacity := capacity, tail := 0, bytesFreed := 0, closed := false, entries := [] }
    (forceAppendWithEntry sz s0 .SEGHEADER (List.replicate sz.header 0) false).bind fun r =>
      match r.1 with
      | none => .aborted
      | some _ =>
        if buffer.length ≠ 0 then
          (forceAppendWithEntry sz r.2 type buffer false).bind fun r1 =>
            match r1.1 with
            | none => .aborted
            | some _ => .ok r1.2
        else .ok r.2

/-- The segments that successful `append` calls without an expected checksum
lead to from a segment constructed without an initial entry. -/
inductive Appended (sz : Sizes) : Segment → Prop where
  | create (capacity : Nat) (s : Segment) :
      create sz capacity .INVALID [] = .ok s → Appended sz s
  | append (s : Segment) (type : LogEntryType) (buffer : List Nat) (offset : Nat)
      (s1 : Segment) :
      Appended sz s → append sz s type buffer false = .ok (some offset, s1) → Appended sz s1

/-- Sizes of packed structures: a `SegmentEntry` of 12 bytes (type, length and
checksum of 4 bytes each), a `SegmentHeader` of 20 bytes (two 64-bit ids and
the capacity) and a `SegmentFooter` of 4 bytes (a checksum). -/
def exampleSizes : Sizes := ⟨12, 20, 4⟩

/-- A segment of 64 bytes constructed without an initial entry. -/
def exampleSmall : Outcome Segment := create exampleSizes 64 .INVALID []

/-- The segment of `exampleSmall` after `append` of 4 bytes, its
`appendableBytes()`: room for the footer and its entry is all that is left. -/
def exampleFilled : Outcome (Option Nat × Segment) :=
  exampleSmall.bind fun s => append exampleSizes s .OTHER [1, 2, 3, 4] false

/-- The segment of `exampleFilled` after `append` of a buffer of length 0. -/
def exampleOverfilled : Outcome (Option Nat × Segment) :=
  exampleFilled.bind fun r => append exampleSizes r.2 .OTHER [] false

end Segment
end RAMCloud

namespace RAMCloud
namespace HashTable

/-- The walk that `lookupEntry`, `replace` and `forEachInBucket` make along a chain,
from the line `cl` on and for at most `fuel` cache lines: the lines visited,
each found through `getChainPointer(typeBits)` of the last entry of the line
before it. -/
def chainLoop (t : Table) : Nat → LineRef → Outcome (List LineRef)
  | 0, _ => .diverges
  | fuel + 1, cl =>
    match t.line? cl with
    | none => .undefined
    | some line =>
      let next := Entry.getChainPointer t.typeBits (line.getD (ENTRIES_PER_CACHE_LINE - 1) 0)
      if next = 0 then .ok [cl]
      else (chainLoop t fuel (.chained next)).bind fun rest => .ok (cl :: rest)

/-- The cache lines of the chain of a bucket, as the walks of the table see
it. -/
def chain (t : Table) (bucket : Nat) : Outcome (List LineRef) :=
  chainLoop t (t.heap.length + 1) (.bucket bucket)

/-- The table `HashTable(1, 1)`: one bucket, one referant type, no type bits. -/
def exampleUntyped : Table :=
  { numBuckets := 1, numTypes := 1, typeBits := 0,
    buckets := [[0, 0, 0, 0, 0, 0, 0, 0]], heap := [] }

/-- Seventeen `replace` calls for the referants at `0x20000000 + 64 * i`; the
call with index `i` would get the line at `0x7f3a5c000000 + 64 * i` from
`xmemalign`, addresses of the kind `mmap` hands out. -/
def exampleSeventeenCalls (type : Nat) : List Call :=
  (List.range 17).map (fun i => Call.replace (0x7f3a5c000000 + 64 * i) (0x20000000 + 64 * i) type)

/-- The table `exampleUntyped` after the seventeen calls. -/
def exampleSeventeen : Table := run exampleMem exampleUntyped (exampleSeventeenCalls 0)

/-- The table `exampleOneBucket`, which has one type bit, after the first nine
of the seventeen calls. -/
def exampleNineTyped : Table := run exampleMem exampleOneBucket ((exampleSeventeenCalls 1).take 9)

/-- Sixteen `replace` calls on a table with one bucket: the ninth has to chain
a line, which `xmemalign` puts at `0x1c3f040`, the sixteenth has to chain a
second one, which `xmemalign` puts at `0x400001c3f040`. -/
def exampleCycleCalls : List Call :=
  (List.range 16).map (fun i =>
    Call.replace (if i < 9 then 0x1c3f040 else 0x400001c3f040) (0x20000000 + 64 * i) 1)

/-- The table `exampleOneBucket` after `exampleCycleCalls`. -/
def exampleCycle : Table := run exampleMem exampleOneBucket exampleCycleCalls

/-- The result of `replace(0x20000200, 2)` on `exampleFullBucket`, whose table
has one type bit, so that the type 2 does not fit; `xmemalign` returns the
line at `0x400000000000`. -/
def exampleThrowingReplace : Outcome (Bool × Option (Nat × Nat)) × Table :=
  replace exampleMem exampleFullBucket 0x400000000000 0x20000200 2

/-- The result of the same call on the full bucket of a table without type
bits for a pointer that does not fit in 47 bits. -/
def exampleThrowingUntyped : Outcome (Bool × Option (Nat × Nat)) × Table :=
  replace exampleMem (run exampleMem exampleUntyped ((exampleSeventeenCalls 0).take 8))
    0x7f3a5c000040 0x800000000000 0

end HashTable
end RAMCloud

namespace RAMCloud
namespace HashTable

/-- The members of `HashTable::PerfCounters` that count events (the cycle counters
and the distribution, which depend on the clock, are left out).  The counters
are 64 bits wide and do not wrap around within the life of a table. -/
structure PerfCounters where
  replaceCalls : Nat
  lookupEntryCalls : Nat
  insertChainsFollowed : Nat
  lookupEntryChainsFollowed : Nat
  lookupEntryHashCollisions : Nat
  deriving DecidableEq

/-- The `for` loop of `lookupEntry` over one cache line, from slot `i` on, with
its counter: the slot of the entry found, and the number of times
`++perfCounters.lookupEntryHashCollisions` is executed. -/
def scanLineCounted (mem : Referants) (typeBits secondaryHash key1 key2 : Nat) :
    CacheLine → Nat → Option Nat × Nat
  | [], _ => (none, 0)
  | e :: es, i =>
    if Entry.hashMatches secondaryHash typeBits e = true then
      if mem (Entry.unpack typeBits e).ptr = (key1, key2) then (some i, 0)
      else
        let rest := scanLineCounted mem typeBits secondaryHash key1 key2 es (i + 1)
        (rest.1, rest.2 + 1)
    else scanLineCounted mem typeBits secondaryHash key1 key2 es (i + 1)

/-- The `while (1)` loop of `HashTable::lookupEntry` with its counters, run for at
most `fuel` cache lines: how the loop ends and the counters then. -/
def lookupEntryCountedLoop (mem : Referants) (t : Table) (secondaryHash key1 key2 : Nat) :
    Nat → LineRef → PerfCounters → Outcome (Option (LineRef × Nat)) × PerfCounters
  | 0, _, counters => (.diverges, counters)
  | fuel + 1, cl, counters =>
    match t.line? cl with
    | none => (.undefined, counters)
    | some line =>
      let scanned := scanLineCounted mem t.typeBits secondaryHash key1 key2 line 0
      let counters1 :=
        { counters with
          lookupEntryHashCollisions := counters.lookupEntryHashCollisions + scanned.2 }
      match scanned.1 with
      | some i => (.ok (some (cl, i)), counters1)
      | none =>
        let next := Entry.getChainPointer t.typeBits
          (line.getD (ENTRIES_PER_CACHE_LINE - 1) 0)
        if next = 0 then (.ok none, counters1)
        else
          lookupEntryCountedLoop mem t secondaryHash key1 key2 fuel (.chained next)
            { counters1 with
              lookupEntryChainsFollowed := counters1.lookupEntryChainsFollowed + 1 }

/-- Embeds `HashTable::lookupEntry(bucket, secondaryHash, key1, key2)` with the
performance counters: where the entry is and the counters after the call. -/
def lookupEntryCounted (mem : Referants) (t : Table) (counters : PerfCounters)
    (bucket secondaryHash key1 key2 : Nat) :
    Outcome (Option (LineRef × Nat)) × PerfCounters :=
  lookupEntryCountedLoop mem t secondaryHash key1 key2 (t.heap.length + 1) (.bucket bucket)
    { counters with lookupEntryCalls := counters.lookupEntryCalls + 1 }

/-- Embeds `HashTable::lookup(key1, key2, &retType)` with the performance counters. -/
def lookupCounted (mem : Referants) (t : Table) (counters : PerfCounters) (key1 key2 : Nat) :
    Outcome (Option (Nat × Nat)) × PerfCounters :=
  let (bucket, secondaryHash) := findBucket t key1 key2
  match lookupEntryCounted mem t counters bucket secondaryHash key1 key2 with
  | (.ok none, counters1) => (.ok none, counters1)
  | (.ok (some (cl, i)), counters1) =>
    (match Entry.getReferant t.typeBits (t.entry cl i) with
     | .ok r => (.ok (some r), counters1)
     | _ => (.aborted, counters1))
  | (.thrown, counters1) => (.thrown, counters1)
  | (.aborted, counters1) => (.aborted, counters1)
  | (.undefined, counters1) => (.undefined, counters1)
  | (.diverges, counters1) => (.diverges, counters1)

/-- An entry that a lookup of `(key1, key2)` with the secondary hash
`secondaryHash` counts as a hash collision: a referant entry whose stored
secondary hash is that of the query and whose referant has another key. -/
def Collides (mem : Referants) (typeBits secondaryHash key1 key2 : Nat) (e : Nat) : Bool :=
  Entry.hashMatches secondaryHash typeBits e &&
    decide (mem (Entry.unpack typeBits e).ptr ≠ (key1, key2))

/-- The entries that the scan of a lookup touches along a chain, from the line
`cl` on and within `fuel` cache lines: in the line that holds the key the
entries up to and including the one found, in the other lines every entry. -/
def touchedLoop (mem : Referants) (t : Table) (secondaryHash key1 key2 : Nat) :
    Nat → LineRef → List Nat
  | 0, _ => []
  | fuel + 1, cl =>
    match t.line? cl with
    | none => []
    | some line =>
      match scanLine mem t.typeBits secondaryHash key1 key2 line 0 with
      | some i => line.take (i + 1)
      | none =>
        let next := Entry.getChainPointer t.typeBits
          (line.getD (ENTRIES_PER_CACHE_LINE - 1) 0)
        if next = 0 then line
        else line ++ touchedLoop mem t secondaryHash key1 key2 fuel (.chained next)

/-- The entries that the scan of `lookup(key1, key2)` touches in the chain of the
bucket of the key. -/
def touched (mem : Referants) (t : Table) (key1 key2 : Nat) : List Nat :=
  touchedLoop mem t (findBucket t key1 key2).2 key1 key2 (t.heap.length + 1)
    (.bucket (findBucket t key1 key2).1)

/-- All counters at zero. -/
def PerfCounters.zero : PerfCounters := ⟨0, 0, 0, 0, 0⟩

/-- The table `exampleUntyped` after the referants at `0x2000c0c0` and
`0x2000e780` have been stored: their keys have the secondary hash 12851, and
so has the key of the referant at `0x20014880`. -/
def exampleCollisions : Table :=
  run exampleMem exampleUntyped [.replace 0 0x2000c0c0 0, .replace 0 0x2000e780 0]

end HashTable
end RAMCloud

namespace RAMCloud
namespace FastTransport

namespace InboundMessage

end InboundMessage

namespace OutboundMessage

/-- Constants with a small window: two fragments in flight, two staged. -/
def exampleSmallWindow : Constants :=
  { WINDOW_SIZE := 2, MAX_STAGING_FRAGMENTS := 2, REQ_ACK_AFTER := 5,
    ACKED := 2 ^ 64 - 1, timeoutCycles := 1000, dataPerFragment := 4 }

/-- A message of 20 bytes (5 fragments) after `beginSending` at time 50 with the
constants of `exampleSmallWindow`: the fragments 0 and 1 have been sent. -/
def exampleSenderOfFive : OutboundMessage :=
  send exampleSmallWindow
    { create exampleSmallWindow true with
      sendBuffer := some (List.replicate 20 0)
      totalFrags := numFrags exampleSmallWindow (List.replicate 20 0).length } 50

/-- A receiver of a message of 5 fragments that has the fragments 0 to 3. -/
def exampleReceiverOfFour : Outcome InboundMessage :=
  InboundMessage.receiveAll exampleSmallWindow
    (InboundMessage.init exampleSmallWindow (InboundMessage.create exampleSmallWindow false) 5
      [] 10)
    [(⟨⟨0, 5, false⟩, [1]⟩, 20), (⟨⟨1, 5, false⟩, [2]⟩, 21), (⟨⟨2, 5, false⟩, [3]⟩, 22),
     (⟨⟨3, 5, true⟩, [4]⟩, 23)]

end OutboundMessage
end FastTransport
end RAMCloud

namespace RAMCloud
namespace FastTransport
namespace OutboundMessage

/-- A message of 8 bytes (2 fragments) with timers enabled after `beginSending`
at time 100: both fragments have been sent at time 100. -/
def exampleTimed : Outcome OutboundMessage :=
  beginSending exampleConstants (create exampleConstants true) (List.replicate 8 0) 100

/-- The message of `exampleTimed` after an ACK that acknowledges nothing
(`firstMissingFrag` 0, empty staging vector) has been processed at time 600,
which calls `send()`. -/
def exampleTimedAgain : Outcome (Bool × OutboundMessage) :=
  exampleTimed.bind fun m => .ok (processReceivedAck exampleConstants m (some ⟨0, 0⟩) 600)

end OutboundMessage

namespace InboundMessage

/-- An inbound message for 2 fragments after the fragments 0 and 1 have arrived:
the value `processReceivedData` returned for fragment 1 and the message. -/
def exampleComplete : Outcome (Bool × InboundMessage) :=
  (processReceivedData OutboundMessage.exampleConstants
    (init OutboundMessage.exampleConstants (create OutboundMessage.exampleConstants false) 2 []
      10) ⟨⟨0, 2, false⟩, [1]⟩ 20).bind fun r =>
    processReceivedData OutboundMessage.exampleConstants r.2 ⟨⟨1, 2, false⟩, [2]⟩ 21

/-- The message of `exampleComplete` after one more DATA packet has arrived, with
`totalFrags` 2 and the fragment number 2. -/
def exampleOverrun : Outcome (Bool × InboundMessage) :=
  exampleComplete.bind fun r =>
    processReceivedData OutboundMessage.exampleConstants r.2 ⟨⟨2, 2, false⟩, [3]⟩ 22

/-- An inbound message for 2 fragments after packets with the fragment numbers
0, 2 and 1 have arrived, all with `totalFrags` 2: the value returned for the
last one and the message. -/
def exampleSkipped : Outcome (Bool × InboundMessage) :=
  ((processReceivedData OutboundMessage.exampleConstants
    (init OutboundMessage.exampleConstants (create OutboundMessage.exampleConstants false) 2 []
      10) ⟨⟨0, 2, false⟩, [1]⟩ 20).bind fun r =>
    processReceivedData OutboundMessage.exampleConstants r.2 ⟨⟨2, 2, false⟩, [3]⟩ 21).bind
      fun r => processReceivedData OutboundMessage.exampleConstants r.2 ⟨⟨1, 2, false⟩, [2]⟩ 22

end InboundMessage
end FastTransport
end RAMCloud

namespace RAMCloud
namespace Buffer

/-- The constants `Buffer::Allocation::APPEND_START` and `TOTAL_SIZE` of `Buffer.h`,
which is not among the sources: parameters of the model. -/
structure AllocationSizes where
  APPEND_START : Nat
  TOTAL_SIZE : Nat
  deriving DecidableEq

/-- Modelled from the spec: a `Buffer::Allocation`, "a fixed-size byte slab with
three monotonic cursors growing into disjoint regions": the three cursors, as
offsets into the slab `data`. -/
structure Allocation where
  prependTop : Nat
  appendTop : Nat
  chunkTop : Nat
  deriving DecidableEq

namespace Allocation

/-- Modelled from the spec: a new `Allocation`, as `test_constructor` finds it. -/
def create (sz : AllocationSizes) : Allocation :=
  { prependTop := sz.APPEND_START, appendTop := sz.APPEND_START, chunkTop := sz.TOTAL_SIZE }

/-- Modelled from the spec: `allocatePrepend(size)`, served by the "prepend cursor
growing downward": the offset of the region returned (`none` for `NULL`, "an
Allocation refuses a request it cannot satisfy") and the allocation
afterwards. -/
def allocatePrepend (a : Allocation) (size : Nat) : Option Nat × Allocation :=
  if a.prependTop < size then (none, a)
  else (some (a.prependTop - size), { a with prependTop := a.prependTop - size })

/-- Modelled from the spec: `allocateAppend(size)`, served by the "append cursor
growing upward from a fixed midpoint", which must not cross the chunk
cursor. -/
def allocateAppend (a : Allocation) (size : Nat) : Option Nat × Allocation :=
  if a.chunkTop - a.appendTop < size then (none, a)
  else (some a.appendTop, { a with appendTop := a.appendTop + size })

/-- Modelled from the spec: `allocateChunk(size)`, served by the "chunk-metadata
cursor growing downward from the back", which must not cross the append
cursor. -/
def allocateChunk (a : Allocation) (size : Nat) : Option Nat × Allocation :=
  if a.chunkTop - a.appendTop < size then (none, a)
  else (some (a.chunkTop - size), { a with chunkTop := a.chunkTop - size })

/-- A request made to an `Allocation`. -/
inductive Request where
  | prepend (size : Nat)
  | append (size : Nat)
  | chunk (size : Nat)
  deriving DecidableEq

/-- The size a request asks for. -/
def Request.size : Request → Nat
  | .prepend size => size
  | .append size => size
  | .chunk size => size

/-- What a request returns and the allocation afterwards. -/
def step (a : Allocation) : Request → Option Nat × Allocation
  | .prepend size => allocatePrepend a size
  | .append size => allocateAppend a size
  | .chunk size => allocateChunk a size

/-- The allocation after a sequence of requests. -/
def final (a : Allocation) : List Request → Allocation
  | [] => a
  | request :: rest => final (step a request).2 rest

/-- The regions handed out for a sequence of requests, in request order, each
as the offset of its first byte and its size. -/
def regions (a : Allocation) : List Request → List (Nat × Nat)
  | [] => []
  | request :: rest =>
    match (step a request).1 with
    | some offset => (offset, request.size) :: regions (step a request).2 rest
    | none => regions (step a request).2 rest

/-- Two regions do not overlap: one ends where or before the other begins. -/
def Disjoint (r1 r2 : Nat × Nat) : Prop := r1.1 + r1.2 ≤ r2.1 ∨ r2.1 + r2.2 ≤ r1.1

/-- Example sizes: a slab of 2048 bytes with the append region starting at 256. -/
def exampleSizes : AllocationSizes := ⟨256, 2048⟩

end Allocation
end Buffer
end RAMCloud

set_option maxRecDepth 20000

namespace RAMCloud

/-! ## Bit-level facts -/

theorem testBit_not64 (x i : Nat) (hx : x < 2 ^ 64) :
    (not64 x).testBit i = (decide (i < 64) && !x.testBit i) := by
  have h : not64 x = 2 ^ 64 - (x + 1) := by unfold not64 U64; omega
  rw [h]
  exact Nat.testBit_two_pow_sub_succ hx i

theorem and_not64_mask_eq_zero_iff (x k : Nat) (hx : x < 2 ^ 64) (hk : k ≤ 64) :
    x &&& not64 (2 ^ k - 1) = 0 ↔ x < 2 ^ k := by
  have hm : 2 ^ k - 1 < 2 ^ 64 := by
    have : 2 ^ k ≤ 2 ^ 64 := Nat.pow_le_pow_right (by decide) hk
    have : 0 < 2 ^ k := Nat.two_pow_pos k
    omega
  constructor
  · intro h
    apply Nat.lt_pow_two_of_testBit
    intro i hi
    by_cases h64 : i < 64
    · have hb := congrArg (fun v => Nat.testBit v i) h
      simp only [Nat.testBit_and, testBit_not64 _ _ hm, Nat.testBit_two_pow_sub_one,
        Nat.zero_testBit] at hb
      have hik : ¬ i < k := by omega
      simpa [h64, hik] using hb
    · exact Nat.testBit_lt_two_pow
        (lt_of_lt_of_le hx (Nat.pow_le_pow_right (by decide) (by omega)))
  · intro h
    apply Nat.eq_of_testBit_eq
    intro i
    simp only [Nat.testBit_and, testBit_not64 _ _ hm, Nat.testBit_two_pow_sub_one,
      Nat.zero_testBit]
    by_cases hik : i < k
    · simp [hik]
    · have : x < 2 ^ i := lt_of_lt_of_le h (Nat.pow_le_pow_right (by decide) (by omega))
      simp [Nat.testBit_lt_two_pow this]

namespace HashTable

theorem one_shiftLeft_sub_one (k : Nat) : (1 <<< k) - 1 = 2 ^ k - 1 := by
  rw [Nat.shiftLeft_eq, Nat.one_mul]

theorem ptrMask_eq (typeBits : Nat) (h : typeBits ≤ 8) :
    0x00007fffffffffff >>> typeBits = 2 ^ (47 - typeBits) - 1 := by
  interval_cases typeBits <;> decide

/-- What `pack` does, in arithmetic terms, for the type widths the table
uses. -/
theorem Entry.pack_eq (hash : Nat) (chain : Bool) (ptr type typeBits : Nat)
    (htb : typeBits ≤ 8) (hh : hash < 2 ^ 64) (hp : ptr < 2 ^ 64) (ht : type < 2 ^ 8) :
    Entry.pack hash chain ptr type typeBits =
      if ptr = 0 ∧ ¬ (hash = 0 ∧ chain = false) then .aborted
      else if 0 < typeBits ∧ 2 ^ typeBits ≤ type then .thrown
      else if 2 ^ (47 - typeBits) ≤ ptr then .thrown
      else if 2 ^ 16 ≤ hash then .aborted
      else .ok (hash * 2 ^ 48 + (if chain then 1 else 0) * 2 ^ 47 +
        (if 0 < typeBits then type else 0) * 2 ^ (47 - typeBits) + ptr) := by
  have ht64 : type < 2 ^ 64 := lt_trans ht (by decide)
  have h1 : (type &&& not64 ((1 <<< typeBits) - 1) ≠ 0) ↔ 2 ^ typeBits ≤ type := by
    rw [one_shiftLeft_sub_one, Ne, and_not64_mask_eq_zero_iff _ _ ht64 (by omega)]; omega
  have h2 : (ptr &&& not64 (0x00007fffffffffff >>> typeBits) ≠ 0) ↔ 2 ^ (47 - typeBits) ≤ ptr := by
    rw [ptrMask_eq _ htb, Ne, and_not64_mask_eq_zero_iff _ _ hp (by omega)]; omega
  have h3 : (hash &&& not64 0x000000000000ffff ≠ 0) ↔ 2 ^ 16 ≤ hash := by
    have : (0x000000000000ffff : Nat) = 2 ^ 16 - 1 := by decide
    rw [this, Ne, and_not64_mask_eq_zero_iff _ _ hh (by omega)]; omega
  unfold Entry.pack
  simp only [h1, h2, h3, MAX_TYPEBITS]
  by_cases c1 : ptr = 0 ∧ ¬ (hash = 0 ∧ chain = false)
  · rw [if_pos c1, if_pos c1]
  rw [if_neg c1, if_neg c1, if_neg (by omega)]
  by_cases c2 : 0 < typeBits ∧ 2 ^ typeBits ≤ type
  · rw [if_pos c2, if_pos c2]
  rw [if_neg c2, if_neg c2]
  by_cases c3 : 2 ^ (47 - typeBits) ≤ ptr
  · rw [if_pos c3, if_pos c3]
  rw [if_neg c3, if_neg c3]
  by_cases c4 : 2 ^ 16 ≤ hash
  · rw [if_pos c4, if_pos c4]
  rw [if_neg c4, if_neg c4]
  congr 1
  have hc : (if chain = true then 1 else 0 : Nat) < 2 := by split <;> omega
  generalize (if chain = true then 1 else 0 : Nat) = c at hc ⊢
  have hty : (if 0 < typeBits then type else 0) < 2 ^ typeBits := by
    split
    · omega
    · exact Nat.two_pow_pos _
  have htf : (if 0 < typeBits then type <<< (47 - typeBits) % U64 else 0) =
      2 ^ (47 - typeBits) * (if 0 < typeBits then type else 0) := by
    split
    · rw [Nat.shiftLeft_eq, Nat.mul_comm]
      apply Nat.mod_eq_of_lt
      interval_cases typeBits <;> simp [U64] at * <;> omega
    · simp
  rw [htf]
  generalize (if 0 < typeBits then type else 0) = ty at hty ⊢
  have hX : 2 ^ (47 - typeBits) * ty + ptr < 2 ^ 47 := by
    interval_cases typeBits <;> simp at * <;> omega
  have e1 : 2 ^ (47 - typeBits) * ty + ptr = 2 ^ (47 - typeBits) * ty ||| ptr :=
    Nat.mul_add_lt_is_or (by omega) _
  have e2 : 2 ^ 47 * c + (2 ^ (47 - typeBits) * ty + ptr) =
      2 ^ 47 * c ||| (2 ^ (47 - typeBits) * ty + ptr) := Nat.mul_add_lt_is_or hX _
  have hY : 2 ^ 47 * c + (2 ^ (47 - typeBits) * ty + ptr) < 2 ^ 48 := by omega
  have e3 := Nat.mul_add_lt_is_or hY hash
  have e4 : hash <<< 48 % U64 = 2 ^ 48 * hash := by
    rw [Nat.shiftLeft_eq, Nat.mul_comm]; apply Nat.mod_eq_of_lt; simp [U64]; omega
  have e5 : c <<< 47 = 2 ^ 47 * c := by rw [Nat.shiftLeft_eq, Nat.mul_comm]
  rw [e4, e5, Nat.or_assoc, Nat.or_assoc, ← e1, ← e2, ← e3]
  ring

end HashTable
end RAMCloud

namespace RAMCloud
namespace HashTable

/-! ## Reading and writing entries -/

theorem lookup_heapSet (h : List (Nat × CacheLine)) (a slot v a' : Nat) :
    (heapSet h a slot v).lookup a' =
      if a' = a then (h.lookup a).map (fun l => l.set slot v) else h.lookup a' := by
  induction h with
  | nil => simp [heapSet]
  | cons x h ih =>
    obtain ⟨a0, l⟩ := x
    unfold heapSet
    by_cases h0 : a0 = a
    · subst h0
      by_cases h1 : a' = a0
      · subst h1; simp [List.lookup]
      · have : (a' == a0) = false := by simpa using h1
        simp [List.lookup, this, h1]
    · rw [if_neg h0]
      by_cases h1 : a' = a0
      · subst h1
        have : ¬ a' = a := h0
        simp [List.lookup, this]
      · have hb : (a' == a0) = false := by simpa using h1
        have hb2 : (a == a0) = false := by simpa using Ne.symm h0
        simp only [List.lookup, hb, hb2]
        exact ih

theorem line?_setEntry (t : Table) (cl : LineRef) (slot v : Nat) (cl' : LineRef) :
    (t.setEntry cl slot v).line? cl' =
      if cl' = cl then (t.line? cl).map (fun l => l.set slot v) else t.line? cl' := by
  cases cl with
  | bucket b =>
    cases cl' with
    | bucket b' =>
      simp only [Table.setEntry, Table.line?, LineRef.bucket.injEq]
      by_cases hb : b' = b
      · subst hb
        by_cases hlen : b' < t.buckets.length
        · simp [hlen, List.getD_eq_getElem?_getD, List.getElem?_eq_getElem hlen]
        · have h1 : t.buckets[b']? = none := List.getElem?_eq_none (by omega)
          simp [h1, List.getElem?_set, hlen]
      · rw [if_neg hb]
        rw [List.getElem?_set]
        simp [Ne.symm hb]
    | chained a' => simp [Table.setEntry, Table.line?]
  | chained a =>
    cases cl' with
    | bucket b' => simp [Table.setEntry, Table.line?]
    | chained a' =>
      simp only [Table.setEntry, Table.line?, LineRef.chained.injEq]
      exact lookup_heapSet _ _ _ _ _

theorem entry_setEntry_same (t : Table) (cl : LineRef) (slot v : Nat) (line : CacheLine)
    (hl : t.line? cl = some line) (hs : slot < line.length) :
    (t.setEntry cl slot v).entry cl slot = v := by
  unfold Table.entry
  rw [line?_setEntry, if_pos rfl, hl]
  simp [List.getD_eq_getElem?_getD, List.getElem?_set, hs]

theorem entry_setEntry_other (t : Table) (cl : LineRef) (slot v : Nat) (cl' : LineRef)
    (slot' : Nat) (hne : (cl', slot') ≠ (cl, slot)) :
    (t.setEntry cl slot v).entry cl' slot' = t.entry cl' slot' := by
  unfold Table.entry
  rw [line?_setEntry]
  by_cases hc : cl' = cl
  · subst hc
    have hs : slot ≠ slot' := fun h => hne (by rw [h])
    rw [if_pos rfl]
    cases hl : t.line? cl' with
    | none => simp
    | some line =>
      simp [List.getD_eq_getElem?_getD, List.getElem?_set, hs]
  · rw [if_neg hc]

/-! ## The entry that `lookupEntry` returns -/

theorem scanLine_some (mem : Referants) (typeBits sh key1 key2 : Nat) (line : CacheLine)
    (start i : Nat) (h : scanLine mem typeBits sh key1 key2 line start = some i) :
    start ≤ i ∧ i - start < line.length ∧
      Entry.hashMatches sh typeBits (line.getD (i - start) 0) = true ∧
      mem (Entry.unpack typeBits (line.getD (i - start) 0)).ptr = (key1, key2) := by
  induction line generalizing start with
  | nil => simp [scanLine] at h
  | cons e es ih =>
    unfold scanLine at h
    split at h
    · rename_i hc
      injection h with h
      subst h
      simpa using hc
    · obtain ⟨h1, h2, h3, h4⟩ := ih (start + 1) h
      have e1 : i - start = (i - (start + 1)) + 1 := by omega
      refine ⟨by omega, by simp; omega, ?_, ?_⟩
      · rw [e1]; simpa using h3
      · rw [e1]; simpa using h4

theorem lookupEntryLoop_some (mem : Referants) (t : Table) (sh key1 key2 : Nat) (fuel : Nat)
    (cl0 cl : LineRef) (i : Nat)
    (h : lookupEntryLoop mem t sh key1 key2 fuel cl0 = .ok (some (cl, i))) :
    ∃ line, t.line? cl = some line ∧ i < line.length ∧
      Entry.hashMatches sh t.typeBits (t.entry cl i) = true ∧
      mem (Entry.unpack t.typeBits (t.entry cl i)).ptr = (key1, key2) := by
  induction fuel generalizing cl0 with
  | zero => simp [lookupEntryLoop] at h
  | succ fuel ih =>
    unfold lookupEntryLoop at h
    split at h
    · simp at h
    · rename_i line hline
      split at h
      · rename_i j hj
        injection h with h; injection h with h
        obtain ⟨h1, h2⟩ := Prod.mk.inj h
        subst h1; subst h2
        obtain ⟨_, h2, h3, h4⟩ := scanLine_some _ _ _ _ _ _ _ _ hj
        refine ⟨line, hline, by simpa using h2, ?_, ?_⟩
        · simpa [Table.entry, hline] using h3
        · simpa [Table.entry, hline] using h4
      · simp only at h
        split at h
        · simp at h
        · exact ih _ h

theorem getReferant_of_hashMatches (sh typeBits e : Nat)
    (h : Entry.hashMatches sh typeBits e = true) :
    Entry.getReferant typeBits e =
      .ok ((Entry.unpack typeBits e).ptr, (Entry.unpack typeBits e).type) := by
  unfold Entry.hashMatches at h
  unfold Entry.getReferant
  simp only [decide_eq_true_eq] at h
  simp [h.1, h.2.1]

end HashTable
end RAMCloud

namespace RAMCloud
namespace HashTable

/-- C8: in every table state, `remove(key1, key2)` returns true exactly when
`lookup(key1, key2)` is non-NULL (and false exactly when it is NULL); a call
that returns false leaves the table as it is; a call that returns true
delivers what `lookup` returned and sets the entry that `lookupEntry` found
to the all-zero empty value, every other entry keeping its value. -/
theorem remove_true_iff_lookup_found (mem : Referants) (t : Table) (key1 key2 : Nat) :
    ((∃ r, (remove mem t key1 key2).1 = .ok (true, r)) ↔
        ∃ r, lookup mem t key1 key2 = .ok (some r)) ∧
    ((∃ r, (remove mem t key1 key2).1 = .ok (false, r)) ↔
        lookup mem t key1 key2 = .ok none) ∧
    (∀ r, (remove mem t key1 key2).1 = .ok (false, r) → (remove mem t key1 key2).2 = t) ∧
    (∀ r, (remove mem t key1 key2).1 = .ok (true, r) →
      lookup mem t key1 key2 = .ok r ∧
      ∃ cl slot,
        lookupEntry mem t (findBucket t key1 key2).1 (findBucket t key1 key2).2 key1 key2 =
          .ok (some (cl, slot)) ∧
        (remove mem t key1 key2).2.entry cl slot = 0 ∧
        ∀ cl' slot', (cl', slot') ≠ (cl, slot) →
          (remove mem t key1 key2).2.entry cl' slot' = t.entry cl' slot') := by
  rcases hfb : findBucket t key1 key2 with ⟨b, sh⟩
  unfold remove lookup
  simp only [hfb]
  cases hle : lookupEntry mem t b sh key1 key2 with
  | ok found =>
    cases found with
    | none => simp
    | some loc =>
      obtain ⟨cl, i⟩ := loc
      obtain ⟨line, hline, hi, hm, _⟩ := lookupEntryLoop_some _ _ _ _ _ _ _ _ _ hle
      have hg := getReferant_of_hashMatches _ _ _ hm
      simp only [hg]
      refine ⟨by simp, by simp, by simp, ?_⟩
      intro r hr
      simp only [Outcome.ok.injEq, Prod.mk.injEq, true_and] at hr
      subst hr
      refine ⟨rfl, cl, i, rfl, ?_, ?_⟩
      · exact entry_setEntry_same t cl i _ line hline hi
      · intro cl' slot' hne
        exact entry_setEntry_other t cl i _ cl' slot' hne
  | thrown => simp
  | aborted => simp
  | undefined => simp
  | diverges => simp

end HashTable
end RAMCloud

namespace RAMCloud
namespace HashTable

theorem Entry.unpack_packed (typeBits hash type ptr : Nat) (c : Bool)
    (htb : typeBits ≤ 8) (hh : hash < 2 ^ 16) (ht : type < 2 ^ typeBits)
    (hp : ptr < 2 ^ (47 - typeBits)) :
    Entry.unpack typeBits
        (hash * 2 ^ 48 + (if c then 1 else 0) * 2 ^ 47 + type * 2 ^ (47 - typeBits) + ptr) =
      ⟨hash, c, type, ptr⟩ := by
  have m16 : (0x000000000000ffff : Nat) = 2 ^ 16 - 1 := by decide
  unfold Entry.unpack
  rw [ptrMask_eq _ htb, one_shiftLeft_sub_one, m16]
  simp only [Nat.and_pow_two_sub_one_eq_mod, Nat.shiftRight_eq_div_pow, Nat.and_one_is_mod]
  have hc : (if c = true then 1 else 0 : Nat) < 2 := by split <;> omega
  have hcb : ((if c = true then 1 else 0 : Nat) = 1) ↔ c = true := by cases c <;> simp
  generalize (if c = true then 1 else 0 : Nat) = cn at hc hcb ⊢
  have e1 : (hash * 2 ^ 48 + cn * 2 ^ 47 + type * 2 ^ (47 - typeBits) + ptr) / 2 ^ 48 % 2 ^ 16
      = hash := by
    interval_cases typeBits <;> simp at * <;> omega
  have e2 : (hash * 2 ^ 48 + cn * 2 ^ 47 + type * 2 ^ (47 - typeBits) + ptr) / 2 ^ 47 % 2
      = cn := by
    interval_cases typeBits <;> simp at * <;> omega
  have e3 : (hash * 2 ^ 48 + cn * 2 ^ 47 + type * 2 ^ (47 - typeBits) + ptr)
      % 2 ^ (47 - typeBits) = ptr := by
    interval_cases typeBits <;> simp at * <;> omega
  have e4 : (if typeBits ≠ 0 then
      (hash * 2 ^ 48 + cn * 2 ^ 47 + type * 2 ^ (47 - typeBits) + ptr) / 2 ^ (47 - typeBits)
        % 2 ^ typeBits else 0) = type := by
    interval_cases typeBits <;> simp at * <;> omega
  rw [e1, e2, e3, e4]
  have : (decide (cn ≠ 0)) = c := by
    cases c
    · have : cn = 0 := by
        have := hcb.not
        simp at this; omega
      simp [this]
    · have : cn = 1 := hcb.mpr rfl
      simp [this]
  simp [this]

/-- C10 (as amended): for `typeBits` in 0..8 and fields that fit
(`hash < 2^16`, `type < 2^typeBits`, `ptr < 2^(47 - typeBits)`), when the
pointer is non-null or the entry is the empty one (`hash = 0`, no chain
flag), `pack` stores `hash*2^48 + c*2^47 + type*2^(47 - typeBits) + ptr`,
`unpack(typeBits)` of that value returns `(hash, c, type, ptr)`, and the
cleared entry is the all-zero value. -/
theorem pack_unpack_layout (typeBits hash type ptr : Nat) (c : Bool)
    (htb : typeBits ≤ 8) (hh : hash < 2 ^ 16) (ht : type < 2 ^ typeBits)
    (hp : ptr < 2 ^ (47 - typeBits)) (hnull : ptr = 0 → hash = 0 ∧ c = false) :
    Entry.pack hash c ptr type typeBits =
      .ok (hash * 2 ^ 48 + (if c then 1 else 0) * 2 ^ 47 + type * 2 ^ (47 - typeBits) + ptr) ∧
    Entry.unpack typeBits
        (hash * 2 ^ 48 + (if c then 1 else 0) * 2 ^ 47 + type * 2 ^ (47 - typeBits) + ptr) =
      ⟨hash, c, type, ptr⟩ ∧
    Entry.clear = 0 := by
  refine ⟨?_, Entry.unpack_packed typeBits hash type ptr c htb hh ht hp, rfl⟩
  have hp64 : ptr < 2 ^ 64 :=
    lt_of_lt_of_le hp (Nat.pow_le_pow_right (by decide) (by omega))
  have ht8 : type < 2 ^ 8 := lt_of_lt_of_le ht (Nat.pow_le_pow_right (by decide) htb)
  rw [Entry.pack_eq hash c ptr type typeBits htb (lt_trans hh (by decide)) hp64 ht8]
  have c1 : ¬ (ptr = 0 ∧ ¬ (hash = 0 ∧ c = false)) := fun h => h.2 (hnull h.1)
  have c2 : ¬ (0 < typeBits ∧ 2 ^ typeBits ≤ type) := by omega
  rw [if_neg c1, if_neg c2, if_neg (by omega), if_neg (by omega)]
  congr 3
  by_cases h0 : 0 < typeBits
  · rw [if_pos h0]
  · have : typeBits = 0 := by omega
    subst this
    simp at ht
    simp [ht]

/-- C10, witness: the layout of a referant entry with three type bits, the
hypotheses of the layout theorem discharged at concrete fields. -/
theorem pack_unpack_layout_witness :
    Entry.pack 0xbeef false 0x1000 5 3 =
      .ok (0xbeef * 2 ^ 48 + (if false then 1 else 0) * 2 ^ 47 + 5 * 2 ^ (47 - 3) + 0x1000) ∧
    Entry.unpack 3
        (0xbeef * 2 ^ 48 + (if false then 1 else 0) * 2 ^ 47 + 5 * 2 ^ (47 - 3) + 0x1000) =
      ⟨0xbeef, false, 5, 0x1000⟩ ∧
    Entry.clear = 0 :=
  pack_unpack_layout 3 0xbeef 5 0x1000 false (by decide) (by decide) (by decide) (by decide)
    (by decide)

/-- C10, counterexample: with a null pointer and a non-zero hash, all fields
fitting, `pack` stops at its first assertion and stores nothing. -/
theorem pack_null_pointer_aborts :
    ¬ ∀ (typeBits hash type ptr : Nat) (c : Bool), typeBits ≤ 8 → hash < 2 ^ 16 →
        type < 2 ^ typeBits → ptr < 2 ^ (47 - typeBits) →
        Entry.pack hash c ptr type typeBits =
          .ok (hash * 2 ^ 48 + (if c then 1 else 0) * 2 ^ 47 + type * 2 ^ (47 - typeBits)
            + ptr) := by
  intro h
  have := h 0 1 0 0 false (by decide) (by decide) (by decide) (by decide)
  revert this
  decide

/-- C9 (as amended): for `typeBits` in 0..8, a non-null pointer and a
secondary hash below `2^16`, `setReferant` throws exactly when the pointer
has a bit set at position `47 - typeBits` or above, or `typeBits > 0` and
the type tag does not fit in `typeBits` bits; in every other case it
succeeds and stores the packed referant entry.  With `typeBits = 0` the type
tag is not looked at. -/
theorem setReferant_throws_iff (typeBits hash ptr type : Nat)
    (htb : typeBits ≤ 8) (hh : hash < 2 ^ 16) (hnz : ptr ≠ 0) (hp : ptr < 2 ^ 64)
    (ht : type < 2 ^ 8) :
    (Entry.setReferant hash ptr type typeBits = .thrown ↔
      (2 ^ (47 - typeBits) ≤ ptr ∨ (0 < typeBits ∧ 2 ^ typeBits ≤ type))) ∧
    (¬ (2 ^ (47 - typeBits) ≤ ptr ∨ (0 < typeBits ∧ 2 ^ typeBits ≤ type)) →
      Entry.setReferant hash ptr type typeBits =
        .ok (hash * 2 ^ 48 + (if 0 < typeBits then type else 0) * 2 ^ (47 - typeBits) + ptr)) := by
  unfold Entry.setReferant
  rw [if_neg hnz, Entry.pack_eq hash false ptr type typeBits htb (lt_trans hh (by decide)) hp ht]
  have c1 : ¬ (ptr = 0 ∧ ¬ (hash = 0 ∧ false = false)) := fun h => hnz h.1
  rw [if_neg c1]
  by_cases c2 : 0 < typeBits ∧ 2 ^ typeBits ≤ type
  · rw [if_pos c2]
    exact ⟨⟨fun _ => Or.inr c2, fun _ => rfl⟩, fun h => absurd (Or.inr c2) h⟩
  · rw [if_neg c2]
    by_cases c3 : 2 ^ (47 - typeBits) ≤ ptr
    · rw [if_pos c3]
      exact ⟨⟨fun _ => Or.inl c3, fun _ => rfl⟩, fun h => absurd (Or.inl c3) h⟩
    · rw [if_neg c3, if_neg (by omega)]
      refine ⟨⟨fun h => by simp at h, fun h => ?_⟩, fun _ => by simp⟩
      rcases h with h | h
      · exact absurd h c3
      · exact absurd h c2

/-- C9, witness: two type bits, a pointer that fits and a type tag that
fits. -/
theorem setReferant_throws_iff_witness :
    (Entry.setReferant 7 0x1000 3 2 = .thrown ↔
      (2 ^ (47 - 2) ≤ 0x1000 ∨ (0 < 2 ∧ 2 ^ 2 ≤ 3))) ∧
    (¬ (2 ^ (47 - 2) ≤ 0x1000 ∨ (0 < 2 ∧ 2 ^ 2 ≤ 3)) →
      Entry.setReferant 7 0x1000 3 2 =
        .ok (7 * 2 ^ 48 + (if 0 < 2 then 3 else 0) * 2 ^ (47 - 2) + 0x1000)) :=
  setReferant_throws_iff 2 7 0x1000 3 (by decide) (by decide) (by decide) (by decide)
    (by decide)

/-- C9, counterexample: with `typeBits = 0` a type tag that does not fit in
zero bits raises nothing, the entry is stored. -/
theorem setReferant_ignores_type_without_typeBits :
    ¬ ∀ (typeBits hash ptr type : Nat), typeBits ≤ 8 → hash < 2 ^ 16 → ptr ≠ 0 →
        ptr < 2 ^ 64 → type < 2 ^ 8 →
        (Entry.setReferant hash ptr type typeBits = .thrown ↔
          (2 ^ (47 - typeBits) ≤ ptr ∨ 2 ^ typeBits ≤ type)) := by
  intro h
  have := h 0 0 64 1 (by decide) (by decide) (by decide) (by decide) (by decide)
  revert this
  decide

end HashTable
end RAMCloud

namespace RAMCloud
namespace HashTable

/-- C1 at a failing input: in a table with one bucket and one type bit whose
bucket is full, `replace(0x20000200, 1)` (a non-null pointer that fits in 46
bits, a type below 2) chains a cache line that `xmemalign` puts at
`0x400000000000` and returns false, and the `lookup` of the key of that
referant then returns NULL: `getChainPointer(typeBits)` cuts the chain
pointer, which `setChainPointer` packed with `typeBits = 0`, down to 46
bits.  With the line at `0x7f3a5c000040` the pointer read back is
`0x3f3a5c000040`, where no cache line lives, and `lookup` dereferences
it. -/
theorem lookup_after_replace_misses_chained_line :
    init 1 2 = .ok exampleOneBucket ∧
    outcomes exampleMem exampleOneBucket exampleFillCalls =
      List.replicate 8 (.ok (false, none)) ∧
    exampleNinthReplace.1 = .ok (false, none) ∧
    exampleMem 0x20000200 = (0x20000200, 0) ∧
    lookup exampleMem exampleNinthReplace.2 0x20000200 0 = .ok none ∧
    exampleNinthReplaceHigh.1 = .ok (false, none) ∧
    lookup exampleMem exampleNinthReplaceHigh.2 0x20000200 0 = .undefined := by
  decide

/-- C7 at a failing input: on the full bucket of eight referants
`replace(0x20000200, 1)` returns false, and where `forEach` counted eight
stored referants before the call it counts seven after it, not nine: the
referant moved to the new cache line and the new referant are out of
reach. -/
theorem replace_false_loses_referants :
    forEach exampleFullBucket =
      .ok ([(0x20000000, 1), (0x20000040, 1), (0x20000080, 1), (0x200000c0, 1),
            (0x20000100, 1), (0x20000140, 1), (0x20000180, 1), (0x200001c0, 1)], 8) ∧
    lookup exampleMem exampleFullBucket 0x20000200 0 = .ok none ∧
    exampleNinthReplace.1 = .ok (false, none) ∧
    forEach exampleNinthReplace.2 =
      .ok ([(0x20000000, 1), (0x20000040, 1), (0x20000080, 1), (0x200000c0, 1),
            (0x20000100, 1), (0x20000140, 1), (0x20000180, 1)], 7) := by
  decide

/-- C4 at a failing input: in a table with two buckets and one type bit,
reached from the empty table by 18 `replace` calls that all return false,
the chain pointer of bucket 1 (address `0x400001c3f040`) is read back as
`0x1c3f040`, the line chained to bucket 0: `forEach` fires the callback
twice for the referants `0x20000380` and `0x20000480` and returns 18, while
the referants `0x200003c0` and `0x20000400` are not visited and `lookup`
returns NULL for their keys.  In the one-bucket table whose chained line is
at `0x7f3a5c000040`, `forEach` dereferences `0x3f3a5c000040`, where no cache
line lives. -/
theorem forEach_visits_aliased_line_twice :
    init 2 2 = .ok exampleTwoBuckets ∧
    outcomes exampleMem exampleTwoBuckets exampleTwoChainsCalls =
      List.replicate 18 (.ok (false, none)) ∧
    forEach exampleTwoChains =
      .ok ([(0x20000000, 1), (0x200000c0, 1), (0x20000180, 1), (0x20000240, 1),
            (0x20000280, 1), (0x200002c0, 1), (0x20000340, 1), (0x20000380, 1),
            (0x20000480, 1),
            (0x20000040, 0), (0x20000080, 0), (0x20000100, 0), (0x20000140, 0),
            (0x200001c0, 0), (0x20000200, 0), (0x20000300, 0),
            (0x20000380, 1), (0x20000480, 1)], 18) ∧
    lookup exampleMem exampleTwoChains 0x20000380 0 = .ok (some (0x20000380, 1)) ∧
    lookup exampleMem exampleTwoChains 0x200003c0 0 = .ok none ∧
    lookup exampleMem exampleTwoChains 0x20000400 0 = .ok none ∧
    forEach exampleNinthReplaceHigh.2 = .undefined := by
  decide

end HashTable
end RAMCloud

namespace RAMCloud
namespace FastTransport
namespace InboundMessage

/-! ## Reassembly of a message -/

theorem delivered_append (P : Received → Prop) (initial : List PayloadChunk) (n : Nat)
    (buffer : List PayloadChunk) (r : Received)
    (hd : Delivered P initial (some buffer) n) (hr : r.header.fragNumber = n) (hP : P r) :
    Delivered P initial (some (appendToBuffer buffer r)) (n + 1) := by
  obtain ⟨chunks, hb, hmap, hall⟩ := hd
  simp only [Option.some.injEq] at hb
  subst hb
  refine ⟨chunks ++ [⟨r.body, r⟩], by simp [appendToBuffer], ?_, ?_⟩
  · simp [hmap, hr, List.range_succ]
  · intro chunk hc
    simp only [List.mem_append, List.mem_singleton] at hc
    rcases hc with hc | hc
    · exact hall chunk hc
    · subst hc; exact ⟨rfl, hP⟩

theorem slide_ok (c : Constants) (P : Received → Prop) (initial : List PayloadChunk)
    (fuel : Nat) (m : InboundMessage)
    (hs : Staged c P m) (hd : Delivered P initial m.dataBuffer (m.firstMissingFrag + 1))
    (hf : m.dataStagingWindow.slots.countP (fun s => s.isSome) < fuel) :
    ∃ m', slide fuel m = .ok m' ∧ Staged c P m' ∧
      Delivered P initial m'.dataBuffer m'.firstMissingFrag ∧
      m'.totalFrags = m.totalFrags ∧ m'.useTimer = m.useTimer ∧
      m.firstMissingFrag < m'.firstMissingFrag := by
  induction fuel generalizing m with
  | zero => omega
  | succ fuel ih =>
    obtain ⟨hoff, hlen, hslots⟩ := hs
    obtain ⟨w, hw⟩ : ∃ w, m.dataStagingWindow = w := ⟨_, rfl⟩
    obtain ⟨off, slots⟩ := w
    rw [hw] at hoff hlen hslots hf
    simp only at hoff hlen hslots hf
    unfold slide
    simp only [hw, Window.get, Window.advance]
    rw [if_neg (by omega)]
    have e0 : m.firstMissingFrag + 1 - off = 0 := by omega
    rw [e0]
    cases slots with
    | nil =>
      simp only [List.getD_nil]
      refine ⟨_, rfl, ⟨?_, ?_, ?_⟩, ?_, rfl, rfl, ?_⟩
      · simp; omega
      · simpa using hlen
      · intro j r h; simp at h
      · exact hd
      · simp
    | cons x xs =>
      have hmin : min 1 (x :: xs).length = 1 := by simp
      rw [hmin]
      simp only [List.getD_cons_zero, List.drop_succ_cons, List.drop_zero, List.replicate_one]
      have hshift : ∀ j r, (xs ++ [(default : Option Received)])[j]? = some (some r) →
          r.header.fragNumber = m.firstMissingFrag + 1 + 1 + j ∧ P r := by
        intro j r h
        by_cases hj : j < xs.length
        · rw [List.getElem?_append_left hj] at h
          have := hslots (j + 1) r (by simpa using h)
          refine ⟨by omega, this.2⟩
        · rw [List.getElem?_append_right (by omega)] at h
          by_cases hj0 : j - xs.length = 0
          · rw [hj0] at h; simp at h
          · have : ([(default : Option Received)])[j - xs.length]? = none :=
              List.getElem?_eq_none (by simp; omega)
            rw [this] at h; simp at h
      cases x with
      | none =>
        refine ⟨_, rfl, ⟨?_, ?_, ?_⟩, ?_, rfl, rfl, ?_⟩
        · simp; omega
        · simpa using hlen
        · exact hshift
        · exact hd
        · simp
      | some payload =>
        obtain ⟨chunks, hbuf, hmap, hall⟩ := hd
        simp only [hbuf]
        have hp := hslots 0 payload (by simp)
        have hcount : (xs ++ [(default : Option Received)]).countP (fun s => s.isSome) < fuel := by
          have hd0 : (default : Option Received) = none := rfl
          simp [List.countP_cons, List.countP_append, hd0] at hf ⊢
          omega
        obtain ⟨m', h1, h2, h3, h4, h5, h6⟩ := ih
          { m with dataStagingWindow := ⟨off + 1, xs ++ [default]⟩
                   firstMissingFrag := m.firstMissingFrag + 1
                   dataBuffer := some (appendToBuffer (initial ++ chunks) payload) }
          ⟨by simp; omega, by simpa using hlen, hshift⟩
          (delivered_append P initial (m.firstMissingFrag + 1) _ payload
            ⟨chunks, rfl, hmap, hall⟩ (by omega) hp.2)
          hcount
        exact ⟨m', h1, h2, h3, h4, h5, by simp at h6; omega⟩

theorem countP_le_length_lt_succ {α : Type} (p : α → Bool) (l : List α) :
    l.countP p < l.length + 1 :=
  Nat.lt_succ_of_le (List.countP_le_length p)

theorem accept_ok (c : Constants) (P : Received → Prop) (initial : List PayloadChunk)
    (m : InboundMessage) (r : Received)
    (hs : Staged c P m) (hd : Delivered P initial m.dataBuffer m.firstMissingFrag) (hP : P r) :
    ∃ m', accept c m r = .ok m' ∧ Staged c P m' ∧
      Delivered P initial m'.dataBuffer m'.firstMissingFrag ∧
      m'.totalFrags = m.totalFrags ∧ m'.useTimer = m.useTimer ∧
      m.firstMissingFrag ≤ m'.firstMissingFrag := by
  unfold accept
  by_cases h1 : r.header.fragNumber = m.firstMissingFrag
  · rw [if_pos h1]
    obtain ⟨chunks, hbuf, hmap, hall⟩ := hd
    simp only [hbuf]
    obtain ⟨m', e1, e2, e3, e4, e5, e6⟩ := slide_ok c P initial
      (m.dataStagingWindow.getLength + 1)
      { m with dataBuffer := some (appendToBuffer (initial ++ chunks) r) } hs
      (delivered_append P initial m.firstMissingFrag _ r ⟨chunks, rfl, hmap, hall⟩ h1 hP)
      (countP_le_length_lt_succ _ _)
    exact ⟨m', e1, e2, e3, e4, e5, Nat.le_of_lt e6⟩
  · rw [if_neg h1]
    by_cases h2 : r.header.fragNumber > m.firstMissingFrag
    · rw [if_pos h2]
      by_cases h3 : r.header.fragNumber - m.firstMissingFrag > c.MAX_STAGING_FRAGMENTS
      · rw [if_pos h3]
        exact ⟨m, rfl, hs, hd, rfl, rfl, Nat.le_refl _⟩
      · rw [if_neg h3]
        by_cases h4 : (m.dataStagingWindow.get r.header.fragNumber).isNone = true
        · rw [if_pos h4]
          refine ⟨_, rfl, ?_, hd, rfl, rfl, Nat.le_refl _⟩
          obtain ⟨hoff, hlen, hslots⟩ := hs
          unfold Window.set
          rw [if_neg (by omega)]
          refine ⟨hoff, by simpa using hlen, ?_⟩
          intro j r' hj
          simp only [List.getElem?_set] at hj
          by_cases hjk : r.header.fragNumber - m.dataStagingWindow.offset = j
          · rw [if_pos hjk] at hj
            split at hj
            · simp only [Option.some.injEq] at hj
              subst hj
              simp only
              exact ⟨by omega, hP⟩
            · simp at hj
          · rw [if_neg hjk] at hj
            exact hslots j r' hj
        · rw [if_neg h4]
          exact ⟨m, rfl, hs, hd, rfl, rfl, Nat.le_refl _⟩
    · rw [if_neg h2]
      exact ⟨m, rfl, hs, hd, rfl, rfl, Nat.le_refl _⟩

theorem processReceivedData_ok (c : Constants) (P : Received → Prop)
    (initial : List PayloadChunk) (m : InboundMessage) (r : Received) (now : Nat)
    (hs : Staged c P m) (hd : Delivered P initial m.dataBuffer m.firstMissingFrag) (hP : P r) :
    ∃ b m', processReceivedData c m r now = .ok (b, m') ∧ Staged c P m' ∧
      Delivered P initial m'.dataBuffer m'.firstMissingFrag ∧
      m.firstMissingFrag ≤ m'.firstMissingFrag := by
  unfold processReceivedData
  by_cases h0 : r.header.totalFrags ≠ m.totalFrags
  · rw [if_pos h0]
    exact ⟨_, m, rfl, hs, hd, Nat.le_refl _⟩
  · rw [if_neg h0]
    obtain ⟨m1, e1, e2, e3, _, _, e6⟩ := accept_ok c P initial m r hs hd hP
    rw [e1]
    refine ⟨_, _, rfl, ?_, ?_, ?_⟩
    · by_cases ha : r.header.requestAck = true <;>
        by_cases ht : m1.useTimer = true <;>
        simp [ha, ht, sendAck, Staged] <;> exact e2
    · by_cases ha : r.header.requestAck = true <;>
        by_cases ht : m1.useTimer = true <;>
        simp [ha, ht, sendAck] <;> exact e3
    · by_cases ha : r.header.requestAck = true <;>
        by_cases ht : m1.useTimer = true <;>
        simp [ha, ht, sendAck] <;> exact e6

theorem receiveAll_ok (c : Constants) (P : Received → Prop) (initial : List PayloadChunk)
    (pkts : List (Received × Nat)) (m : InboundMessage)
    (hs : Staged c P m) (hd : Delivered P initial m.dataBuffer m.firstMissingFrag)
    (hP : ∀ p ∈ pkts, P p.1) :
    ∃ m', receiveAll c m pkts = .ok m' ∧ Staged c P m' ∧
      Delivered P initial m'.dataBuffer m'.firstMissingFrag := by
  induction pkts generalizing m with
  | nil => exact ⟨m, rfl, hs, hd⟩
  | cons p rest ih =>
    obtain ⟨r, now⟩ := p
    obtain ⟨b, m1, e1, e2, e3, _⟩ :=
      processReceivedData_ok c P initial m r now hs hd (hP (r, now) (by simp))
    unfold receiveAll
    rw [e1]
    exact ih m1 e2 e3 (fun p hp => hP p (by simp [hp]))

theorem init_staged (c : Constants) (P : Received → Prop) (m0 : InboundMessage)
    (totalFrags : Nat) (initial : List PayloadChunk) (now : Nat) :
    Staged c P (init c m0 totalFrags initial now) ∧
    Delivered P initial (init c m0 totalFrags initial now).dataBuffer
      (init c m0 totalFrags initial now).firstMissingFrag := by
  have hnone : ∀ (j : Nat) (r : Received),
      ((Window.reset c.MAX_STAGING_FRAGMENTS : Window (Option Received)).advance 1).slots[j]?
        ≠ some (some r) := by
    intro j r h
    have hmem := List.getElem?_mem h
    simp only [Window.advance, Window.reset, List.mem_append, List.drop_replicate] at hmem
    rcases hmem with hmem | hmem
    · have := (List.mem_replicate.mp hmem).2
      exact absurd this (by simp [default])
    · have := (List.mem_replicate.mp hmem).2
      exact absurd this (by simp [default])
  have hlen : ((Window.reset c.MAX_STAGING_FRAGMENTS :
      Window (Option Received)).advance 1).slots.length = c.MAX_STAGING_FRAGMENTS := by
    simp [Window.advance, Window.reset]; omega
  unfold init
  by_cases ht : m0.useTimer = true
  · simp only [reset, ht, if_true]
    exact ⟨⟨by simp [Window.advance, Window.reset], hlen, fun j r h => absurd h (hnone j r)⟩,
      [], by simp, by simp, by simp⟩
  · simp only [reset, ht]
    exact ⟨⟨by simp [Window.advance, Window.reset], hlen, fun j r h => absurd h (hnone j r)⟩,
      [], by simp, by simp, by simp⟩

/-- What `slide` keeps: a fragment number that is at most `firstMissingFrag`
before the loop (it has been appended), or whose slot in the staging window
is occupied, is below `firstMissingFrag` after the loop (appended) or still
has its slot occupied. -/
theorem slide_kept (fuel : Nat) (m m' : InboundMessage) (f : Nat)
    (hoff : m.dataStagingWindow.offset = m.firstMissingFrag + 1)
    (h : slide fuel m = .ok m')
    (hk : f ≤ m.firstMissingFrag ∨ (m.firstMissingFrag < f ∧
      ∃ r, m.dataStagingWindow.slots[f - (m.firstMissingFrag + 1)]? = some (some r))) :
    f < m'.firstMissingFrag ∨ (m'.firstMissingFrag < f ∧
      ∃ r, m'.dataStagingWindow.slots[f - (m'.firstMissingFrag + 1)]? = some (some r)) := by
  induction fuel generalizing m with
  | zero => simp [slide] at h
  | succ fuel ih =>
    obtain ⟨w, hw⟩ : ∃ w, m.dataStagingWindow = w := ⟨_, rfl⟩
    obtain ⟨off, slots⟩ := w
    rw [hw] at hoff hk
    simp only at hoff hk
    unfold slide at h
    simp only [hw, Window.get, Window.advance] at h
    rw [if_neg (by omega)] at h
    have e0 : m.firstMissingFrag + 1 - off = 0 := by omega
    rw [e0] at h
    cases slots with
    | nil =>
      simp only [List.getD_nil] at h
      have hd0 : (default : Option Received) = none := rfl
      rw [hd0] at h
      cases h
      rcases hk with hk | ⟨_, r, hr⟩
      · left; simp only; omega
      · simp at hr
    | cons x xs =>
      have hmin : min 1 (x :: xs).length = 1 := by simp
      rw [hmin] at h
      simp only [List.getD_cons_zero, List.drop_succ_cons, List.drop_zero,
        List.replicate_one] at h
      have hshift : ∀ r, m.firstMissingFrag + 1 < f →
          (x :: xs)[f - (m.firstMissingFrag + 1)]? = some (some r) →
          (xs ++ [(default : Option Received)])[f - (m.firstMissingFrag + 1 + 1)]? =
            some (some r) := by
        intro r hf hr
        have e : f - (m.firstMissingFrag + 1) = (f - (m.firstMissingFrag + 1 + 1)) + 1 := by
          omega
        rw [e, List.getElem?_cons_succ] at hr
        have hlt : f - (m.firstMissingFrag + 1 + 1) < xs.length := by
          by_contra hc
          rw [List.getElem?_eq_none (by omega)] at hr
          cases hr
        rw [List.getElem?_append_left hlt]
        exact hr
      cases x with
      | none =>
        simp only at h
        cases h
        simp only
        rcases hk with hk | ⟨hlt, r, hr⟩
        · left; omega
        · by_cases hf : f = m.firstMissingFrag + 1
          · subst hf
            simp at hr
          · right
            exact ⟨by omega, r, hshift r (by omega) hr⟩
      | some payload =>
        simp only at h
        cases hb : m.dataBuffer with
        | none => rw [hb] at h; cases h
        | some buffer =>
          rw [hb] at h
          simp only at h
          refine ih _ (by simp only; omega) h ?_
          simp only
          rcases hk with hk | ⟨hlt, r, hr⟩
          · left; omega
          · by_cases hf : f = m.firstMissingFrag + 1
            · left; omega
            · right
              exact ⟨by omega, r, hshift r (by omega) hr⟩

/-- What `accept` keeps and what it takes: a fragment number that is appended or
staged stays so, and the packet `r`, if its fragment number is within the
staging window, is appended or staged afterwards. -/
theorem accept_kept (c : Constants) (m m' : InboundMessage) (r : Received)
    (hoff : m.dataStagingWindow.offset = m.firstMissingFrag + 1)
    (hlen : m.dataStagingWindow.slots.length = c.MAX_STAGING_FRAGMENTS)
    (h : accept c m r = .ok m') (f : Nat)
    (hk : (f < m.firstMissingFrag ∨ (m.firstMissingFrag < f ∧
        ∃ r', m.dataStagingWindow.slots[f - (m.firstMissingFrag + 1)]? = some (some r'))) ∨
      (f = r.header.fragNumber ∧
        r.header.fragNumber ≤ m.firstMissingFrag + c.MAX_STAGING_FRAGMENTS)) :
    f < m'.firstMissingFrag ∨ (m'.firstMissingFrag < f ∧
      ∃ r', m'.dataStagingWindow.slots[f - (m'.firstMissingFrag + 1)]? = some (some r')) := by
  unfold accept at h
  by_cases h1 : r.header.fragNumber = m.firstMissingFrag
  · rw [if_pos h1] at h
    cases hb : m.dataBuffer with
    | none => rw [hb] at h; cases h
    | some buffer =>
      rw [hb] at h
      simp only at h
      refine slide_kept _ _ m' f (by simp only; exact hoff) h ?_
      simp only
      rcases hk with (hk | hk) | ⟨hk, _⟩
      · left; omega
      · right; exact hk
      · left; omega
  · rw [if_neg h1] at h
    by_cases h2 : r.header.fragNumber > m.firstMissingFrag
    · rw [if_pos h2] at h
      by_cases h3 : r.header.fragNumber - m.firstMissingFrag > c.MAX_STAGING_FRAGMENTS
      · rw [if_pos h3] at h
        cases h
        rcases hk with hk | ⟨_, hk⟩
        · exact hk
        · omega
      · rw [if_neg h3] at h
        by_cases h4 : (m.dataStagingWindow.get r.header.fragNumber).isNone = true
        · rw [if_pos h4] at h
          cases h
          simp only
          unfold Window.set
          rw [if_neg (by omega)]
          simp only
          rcases hk with (hk | ⟨hlt, r', hr'⟩) | ⟨hk, _⟩
          · left; exact hk
          · right
            refine ⟨hlt, ?_⟩
            rw [List.getElem?_set]
            by_cases hjk : r.header.fragNumber - m.dataStagingWindow.offset =
                f - (m.firstMissingFrag + 1)
            · rw [if_pos hjk]
              have hj : f - (m.firstMissingFrag + 1) < m.dataStagingWindow.slots.length := by
                by_contra hc
                rw [List.getElem?_eq_none (by omega)] at hr'
                cases hr'
              rw [if_pos (by rw [hjk]; exact hj)]
              exact ⟨r, rfl⟩
            · rw [if_neg hjk]
              exact ⟨r', hr'⟩
          · right
            subst hk
            refine ⟨h2, r, ?_⟩
            rw [List.getElem?_set, hoff, if_pos rfl, if_pos (by omega)]
        · rw [if_neg h4] at h
          cases h
          rcases hk with hk | ⟨hk, _⟩
          · exact hk
          · right
            subst hk
            refine ⟨h2, ?_⟩
            unfold Window.get at h4
            rw [if_neg (by omega), hoff] at h4
            cases hg : m.dataStagingWindow.slots[r.header.fragNumber -
                (m.firstMissingFrag + 1)]? with
            | none =>
              rw [List.getD_eq_getElem?_getD, hg] at h4
              exact absurd rfl h4
            | some v =>
              rw [List.getD_eq_getElem?_getD, hg] at h4
              cases v with
              | none => exact absurd rfl h4
              | some r' => exact ⟨r', rfl⟩
    · rw [if_neg h2] at h
      cases h
      rcases hk with hk | ⟨hk, _⟩
      · exact hk
      · left; omega

/-- One call of `processReceivedData` in a state whose staging window is in step:
the call returns, the window stays in step, `totalFrags` stays, fragment
numbers that were appended or staged stay so, and the packet itself, if it has
the `totalFrags` of the message and its fragment number is within the staging
window, is appended or staged. -/
theorem processReceivedData_step (c : Constants) (initial : List PayloadChunk)
    (m : InboundMessage) (r : Received) (now : Nat)
    (hs : Staged c (fun _ => True) m)
    (hd : Delivered (fun _ => True) initial m.dataBuffer m.firstMissingFrag) :
    ∃ b m', processReceivedData c m r now = .ok (b, m') ∧ Staged c (fun _ => True) m' ∧
      Delivered (fun _ => True) initial m'.dataBuffer m'.firstMissingFrag ∧
      m'.totalFrags = m.totalFrags ∧
      ∀ f, ((f < m.firstMissingFrag ∨ (m.firstMissingFrag < f ∧
          ∃ r', m.dataStagingWindow.slots[f - (m.firstMissingFrag + 1)]? = some (some r'))) ∨
        (f = r.header.fragNumber ∧ r.header.totalFrags = m.totalFrags ∧
          r.header.fragNumber ≤ m.firstMissingFrag + c.MAX_STAGING_FRAGMENTS)) →
        (f < m'.firstMissingFrag ∨ (m'.firstMissingFrag < f ∧
          ∃ r', m'.dataStagingWindow.slots[f - (m'.firstMissingFrag + 1)]? =
            some (some r'))) := by
  obtain ⟨b, m', e, hs', hd', _⟩ := processReceivedData_ok c _ initial m r now hs hd trivial
  refine ⟨b, m', e, hs', hd', ?_, ?_⟩
  · unfold processReceivedData at e
    by_cases h0 : r.header.totalFrags ≠ m.totalFrags
    · rw [if_pos h0] at e
      cases e; rfl
    · rw [if_neg h0] at e
      obtain ⟨m1, e1, _, _, e4, _, _⟩ := accept_ok c _ initial m r hs hd trivial
      rw [e1] at e
      simp only [Outcome.ok.injEq, Prod.mk.injEq] at e
      rw [← e.2, ← e4]
      by_cases ha : r.header.requestAck = true <;>
        by_cases ht : m1.useTimer = true <;>
        simp [ha, ht, sendAck]
  · intro f hk
    unfold processReceivedData at e
    by_cases h0 : r.header.totalFrags ≠ m.totalFrags
    · rw [if_pos h0] at e
      cases e
      rcases hk with hk | ⟨_, hk, _⟩
      · exact hk
      · exact absurd hk h0
    · rw [if_neg h0] at e
      obtain ⟨m1, e1, _, _, _, _, _⟩ := accept_ok c _ initial m r hs hd trivial
      rw [e1] at e
      simp only [Outcome.ok.injEq, Prod.mk.injEq] at e
      have hkept := accept_kept c m m1 r hs.1 hs.2.1 e1 f
        (by
          rcases hk with hk | ⟨hk1, _, hk2⟩
          · exact Or.inl hk
          · exact Or.inr ⟨hk1, hk2⟩)
      rw [← e.2]
      by_cases ha : r.header.requestAck = true <;>
        by_cases ht : m1.useTimer = true <;>
        simp [ha, ht, sendAck] <;> exact hkept

theorem receiveAll_kept (c : Constants) (initial : List PayloadChunk)
    (pkts : List (Received × Nat)) (m : InboundMessage)
    (hs : Staged c (fun _ => True) m)
    (hd : Delivered (fun _ => True) initial m.dataBuffer m.firstMissingFrag) :
    ∃ m', receiveAll c m pkts = .ok m' ∧ Staged c (fun _ => True) m' ∧
      Delivered (fun _ => True) initial m'.dataBuffer m'.firstMissingFrag ∧
      m'.totalFrags = m.totalFrags ∧
      ∀ f, (f < m.firstMissingFrag ∨ (m.firstMissingFrag < f ∧
          ∃ r', m.dataStagingWindow.slots[f - (m.firstMissingFrag + 1)]? = some (some r'))) →
        (f < m'.firstMissingFrag ∨ (m'.firstMissingFrag < f ∧
          ∃ r', m'.dataStagingWindow.slots[f - (m'.firstMissingFrag + 1)]? =
            some (some r'))) := by
  induction pkts generalizing m with
  | nil => exact ⟨m, rfl, hs, hd, rfl, fun _ h => h⟩
  | cons p rest ih =>
    obtain ⟨r, now⟩ := p
    obtain ⟨b, m1, e1, hs1, hd1, ht1, hk1⟩ := processReceivedData_step c initial m r now hs hd
    obtain ⟨m', e2, hs2, hd2, ht2, hk2⟩ := ih m1 hs1 hd1
    refine ⟨m', ?_, hs2, hd2, by rw [ht2, ht1], fun f h => hk2 f (hk1 f (Or.inl h))⟩
    unfold receiveAll
    rw [e1]
    exact e2

theorem receiveAll_append_ok (c : Constants) (pre post : List (Received × Nat))
    (m m1 : InboundMessage) (h : receiveAll c m pre = .ok m1) :
    receiveAll c m (pre ++ post) = receiveAll c m1 post := by
  induction pre generalizing m with
  | nil =>
    simp only [receiveAll, Outcome.ok.injEq] at h
    subst h
    rfl
  | cons p rest ih =>
    obtain ⟨r, now⟩ := p
    simp only [List.cons_append]
    unfold receiveAll at h
    conv_lhs => unfold receiveAll
    cases hp : processReceivedData c m r now with
    | ok v =>
      obtain ⟨b, m2⟩ := v
      rw [hp] at h
      simp only at h ⊢
      exact ih m2 h
    | thrown => rw [hp] at h; cases h
    | aborted => rw [hp] at h; cases h
    | undefined => rw [hp] at h; cases h
    | diverges => rw [hp] at h; cases h

theorem init_totalFrags (c : Constants) (m0 : InboundMessage) (totalFrags : Nat)
    (initial : List PayloadChunk) (now : Nat) :
    (init c m0 totalFrags initial now).totalFrags = totalFrags := by
  unfold init
  by_cases ht : m0.useTimer = true <;> simp [reset, ht]

/-- A packet taken in while its fragment number is within the staging window
is, after all the packets that follow it, appended to the buffer or held in the
staging window. -/
theorem receiveAll_progress (c : Constants) (m0 : InboundMessage)
    (totalFrags : Nat) (initial : List PayloadChunk) (now0 : Nat)
    (pre post : List (Received × Nat)) (r : Received) (now : Nat) (m1 : InboundMessage)
    (hpre : receiveAll c (init c m0 totalFrags initial now0) pre = .ok m1)
    (hmatch : r.header.totalFrags = totalFrags)
    (hwin : r.header.fragNumber ≤ m1.firstMissingFrag + c.MAX_STAGING_FRAGMENTS) :
    ∃ m, receiveAll c (init c m0 totalFrags initial now0) (pre ++ (r, now) :: post) = .ok m ∧
      (r.header.fragNumber < m.firstMissingFrag ∨
        (m.firstMissingFrag < r.header.fragNumber ∧
          ∃ r', m.dataStagingWindow.get r.header.fragNumber = some r' ∧
            r'.header.fragNumber = r.header.fragNumber)) := by
  obtain ⟨hs, hd⟩ := init_staged c (fun _ => True) m0 totalFrags initial now0
  obtain ⟨m1', e1, hs1, hd1, ht1, _⟩ := receiveAll_kept c initial pre _ hs hd
  rw [hpre] at e1
  simp only [Outcome.ok.injEq] at e1
  subst e1
  rw [init_totalFrags] at ht1
  obtain ⟨b, m2, e2, hs2, hd2, _, hk2⟩ := processReceivedData_step c initial m1 r now hs1 hd1
  obtain ⟨m, e3, hs3, _, _, hk3⟩ := receiveAll_kept c initial post m2 hs2 hd2
  refine ⟨m, ?_, ?_⟩
  · rw [receiveAll_append_ok c pre _ _ m1 hpre]
    unfold receiveAll
    rw [e2]
    exact e3
  · have hkept := hk3 _ (hk2 r.header.fragNumber (Or.inr ⟨rfl, by rw [hmatch, ht1], hwin⟩))
    rcases hkept with hlt | ⟨hgt, r', hr'⟩
    · exact Or.inl hlt
    · refine Or.inr ⟨hgt, r', ?_, ?_⟩
      · unfold Window.get
        rw [if_neg (by rw [hs3.1]; omega), hs3.1, List.getD_eq_getElem?_getD, hr']
        rfl
      · have := (hs3.2.2 _ r' hr').1
        omega

theorem staged_weaken (c : Constants) (P : Received → Prop) (m : InboundMessage)
    (hs : Staged c P m) : Staged c (fun _ => True) m :=
  ⟨hs.1, hs.2.1, fun j r h => ⟨(hs.2.2 j r h).1, trivial⟩⟩

theorem delivered_weaken (P : Received → Prop) (initial : List PayloadChunk)
    (dataBuffer : Option (List PayloadChunk)) (n : Nat) (hd : Delivered P initial dataBuffer n) :
    Delivered (fun _ => True) initial dataBuffer n := by
  obtain ⟨chunks, h1, h2, h3⟩ := hd
  exact ⟨chunks, h1, h2, fun chunk hc => ⟨(h3 chunk hc).1, trivial⟩⟩

/-- A packet whose `totalFrags` is not that of the message changes nothing, so the
property `P` of the packets staged and appended is only asked of the others. -/
theorem processReceivedData_ok_matching (c : Constants) (P : Received → Prop)
    (initial : List PayloadChunk) (m : InboundMessage) (r : Received) (now : Nat)
    (hs : Staged c P m) (hd : Delivered P initial m.dataBuffer m.firstMissingFrag)
    (hP : r.header.totalFrags = m.totalFrags → P r) :
    ∃ b m', processReceivedData c m r now = .ok (b, m') ∧ Staged c P m' ∧
      Delivered P initial m'.dataBuffer m'.firstMissingFrag ∧
      m'.totalFrags = m.totalFrags := by
  by_cases h0 : r.header.totalFrags = m.totalFrags
  · obtain ⟨b, m', e, hs', hd', _⟩ := processReceivedData_ok c P initial m r now hs hd (hP h0)
    obtain ⟨b2, m2, e2, _, _, ht, _⟩ := processReceivedData_step c initial m r now
      (staged_weaken c P m hs) (delivered_weaken P initial _ _ hd)
    rw [e] at e2
    simp only [Outcome.ok.injEq, Prod.mk.injEq] at e2
    rw [← e2.2] at ht
    exact ⟨b, m', e, hs', hd', ht⟩
  · unfold processReceivedData
    rw [if_pos h0]
    exact ⟨_, m, rfl, hs, hd, rfl⟩

theorem receiveAll_ok_matching (c : Constants) (P : Received → Prop)
    (initial : List PayloadChunk) (totalFrags : Nat)
    (pkts : List (Received × Nat)) (m : InboundMessage)
    (hs : Staged c P m) (hd : Delivered P initial m.dataBuffer m.firstMissingFrag)
    (ht : m.totalFrags = totalFrags)
    (hP : ∀ p ∈ pkts, p.1.header.totalFrags = totalFrags → P p.1) :
    ∃ m', receiveAll c m pkts = .ok m' ∧ Staged c P m' ∧
      Delivered P initial m'.dataBuffer m'.firstMissingFrag := by
  induction pkts generalizing m with
  | nil => exact ⟨m, rfl, hs, hd⟩
  | cons p rest ih =>
    obtain ⟨r, now⟩ := p
    obtain ⟨b, m1, e1, e2, e3, e4⟩ :=
      processReceivedData_ok_matching c P initial m r now hs hd
        (fun h => hP (r, now) (by simp) (by rw [← ht]; exact h))
    unfold receiveAll
    rw [e1]
    exact ih m1 e2 e3 (by rw [e4, ht]) (fun p hp => hP p (by simp [hp]))

/-- C2: an `InboundMessage` initialised with any `totalFrags` processes every
sequence of DATA packets (any order, duplicates, losses, whatever their
`totalFrags` field), each call returning, and afterwards the chunks appended to
the destination buffer are exactly the bodies (header stripped) of received
packets that carry the `totalFrags` of the message and the fragment numbers
`0, 1, ..., firstMissingFrag - 1`, one chunk per fragment, in increasing order.
No packet is lost on the way to the buffer: a packet with the `totalFrags` of
the message that arrives while its fragment number is at most
`MAX_STAGING_FRAGMENTS` above `firstMissingFrag` (as every fragment number up to
`MAX_STAGING_FRAGMENTS` always is) has its fragment number below
`firstMissingFrag` in the end, so that it is among the chunks, or is held in the
staging window above `firstMissingFrag`; `firstMissingFrag` itself is the number
of no such packet, and a message of at most `MAX_STAGING_FRAGMENTS + 1`
fragments all of which have arrived is complete. -/
theorem fragments_delivered_in_order (c : Constants) (m0 : InboundMessage)
    (totalFrags : Nat) (initial : List PayloadChunk) (now0 : Nat)
    (pkts : List (Received × Nat)) :
    ∃ m chunks, receiveAll c (init c m0 totalFrags initial now0) pkts = .ok m ∧
      m.dataBuffer = some (initial ++ chunks) ∧
      chunks.map (fun chunk => chunk.payload.header.fragNumber) =
        List.range m.firstMissingFrag ∧
      (∀ chunk ∈ chunks, chunk.data = chunk.payload.body ∧
        chunk.payload ∈ pkts.map Prod.fst ∧
        chunk.payload.header.totalFrags = totalFrags) ∧
      (∀ pre r now post m1, pkts = pre ++ (r, now) :: post →
        receiveAll c (init c m0 totalFrags initial now0) pre = .ok m1 →
        r.header.totalFrags = totalFrags →
        r.header.fragNumber ≤ m1.firstMissingFrag + c.MAX_STAGING_FRAGMENTS →
        (r.header.fragNumber < m.firstMissingFrag ∨
          (m.firstMissingFrag < r.header.fragNumber ∧
            ∃ r', m.dataStagingWindow.get r.header.fragNumber = some r' ∧
              r'.header.fragNumber = r.header.fragNumber))) ∧
      (∀ p ∈ pkts, p.1.header.totalFrags = totalFrags →
        p.1.header.fragNumber ≤ c.MAX_STAGING_FRAGMENTS →
        (p.1.header.fragNumber < m.firstMissingFrag ∨
          (m.firstMissingFrag < p.1.header.fragNumber ∧
            ∃ r', m.dataStagingWindow.get p.1.header.fragNumber = some r' ∧
              r'.header.fragNumber = p.1.header.fragNumber))) ∧
      (totalFrags ≤ c.MAX_STAGING_FRAGMENTS + 1 →
        (∀ f, f < totalFrags →
          ∃ p ∈ pkts, p.1.header.totalFrags = totalFrags ∧ p.1.header.fragNumber = f) →
        totalFrags ≤ m.firstMissingFrag) := by
  obtain ⟨hs, hd⟩ := init_staged c
    (fun r => r ∈ pkts.map Prod.fst ∧ r.header.totalFrags = totalFrags) m0 totalFrags
    initial now0
  obtain ⟨m, e1, _, chunks, e3, e4, e5⟩ := receiveAll_ok_matching c _ initial totalFrags pkts _
    hs hd (init_totalFrags c m0 totalFrags initial now0)
    (fun p hp h => ⟨List.mem_map_of_mem Prod.fst hp, h⟩)
  have hsplit : ∀ pre r now post m1, pkts = pre ++ (r, now) :: post →
      receiveAll c (init c m0 totalFrags initial now0) pre = .ok m1 →
      r.header.totalFrags = totalFrags →
      r.header.fragNumber ≤ m1.firstMissingFrag + c.MAX_STAGING_FRAGMENTS →
      (r.header.fragNumber < m.firstMissingFrag ∨
        (m.firstMissingFrag < r.header.fragNumber ∧
          ∃ r', m.dataStagingWindow.get r.header.fragNumber = some r' ∧
            r'.header.fragNumber = r.header.fragNumber)) := by
    intro pre r now post m1 hp hpre hmatch hwin
    obtain ⟨m', e, hk⟩ := receiveAll_progress c m0 totalFrags initial now0 pre post r now m1
      hpre hmatch hwin
    rw [← hp, e1] at e
    simp only [Outcome.ok.injEq] at e
    subst e
    exact hk
  have hmem : ∀ p ∈ pkts, p.1.header.totalFrags = totalFrags →
      p.1.header.fragNumber ≤ c.MAX_STAGING_FRAGMENTS →
      (p.1.header.fragNumber < m.firstMissingFrag ∨
        (m.firstMissingFrag < p.1.header.fragNumber ∧
          ∃ r', m.dataStagingWindow.get p.1.header.fragNumber = some r' ∧
            r'.header.fragNumber = p.1.header.fragNumber)) := by
    intro p hp hmatch hlow
    obtain ⟨pre, post, hpp⟩ := List.append_of_mem hp
    obtain ⟨r, now⟩ := p
    obtain ⟨hs0, hd0⟩ := init_staged c (fun _ => True) m0 totalFrags initial now0
    obtain ⟨m1, e, _⟩ := receiveAll_kept c initial pre _ hs0 hd0
    exact hsplit pre r now post m1 hpp e hmatch (by simp only at hlow; omega)
  refine ⟨m, chunks, e1, e3, e4, e5, hsplit, hmem, ?_⟩
  intro hfit hall
  by_contra hc
  obtain ⟨p, hp, hmatch, hfrag⟩ := hall m.firstMissingFrag (by omega)
  have := hmem p hp hmatch (by omega)
  omega

/-- The packets with the fragment numbers 2, 0, 1 of a message of three
fragments: the first is held back in the staging window and all three are
appended in the order 0, 1, 2. -/
theorem fragments_delivered_in_order_witness :
    ∃ m chunks,
      receiveAll OutboundMessage.exampleConstants
        (init OutboundMessage.exampleConstants
          (create OutboundMessage.exampleConstants false) 3 [] 10)
        [(⟨⟨2, 3, false⟩, [30]⟩, 20), (⟨⟨0, 3, false⟩, [10]⟩, 21),
         (⟨⟨1, 3, false⟩, [20]⟩, 22)] = .ok m ∧
      m.dataBuffer = some ([] ++ chunks) ∧
      chunks.map (fun chunk => chunk.payload.header.fragNumber) =
        List.range m.firstMissingFrag ∧
      3 ≤ m.firstMissingFrag ∧
      (receiveAll OutboundMessage.exampleConstants
        (init OutboundMessage.exampleConstants
          (create OutboundMessage.exampleConstants false) 3 [] 10)
        [(⟨⟨2, 3, false⟩, [30]⟩, 20), (⟨⟨0, 3, false⟩, [10]⟩, 21),
         (⟨⟨1, 3, false⟩, [20]⟩, 22)]).toOption.map
          (fun m => (m.firstMissingFrag,
            m.dataBuffer.map (fun b => b.map (fun chunk => chunk.data)))) =
        some (3, some [[10], [20], [30]]) := by
  obtain ⟨m, chunks, h1, h2, h3, _, _, _, h7⟩ :=
    fragments_delivered_in_order OutboundMessage.exampleConstants
      (create OutboundMessage.exampleConstants false) 3 [] 10
      [(⟨⟨2, 3, false⟩, [30]⟩, 20), (⟨⟨0, 3, false⟩, [10]⟩, 21),
       (⟨⟨1, 3, false⟩, [20]⟩, 22)]
  refine ⟨m, chunks, h1, h2, h3, h7 (by decide) ?_, by decide⟩
  intro f hf
  interval_cases f
  · exact ⟨(⟨⟨0, 3, false⟩, [10]⟩, 21), by simp, rfl, rfl⟩
  · exact ⟨(⟨⟨1, 3, false⟩, [20]⟩, 22), by simp, rfl, rfl⟩
  · exact ⟨(⟨⟨2, 3, false⟩, [30]⟩, 20), by simp, rfl, rfl⟩

/-- C6: in every state that `init` and `processReceivedData` calls lead
to, every packet held in slot `j` of the staging window has the fragment
number of that slot, which lies above `firstMissingFrag` and is at most
`firstMissingFrag + MAX_STAGING_FRAGMENTS`; and a DATA packet with a larger
fragment number is processed without being staged: the staging window,
`firstMissingFrag` and the destination buffer stay as they are. -/
theorem staging_window_bounded (c : Constants) (m0 : InboundMessage)
    (totalFrags : Nat) (initial : List PayloadChunk) (now0 : Nat)
    (pkts : List (Received × Nat)) :
    ∃ m, receiveAll c (init c m0 totalFrags initial now0) pkts = .ok m ∧
      (∀ j r, m.dataStagingWindow.slots[j]? = some (some r) →
        r.header.fragNumber = m.dataStagingWindow.offset + j ∧
        m.firstMissingFrag < r.header.fragNumber ∧
        r.header.fragNumber ≤ m.firstMissingFrag + c.MAX_STAGING_FRAGMENTS) ∧
      (∀ r now, m.firstMissingFrag + c.MAX_STAGING_FRAGMENTS < r.header.fragNumber →
        ∃ b m', processReceivedData c m r now = .ok (b, m') ∧
          m'.dataStagingWindow = m.dataStagingWindow ∧
          m'.firstMissingFrag = m.firstMissingFrag ∧ m'.dataBuffer = m.dataBuffer) := by
  obtain ⟨hs, hd⟩ := init_staged c (fun _ => True) m0 totalFrags initial now0
  obtain ⟨m, e1, ⟨hoff, hlen, hslots⟩, _⟩ := receiveAll_ok c _ initial pkts _ hs hd
    (fun _ _ => trivial)
  refine ⟨m, e1, ?_, ?_⟩
  · intro j r h
    have hj : j < m.dataStagingWindow.slots.length := by
      by_contra hcon
      rw [List.getElem?_eq_none (by omega)] at h
      simp at h
    have := (hslots j r h).1
    omega
  · intro r now hr
    unfold processReceivedData
    by_cases h0 : r.header.totalFrags ≠ m.totalFrags
    · rw [if_pos h0]
      exact ⟨_, m, rfl, rfl, rfl, rfl⟩
    · rw [if_neg h0]
      have ha : accept c m r = .ok m := by
        unfold accept
        rw [if_neg (by omega), if_pos (by omega), if_pos (by omega)]
      rw [ha]
      refine ⟨_, _, rfl, ?_, ?_, ?_⟩ <;>
        by_cases hq : r.header.requestAck = true <;>
        by_cases ht : m.useTimer = true <;>
        simp [hq, ht, sendAck]

end InboundMessage
end FastTransport
end RAMCloud

namespace RAMCloud
namespace FastTransport
namespace OutboundMessage

/-! ## The window of an `OutboundMessage` -/

theorem countP_set_le {α : Type} (p : α → Bool) (l : List α) (i : Nat) (v : α)
    (hv : p v = false) : (l.set i v).countP p ≤ l.countP p := by
  induction l generalizing i with
  | nil => simp
  | cons x xs ih =>
    cases i with
    | zero =>
      cases hx : p x <;> simp [List.countP_cons, hv, hx]
    | succ i =>
      simp only [List.set_cons_succ, List.countP_cons]
      have := ih i
      omega

theorem countP_le_set {α : Type} (p : α → Bool) (l : List α) (i : Nat) (v : α)
    (hold : ∀ x, l[i]? = some x → p x = false) : l.countP p ≤ (l.set i v).countP p := by
  induction l generalizing i with
  | nil => simp
  | cons x xs ih =>
    cases i with
    | zero =>
      have hx : p x = false := hold x (by simp)
      cases hpv : p v <;> simp [List.countP_cons, hpv, hx]
    | succ i =>
      simp only [List.set_cons_succ, List.countP_cons]
      have := ih i (fun y hy => hold y (by simpa using hy))
      omega

theorem countP_inFlight_add (acked : Nat) (sent : List Nat)
    (hs : ∀ t ∈ sent, t ≠ 0) :
    sent.countP (fun t => t ≠ 0 ∧ t ≠ acked) + sent.countP (fun t => t = acked) =
      sent.length := by
  induction sent with
  | nil => simp
  | cons x xs ih =>
    have hx : x ≠ 0 := hs x (by simp)
    have := ih (fun t ht => hs t (by simp [ht]))
    by_cases hxa : x = acked
    · rw [List.countP_cons_of_neg _ _ (by simp [hxa]),
        List.countP_cons_of_pos _ _ (by simp [hxa]), List.length_cons]
      omega
    · rw [List.countP_cons_of_pos _ _ (by simp [hxa, hx]),
        List.countP_cons_of_neg _ _ (by simp [hxa]), List.length_cons]
      omega

theorem inFlight_eq (c : Constants) (m : OutboundMessage) (off : Nat) (sent : List Nat)
    (k : Nat) (hw : m.sentTimes = ⟨off, sent ++ List.replicate k 0⟩) :
    inFlight c m = sent.countP (fun t => t ≠ 0 ∧ t ≠ c.ACKED) := by
  unfold inFlight
  rw [hw]
  simp only [List.countP_append]
  have : (List.replicate k 0).countP (fun t => decide (t ≠ 0 ∧ t ≠ c.ACKED)) = 0 := by
    rw [List.countP_eq_zero]
    intro x hx
    have := (List.mem_replicate.mp hx).2
    simp [this]
  omega

theorem inFlight_le_of_windowInv (c : Constants) (m : OutboundMessage)
    (h : WindowInv c m) : inFlight c m ≤ c.WINDOW_SIZE := by
  obtain ⟨sent, k, hw, hs, _, _, _, hI⟩ := h
  rw [inFlight_eq c m _ sent k hw]
  have := countP_inFlight_add c.ACKED sent hs
  omega

theorem list_set_getD_self (l : List Nat) (i : Nat) : l.set i (l.getD i 0) = l := by
  induction l generalizing i with
  | nil => simp
  | cons x xs ih =>
    cases i with
    | zero => simp
    | succ i => simpa using ih i

theorem window_set_get_self (w : Window Nat) (i : Nat) : w.set i (w.get i) = w := by
  unfold Window.set Window.get
  by_cases h : i < w.offset
  · simp [h]
  · simp only [h, if_false]
    have : (default : Nat) = 0 := rfl
    rw [this, list_set_getD_self]

theorem sendLoop_at_time_zero (c : Constants) (cnt frag : Nat) (m : OutboundMessage) :
    (sendLoop c 0 cnt frag m).sentTimes = m.sentTimes ∧
    (sendLoop c 0 cnt frag m).firstMissingFrag = m.firstMissingFrag ∧
    (sendLoop c 0 cnt frag m).numAcked = m.numAcked := by
  induction cnt generalizing frag m with
  | zero => exact ⟨rfl, rfl, rfl⟩
  | succ cnt ih =>
    unfold sendLoop
    simp only
    split
    · exact ih _ _
    · rename_i hskip
      have h0 : m.sentTimes.get frag = 0 := by
        by_contra hne
        exact hskip (Or.inr ⟨hne, Nat.zero_le _⟩)
      have hm2 : (sendOneData c m frag
          (decide (m.sentTimes.get frag ≠ 0) ||
            (m.packetsSinceAckReq == c.REQ_ACK_AFTER - 1 &&
              frag != m.totalFrags - 1))).sentTimes.set frag 0 = m.sentTimes := by
        have := window_set_get_self m.sentTimes frag
        rw [h0] at this
        simpa [sendOneData] using this
      simp only [h0, ne_eq, not_true_eq_false, decide_False, Bool.false_eq_true, if_false]
      obtain ⟨e1, e2, e3⟩ := ih (frag + 1)
        { sendOneData c m frag (false ||
            (m.packetsSinceAckReq == c.REQ_ACK_AFTER - 1 && frag != m.totalFrags - 1)) with
          sentTimes := (sendOneData c m frag (false ||
            (m.packetsSinceAckReq == c.REQ_ACK_AFTER - 1 &&
              frag != m.totalFrags - 1))).sentTimes.set frag 0 }
      rw [e1, e2, e3]
      simp only [h0, ne_eq, not_true_eq_false, decide_False] at hm2
      exact ⟨hm2, rfl, rfl⟩

theorem getD_append_zeros_ne_zero (sent : List Nat) (k p : Nat)
    (h : (sent ++ List.replicate k 0).getD p 0 ≠ 0) : p < sent.length := by
  by_contra hp
  apply h
  rw [List.getD_eq_getElem?_getD, List.getElem?_append_right (by omega),
    List.getElem?_replicate]
  split <;> rfl

theorem sendLoop_window (c : Constants) (hA : c.ACKED ≠ 0) (now : Nat) (hnow : now ≠ 0)
    (cnt frag : Nat) (m : OutboundMessage) (off : Nat) (sent : List Nat) (k : Nat)
    (hw : m.sentTimes = ⟨off, sent ++ List.replicate k 0⟩) (hs : ∀ t ∈ sent, t ≠ 0)
    (hfrag : off ≤ frag) (hp : frag - off ≤ sent.length)
    (hcnt : frag - off + cnt ≤ sent.length + k) :
    ∃ (sent' : List Nat) (k' : Nat),
      (sendLoop c now cnt frag m).sentTimes = ⟨off, sent' ++ List.replicate k' 0⟩ ∧
      (∀ t ∈ sent', t ≠ 0) ∧ sent'.length + k' = sent.length + k ∧
      sent.countP (fun t => t = c.ACKED) ≤ sent'.countP (fun t => t = c.ACKED) ∧
      (sent'.length = sent.length ∨ sent'.length ≤ frag - off + cnt) ∧
      (sendLoop c now cnt frag m).firstMissingFrag = m.firstMissingFrag ∧
      (sendLoop c now cnt frag m).numAcked = m.numAcked := by
  induction cnt generalizing frag m sent k with
  | zero => exact ⟨sent, k, hw, hs, rfl, Nat.le_refl _, Or.inl rfl, rfl, rfl⟩
  | succ cnt ih =>
    have hget : m.sentTimes.get frag = (sent ++ List.replicate k 0).getD (frag - off) 0 := by
      rw [hw]; unfold Window.get; rw [if_neg (by simp; omega)]; rfl
    unfold sendLoop
    simp only
    split
    · rename_i hskip
      have hne : m.sentTimes.get frag ≠ 0 := by
        rcases hskip with h | h
        · rw [h]; exact hA
        · exact h.1
      rw [hget] at hne
      have hlt := getD_append_zeros_ne_zero sent k _ hne
      obtain ⟨sent', k', e1, e2, e3, e4, e5, e6, e7⟩ :=
        ih (frag + 1) m sent k hw hs (by omega) (by omega) (by omega)
      exact ⟨sent', k', e1, e2, e3, e4, by omega, e6, e7⟩
    · rename_i hskip
      by_cases hlt : frag - off < sent.length
      · -- a retransmission
        have hval : m.sentTimes.get frag = sent.getD (frag - off) 0 := by
          rw [hget, List.getD_eq_getElem?_getD, List.getD_eq_getElem?_getD,
            List.getElem?_append_left hlt]
        have hne : m.sentTimes.get frag ≠ 0 := by
          rw [hval, List.getD_eq_getElem?_getD, List.getElem?_eq_getElem hlt]
          exact hs _ (List.getElem_mem _)
        have hnack : m.sentTimes.get frag ≠ c.ACKED := fun h => hskip (Or.inl h)
        simp only [hne, ne_eq, not_false_eq_true, decide_True, Bool.true_or, if_true]
        refine ⟨sent.set (frag - off) now, k, ?_, ?_, by simp, ?_, Or.inl (by simp), rfl, rfl⟩
        · simp only [sendOneData, hw, Window.set]
          rw [if_neg (by omega), List.set_append_left _ _ hlt]
        · intro t ht
          rcases List.mem_or_eq_of_mem_set ht with h | h
          · exact hs t h
          · rw [h]; exact hnow
        · apply countP_le_set
          intro x hx
          rw [hval, List.getD_eq_getElem?_getD, hx] at hnack
          simpa using hnack
      · -- a fragment that has not been sent before
        have hpe : frag - off = sent.length := by omega
        have hk : 0 < k := by omega
        have h0 : m.sentTimes.get frag = 0 := by
          rw [hget, List.getD_eq_getElem?_getD, List.getElem?_append_right (by omega),
            List.getElem?_replicate]
          split <;> rfl
        simp only [h0, ne_eq, not_true_eq_false, decide_False, Bool.false_or,
          Bool.false_eq_true, if_false]
        obtain ⟨k1, hk1⟩ : ∃ k1, k = k1 + 1 := ⟨k - 1, by omega⟩
        have hset : (sent ++ List.replicate k 0).set (frag - off) now =
            (sent ++ [now]) ++ List.replicate k1 0 := by
          rw [List.set_append_right _ _ (by omega), hpe, Nat.sub_self, hk1,
            List.replicate_succ, List.set_cons_zero]
          simp
        obtain ⟨sent', k', e1, e2, e3, e4, e5, e6, e7⟩ :=
          ih (frag + 1)
            { sendOneData c m frag
                (m.packetsSinceAckReq == c.REQ_ACK_AFTER - 1 && frag != m.totalFrags - 1) with
              sentTimes := (sendOneData c m frag
                (m.packetsSinceAckReq == c.REQ_ACK_AFTER - 1 &&
                  frag != m.totalFrags - 1)).sentTimes.set frag now }
            (sent ++ [now]) k1
            (by simp only [sendOneData, hw, Window.set]
                rw [if_neg (by omega), hset])
            (by intro t ht
                simp only [List.mem_append, List.mem_singleton] at ht
                rcases ht with h | h
                · exact hs t h
                · rw [h]; exact hnow)
            (by omega) (by simp; omega) (by simp; omega)
        refine ⟨sent', k', e1, e2, by simp at e3; omega, ?_, ?_, e6, e7⟩
        · have : sent.countP (fun t => t = c.ACKED) ≤
              (sent ++ [now]).countP (fun t => t = c.ACKED) := by
            rw [List.countP_append]; omega
          omega
        · simp at e5; omega

theorem windowInv_of_eq (c : Constants) (m m' : OutboundMessage)
    (h1 : m'.sentTimes = m.sentTimes) (h2 : m'.firstMissingFrag = m.firstMissingFrag)
    (h3 : m'.numAcked = m.numAcked) (h : WindowInv c m) : WindowInv c m' := by
  unfold WindowInv at *
  rw [h1, h2, h3]
  exact h

theorem sendLoop_windowInv (c : Constants) (hA : c.ACKED ≠ 0) (m : OutboundMessage)
    (now : Nat) (h : WindowInv c m) :
    WindowInv c (sendLoop c now (stop c m - m.firstMissingFrag) m.firstMissingFrag m) := by
  by_cases hnow : now = 0
  · subst hnow
    obtain ⟨e1, e2, e3⟩ :=
      sendLoop_at_time_zero c (stop c m - m.firstMissingFrag) m.firstMissingFrag m
    exact windowInv_of_eq c m _ e1 e2 e3 h
  · obtain ⟨sent, k, hw, hs, hlen, hle, hacked, hI⟩ := h
    have hstop1 : stop c m ≤ m.numAcked + c.WINDOW_SIZE := by
      unfold stop; omega
    have hstop2 : stop c m ≤ m.firstMissingFrag + c.MAX_STAGING_FRAGMENTS + 1 := by
      unfold stop; omega
    obtain ⟨sent', k', e1, e2, e3, e4, e5, e6, e7⟩ :=
      sendLoop_window c hA now hnow (stop c m - m.firstMissingFrag) m.firstMissingFrag m
        m.firstMissingFrag sent k hw hs (Nat.le_refl _) (by omega) (by omega)
    refine ⟨sent', k', ?_, e2, by omega, ?_, ?_, ?_⟩
    · rw [e1, e6]
    · rw [e6, e7]; exact hle
    · rw [e6, e7]; omega
    · have hle' := List.countP_le_length (fun t => decide (t = c.ACKED)) (l := sent')
      rcases e5 with e5 | e5
      · omega
      · omega

theorem send_windowInv (c : Constants) (hA : c.ACKED ≠ 0) (m : OutboundMessage) (now : Nat)
    (h : WindowInv c m) : WindowInv c (send c m now) := by
  have h1 := sendLoop_windowInv c hA m now h
  unfold send
  simp only
  split
  · split
    · exact windowInv_of_eq c _ _ rfl rfl rfl h1
    · exact h1
  · exact h1

theorem take_set_of_le (l : List Nat) (n m a : Nat) (h : m ≤ n) :
    (l.set n a).take m = l.take m := by
  induction l generalizing n m with
  | nil => simp
  | cons x xs ih =>
    cases n with
    | zero =>
      have : m = 0 := by omega
      subst this; simp
    | succ n =>
      cases m with
      | zero => simp
      | succ m => simp [ih n m (by omega)]

theorem ackLoop_window (c : Constants) (hA : c.ACKED ≠ 0) (vector cnt i : Nat)
    (m : OutboundMessage) (sent : List Nat) (k : Nat)
    (hw : m.sentTimes = ⟨m.firstMissingFrag, sent ++ List.replicate k 0⟩)
    (hs : ∀ t ∈ sent, t ≠ 0)
    (hbits : ∀ j, i ≤ j → j < i + cnt → (vector >>> j) &&& 1 ≠ 0 → j + 1 < sent.length)
    (hle : m.firstMissingFrag ≤ m.numAcked)
    (hacked : m.numAcked - m.firstMissingFrag ≤
      (sent.take (i + 1)).countP (fun t => t = c.ACKED)) :
    ∃ sent',
      (ackLoop c vector cnt i m).sentTimes =
        ⟨m.firstMissingFrag, sent' ++ List.replicate k 0⟩ ∧
      (∀ t ∈ sent', t ≠ 0) ∧ sent'.length = sent.length ∧
      (ackLoop c vector cnt i m).firstMissingFrag = m.firstMissingFrag ∧
      m.firstMissingFrag ≤ (ackLoop c vector cnt i m).numAcked ∧
      (ackLoop c vector cnt i m).numAcked - m.firstMissingFrag ≤
        sent'.countP (fun t => t = c.ACKED) ∧
      sent'.countP (fun t => t ≠ 0 ∧ t ≠ c.ACKED) ≤
        sent.countP (fun t => t ≠ 0 ∧ t ≠ c.ACKED) := by
  induction cnt generalizing i m sent with
  | zero =>
    refine ⟨sent, hw, hs, rfl, rfl, hle, ?_, Nat.le_refl _⟩
    have := (List.take_sublist (i + 1) sent).countP_le (p := fun t => decide (t = c.ACKED))
    simp only [ackLoop]
    omega
  | succ cnt ih =>
    unfold ackLoop
    split
    · rename_i hbit
      have hlt : i + 1 < sent.length := hbits i (Nat.le_refl _) (by omega) hbit
      have hset : m.sentTimes.set (m.firstMissingFrag + i + 1) c.ACKED =
          ⟨m.firstMissingFrag, sent.set (i + 1) c.ACKED ++ List.replicate k 0⟩ := by
        rw [hw]
        unfold Window.set
        rw [if_neg (by simp; omega)]
        simp only
        have : m.firstMissingFrag + i + 1 - m.firstMissingFrag = i + 1 := by omega
        rw [this, List.set_append_left _ _ hlt]
      have hmem : ∀ t ∈ sent.set (i + 1) c.ACKED, t ≠ 0 := by
        intro t ht
        rcases List.mem_or_eq_of_mem_set ht with h | h
        · exact hs t h
        · rw [h]; exact hA
      have htake : (sent.set (i + 1) c.ACKED).take (i + 1 + 1) =
          sent.take (i + 1) ++ [c.ACKED] := by
        rw [List.take_succ, take_set_of_le _ _ _ _ (Nat.le_refl _),
          List.getElem?_set_self hlt]
        rfl
      obtain ⟨sent', e1, e2, e3, e4, e5, e6, e7⟩ := ih (i + 1)
        { m with sentTimes := m.sentTimes.set (m.firstMissingFrag + i + 1) c.ACKED
                 numAcked := m.numAcked + 1 }
        (sent.set (i + 1) c.ACKED) hset hmem
        (fun j h1 h2 h3 => by
          have := hbits j (by omega) (by omega) h3
          simpa using this)
        (by simp only; omega)
        (by simp only
            rw [htake, List.countP_append]
            simp
            omega)
      refine ⟨sent', e1, e2, by simpa using e3, e4, e5, e6, ?_⟩
      have := countP_set_le (fun t => decide (t ≠ 0 ∧ t ≠ c.ACKED)) sent (i + 1) c.ACKED
        (by simp)
      omega
    · obtain ⟨sent', e1, e2, e3, e4, e5, e6, e7⟩ := ih (i + 1) m sent hw hs
        (fun j h1 h2 h3 => hbits j (by omega) (by omega) h3) hle
        (by
          have := (List.take_sublist_take_left sent
            (show i + 1 ≤ i + 1 + 1 by omega)).countP_le (p := fun t => decide (t = c.ACKED))
          omega)
      exact ⟨sent', e1, e2, e3, e4, e5, e6, e7⟩

theorem ack_windowInv (c : Constants) (hA : c.ACKED ≠ 0) (m : OutboundMessage)
    (a : AckResponse) (h : WindowInv c m) (hh : Honest m a)
    (h1 : ¬ a.firstMissingFrag < m.firstMissingFrag)
    (h2 : ¬ a.firstMissingFrag > m.totalFrags)
    (h3 : ¬ a.firstMissingFrag > m.firstMissingFrag + m.sentTimes.getLength) :
    WindowInv c (ackLoop c a.stagingVector (m.sentTimes.getLength - 1) 0
      { m with sentTimes := m.sentTimes.advance (a.firstMissingFrag - m.firstMissingFrag)
               firstMissingFrag := a.firstMissingFrag
               numAcked := a.firstMissingFrag }) := by
  obtain ⟨sent, k, hw, hs, hlen, hle, hacked, hI⟩ := h
  have hL : m.sentTimes.getLength = sent.length + k := by
    rw [hw]; simp [Window.getLength]
  rw [hL] at h3
  have hadv : m.sentTimes.advance (a.firstMissingFrag - m.firstMissingFrag) =
      ⟨a.firstMissingFrag, sent.drop (a.firstMissingFrag - m.firstMissingFrag) ++
        List.replicate ((k - (a.firstMissingFrag - m.firstMissingFrag - sent.length)) +
          min (a.firstMissingFrag - m.firstMissingFrag) (sent.length + k)) 0⟩ := by
    rw [hw]
    unfold Window.advance
    have hd : (default : Nat) = 0 := rfl
    simp only [List.drop_append_eq_append_drop, List.drop_replicate, List.length_append,
      List.length_replicate, List.append_assoc, hd, List.append_replicate_replicate,
      Window.mk.injEq, and_true]
    omega
  have hhon := hh (by omega) (by omega) (by rw [hL]; omega)
  obtain ⟨sent', e1, e2, e3, e4, e5, e6, e7⟩ := ackLoop_window c hA a.stagingVector
    (m.sentTimes.getLength - 1) 0
    { m with sentTimes := m.sentTimes.advance (a.firstMissingFrag - m.firstMissingFrag)
             firstMissingFrag := a.firstMissingFrag
             numAcked := a.firstMissingFrag }
    (sent.drop (a.firstMissingFrag - m.firstMissingFrag)) _ hadv
    (fun t ht => hs t (List.mem_of_mem_drop ht))
    (fun j _ hj hbit => by
      have hne := hhon j (by omega) hbit
      rw [hw] at hne
      unfold Window.get at hne
      rw [if_neg (by simp; omega)] at hne
      have := getD_append_zeros_ne_zero sent k _ hne
      simp at this ⊢
      omega)
    (Nat.le_refl _) (by simp)
  refine ⟨sent', _, by rw [e1, e4], e2, ?_, by rw [e4]; exact e5, by rw [e4]; exact e6, ?_⟩
  · rw [e3]; simp; omega
  · have hadd := countP_inFlight_add c.ACKED sent' e2
    have hadd0 := countP_inFlight_add c.ACKED sent hs
    have hdrop := (List.drop_sublist (a.firstMissingFrag - m.firstMissingFrag) sent).countP_le
      (p := fun t => decide (t ≠ 0 ∧ t ≠ c.ACKED))
    omega

theorem processReceivedAck_windowInv (c : Constants) (hA : c.ACKED ≠ 0)
    (m : OutboundMessage) (ack : Option AckResponse) (now : Nat) (h : WindowInv c m)
    (hh : ∀ a, ack = some a → Honest m a) :
    WindowInv c (processReceivedAck c m ack now).2 := by
  unfold processReceivedAck
  split
  · exact h
  · cases ack with
    | none => exact h
    | some a =>
      simp only
      apply send_windowInv c hA
      by_cases h1 : a.firstMissingFrag < m.firstMissingFrag
      · rw [if_pos h1]; exact h
      · rw [if_neg h1]
        by_cases h2 : a.firstMissingFrag > m.totalFrags
        · rw [if_pos h2]; exact h
        · rw [if_neg h2]
          by_cases h3 : a.firstMissingFrag > m.firstMissingFrag + m.sentTimes.getLength
          · rw [if_pos h3]; exact h
          · rw [if_neg h3]
            exact ack_windowInv c hA m a h (hh a rfl) h1 h2 h3

theorem windowInv_of_reachable (c : Constants) (hA : c.ACKED ≠ 0) (m : OutboundMessage)
    (h : Reachable c m) : WindowInv c m := by
  induction h with
  | create useTimer =>
    exact ⟨[], c.MAX_STAGING_FRAGMENTS + 1, by simp [create, Window.reset],
      by simp, by simp, Nat.le_refl _, by simp [create], by simp⟩
  | reset _ _ =>
    exact ⟨[], c.MAX_STAGING_FRAGMENTS + 1, by simp [reset, Window.reset],
      by simp, by simp, Nat.le_refl _, by simp [reset], by simp⟩
  | beginSending dataBuffer now _ hb ih =>
    unfold beginSending at hb
    split at hb
    · simp at hb
    · injection hb with hb
      rw [← hb]
      exact send_windowInv c hA _ now (windowInv_of_eq c _ _ rfl rfl rfl ih)
  | send now _ ih => exact send_windowInv c hA _ now ih
  | processReceivedAck ack now _ hh ih =>
    exact processReceivedAck_windowInv c hA _ ack now ih hh

/-- C5 (as amended): in every state of an `OutboundMessage` reached by
`reset`, `beginSending`, `send` at arbitrary times and `processReceivedAck`
calls whose ACKs acknowledge only fragments that have been sent, the number
of fragments whose `sentTimes` entry is neither 0 nor `ACKED` is at most
`WINDOW_SIZE` (`ACKED` being a non-zero value). -/
theorem inFlight_le_window_size (c : Constants) (hA : c.ACKED ≠ 0) (m : OutboundMessage)
    (h : Reachable c m) : inFlight c m ≤ c.WINDOW_SIZE :=
  inFlight_le_of_windowInv c m (windowInv_of_reachable c hA m h)

/-- C5, witness: the bound holds for the message of 40 fragments after
`beginSending`, a reachable state. -/
theorem inFlight_le_window_size_witness :
    inFlight exampleConstants exampleSending ≤ exampleConstants.WINDOW_SIZE :=
  inFlight_le_window_size exampleConstants (by decide) exampleSending
    (Reachable.beginSending (List.replicate 160 0) 50 (Reachable.create true) rfl)

/-- C5, counterexample: after `beginSending` has sent the fragments 0 to 9
of a message of 40 fragments, an ACK that marks the fragments 21 to 30, which
were never sent, as received makes `send()` emit the fragments 10 to 19, and
20 fragments are in flight with `WINDOW_SIZE` 10. -/
theorem forged_ack_exceeds_window :
    beginSending exampleConstants (create exampleConstants true) (List.replicate 160 0) 50 =
      .ok exampleSending ∧
    inFlight exampleConstants exampleSending = 10 ∧
    inFlight exampleConstants
      (processReceivedAck exampleConstants exampleSending (some exampleForgedAck) 60).2 = 20 ∧
    exampleConstants.WINDOW_SIZE = 10 := by
  refine ⟨rfl, ?_, ?_, rfl⟩ <;> decide

end OutboundMessage
end FastTransport
end RAMCloud

namespace RAMCloud
namespace Buffer

/-! ## The bytes of a `Buffer` -/

theorem peekRun_append_rest (chunks : List (List Nat)) (offset : Nat) :
    ∃ rest, chunks.flatten.drop offset = peekRun chunks offset ++ rest := by
  induction chunks generalizing offset with
  | nil => exact ⟨[], by simp [peekRun]⟩
  | cons chunk rest ih =>
    unfold peekRun
    by_cases h : offset < chunk.length
    · rw [if_pos h]
      exact ⟨rest.flatten, by
        rw [List.flatten_cons, List.drop_append_of_le_length (Nat.le_of_lt h)]⟩
    · rw [if_neg h]
      obtain ⟨r, hr⟩ := ih (offset - chunk.length)
      refine ⟨r, ?_⟩
      have hnil : List.drop offset chunk = [] := List.drop_eq_nil_of_le (Nat.le_of_not_lt h)
      rw [List.flatten_cons, List.drop_append_eq_append_drop, hnil, List.nil_append, hr]

theorem copyChunks_eq (chunks : List (List Nat)) (offset length : Nat) :
    copyChunks chunks offset length = (chunks.flatten.drop offset).take length := by
  induction chunks generalizing offset length with
  | nil => simp [copyChunks]
  | cons chunk rest ih =>
    unfold copyChunks
    by_cases h : offset < chunk.length
    · rw [if_pos h, ih, List.flatten_cons, List.drop_append_of_le_length (Nat.le_of_lt h),
        List.take_append_eq_append_take, List.drop_zero, List.length_drop]
      congr 2
      omega
    · have hnil : List.drop offset chunk = [] := List.drop_eq_nil_of_le (Nat.le_of_not_lt h)
      rw [if_neg h, ih, List.flatten_cons, List.drop_append_eq_append_drop, hnil,
        List.nil_append]

theorem totalLength_eq_length_flatten (b : Buffer) : b.totalLength = b.chunks.flatten.length := by
  unfold totalLength
  rw [List.length_flatten]

theorem getRange_eq (b : Buffer) (offset length : Nat) :
    getRange b offset length =
      if length = 0 ∨ offset + length > b.totalLength then none
      else some ((b.chunks.flatten.drop offset).take length) := by
  unfold getRange
  split
  · rfl
  · split
    · rename_i hle
      obtain ⟨rest, hr⟩ := peekRun_append_rest b.chunks offset
      rw [hr, List.take_append_of_le_length hle]
    · rw [copyChunks_eq]

theorem chunks_foldl_step (calls : List Call) (b : Buffer) :
    (calls.foldl step b).chunks = (prepended calls).reverse ++ b.chunks ++ appended calls := by
  induction calls generalizing b with
  | nil => simp [prepended, appended]
  | cons call rest ih =>
    cases call with
    | prepend data => simp [List.foldl_cons, ih, step, prepend, prepended, appended]
    | append data => simp [List.foldl_cons, ih, step, append, prepended, appended]

theorem totalLength_foldl_step (calls : List Call) (b : Buffer) :
    (calls.foldl step b).totalLength =
      b.totalLength + (calls.map (fun call => call.data.length)).sum := by
  induction calls generalizing b with
  | nil => simp
  | cons call rest ih =>
    cases call with
    | prepend data =>
      rw [List.foldl_cons, ih]
      simp only [step, prepend, totalLength, Call.data, List.map_cons, List.sum_cons]
      omega
    | append data =>
      rw [List.foldl_cons, ih]
      simp only [step, append, totalLength, Call.data, List.map_cons, List.sum_cons,
        List.map_append, List.sum_append, List.sum_nil, List.map_nil]
      omega

/-- C3 (as amended): after any sequence of `prepend(ptr, len)` and
`append(ptr, len)` calls on an empty `Buffer`, `totalLength` is the sum of
the lengths, and when it is not zero `getRange(0, totalLength)` yields a
contiguous region whose bytes are the inputs concatenated in buffer order
(the prepended regions in reverse call order, then the appended regions in
call order), whether the range lies in one chunk or spans several; when
`totalLength` is zero (no call, or only regions of length 0),
`getRange(0, totalLength)`, which is `getRange(0, 0)`, returns NULL. -/
theorem totalLength_and_getRange_all (calls : List Call) :
    (run calls).totalLength = (calls.map (fun call => call.data.length)).sum ∧
    (0 < (run calls).totalLength →
      getRange (run calls) 0 (run calls).totalLength = some (expectedBytes calls)) ∧
    ((run calls).totalLength = 0 →
      getRange (run calls) 0 (run calls).totalLength = none ∧
      getRange (run calls) 0 0 = none) := by
  refine ⟨?_, ?_, ?_⟩
  · unfold run
    rw [totalLength_foldl_step]
    simp [empty, totalLength]
  · intro hpos
    rw [getRange_eq, if_neg (by omega)]
    have hc : (run calls).chunks = (prepended calls).reverse ++ appended calls := by
      unfold run
      rw [chunks_foldl_step]
      simp [empty]
    rw [List.drop_zero, totalLength_eq_length_flatten, List.take_length, hc]
    rfl
  · intro hzero
    rw [hzero, getRange_eq, if_pos (Or.inl rfl)]
    exact ⟨rfl, rfl⟩

/-- C3, witness: two appends and two prepends, one of the regions empty. -/
theorem totalLength_and_getRange_all_witness :
    (run [.append [1, 2], .prepend [3], .append [], .prepend [4, 5]]).totalLength =
      ([Call.append [1, 2], .prepend [3], .append [], .prepend [4, 5]].map
        (fun call => call.data.length)).sum ∧
    (0 < (run [.append [1, 2], .prepend [3], .append [], .prepend [4, 5]]).totalLength →
      getRange (run [.append [1, 2], .prepend [3], .append [], .prepend [4, 5]]) 0
          (run [.append [1, 2], .prepend [3], .append [], .prepend [4, 5]]).totalLength =
        some (expectedBytes [.append [1, 2], .prepend [3], .append [], .prepend [4, 5]])) ∧
    ((run [.append [1, 2], .prepend [3], .append [], .prepend [4, 5]]).totalLength = 0 →
      getRange (run [.append [1, 2], .prepend [3], .append [], .prepend [4, 5]]) 0
          (run [.append [1, 2], .prepend [3], .append [], .prepend [4, 5]]).totalLength = none ∧
      getRange (run [.append [1, 2], .prepend [3], .append [], .prepend [4, 5]]) 0 0 = none) :=
  totalLength_and_getRange_all [.append [1, 2], .prepend [3], .append [], .prepend [4, 5]]

/-- C3, counterexample: on a `Buffer` without bytes (no call at all, or
only regions of length 0) `getRange(0, totalLength)` is `getRange(0, 0)`,
which returns the null pointer and no region. -/
theorem getRange_of_empty_buffer_is_null :
    ¬ ∀ calls : List Call,
      getRange (run calls) 0 (run calls).totalLength = some (expectedBytes calls) := by
  intro h
  have := h []
  revert this
  decide

end Buffer
end RAMCloud

namespace RAMCloud
namespace HashTable

theorem hash_lt (key : Nat) : hash key < U64 := by
  unfold hash
  exact Nat.mod_lt _ (by decide)

theorem hashValue_lt (key1 key2 : Nat) : hash key1 ^^^ hash key2 < 2 ^ 64 :=
  Nat.xor_lt_two_pow (hash_lt key1) (hash_lt key2)

theorem findBucket_eq (t : Table) (key1 key2 : Nat) (h1 : 1 ≤ t.numBuckets)
    (h2 : t.numBuckets < 2 ^ 64) :
    (findBucket t key1 key2).1 =
      ((hash key1 ^^^ hash key2) % 2 ^ 48) &&& (t.numBuckets - 1) := by
  have hm : (t.numBuckets + U64 - 1) % U64 = t.numBuckets - 1 := by
    have : t.numBuckets + U64 - 1 = (t.numBuckets - 1) + U64 := by unfold U64; omega
    rw [this, Nat.add_mod_right]
    exact Nat.mod_eq_of_lt (by unfold U64; omega)
  have hc : (0x0000ffffffffffff : Nat) = 2 ^ 48 - 1 := by norm_num
  simp only [findBucket, hm]
  rw [hc, Nat.and_pow_two_sub_one_eq_mod]

/-- In a table whose numBuckets is a power of two not above 2^48, findBucket selects
the bucket with index H mod numBuckets, an index below numBuckets, and reports
the secondary hash H >> 48, the top 16 bits of H. -/
theorem findBucket_of_pow_two (t : Table) (key1 key2 k : Nat)
    (hk : k ≤ 48) (hp : t.numBuckets = 2 ^ k) :
    (findBucket t key1 key2).1 = (hash key1 ^^^ hash key2) % t.numBuckets ∧
    (findBucket t key1 key2).1 < t.numBuckets ∧
    (findBucket t key1 key2).2 = (hash key1 ^^^ hash key2) >>> 48 ∧
    (findBucket t key1 key2).2 = (hash key1 ^^^ hash key2) / 2 ^ 48 ∧
    (findBucket t key1 key2).2 < 2 ^ 16 := by
  have hpos : 1 ≤ t.numBuckets := by rw [hp]; exact Nat.one_le_two_pow
  have hlt : t.numBuckets < 2 ^ 64 := by
    rw [hp]; exact Nat.pow_lt_pow_right (by decide) (by omega)
  have hidx : (findBucket t key1 key2).1 = (hash key1 ^^^ hash key2) % t.numBuckets := by
    rw [findBucket_eq t key1 key2 hpos hlt, hp, Nat.and_pow_two_sub_one_eq_mod]
    exact Nat.mod_mod_of_dvd _ (pow_dvd_pow 2 hk)
  refine ⟨hidx, ?_, rfl, ?_, ?_⟩
  · rw [hidx]; exact Nat.mod_lt _ (by omega)
  · simp [findBucket, Nat.shiftRight_eq_div_pow]
  · have := hashValue_lt key1 key2
    simp only [findBucket, Nat.shiftRight_eq_div_pow]
    omega

end HashTable
end RAMCloud

namespace RAMCloud
namespace HashTable

theorem pred_mod_U64 (n : Nat) (h1 : 1 ≤ n) (h2 : n < 2 ^ 64) :
    (n + U64 - 1) % U64 = n - 1 := by
  have : n + U64 - 1 = (n - 1) + U64 := by unfold U64; omega
  rw [this, Nat.add_mod_right]
  exact Nat.mod_eq_of_lt (by unfold U64; omega)

theorem pow_two_of_and_pred_eq_zero (n : Nat) (h1 : 1 ≤ n) (hz : n &&& (n - 1) = 0) :
    ∃ k, n = 2 ^ k := by
  have hlo : 2 ^ Nat.log2 n ≤ n := Nat.log2_self_le (by omega)
  have hhi : n < 2 ^ (Nat.log2 n + 1) := Nat.lt_log2_self
  generalize Nat.log2 n = k at hlo hhi
  refine ⟨k, ?_⟩
  by_contra hne
  rw [pow_succ] at hhi
  have hr : n - 1 = 2 ^ k + (n - 1 - 2 ^ k) := by omega
  have hr2 : n = 2 ^ k + (n - 2 ^ k) := by omega
  have hb1 : (n - 1).testBit k = true := by
    rw [hr, Nat.testBit_two_pow_add_eq, Nat.testBit_lt_two_pow (by omega)]
    rfl
  have hb2 : n.testBit k = true := by
    rw [hr2, Nat.testBit_two_pow_add_eq, Nat.testBit_lt_two_pow (by omega)]
    rfl
  have : (n &&& (n - 1)).testBit k = true := by
    rw [Nat.testBit_and, hb1, hb2]; rfl
  rw [hz] at this
  simp at this

theorem nearestPowerOfTwoLoop_of_lt (n : Nat) (h1 : 1 ≤ n) (h31 : n < 2 ^ 31) :
    ∀ i, i ≤ 64 → n < 2 ^ i →
      ∃ k, nearestPowerOfTwoLoop n i = .ok (2 ^ k) ∧ 2 ^ k ≤ n ∧ n < 2 ^ (k + 1) := by
  intro i
  induction i with
  | zero => intro _ h; simp at h; omega
  | succ i ih =>
    intro hi hn
    have hs : (1 <<< i) % U64 = 2 ^ i := by
      rw [Nat.one_shiftLeft]
      exact Nat.mod_eq_of_lt (Nat.pow_lt_pow_right (by decide) (by omega))
    simp only [nearestPowerOfTwoLoop, hs]
    by_cases hc : 2 ^ i ≤ n
    · have hi31 : i < 31 := by
        by_contra hge
        have : 2 ^ 31 ≤ 2 ^ i := Nat.pow_le_pow_right (by decide) (by omega)
        omega
      rw [if_pos hc, if_pos hi31, Nat.one_shiftLeft]
      exact ⟨i, rfl, hc, hn⟩
    · rw [if_neg hc]
      exact ih (by omega) (by omega)

/-- Where the `int` shift of `nearestPowerOfTwo` is in range the function is right:
for 1 <= n < 2^31 it returns the largest power of two not above n. -/
theorem nearestPowerOfTwo_of_lt (n : Nat) (h1 : 1 ≤ n) (h31 : n < 2 ^ 31) :
    ∃ k, nearestPowerOfTwo n = .ok (2 ^ k) ∧ 2 ^ k ≤ n ∧ n < 2 ^ (k + 1) := by
  unfold nearestPowerOfTwo
  have hlt : n < 2 ^ 64 := lt_trans h31 (by decide)
  rw [pred_mod_U64 n h1 hlt]
  by_cases hz : n &&& (n - 1) = 0
  · rw [if_pos hz]
    obtain ⟨k, hk⟩ := pow_two_of_and_pred_eq_zero n h1 hz
    refine ⟨k, by rw [hk], by omega, ?_⟩
    rw [hk]; exact Nat.pow_lt_pow_right (by decide) (by omega)
  · rw [if_neg hz]
    exact nearestPowerOfTwoLoop_of_lt n h1 h31 64 (le_refl _) hlt

theorem allocateBuckets_fits (nb : Nat) (h : nb * BYTES_PER_CACHE_LINE < ADDRESS_SPACE_BYTES) :
    allocateBuckets nb =
      .ok (List.replicate nb (List.replicate ENTRIES_PER_CACHE_LINE Entry.clear)) := by
  unfold allocateBuckets
  rw [if_neg (by omega)]

theorem allocateBuckets_too_big (nb : Nat)
    (h : ADDRESS_SPACE_BYTES ≤ nb * BYTES_PER_CACHE_LINE) : allocateBuckets nb = .thrown := by
  unfold allocateBuckets
  rw [if_pos h]

theorem allocateBuckets_ok (nb : Nat) (buckets : List CacheLine)
    (h : allocateBuckets nb = .ok buckets) :
    nb * BYTES_PER_CACHE_LINE < ADDRESS_SPACE_BYTES ∧ buckets.length = nb := by
  unfold allocateBuckets at h
  split at h
  · cases h
  · cases h
    exact ⟨by omega, by simp⟩

/-- What a table that the constructor returns is like: its numBuckets is the
rounded bucket count, which is not 0, and its bucket array has numBuckets cache
lines that fit in the address space. -/
theorem init_ok (numBuckets numTypes : Nat) (t : Table)
    (h : init numBuckets numTypes = .ok t) :
    nearestPowerOfTwo numBuckets = .ok t.numBuckets ∧ numBuckets ≠ 0 ∧
    t.numBuckets * BYTES_PER_CACHE_LINE < ADDRESS_SPACE_BYTES ∧
    t.buckets.length = t.numBuckets := by
  unfold init at h
  cases hnb : nearestPowerOfTwo numBuckets with
  | ok nb =>
    rw [hnb] at h
    simp only at h
    cases ha : allocateBuckets nb with
    | ok buckets =>
      rw [ha] at h
      simp only at h
      obtain ⟨hfit, hlen⟩ := allocateBuckets_ok nb buckets ha
      split at h
      · cases h
      · rename_i h0
        split at h
        · cases h
        · split at h
          · split at h <;> first | (cases h; exact ⟨rfl, h0, hfit, hlen⟩) | cases h
          · cases h; exact ⟨rfl, h0, hfit, hlen⟩
    | thrown => rw [ha] at h; cases h
    | aborted => rw [ha] at h; cases h
    | undefined => rw [ha] at h; cases h
    | diverges => rw [ha] at h; cases h
  | thrown => rw [hnb] at h; cases h
  | aborted => rw [hnb] at h; cases h
  | undefined => rw [hnb] at h; cases h
  | diverges => rw [hnb] at h; cases h

theorem init_numBuckets (numBuckets numTypes : Nat) (t : Table)
    (h : init numBuckets numTypes = .ok t) : nearestPowerOfTwo numBuckets = .ok t.numBuckets :=
  (init_ok numBuckets numTypes t h).1

theorem nearestPowerOfTwoLoop_pow_two (n : Nat) (h1 : 1 ≤ n) :
    ∀ i nb, 1 ≤ i → nearestPowerOfTwoLoop n i = .ok nb → ∃ k, nb = 2 ^ k := by
  intro i
  induction i with
  | zero => intro nb h; omega
  | succ i ih =>
    intro nb _ h
    simp only [nearestPowerOfTwoLoop] at h
    split at h
    · split at h
      · cases h
        exact ⟨i, Nat.one_shiftLeft i⟩
      · cases h
    · rename_i hc
      cases i with
      | zero => exact absurd (by simpa [U64] using h1) hc
      | succ j => exact ih nb (by omega) h

/-- The bucket count of a table that the constructor returns is a power of two
whose bucket array fits in the address space. -/
theorem init_pow_two (numBuckets numTypes : Nat) (t : Table)
    (h : init numBuckets numTypes = .ok t) :
    ∃ k, t.numBuckets = 2 ^ k ∧ k ≤ 40 := by
  obtain ⟨hnb, h0, hfit, _⟩ := init_ok numBuckets numTypes t h
  have hfit2 : t.numBuckets < 2 ^ 41 := by
    have h1 : BYTES_PER_CACHE_LINE = 64 := rfl
    have h2 : ADDRESS_SPACE_BYTES = 2 ^ 47 := rfl
    rw [h1, h2] at hfit
    omega
  have hpow : ∃ k, t.numBuckets = 2 ^ k := by
    unfold nearestPowerOfTwo at hnb
    split at hnb
    · rename_i hz
      cases hnb
      have hlt : t.numBuckets < 2 ^ 64 := lt_trans hfit2 (by decide)
      rw [pred_mod_U64 t.numBuckets (by omega) hlt] at hz
      exact pow_two_of_and_pred_eq_zero t.numBuckets (by omega) hz
    · exact nearestPowerOfTwoLoop_pow_two numBuckets (by omega) 64 _ (by decide) hnb
  obtain ⟨k, hk⟩ := hpow
  refine ⟨k, hk, ?_⟩
  by_contra hc
  have : 2 ^ 41 ≤ 2 ^ k := Nat.pow_le_pow_right (by decide) (by omega)
  omega

/-- C11: with H = hash(key1) XOR hash(key2), in every table that the constructor has
built (t0 is the table as the constructor returned it, t any state of it, the bucket
count never changing), numBuckets is a power of two, findBucket selects the bucket
with index H mod numBuckets, an index below numBuckets, and the secondary hash it
reports is H >> 48, the top 16 bits of H. -/
theorem findBucket_index_and_secondaryHash (numBuckets numTypes : Nat) (t0 t : Table)
    (key1 key2 : Nat) (hinit : init numBuckets numTypes = .ok t0)
    (hsame : t.numBuckets = t0.numBuckets) :
    (∃ k, t.numBuckets = 2 ^ k) ∧
    (findBucket t key1 key2).1 = (hash key1 ^^^ hash key2) % t.numBuckets ∧
    (findBucket t key1 key2).1 < t.numBuckets ∧
    (findBucket t key1 key2).2 = (hash key1 ^^^ hash key2) >>> 48 ∧
    (findBucket t key1 key2).2 = (hash key1 ^^^ hash key2) / 2 ^ 48 ∧
    (findBucket t key1 key2).2 < 2 ^ 16 := by
  obtain ⟨k, hk, hk40⟩ := init_pow_two numBuckets numTypes t0 hinit
  have hp : t.numBuckets = 2 ^ k := by rw [hsame, hk]
  exact ⟨⟨k, hp⟩, findBucket_of_pow_two t key1 key2 k (by omega) hp⟩

/-- Witness for C11: the table of 1024 buckets that `HashTable(1024, 1)` builds and
the key (1, 0). -/
theorem findBucket_index_and_secondaryHash_witness :
    init 1024 1 = .ok exampleKiloTable ∧
    (∃ k, exampleKiloTable.numBuckets = 2 ^ k) ∧
    (findBucket exampleKiloTable 1 0).1 = (hash 1 ^^^ hash 0) % exampleKiloTable.numBuckets ∧
    (findBucket exampleKiloTable 1 0).1 < exampleKiloTable.numBuckets ∧
    (findBucket exampleKiloTable 1 0).2 = (hash 1 ^^^ hash 0) >>> 48 ∧
    (findBucket exampleKiloTable 1 0).2 = (hash 1 ^^^ hash 0) / 2 ^ 48 ∧
    (findBucket exampleKiloTable 1 0).2 < 2 ^ 16 :=
  ⟨by decide,
   findBucket_index_and_secondaryHash 1024 1 exampleKiloTable exampleKiloTable 1 0 (by decide)
     rfl⟩

/-- C12: at the requested bucket count 2^31 + 1 (and at 3 * 2^30 and 2^32 + 1) the
loop of nearestPowerOfTwo finds i = 31 (32) and returns `(1 << i)`, a shift of the
`int` constant 1 that has no value in `int`, although `(1UL << i)` in the test just
before it is right: the call has no defined result, and neither has the constructor. -/
theorem nearestPowerOfTwo_shifts_int_out_of_range :
    nearestPowerOfTwo (2 ^ 31 + 1) = .undefined ∧
    nearestPowerOfTwo (3 * 2 ^ 30) = .undefined ∧
    nearestPowerOfTwo (2 ^ 32 + 1) = .undefined ∧
    init (2 ^ 31 + 1) 1 = .undefined ∧
    nearestPowerOfTwo (2 ^ 31 - 1) = .ok (2 ^ 30) := by
  decide

theorem typeBits_computed (numTypes : Nat) (h1 : 2 ≤ numTypes) (h2 : numTypes ≤ 256) :
    ∃ p2, nearestPowerOfTwo numTypes = .ok p2 ∧
      numTypes ≤ 2 ^ countTypeBits
        (((if p2 ≠ numTypes then (p2 <<< 1) % U64 else p2) + U64 - 1) % U64) ∧
      2 ^ (countTypeBits
        (((if p2 ≠ numTypes then (p2 <<< 1) % U64 else p2) + U64 - 1) % U64) - 1) < numTypes ∧
      countTypeBits
        (((if p2 ≠ numTypes then (p2 <<< 1) % U64 else p2) + U64 - 1) % U64) ≤ 8 := by
  interval_cases numTypes <;> exact ⟨_, rfl, by decide⟩

/-- C13: for every numTypes in 1..256 (and a bucket count that is not 0 and is rounded
to a power of two nb whose bucket array can be allocated) the constructor succeeds
with typeBits = ceil(log2(numTypes)), the least k with numTypes <= 2^k, which is 0
for numTypes = 1 and at most 8; it throws for numBuckets = 0, for numTypes = 0 and
for numTypes > 256, and also when the bucket array does not fit in the address
space. -/
theorem constructor_typeBits_and_throws :
    (∀ numTypes, init 0 numTypes = .thrown) ∧
    (∀ numBuckets nb numTypes, numBuckets ≠ 0 → nearestPowerOfTwo numBuckets = .ok nb →
      ((numTypes = 0 ∨ 256 < numTypes) → init numBuckets numTypes = .thrown) ∧
      (ADDRESS_SPACE_BYTES ≤ nb * BYTES_PER_CACHE_LINE → init numBuckets numTypes = .thrown) ∧
      (1 ≤ numTypes → numTypes ≤ 256 → nb * BYTES_PER_CACHE_LINE < ADDRESS_SPACE_BYTES →
        ∃ t, init numBuckets numTypes = .ok t ∧ t.numBuckets = nb ∧
          t.typeBits = Nat.clog 2 numTypes ∧ t.typeBits ≤ 8 ∧
          (numTypes = 1 → t.typeBits = 0) ∧
          numTypes ≤ 2 ^ t.typeBits ∧ ∀ k, numTypes ≤ 2 ^ k → t.typeBits ≤ k)) := by
  refine ⟨?_, ?_⟩
  · intro numTypes
    have h : nearestPowerOfTwo 0 = .ok 0 := by decide
    have ha : allocateBuckets 0 = .ok [] := by decide
    simp [init, h, ha]
  · intro numBuckets nb numTypes h0 hnb
    have hm : MAX_NUMTYPES = 256 := by decide
    refine ⟨?_, ?_, ?_⟩
    · intro h
      by_cases hfit : nb * BYTES_PER_CACHE_LINE < ADDRESS_SPACE_BYTES
      · simp only [init, hnb, allocateBuckets_fits nb hfit, if_neg h0, hm]
        rw [if_pos h]
      · simp only [init, hnb, allocateBuckets_too_big nb (by omega)]
    · intro hbig
      simp only [init, hnb, allocateBuckets_too_big nb hbig]
    · intro h1 h256 hfit
      have hv : ¬ (numTypes = 0 ∨ 256 < numTypes) := by omega
      by_cases hone : numTypes = 1
      · subst hone
        refine ⟨_, by simp only [init, hnb, allocateBuckets_fits nb hfit, if_neg h0, hm]; rfl,
          rfl, ?_, ?_, ?_, ?_, ?_⟩
        · simp
        · simp
        · intro _; rfl
        · simp
        · intro k _; simp
      · have h2 : 2 ≤ numTypes := by omega
        obtain ⟨p2, hp2, hle, hlt, h8⟩ := typeBits_computed numTypes h2 h256
        have h2p : 1 < numTypes := h2
        obtain ⟨t, ht, htn, htb⟩ : ∃ t, init numBuckets numTypes = .ok t ∧ t.numBuckets = nb ∧
            t.typeBits = countTypeBits
              (((if p2 ≠ numTypes then (p2 <<< 1) % U64 else p2) + U64 - 1) % U64) := by
          refine ⟨{ numBuckets := nb
                    numTypes := numTypes
                    typeBits := countTypeBits
                      (((if p2 ≠ numTypes then (p2 <<< 1) % U64 else p2) + U64 - 1) % U64)
                    buckets :=
                      List.replicate nb (List.replicate ENTRIES_PER_CACHE_LINE Entry.clear)
                    heap := [] }, ?_, rfl, rfl⟩
          simp only [init, hnb, allocateBuckets_fits nb hfit, if_neg h0, hm, if_neg hv,
            if_pos h2p, hp2]
        rw [← htb] at hle hlt h8
        refine ⟨t, ht, htn, ?_, h8, ?_, hle, ?_⟩
        · apply le_antisymm
          · by_contra hc
            have hc2 : Nat.clog 2 numTypes ≤ t.typeBits - 1 := by omega
            have := (Nat.le_pow_iff_clog_le (by decide : 1 < 2)).mpr hc2
            omega
          · exact (Nat.le_pow_iff_clog_le (by decide : 1 < 2)).mp hle
        · intro h; omega
        · intro k hk
          by_contra hc
          have : 2 ^ k ≤ 2 ^ (t.typeBits - 1) :=
            Nat.pow_le_pow_right (by decide) (by omega)
          omega

/-- Witness for C13: HashTable(16, 5) has 16 buckets and typeBits 3. -/
theorem constructor_typeBits_and_throws_witness :
    ∃ t, init 16 5 = .ok t ∧ t.numBuckets = 16 ∧
      t.typeBits = Nat.clog 2 5 ∧ t.typeBits ≤ 8 ∧
      (5 = 1 → t.typeBits = 0) ∧
      5 ≤ 2 ^ t.typeBits ∧ ∀ k, 5 ≤ 2 ^ k → t.typeBits ≤ k :=
  (constructor_typeBits_and_throws.2 16 16 5 (by decide) (by decide)).2.2 (by decide) (by decide)
    (by decide)

end HashTable
end RAMCloud

namespace RAMCloud
namespace FastTransport

theorem OutboundMessage.sendLoop_frame (c : Constants) (now : Nat) (cnt frag : Nat)
    (m : OutboundMessage) :
    (OutboundMessage.sendLoop c now cnt frag m).totalFrags = m.totalFrags ∧
    (OutboundMessage.sendLoop c now cnt frag m).firstMissingFrag = m.firstMissingFrag ∧
    (OutboundMessage.sendLoop c now cnt frag m).numAcked = m.numAcked ∧
    (OutboundMessage.sendLoop c now cnt frag m).sendBuffer = m.sendBuffer ∧
    (OutboundMessage.sendLoop c now cnt frag m).useTimer = m.useTimer ∧
    (OutboundMessage.sendLoop c now cnt frag m).sentTimes.offset = m.sentTimes.offset ∧
    (OutboundMessage.sendLoop c now cnt frag m).sentTimes.slots.length =
      m.sentTimes.slots.length := by
  induction cnt generalizing frag m with
  | zero => simp [OutboundMessage.sendLoop]
  | succ n ih =>
    simp only [OutboundMessage.sendLoop]
    split
    · exact ih _ _
    · have hset : ∀ v, ((OutboundMessage.sendOneData c m frag v).sentTimes.set frag now).offset =
            m.sentTimes.offset ∧
          ((OutboundMessage.sendOneData c m frag v).sentTimes.set frag now).slots.length =
            m.sentTimes.slots.length := by
        intro v
        simp only [OutboundMessage.sendOneData, Window.set]
        split <;> simp
      split
      · exact ⟨rfl, rfl, rfl, rfl, rfl, (hset _).1, (hset _).2⟩
      · obtain ⟨a, b, c1, d, e, f, g⟩ := ih (frag + 1)
          { OutboundMessage.sendOneData c m frag
              (decide (m.sentTimes.get frag ≠ 0) ||
                (m.packetsSinceAckReq == c.REQ_ACK_AFTER - 1 && frag != m.totalFrags - 1)) with
            sentTimes := (OutboundMessage.sendOneData c m frag
              (decide (m.sentTimes.get frag ≠ 0) ||
                (m.packetsSinceAckReq == c.REQ_ACK_AFTER - 1 &&
                  frag != m.totalFrags - 1))).sentTimes.set frag now }
        exact ⟨a, b, c1, d, e, f.trans (hset _).1, g.trans (hset _).2⟩

theorem OutboundMessage.send_frame (c : Constants) (m : OutboundMessage) (now : Nat) :
    (OutboundMessage.send c m now).totalFrags = m.totalFrags ∧
    (OutboundMessage.send c m now).firstMissingFrag = m.firstMissingFrag ∧
    (OutboundMessage.send c m now).numAcked = m.numAcked ∧
    (OutboundMessage.send c m now).sendBuffer = m.sendBuffer ∧
    (OutboundMessage.send c m now).sentTimes =
      (OutboundMessage.sendLoop c now (OutboundMessage.stop c m - m.firstMissingFrag)
        m.firstMissingFrag m).sentTimes ∧
    (OutboundMessage.send c m now).packets =
      (OutboundMessage.sendLoop c now (OutboundMessage.stop c m - m.firstMissingFrag)
        m.firstMissingFrag m).packets ∧
    (OutboundMessage.send c m now).packetsSinceAckReq =
      (OutboundMessage.sendLoop c now (OutboundMessage.stop c m - m.firstMissingFrag)
        m.firstMissingFrag m).packetsSinceAckReq := by
  obtain ⟨a, b, c1, d, _, _, _⟩ := OutboundMessage.sendLoop_frame c now
    (OutboundMessage.stop c m - m.firstMissingFrag) m.firstMissingFrag m
  simp only [OutboundMessage.send]
  split
  · split
    · exact ⟨a, b, c1, d, rfl, rfl, rfl⟩
    · exact ⟨a, b, c1, d, rfl, rfl, rfl⟩
  · exact ⟨a, b, c1, d, rfl, rfl, rfl⟩

/-- C15 (amended): for every total length L and fragment capacity F >= 1 for which
L + F - 1 fits in 32 bits, numFrags returns ceil(L / F), the number n with
L <= n * F < L + F, and beginSending on an inactive message records it as totalFrags. -/
theorem numFrags_ceiling_and_totalFrags (c : Constants) (L : Nat)
    (hF : 1 ≤ c.dataPerFragment) (hL : L + c.dataPerFragment - 1 < 2 ^ 32) :
    numFrags c L = (L + c.dataPerFragment - 1) / c.dataPerFragment ∧
    L ≤ numFrags c L * c.dataPerFragment ∧
    numFrags c L * c.dataPerFragment < L + c.dataPerFragment ∧
    ∀ (m : OutboundMessage) (dataBuffer : List Nat) (now : Nat),
      dataBuffer.length = L → m.sendBuffer = none →
      ∃ m', OutboundMessage.beginSending c m dataBuffer now = .ok m' ∧
        m'.totalFrags = numFrags c L ∧ m'.sendBuffer = some dataBuffer := by
  have h1 : numFrags c L = (L + c.dataPerFragment - 1) / c.dataPerFragment := by
    unfold numFrags
    rw [Nat.mod_eq_of_lt hL]
  have hdm := Nat.div_add_mod (L + c.dataPerFragment - 1) c.dataPerFragment
  have hml := Nat.mod_lt (L + c.dataPerFragment - 1) (show 0 < c.dataPerFragment by omega)
  rw [← h1] at hdm
  rw [Nat.mul_comm] at hdm
  refine ⟨h1, by omega, by omega, ?_⟩
  intro m dataBuffer now hlen hnone
  refine ⟨OutboundMessage.send c { m with sendBuffer := some dataBuffer
                                          totalFrags := numFrags c dataBuffer.length } now,
    by simp [OutboundMessage.beginSending, hnone], ?_, ?_⟩
  · rw [(OutboundMessage.send_frame c _ now).1, hlen]
  · rw [(OutboundMessage.send_frame c _ now).2.2.2.1]

/-- Witness for C15: 160 bytes in fragments of 4 bytes. -/
theorem numFrags_ceiling_and_totalFrags_witness :
    numFrags OutboundMessage.exampleConstants 160 = (160 + 4 - 1) / 4 ∧
    160 ≤ numFrags OutboundMessage.exampleConstants 160 * 4 ∧
    numFrags OutboundMessage.exampleConstants 160 * 4 < 160 + 4 ∧
    ∀ (m : OutboundMessage) (dataBuffer : List Nat) (now : Nat),
      dataBuffer.length = 160 → m.sendBuffer = none →
      ∃ m', OutboundMessage.beginSending OutboundMessage.exampleConstants m dataBuffer now
          = .ok m' ∧
        m'.totalFrags = numFrags OutboundMessage.exampleConstants 160 ∧
        m'.sendBuffer = some dataBuffer :=
  numFrags_ceiling_and_totalFrags OutboundMessage.exampleConstants 160 (by decide) (by decide)

/-- C15 as stated fails: for the 32-bit length L = 4294967290 and F = 1400 the sum
L + F - 1 wraps around to 1393 and numFrags returns 0, while ceil(L / F) is 3067834. -/
theorem numFrags_wraps_around :
    numFrags { OutboundMessage.exampleConstants with dataPerFragment := 1400 } 4294967290 = 0 ∧
    4294967290 < 2 ^ 32 ∧ (4294967290 + 1400 - 1) / 1400 = 3067834 ∧
    ¬ (4294967290 ≤
      numFrags { OutboundMessage.exampleConstants with dataPerFragment := 1400 } 4294967290
        * 1400) := by
  decide

namespace InboundMessage

end InboundMessage
end FastTransport
end RAMCloud

namespace RAMCloud
namespace FastTransport
namespace OutboundMessage

theorem window_get_set (w : Window Nat) (i j v : Nat) :
    (w.set i v).get j =
      if i = j ∧ w.offset ≤ i ∧ i - w.offset < w.slots.length then v else w.get j := by
  unfold Window.set Window.get
  by_cases hi : i < w.offset
  · have : ¬ (i = j ∧ w.offset ≤ i ∧ i - w.offset < w.slots.length) := by omega
    simp [hi, this]
  · simp only [if_neg hi]
    by_cases hj : j < w.offset
    · have : ¬ (i = j ∧ w.offset ≤ i ∧ i - w.offset < w.slots.length) := by omega
      simp [hj, this]
    · simp only [if_neg hj]
      by_cases hij : i = j
      · subst hij
        by_cases hl : i - w.offset < w.slots.length
        · have : (i = i ∧ w.offset ≤ i ∧ i - w.offset < w.slots.length) := ⟨rfl, by omega, hl⟩
          simp [this, List.getD_eq_getElem?_getD, List.getElem?_set, hl]
        · have : ¬ (i = i ∧ w.offset ≤ i ∧ i - w.offset < w.slots.length) := by omega
          rw [if_neg this]
          have hn : w.slots[i - w.offset]? = none := List.getElem?_eq_none (by omega)
          simp [List.getD_eq_getElem?_getD, List.getElem?_set, hl, hn]
      · have : ¬ (i = j ∧ w.offset ≤ i ∧ i - w.offset < w.slots.length) := by omega
        rw [if_neg this]
        have hne : i - w.offset ≠ j - w.offset := by omega
        simp [List.getD_eq_getElem?_getD, List.getElem?_set, hne]

theorem sendLoop_acked (c : Constants) (now : Nat) (hnow : now ≠ c.ACKED) (cnt frag : Nat)
    (m : OutboundMessage) (f : Nat) :
    (sendLoop c now cnt frag m).sentTimes.get f = c.ACKED ↔ m.sentTimes.get f = c.ACKED := by
  induction cnt generalizing frag m with
  | zero => simp [sendLoop]
  | succ n ih =>
    simp only [sendLoop]
    split
    · exact ih _ _
    · rename_i hskip
      have hna : m.sentTimes.get frag ≠ c.ACKED := fun h => hskip (Or.inl h)
      have hstep : ∀ v, ((sendOneData c m frag v).sentTimes.set frag now).get f = c.ACKED ↔
          m.sentTimes.get f = c.ACKED := by
        intro v
        have hs : (sendOneData c m frag v).sentTimes = m.sentTimes := rfl
        rw [hs, window_get_set]
        split
        · rename_i h
          obtain ⟨h1, _, _⟩ := h
          subst h1
          constructor
          · intro h; exact absurd h hnow
          · intro h; exact absurd h hna
        · rfl
      split
      · exact hstep _
      · rw [ih]
        exact hstep _

theorem ackLoop_frame (c : Constants) (vector cnt i : Nat) (m : OutboundMessage) :
    (ackLoop c vector cnt i m).firstMissingFrag = m.firstMissingFrag ∧
    (ackLoop c vector cnt i m).totalFrags = m.totalFrags ∧
    (ackLoop c vector cnt i m).sendBuffer = m.sendBuffer ∧
    (ackLoop c vector cnt i m).packets = m.packets ∧
    (ackLoop c vector cnt i m).packetsSinceAckReq = m.packetsSinceAckReq := by
  induction cnt generalizing i m with
  | zero => simp [ackLoop]
  | succ n ih =>
    simp only [ackLoop]
    split
    · obtain ⟨a, b, c1, d, e⟩ := ih (i + 1)
        { m with sentTimes := m.sentTimes.set (m.firstMissingFrag + i + 1) c.ACKED
                 numAcked := m.numAcked + 1 }
      exact ⟨a, b, c1, d, e⟩
    · exact ih _ _

theorem processReceivedAck_firstMissingFrag (c : Constants) (m : OutboundMessage)
    (ack : Option AckResponse) (now : Nat) :
    (processReceivedAck c m ack now).2.totalFrags = m.totalFrags ∧
    m.firstMissingFrag ≤ (processReceivedAck c m ack now).2.firstMissingFrag ∧
    (m.firstMissingFrag ≤ m.totalFrags →
      (processReceivedAck c m ack now).2.firstMissingFrag ≤ m.totalFrags) := by
  unfold processReceivedAck
  split
  · exact ⟨rfl, le_refl _, id⟩
  · cases ack with
    | none => exact ⟨rfl, le_refl _, id⟩
    | some a =>
      simp only
      rw [(send_frame c _ now).1, (send_frame c _ now).2.1]
      split
      · exact ⟨rfl, le_refl _, id⟩
      · split
        · exact ⟨rfl, le_refl _, id⟩
        · split
          · exact ⟨rfl, le_refl _, id⟩
          · rw [(ackLoop_frame c _ _ _ _).1, (ackLoop_frame c _ _ _ _).2.1]
            simp only
            refine ⟨trivial, by omega, fun _ => by omega⟩

/-- C17: processReceivedAck on an ACK packet that is too short, stale, beyond
totalFrags or beyond firstMissingFrag plus the length of the sentTimes window leaves
firstMissingFrag, numAcked and the set of fragments marked ACKED as they are (the time
of the call is a time stamp, not the mark ACKED); and under any sequence of ACK
packets firstMissingFrag never decreases and, once it is at most totalFrags, never
exceeds totalFrags, which does not change. -/
theorem ignored_ack_and_firstMissingFrag_monotone (c : Constants) (m : OutboundMessage)
    (hfm : m.firstMissingFrag ≤ m.totalFrags) :
    (∀ ack now, now ≠ c.ACKED → Ignored m ack →
      (processReceivedAck c m ack now).2.firstMissingFrag = m.firstMissingFrag ∧
      (processReceivedAck c m ack now).2.numAcked = m.numAcked ∧
      ∀ f, (processReceivedAck c m ack now).2.sentTimes.get f = c.ACKED ↔
        m.sentTimes.get f = c.ACKED) ∧
    (∀ acks, m.firstMissingFrag ≤ (processAcks c m acks).firstMissingFrag ∧
      (processAcks c m acks).firstMissingFrag ≤ (processAcks c m acks).totalFrags ∧
      (processAcks c m acks).totalFrags = m.totalFrags) := by
  refine ⟨?_, ?_⟩
  · intro ack now hnow hig
    have hsend : (send c m now).firstMissingFrag = m.firstMissingFrag ∧
        (send c m now).numAcked = m.numAcked ∧
        ∀ f, (send c m now).sentTimes.get f = c.ACKED ↔ m.sentTimes.get f = c.ACKED := by
      refine ⟨(send_frame c m now).2.1, (send_frame c m now).2.2.1, ?_⟩
      intro f
      rw [(send_frame c m now).2.2.2.2.1]
      exact sendLoop_acked c now hnow _ _ m f
    unfold processReceivedAck
    split
    · exact ⟨rfl, rfl, fun _ => Iff.rfl⟩
    · rcases hig with h | ⟨a, ha, h⟩
      · subst h; exact ⟨rfl, rfl, fun _ => Iff.rfl⟩
      · subst ha
        simp only
        by_cases h1 : a.firstMissingFrag < m.firstMissingFrag
        · rw [if_pos h1]; exact hsend
        · rw [if_neg h1]
          by_cases h2 : a.firstMissingFrag > m.totalFrags
          · rw [if_pos h2]; exact hsend
          · rw [if_neg h2]
            have h3 : a.firstMissingFrag > m.firstMissingFrag + m.sentTimes.getLength := by
              rcases h with h | h | h
              · exact absurd h h1
              · exact absurd h h2
              · exact h
            rw [if_pos h3]; exact hsend
  · intro acks
    induction acks generalizing m with
    | nil => exact ⟨le_refl _, hfm, rfl⟩
    | cons x rest ih =>
      obtain ⟨ack, now⟩ := x
      obtain ⟨ht, hmono, hle⟩ := processReceivedAck_firstMissingFrag c m ack now
      have := ih (processReceivedAck c m ack now).2 (by rw [ht]; exact hle hfm)
      simp only [processAcks]
      rw [ht] at this
      exact ⟨le_trans hmono this.1, this.2.1, this.2.2⟩

end OutboundMessage
end FastTransport
end RAMCloud

namespace RAMCloud
namespace FastTransport
namespace OutboundMessage

/-- Witness for C17: the message of 40 fragments ignores an ACK for fragment 41. -/
theorem ignored_ack_and_firstMissingFrag_monotone_witness :
    ((processReceivedAck exampleConstants exampleSending (some ⟨41, 0⟩) 60).2.firstMissingFrag
        = exampleSending.firstMissingFrag ∧
      (processReceivedAck exampleConstants exampleSending (some ⟨41, 0⟩) 60).2.numAcked
        = exampleSending.numAcked ∧
      ∀ f, (processReceivedAck exampleConstants exampleSending (some ⟨41, 0⟩) 60).2.sentTimes.get f
          = exampleConstants.ACKED ↔
        exampleSending.sentTimes.get f = exampleConstants.ACKED) ∧
    (exampleSending.firstMissingFrag ≤
        (processAcks exampleConstants exampleSending
          [(some ⟨41, 0⟩, 60), (some ⟨3, 5⟩, 70)]).firstMissingFrag ∧
      (processAcks exampleConstants exampleSending
          [(some ⟨41, 0⟩, 60), (some ⟨3, 5⟩, 70)]).firstMissingFrag ≤
        (processAcks exampleConstants exampleSending
          [(some ⟨41, 0⟩, 60), (some ⟨3, 5⟩, 70)]).totalFrags ∧
      (processAcks exampleConstants exampleSending
          [(some ⟨41, 0⟩, 60), (some ⟨3, 5⟩, 70)]).totalFrags = exampleSending.totalFrags) :=
  ⟨(ignored_ack_and_firstMissingFrag_monotone exampleConstants exampleSending (by decide)).1
      (some ⟨41, 0⟩) 60 (by decide)
      (Or.inr ⟨⟨41, 0⟩, rfl, Or.inr (Or.inl (by decide))⟩),
   (ignored_ack_and_firstMissingFrag_monotone exampleConstants exampleSending (by decide)).2
      [(some ⟨41, 0⟩, 60), (some ⟨3, 5⟩, 70)]⟩

theorem sendLoop_emits_due (c : Constants) (now : Nat) (cnt frag : Nat) (m : OutboundMessage) :
    ∃ new, (sendLoop c now cnt frag m).packets = m.packets ++ new ∧
      ∀ p ∈ new, frag ≤ p.fragNumber ∧ m.sentTimes.get p.fragNumber ≠ c.ACKED ∧
        (m.sentTimes.get p.fragNumber = 0 ∨
          (m.sentTimes.get p.fragNumber + c.timeoutCycles) % U64 < now) := by
  induction cnt generalizing frag m with
  | zero => exact ⟨[], by simp [sendLoop], by simp⟩
  | succ n ih =>
    simp only [sendLoop]
    split
    · obtain ⟨new, h1, h2⟩ := ih (frag + 1) m
      exact ⟨new, h1, fun p hp => ⟨by have := (h2 p hp).1; omega, (h2 p hp).2⟩⟩
    · rename_i hskip
      have hdue : m.sentTimes.get frag ≠ c.ACKED ∧ (m.sentTimes.get frag = 0 ∨
          (m.sentTimes.get frag + c.timeoutCycles) % U64 < now) := by
        refine ⟨fun h => hskip (Or.inl h), ?_⟩
        by_cases h0 : m.sentTimes.get frag = 0
        · exact Or.inl h0
        · right
          by_contra hc
          exact hskip (Or.inr ⟨h0, by omega⟩)
      split
      · refine ⟨[_], rfl, ?_⟩
        intro p hp
        simp only [List.mem_singleton] at hp
        subst hp
        exact ⟨le_refl _, hdue⟩
      · obtain ⟨new, h1, h2⟩ := ih (frag + 1)
          { sendOneData c m frag
              (decide (m.sentTimes.get frag ≠ 0) ||
                (m.packetsSinceAckReq == c.REQ_ACK_AFTER - 1 && frag != m.totalFrags - 1)) with
            sentTimes := (sendOneData c m frag
              (decide (m.sentTimes.get frag ≠ 0) ||
                (m.packetsSinceAckReq == c.REQ_ACK_AFTER - 1 &&
                  frag != m.totalFrags - 1))).sentTimes.set frag now }
        refine ⟨⟨frag, m.totalFrags, (decide (m.sentTimes.get frag ≠ 0) ||
                (m.packetsSinceAckReq == c.REQ_ACK_AFTER - 1 && frag != m.totalFrags - 1)),
            ((m.sendBuffer.getD []).drop (frag * c.dataPerFragment)).take c.dataPerFragment⟩ ::
              new, ?_, ?_⟩
        · rw [h1]; simp [sendOneData]
        · intro p hp
          rcases List.mem_cons.mp hp with hp | hp
          · subst hp
            exact ⟨le_refl _, hdue⟩
          · obtain ⟨ha, hb⟩ := h2 p hp
            have hs : ∀ v, (sendOneData c m frag v).sentTimes = m.sentTimes := fun _ => rfl
            simp only [hs, window_get_set] at hb
            have hne : ¬ (frag = p.fragNumber ∧ m.sentTimes.offset ≤ frag ∧
                frag - m.sentTimes.offset < m.sentTimes.slots.length) := by omega
            rw [if_neg hne] at hb
            exact ⟨by omega, hb⟩

theorem sendLoop_retransmits (c : Constants) (now f : Nat) (cnt frag : Nat)
    (m : OutboundMessage) (hlo : frag ≤ f) (hhi : f < frag + cnt)
    (hoff : m.sentTimes.offset ≤ f) (hlen : f - m.sentTimes.offset < m.sentTimes.slots.length)
    (hsent : m.sentTimes.get f ≠ 0) (hnack : m.sentTimes.get f ≠ c.ACKED)
    (hto : (m.sentTimes.get f + c.timeoutCycles) % U64 < now)
    (hfirst : ∀ g, frag ≤ g → g < f → m.sentTimes.get g = 0 ∨ m.sentTimes.get g = c.ACKED ∨
      (m.sentTimes.get g + c.timeoutCycles) % U64 ≥ now) :
    ∃ fresh, (sendLoop c now cnt frag m).packets = m.packets ++ fresh ++
        [⟨f, m.totalFrags, true,
          ((m.sendBuffer.getD []).drop (f * c.dataPerFragment)).take c.dataPerFragment⟩] ∧
      (∀ p ∈ fresh, frag ≤ p.fragNumber ∧ p.fragNumber < f ∧
        m.sentTimes.get p.fragNumber = 0) ∧
      (sendLoop c now cnt frag m).sentTimes.get f = now ∧
      (sendLoop c now cnt frag m).packetsSinceAckReq = 0 := by
  induction cnt generalizing frag m with
  | zero => omega
  | succ n ih =>
    simp only [sendLoop]
    by_cases hf : frag = f
    · subst hf
      have hskip : ¬ (m.sentTimes.get frag = c.ACKED ∨
          (m.sentTimes.get frag ≠ 0 ∧ (m.sentTimes.get frag + c.timeoutCycles) % U64 ≥ now)) := by
        rintro (h | ⟨_, h⟩)
        · exact hnack h
        · omega
      rw [if_neg hskip]
      have hre : decide (m.sentTimes.get frag ≠ 0) = true := by simpa using hsent
      simp only [hre, Bool.true_or, if_true]
      refine ⟨[], by simp [sendOneData], by simp, ?_, by simp [sendOneData]⟩
      have hs : (sendOneData c m frag true).sentTimes = m.sentTimes := rfl
      rw [hs, window_get_set]
      simp [hoff, hlen]
    · have hlt : frag < f := by omega
      split
      · obtain ⟨fresh, h1, h2, h3, h4⟩ := ih (frag + 1) m (by omega) (by omega) hoff hlen hsent
          hnack hto (fun g hg1 hg2 => hfirst g (by omega) hg2)
        exact ⟨fresh, h1, fun p hp => ⟨by have := (h2 p hp).1; omega, (h2 p hp).2⟩, h3, h4⟩
      · rename_i hskip
        have h0 : m.sentTimes.get frag = 0 := by
          rcases hfirst frag (le_refl _) hlt with h | h | h
          · exact h
          · exact absurd (Or.inl h) hskip
          · by_contra hne
            exact hskip (Or.inr ⟨hne, h⟩)
        have hre : decide (m.sentTimes.get frag ≠ 0) = false := by simp [h0]
        simp only [hre, Bool.false_or]
        have hs : ∀ v, (sendOneData c m frag v).sentTimes = m.sentTimes := fun _ => rfl
        have hget : ∀ v g, g ≠ frag →
            ((sendOneData c m frag v).sentTimes.set frag now).get g = m.sentTimes.get g := by
          intro v g hg
          rw [hs, window_get_set]
          have : ¬ (frag = g ∧ m.sentTimes.offset ≤ frag ∧
              frag - m.sentTimes.offset < m.sentTimes.slots.length) := by
            rintro ⟨h, _⟩; exact hg h.symm
          rw [if_neg this]
        have hoff2 : ∀ v, ((sendOneData c m frag v).sentTimes.set frag now).offset =
            m.sentTimes.offset := by
          intro v; rw [hs]; unfold Window.set; split <;> rfl
        have hlen2 : ∀ v, ((sendOneData c m frag v).sentTimes.set frag now).slots.length =
            m.sentTimes.slots.length := by
          intro v; rw [hs]; unfold Window.set; split <;> simp
        simp only [Bool.false_eq_true, if_false]
        obtain ⟨fresh, h1, h2, h3, h4⟩ := ih (frag + 1)
          { sendOneData c m frag
              (m.packetsSinceAckReq == c.REQ_ACK_AFTER - 1 && frag != m.totalFrags - 1) with
            sentTimes := (sendOneData c m frag
              (m.packetsSinceAckReq == c.REQ_ACK_AFTER - 1 &&
                frag != m.totalFrags - 1)).sentTimes.set frag now }
          (by omega) (by omega)
          (by simp only [hoff2]; exact hoff) (by simp only [hoff2, hlen2]; exact hlen)
          (by simp only [hget _ f (by omega)]; exact hsent)
          (by simp only [hget _ f (by omega)]; exact hnack)
          (by simp only [hget _ f (by omega)]; exact hto)
          (by
            intro g hg1 hg2
            simp only [hget _ g (by omega)]
            exact hfirst g (by omega) hg2)
        refine ⟨⟨frag, m.totalFrags,
            (m.packetsSinceAckReq == c.REQ_ACK_AFTER - 1 && frag != m.totalFrags - 1),
            ((m.sendBuffer.getD []).drop (frag * c.dataPerFragment)).take c.dataPerFragment⟩ ::
              fresh, ?_, ?_, h3, h4⟩
        · rw [h1]; simp [sendOneData]
        · intro p hp
          rcases List.mem_cons.mp hp with hp | hp
          · subst hp
            exact ⟨le_refl _, hlt, h0⟩
          · obtain ⟨hz, ha, hc⟩ := h2 p hp
            rw [hget _ p.fragNumber (by omega)] at hc
            exact ⟨by omega, ha, hc⟩

end OutboundMessage
end FastTransport
end RAMCloud

namespace RAMCloud
namespace FastTransport
namespace OutboundMessage

/-- C19: in every call of send() on a message whose sentTimes window is in step with
firstMissingFrag, the fragment f of the candidate range that was sent before, is not
ACKED and whose sentTime + timeoutCycles (in 64-bit arithmetic) is earlier than the
current time, the first such fragment that the loop comes to, is re-emitted with
requestAck = 1; it is the last packet of the call, so that no fragment with a higher
number is emitted in that same call, and it comes after fragments below f that had
never been sent; its sentTime becomes the current time and packetsSinceAckReq
becomes 0.  In every call, no fragment that is ACKED or was sent less than a timeout
ago is emitted. -/
theorem send_retransmits_lowest_timed_out (c : Constants) (m : OutboundMessage) (now : Nat) :
    (∀ f, m.sentTimes.offset = m.firstMissingFrag →
      m.sentTimes.getLength = c.MAX_STAGING_FRAGMENTS + 1 →
      m.firstMissingFrag ≤ f → f < stop c m →
      m.sentTimes.get f ≠ 0 → m.sentTimes.get f ≠ c.ACKED →
      (m.sentTimes.get f + c.timeoutCycles) % U64 < now →
      (∀ g, m.firstMissingFrag ≤ g → g < f →
        m.sentTimes.get g = 0 ∨ m.sentTimes.get g = c.ACKED ∨
          (m.sentTimes.get g + c.timeoutCycles) % U64 ≥ now) →
      (∃ fresh, (send c m now).packets = m.packets ++ fresh ++
          [⟨f, m.totalFrags, true,
            ((m.sendBuffer.getD []).drop (f * c.dataPerFragment)).take c.dataPerFragment⟩] ∧
        ∀ p ∈ fresh, p.fragNumber < f ∧ m.sentTimes.get p.fragNumber = 0) ∧
      (send c m now).sentTimes.get f = now ∧
      (send c m now).packetsSinceAckReq = 0) ∧
    (∃ new, (send c m now).packets = m.packets ++ new ∧
      ∀ p ∈ new, m.sentTimes.get p.fragNumber ≠ c.ACKED ∧
        (m.sentTimes.get p.fragNumber = 0 ∨
          (m.sentTimes.get p.fragNumber + c.timeoutCycles) % U64 < now)) := by
  refine ⟨?_, ?_⟩
  · intro f hoff hlen hlo hhi hsent hnack hto hfirst
    have hstop : stop c m ≤ m.firstMissingFrag + c.MAX_STAGING_FRAGMENTS + 1 := by
      unfold stop; exact Nat.min_le_right _ _
    have hl : m.sentTimes.slots.length = c.MAX_STAGING_FRAGMENTS + 1 := hlen
    obtain ⟨fresh, h1, h2, h3, h4⟩ := sendLoop_retransmits c now f
      (stop c m - m.firstMissingFrag) m.firstMissingFrag m hlo (by omega) (by omega) (by omega)
      hsent hnack hto hfirst
    rw [(send_frame c m now).2.2.2.2.1, (send_frame c m now).2.2.2.2.2.1,
      (send_frame c m now).2.2.2.2.2.2]
    exact ⟨⟨fresh, h1, fun p hp => (h2 p hp).2⟩, h3, h4⟩
  · obtain ⟨new, h1, h2⟩ := sendLoop_emits_due c now (stop c m - m.firstMissingFrag)
      m.firstMissingFrag m
    rw [(send_frame c m now).2.2.2.2.2.1]
    exact ⟨new, h1, fun p hp => (h2 p hp).2⟩

/-- Witness for C19: fragments 0 to 9 of a message were sent at time 50; at time 2000,
with a timeout of 1000 cycles, send() emits fragment 0 again. -/
theorem send_retransmits_lowest_timed_out_witness :
    (∃ fresh, (send exampleConstants exampleSending 2000).packets =
        exampleSending.packets ++ fresh ++
          [⟨0, exampleSending.totalFrags, true,
            ((exampleSending.sendBuffer.getD []).drop (0 * exampleConstants.dataPerFragment)).take
              exampleConstants.dataPerFragment⟩] ∧
        ∀ p ∈ fresh, p.fragNumber < 0 ∧ exampleSending.sentTimes.get p.fragNumber = 0) ∧
      (send exampleConstants exampleSending 2000).sentTimes.get 0 = 2000 ∧
      (send exampleConstants exampleSending 2000).packetsSinceAckReq = 0 :=
  (send_retransmits_lowest_timed_out exampleConstants exampleSending 2000).1 0
    (by decide) (by decide) (by decide) (by decide) (by decide) (by decide) (by decide)
    (fun g _ h => absurd h (Nat.not_lt_zero g))

/-- One call of send() re-emits one fragment: fragments 0 to 9 were all sent at time 50
and none is ACKED; at time 2000 send() emits fragment 0 again and, as no fragment
with a higher number is emitted in that call, leaves the sentTime of fragment 1,
which has timed out as well, at 50. -/
theorem send_skips_second_timed_out_fragment :
    exampleSending.firstMissingFrag ≤ 1 ∧ 1 < stop exampleConstants exampleSending ∧
    exampleSending.sentTimes.get 1 = 50 ∧ (50 : Nat) ≠ exampleConstants.ACKED ∧
    (50 + exampleConstants.timeoutCycles) % U64 < 2000 ∧
    (send exampleConstants exampleSending 2000).packets =
      exampleSending.packets ++ [⟨0, 40, true, [0, 0, 0, 0]⟩] ∧
    (send exampleConstants exampleSending 2000).sentTimes.get 1 = 50 := by
  decide

end OutboundMessage
end FastTransport
end RAMCloud

namespace RAMCloud
namespace FastTransport
namespace OutboundMessage

theorem sinceAckOrLast_append (l : List DataPacket) (p : DataPacket) :
    sinceAckOrLast (l ++ [p]) =
      if p.requestAck = true ∨ p.fragNumber + 1 = p.totalFrags then 0
      else sinceAckOrLast l + 1 := by
  simp [sinceAckOrLast, List.foldl_append]

theorem sinceAckOrLast_append_run (a w : List DataPacket)
    (h : ∀ p ∈ w, ¬ (p.requestAck = true ∨ p.fragNumber + 1 = p.totalFrags)) :
    sinceAckOrLast (a ++ w) = sinceAckOrLast a + w.length := by
  induction w using List.reverseRecOn with
  | nil => simp
  | append_singleton w p ih =>
    rw [← List.append_assoc, sinceAckOrLast_append, if_neg (h p (by simp)),
      ih (fun q hq => h q (by simp [hq]))]
    simp; omega

theorem paced_append (c : Constants) (l : List DataPacket) (p : DataPacket)
    (hl : Paced c l) (hp : sinceAckOrLast (l ++ [p]) < c.REQ_ACK_AFTER) :
    Paced c (l ++ [p]) := by
  intro a w b hab hw
  rcases List.eq_nil_or_concat b with hb | ⟨b', q, hb⟩
  · subst hb
    by_contra hne
    simp only [not_exists, not_and] at hne
    rw [List.append_nil] at hab
    rw [hab, sinceAckOrLast_append_run a w (fun x hx => hne x hx)] at hp
    omega
  · subst hb
    have h1 : l ++ [p] = (a ++ w ++ b') ++ [q] := by rw [hab]; simp
    have h2 := List.append_inj_left' h1 rfl
    exact hl a w b' h2 hw

theorem window_get_advance (w : Window Nat) (d f : Nat) (h1 : w.offset + d ≤ f) :
    (w.advance d).get f = w.get f := by
  have hd : (default : Nat) = 0 := rfl
  unfold Window.advance Window.get
  simp only
  rw [if_neg (by omega), if_neg (by omega)]
  rw [List.getD_eq_getElem?_getD, List.getD_eq_getElem?_getD]
  by_cases hlt : f - w.offset < w.slots.length
  · rw [List.getElem?_append_left (by simp; omega), List.getElem?_drop]
    congr 2
    omega
  · rw [List.getElem?_eq_none (l := w.slots) (by omega)]
    by_cases hlt2 : f - (w.offset + d) < (w.slots.drop d).length
    · simp at hlt2; omega
    · rw [List.getElem?_append_right (by omega), List.getElem?_replicate]
      split <;> simp [hd]

theorem ackLoop_nonzero (c : Constants) (hA : c.ACKED ≠ 0) (vector cnt i : Nat)
    (m : OutboundMessage) :
    (ackLoop c vector cnt i m).sentTimes.offset = m.sentTimes.offset ∧
    (ackLoop c vector cnt i m).sentTimes.slots.length = m.sentTimes.slots.length ∧
    ∀ f, m.sentTimes.get f ≠ 0 → (ackLoop c vector cnt i m).sentTimes.get f ≠ 0 := by
  induction cnt generalizing i m with
  | zero => simp [ackLoop]
  | succ n ih =>
    simp only [ackLoop]
    split
    · obtain ⟨a, b, d⟩ := ih (i + 1)
        { m with sentTimes := m.sentTimes.set (m.firstMissingFrag + i + 1) c.ACKED
                 numAcked := m.numAcked + 1 }
      refine ⟨?_, ?_, ?_⟩
      · rw [a]; simp only [Window.set]; split <;> rfl
      · rw [b]; simp only [Window.set]; split <;> simp
      · intro f hf
        apply d
        simp only [window_get_set]
        split
        · exact hA
        · exact hf
    · exact ih _ _

theorem sendLoop_pacing (c : Constants) (hA : c.ACKED ≠ 0) (hR : 1 ≤ c.REQ_ACK_AFTER)
    (now : Nat) (hnow : now ≠ 0) (cnt frag : Nat) (m : OutboundMessage)
    (hoff : m.sentTimes.offset = m.firstMissingFrag)
    (hfrag : m.firstMissingFrag ≤ frag)
    (htot : frag + cnt ≤ m.totalFrags)
    (hwin : frag + cnt ≤ m.sentTimes.offset + m.sentTimes.slots.length)
    (hV : ∀ f, m.firstMissingFrag ≤ f → f < frag → m.sentTimes.get f ≠ 0)
    (htr : sinceAckOrLast m.packets ≤ m.packetsSinceAckReq)
    (hJ : m.packetsSinceAckReq + 1 ≤ c.REQ_ACK_AFTER ∨
      ∀ f, m.firstMissingFrag ≤ f → f < m.totalFrags → m.sentTimes.get f ≠ 0)
    (hP : Paced c m.packets) :
    sinceAckOrLast (sendLoop c now cnt frag m).packets ≤
        (sendLoop c now cnt frag m).packetsSinceAckReq ∧
    ((sendLoop c now cnt frag m).packetsSinceAckReq + 1 ≤ c.REQ_ACK_AFTER ∨
      ∀ f, m.firstMissingFrag ≤ f → f < m.totalFrags →
        (sendLoop c now cnt frag m).sentTimes.get f ≠ 0) ∧
    Paced c (sendLoop c now cnt frag m).packets := by
  induction cnt generalizing frag m with
  | zero => exact ⟨htr, hJ, hP⟩
  | succ n ih =>
    simp only [sendLoop]
    split
    · rename_i hskip
      have hne : m.sentTimes.get frag ≠ 0 := by
        rcases hskip with h | h
        · rw [h]; exact hA
        · exact h.1
      refine ih (frag + 1) m hoff (by omega) (by omega) (by omega) ?_ htr hJ hP
      intro f h1 h2
      by_cases hf : f = frag
      · subst hf; exact hne
      · exact hV f h1 (by omega)
    · rename_i hskip
      have hs : ∀ v, (sendOneData c m frag v).sentTimes = m.sentTimes := fun _ => rfl
      have hin : m.sentTimes.offset ≤ frag ∧
          frag - m.sentTimes.offset < m.sentTimes.slots.length := by omega
      have hget : ∀ v f, ((sendOneData c m frag v).sentTimes.set frag now).get f =
          if f = frag then now else m.sentTimes.get f := by
        intro v f
        rw [hs, window_get_set]
        by_cases hf : f = frag
        · subst hf; simp [hin]
        · have : ¬ (frag = f ∧ m.sentTimes.offset ≤ frag ∧
              frag - m.sentTimes.offset < m.sentTimes.slots.length) := by
            rintro ⟨h, _⟩; exact hf h.symm
          rw [if_neg this, if_neg hf]
      have hnz : ∀ v f, m.sentTimes.get f ≠ 0 →
          ((sendOneData c m frag v).sentTimes.set frag now).get f ≠ 0 := by
        intro v f hf
        rw [hget]
        split
        · exact hnow
        · exact hf
      by_cases hre : m.sentTimes.get frag ≠ 0
      · -- a retransmission
        have hd : decide (m.sentTimes.get frag ≠ 0) = true := by simpa using hre
        simp only [hd, Bool.true_or, if_true]
        have hsa : sinceAckOrLast (m.packets ++ [⟨frag, m.totalFrags, true,
            ((m.sendBuffer.getD []).drop (frag * c.dataPerFragment)).take
              c.dataPerFragment⟩]) = 0 := by
          rw [sinceAckOrLast_append]; simp
        refine ⟨?_, Or.inl ?_, ?_⟩
        · simp only [sendOneData]; rw [hsa]; exact Nat.zero_le _
        · simp only [sendOneData]; simpa using hR
        · simp only [sendOneData]
          exact paced_append c _ _ hP (by rw [hsa]; omega)
      · -- a fragment that has not been sent before
        have h0 : m.sentTimes.get frag = 0 := by simpa using hre
        have hd : decide (m.sentTimes.get frag ≠ 0) = false := by simp [h0]
        simp only [hd, Bool.false_or, Bool.false_eq_true, if_false]
        have hJ1 : m.packetsSinceAckReq + 1 ≤ c.REQ_ACK_AFTER := by
          rcases hJ with h | h
          · exact h
          · exact absurd h0 (h frag hfrag (by omega))
        have key : ∀ m2 : OutboundMessage,
            m2 = { sendOneData c m frag
                (m.packetsSinceAckReq == c.REQ_ACK_AFTER - 1 && frag != m.totalFrags - 1) with
              sentTimes := (sendOneData c m frag
                (m.packetsSinceAckReq == c.REQ_ACK_AFTER - 1 &&
                  frag != m.totalFrags - 1)).sentTimes.set frag now } →
            sinceAckOrLast (sendLoop c now n (frag + 1) m2).packets ≤
                (sendLoop c now n (frag + 1) m2).packetsSinceAckReq ∧
            ((sendLoop c now n (frag + 1) m2).packetsSinceAckReq + 1 ≤ c.REQ_ACK_AFTER ∨
              ∀ f, m.firstMissingFrag ≤ f → f < m.totalFrags →
                (sendLoop c now n (frag + 1) m2).sentTimes.get f ≠ 0) ∧
            Paced c (sendLoop c now n (frag + 1) m2).packets := by
          intro m2 hm2
          have e_fmf : m2.firstMissingFrag = m.firstMissingFrag := by rw [hm2]; rfl
          have e_tot : m2.totalFrags = m.totalFrags := by rw [hm2]; rfl
          have e_off : m2.sentTimes.offset = m.sentTimes.offset := by
            rw [hm2]; simp only [hs, Window.set]; split <;> rfl
          have e_len : m2.sentTimes.slots.length = m.sentTimes.slots.length := by
            rw [hm2]; simp only [hs, Window.set]; split <;> simp
          have e_get : ∀ f, m2.sentTimes.get f = if f = frag then now else m.sentTimes.get f := by
            intro f; rw [hm2]; exact hget _ f
          have e_pk : m2.packets = m.packets ++ [⟨frag, m.totalFrags,
              (m.packetsSinceAckReq == c.REQ_ACK_AFTER - 1 && frag != m.totalFrags - 1),
              ((m.sendBuffer.getD []).drop (frag * c.dataPerFragment)).take
                c.dataPerFragment⟩] := by rw [hm2]; rfl
          have e_ps : m2.packetsSinceAckReq =
              if (m.packetsSinceAckReq == c.REQ_ACK_AFTER - 1 && frag != m.totalFrags - 1) = true
              then 0 else m.packetsSinceAckReq + 1 := by rw [hm2]; rfl
          have hV2 : ∀ f, m2.firstMissingFrag ≤ f → f < frag + 1 → m2.sentTimes.get f ≠ 0 := by
            intro f h1 h2
            rw [e_get]
            split
            · exact hnow
            · exact hV f (by omega) (by omega)
          -- the packet just emitted and the counters
          have hcases : sinceAckOrLast m2.packets ≤ m2.packetsSinceAckReq ∧
              (m2.packetsSinceAckReq + 1 ≤ c.REQ_ACK_AFTER ∨
                ∀ f, m2.firstMissingFrag ≤ f → f < m2.totalFrags → m2.sentTimes.get f ≠ 0) ∧
              sinceAckOrLast m2.packets < c.REQ_ACK_AFTER := by
            rw [e_pk, sinceAckOrLast_append, e_ps]
            simp only
            by_cases hlast : frag + 1 = m.totalFrags
            · have hb : (m.packetsSinceAckReq == c.REQ_ACK_AFTER - 1 &&
                  frag != m.totalFrags - 1) = false := by
                have : frag = m.totalFrags - 1 := by omega
                simp [this]
              rw [hb]
              simp only [Bool.false_eq_true, false_or, if_pos hlast, if_false]
              refine ⟨Nat.zero_le _, Or.inr ?_, by omega⟩
              intro f h1 h2
              exact hV2 f h1 (by rw [e_tot] at h2; omega)
            · by_cases hq : m.packetsSinceAckReq = c.REQ_ACK_AFTER - 1
              · have hb : (m.packetsSinceAckReq == c.REQ_ACK_AFTER - 1 &&
                    frag != m.totalFrags - 1) = true := by
                  have : frag ≠ m.totalFrags - 1 := by omega
                  simp [hq, this]
                rw [hb]
                simp only [true_or, if_true]
                exact ⟨Nat.zero_le _, Or.inl (by omega), by omega⟩
              · have hb : (m.packetsSinceAckReq == c.REQ_ACK_AFTER - 1 &&
                    frag != m.totalFrags - 1) = false := by
                  simp [hq]
                rw [hb]
                simp only [Bool.false_eq_true, false_or, if_neg hlast, if_false]
                exact ⟨by omega, Or.inl (by omega), by omega⟩
          obtain ⟨c1, c2, c3⟩ := hcases
          have hP2 : Paced c m2.packets := by
            rw [e_pk] at c3 ⊢
            exact paced_append c _ _ hP c3
          have := ih (frag + 1) m2 (by rw [e_off, e_fmf]; exact hoff) (by rw [e_fmf]; omega)
            (by rw [e_tot]; omega) (by rw [e_off, e_len]; omega) hV2 c1 c2 hP2
          rw [e_fmf, e_tot] at this
          exact this
        exact key _ rfl

end OutboundMessage
end FastTransport
end RAMCloud

namespace RAMCloud
namespace FastTransport
namespace OutboundMessage

theorem send_pacingInv (c : Constants) (hA : c.ACKED ≠ 0) (hR : 1 ≤ c.REQ_ACK_AFTER)
    (m : OutboundMessage) (now : Nat) (hnow : now ≠ 0) (h : PacingInv c m) :
    PacingInv c (send c m now) := by
  obtain ⟨hoff, hlen, htr, hJ, hP⟩ := h
  obtain ⟨f1, f2, _, _, _, f6, f7⟩ := sendLoop_frame c now (stop c m - m.firstMissingFrag)
    m.firstMissingFrag m
  obtain ⟨s1, s2, _, _, s5, s6, s7⟩ := send_frame c m now
  unfold PacingInv
  rw [s1, s2, s5, s6, s7, f6, f7]
  refine ⟨hoff, hlen, ?_⟩
  by_cases hc : stop c m ≤ m.firstMissingFrag
  · have h0 : stop c m - m.firstMissingFrag = 0 := by omega
    rw [h0]
    exact ⟨htr, hJ, hP⟩
  · have hst1 : stop c m ≤ m.totalFrags := by
      unfold stop; exact le_trans (Nat.min_le_left _ _) (Nat.min_le_left _ _)
    have hst2 : stop c m ≤ m.firstMissingFrag + c.MAX_STAGING_FRAGMENTS + 1 := by
      unfold stop; exact Nat.min_le_right _ _
    exact sendLoop_pacing c hA hR now hnow (stop c m - m.firstMissingFrag) m.firstMissingFrag m
      hoff (le_refl _) (by omega) (by omega) (fun f h1 h2 => by omega) htr hJ hP

theorem processReceivedAck_pacingInv (c : Constants) (hA : c.ACKED ≠ 0)
    (hR : 1 ≤ c.REQ_ACK_AFTER) (m : OutboundMessage) (ack : Option AckResponse) (now : Nat)
    (hnow : now ≠ 0) (h : PacingInv c m) :
    PacingInv c (processReceivedAck c m ack now).2 := by
  unfold processReceivedAck
  split
  · exact h
  · cases ack with
    | none => exact h
    | some a =>
      simp only
      apply send_pacingInv c hA hR _ now hnow
      by_cases h1 : a.firstMissingFrag < m.firstMissingFrag
      · rw [if_pos h1]; exact h
      · rw [if_neg h1]
        by_cases h2 : a.firstMissingFrag > m.totalFrags
        · rw [if_pos h2]; exact h
        · rw [if_neg h2]
          by_cases h3 : a.firstMissingFrag > m.firstMissingFrag + m.sentTimes.getLength
          · rw [if_pos h3]; exact h
          · rw [if_neg h3]
            obtain ⟨hoff, hlen, htr, hJ, hP⟩ := h
            obtain ⟨a1, a2, _, a4, a5⟩ := ackLoop_frame c a.stagingVector
              (m.sentTimes.getLength - 1) 0
              { m with sentTimes := m.sentTimes.advance (a.firstMissingFrag - m.firstMissingFrag)
                       firstMissingFrag := a.firstMissingFrag
                       numAcked := a.firstMissingFrag }
            obtain ⟨b1, b2, b3⟩ := ackLoop_nonzero c hA a.stagingVector
              (m.sentTimes.getLength - 1) 0
              { m with sentTimes := m.sentTimes.advance (a.firstMissingFrag - m.firstMissingFrag)
                       firstMissingFrag := a.firstMissingFrag
                       numAcked := a.firstMissingFrag }
            unfold PacingInv
            rw [a1, a2, a4, a5, b1, b2]
            simp only
            refine ⟨?_, ?_, htr, ?_, hP⟩
            · simp only [Window.advance]; omega
            · simp only [Window.advance, List.length_append, List.length_drop,
                List.length_replicate]
              omega
            · rcases hJ with hJ | hJ
              · exact Or.inl hJ
              · right
                intro f hf1 hf2
                apply b3
                simp only
                rw [window_get_advance _ _ _ (by omega)]
                exact hJ f (by omega) hf2

theorem pacingInv_of_transmitting (c : Constants) (hA : c.ACKED ≠ 0)
    (hR : 1 ≤ c.REQ_ACK_AFTER) (m : OutboundMessage) (h : Transmitting c m) :
    PacingInv c m := by
  induction h with
  | beginSending useTimer dataBuffer now hnow hb =>
    unfold beginSending at hb
    split at hb
    · simp at hb
    · injection hb with hb
      rw [← hb]
      apply send_pacingInv c hA hR _ now hnow
      refine ⟨rfl, by simp [create, Window.reset], by simp [create, sinceAckOrLast],
        Or.inl (by simpa [create] using hR), ?_⟩
      intro a w b hab hw
      have : w = [] := by
        simp only [create] at hab
        have h1 := congrArg List.length hab
        simp at h1
        exact List.length_eq_zero.mp (by omega)
      subst this
      simp at hw
      omega
  | send now hnow _ ih => exact send_pacingInv c hA hR _ now hnow ih
  | processReceivedAck ack now hnow _ ih =>
    exact processReceivedAck_pacingInv c hA hR _ ack now hnow ih

/-- C18 (amended): during the transmission of a message (beginSending on a new message,
then send() and processReceivedAck calls with any ACK packets, at non-zero times, ACKED
being a non-zero value and REQ_ACK_AFTER at least 1), among any REQ_ACK_AFTER
consecutively emitted DATA packets at least one carries requestAck = 1 or is the last
fragment of the message (fragNumber + 1 = totalFrags). -/
theorem requestAck_or_last_fragment_within_REQ_ACK_AFTER (c : Constants) (hA : c.ACKED ≠ 0)
    (hR : 1 ≤ c.REQ_ACK_AFTER) (m : OutboundMessage) (h : Transmitting c m) :
    ∀ a w b, m.packets = a ++ w ++ b → w.length = c.REQ_ACK_AFTER →
      ∃ p ∈ w, p.requestAck = true ∨ p.fragNumber + 1 = p.totalFrags :=
  (pacingInv_of_transmitting c hA hR m h).2.2.2.2

/-- Witness for C18: the fourth to eighth packet of the message of 40 fragments after
beginSending at time 50. -/
theorem requestAck_or_last_fragment_within_REQ_ACK_AFTER_witness :
    ∃ p ∈ (exampleSending.packets.drop 3).take 5,
      p.requestAck = true ∨ p.fragNumber + 1 = p.totalFrags :=
  requestAck_or_last_fragment_within_REQ_ACK_AFTER exampleConstants (by decide) (by decide)
    exampleSending
    (Transmitting.beginSending true (List.replicate 160 0) 50 (by decide) rfl)
    (exampleSending.packets.take 3) ((exampleSending.packets.drop 3).take 5)
    (exampleSending.packets.drop 8) (by decide) (by decide)

/-- C18 as stated fails: for a message of 5 fragments (REQ_ACK_AFTER = 5) beginSending
emits the 5 DATA packets of the message, and none of them carries requestAck: the
fifth packet would, but it is the last fragment. -/
theorem five_fragments_without_requestAck :
    beginSending exampleConstants (create exampleConstants true) (List.replicate 20 0) 50 =
      .ok exampleFiveFragments ∧
    exampleFiveFragments.packets.length = exampleConstants.REQ_ACK_AFTER ∧
    exampleFiveFragments.packets.map (fun p => (p.fragNumber, p.requestAck)) =
      [(0, false), (1, false), (2, false), (3, false), (4, false)] := by
  decide

end OutboundMessage
end FastTransport
end RAMCloud

namespace RAMCloud
namespace FastTransport
namespace ClientSession

/-- C20: a session that clientSend has connected through the handshake (SESSION_OPEN
request sent at time 100, response processed at time 200, the RPC then sent on
channel 0) receives a BAD_SESSION packet for channel 0 and its rpcId: the RPC is
requeued IN_PROGRESS, the channels are discarded, token and serverSessionHint are
invalid, but no new SESSION_OPEN request is sent: the only packet the session has
sent is the request of time 100 and no timer is running, because
sessionOpenRequestInFlight has been true since that request and connect() does
nothing. -/
theorem bad_session_sends_no_session_open :
    exampleOpening.toOption.map
        (fun s => (s.sent.map (fun h => h.payloadType), s.sessionOpenRequestInFlight,
          s.channelQueue.map (fun r => r.handle))) =
      some ([.SESSION_OPEN], true, [1]) ∧
    exampleConnected.toOption.map
        (fun s => (s.numChannels, s.token, s.serverSessionHint)) =
      some (8, 0x1122334455667788, 5) ∧
    exampleConnected.toOption.map
        (fun s => (s.sent.length, s.sessionOpenRequestInFlight, s.timer)) =
      some (1, true, none) ∧
    exampleConnected.toOption.map
        (fun s => (s.channels.map
          (fun ch => (ch.state, ch.rpcId, ch.currentRpc.map (fun r => r.handle))),
          s.channelQueue)) =
      some ([(.SENDING, 0, some 1), (.IDLE, 0, none), (.IDLE, 0, none), (.IDLE, 0, none),
         (.IDLE, 0, none), (.IDLE, 0, none), (.IDLE, 0, none), (.IDLE, 0, none)], []) ∧
    exampleAfterBadSession.toOption.map
        (fun s => (s.channelQueue.map (fun r => (r.handle, r.state)), s.numChannels,
          s.channels)) =
      some ([(1, .IN_PROGRESS)], 0, []) ∧
    exampleAfterBadSession.toOption.map (fun s => (s.token, s.serverSessionHint)) =
      some (INVALID_TOKEN, INVALID_HINT) ∧
    exampleAfterBadSession.toOption.map
        (fun s => (s.sent.map (fun h => h.payloadType), s.sessionOpenRequestInFlight, s.timer)) =
      some ([.SESSION_OPEN], true, none) := by
  refine ⟨?_, ?_, ?_, ?_, ?_, ?_, ?_⟩ <;> decide

end ClientSession
end FastTransport
end RAMCloud

namespace RAMCloud
namespace HashTable

theorem setEntry_typeBits (t : Table) (cl : LineRef) (slot v : Nat) :
    (t.setEntry cl slot v).typeBits = t.typeBits ∧
    (t.setEntry cl slot v).numBuckets = t.numBuckets := by
  cases cl <;> exact ⟨rfl, rfl⟩

theorem heapSet_length (h : List (Nat × CacheLine)) (a slot v : Nat) :
    (heapSet h a slot v).length = h.length := by
  induction h with
  | nil => rfl
  | cons x h ih =>
    obtain ⟨a', l⟩ := x
    simp only [heapSet]
    split <;> simp [ih]

theorem setEntry_heap_length (t : Table) (cl : LineRef) (slot v : Nat) :
    (t.setEntry cl slot v).heap.length = t.heap.length := by
  cases cl with
  | bucket i => rfl
  | chained a => exact heapSet_length _ _ _ _

theorem findBucket_setEntry (t : Table) (cl : LineRef) (slot v key1 key2 : Nat) :
    findBucket (t.setEntry cl slot v) key1 key2 = findBucket t key1 key2 := by
  simp only [findBucket, (setEntry_typeBits t cl slot v).2]

theorem entry_eq_getD (t : Table) (cl : LineRef) (slot : Nat) (line : CacheLine)
    (h : t.line? cl = some line) : t.entry cl slot = line.getD slot 0 := by
  simp [Table.entry, h]

/-- No entry before the one `scanLine` returns matches. -/
theorem scanLine_some_min (mem : Referants) (typeBits sh key1 key2 : Nat) (line : CacheLine)
    (start i : Nat) (h : scanLine mem typeBits sh key1 key2 line start = some i) :
    ∀ x, x < i - start →
      ¬ (Entry.hashMatches sh typeBits (line.getD x 0) = true ∧
        mem (Entry.unpack typeBits (line.getD x 0)).ptr = (key1, key2)) := by
  induction line generalizing start with
  | nil => simp [scanLine] at h
  | cons e es ih =>
    simp only [scanLine] at h
    split at h
    · injection h with h
      intro x hx; omega
    · rename_i hne
      intro x hx
      have hle := (scanLine_some mem typeBits sh key1 key2 es (start + 1) i h).1
      cases x with
      | zero => simpa using hne
      | succ x =>
        have := ih (start + 1) h x (by omega)
        simpa using this

theorem scanLine_none (mem : Referants) (typeBits sh key1 key2 : Nat) (line : CacheLine)
    (start : Nat) (h : scanLine mem typeBits sh key1 key2 line start = none) :
    ∀ x, x < line.length →
      ¬ (Entry.hashMatches sh typeBits (line.getD x 0) = true ∧
        mem (Entry.unpack typeBits (line.getD x 0)).ptr = (key1, key2)) := by
  induction line generalizing start with
  | nil => intro x hx; simp at hx
  | cons e es ih =>
    simp only [scanLine] at h
    split at h
    · cases h
    · rename_i hne
      intro x hx
      cases x with
      | zero => simpa using hne
      | succ x =>
        have := ih (start + 1) h x (by simpa using hx)
        simpa using this

/-- Storing a matching entry in a slot before which nothing matches makes
`scanLine` return that slot. -/
theorem scanLine_set_first (mem : Referants) (typeBits sh key1 key2 : Nat) (line : CacheLine)
    (start j v : Nat) (hj : j < line.length)
    (hbefore : ∀ x, x < j →
      ¬ (Entry.hashMatches sh typeBits (line.getD x 0) = true ∧
        mem (Entry.unpack typeBits (line.getD x 0)).ptr = (key1, key2)))
    (hv : Entry.hashMatches sh typeBits v = true ∧
      mem (Entry.unpack typeBits v).ptr = (key1, key2)) :
    scanLine mem typeBits sh key1 key2 (line.set j v) start = some (start + j) := by
  induction line generalizing start j with
  | nil => simp at hj
  | cons e es ih =>
    cases j with
    | zero =>
      simp only [List.set_cons_zero, scanLine]
      rw [if_pos hv]; rfl
    | succ j =>
      simp only [List.set_cons_succ, scanLine]
      have h0 := hbefore 0 (by omega)
      simp only [List.getD_cons_zero] at h0
      rw [if_neg h0, ih (start + 1) j (by simpa using hj)
        (fun x hx => by have := hbefore (x + 1) (by omega); simpa using this)]
      congr 1; omega

/-- Replacing an entry that does not match by one that does not match either
leaves the result of `scanLine` as it is. -/
theorem scanLine_set_inert (mem : Referants) (typeBits sh key1 key2 : Nat) (line : CacheLine)
    (start j v : Nat)
    (hold : ¬ (Entry.hashMatches sh typeBits (line.getD j 0) = true ∧
      mem (Entry.unpack typeBits (line.getD j 0)).ptr = (key1, key2)))
    (hv : ¬ (Entry.hashMatches sh typeBits v = true ∧
      mem (Entry.unpack typeBits v).ptr = (key1, key2))) :
    scanLine mem typeBits sh key1 key2 (line.set j v) start =
      scanLine mem typeBits sh key1 key2 line start := by
  induction line generalizing start j with
  | nil => simp
  | cons e es ih =>
    cases j with
    | zero =>
      simp only [List.getD_cons_zero] at hold
      simp only [List.set_cons_zero, scanLine]
      rw [if_neg hv, if_neg hold]
    | succ j =>
      simp only [List.set_cons_succ, scanLine]
      rw [ih (start + 1) j (by simpa using hold)]

theorem firstAvailable_some (typeBits : Nat) (line : CacheLine) (start i : Nat)
    (h : firstAvailable typeBits line start = some i) :
    start ≤ i ∧ i - start < line.length ∧
      Entry.isAvailable typeBits (line.getD (i - start) 0) = true := by
  induction line generalizing start with
  | nil => simp [firstAvailable] at h
  | cons e es ih =>
    simp only [firstAvailable] at h
    split at h
    · rename_i he
      injection h with h
      subst h
      simp [he]
    · obtain ⟨h1, h2, h3⟩ := ih (start + 1) h
      refine ⟨by omega, by simp; omega, ?_⟩
      have : i - start = (i - (start + 1)) + 1 := by omega
      rw [this]
      simpa using h3

theorem firstAvailable_none (typeBits : Nat) (line : CacheLine) (start : Nat)
    (h : firstAvailable typeBits line start = none) :
    ∀ x, x < line.length → Entry.isAvailable typeBits (line.getD x 0) = false := by
  induction line generalizing start with
  | nil => intro x hx; simp at hx
  | cons e es ih =>
    simp only [firstAvailable] at h
    split at h
    · cases h
    · rename_i hne
      intro x hx
      cases x with
      | zero => simpa using hne
      | succ x =>
        have := ih (start + 1) h x (by simpa using hx)
        simpa using this

theorem firstAvailable_of_available (typeBits : Nat) (line : CacheLine) (start p : Nat)
    (hp : p < line.length) (ha : Entry.isAvailable typeBits (line.getD p 0) = true) :
    ∃ j, j ≤ p ∧ firstAvailable typeBits line start = some (start + j) := by
  induction line generalizing start p with
  | nil => simp at hp
  | cons e es ih =>
    simp only [firstAvailable]
    by_cases he : Entry.isAvailable typeBits e = true
    · exact ⟨0, Nat.zero_le _, by rw [if_pos he]; rfl⟩
    · rw [if_neg he]
      cases p with
      | zero => simp at ha; exact absurd ha he
      | succ p =>
        obtain ⟨j, hj, h⟩ := ih (start + 1) p (by simpa using hp) (by simpa using ha)
        exact ⟨j + 1, by omega, by rw [h]; congr 1; omega⟩

end HashTable
end RAMCloud

namespace RAMCloud
namespace HashTable

theorem getD_set_eq (l : List Nat) (i j v : Nat) :
    (l.set i v).getD j 0 = if i = j ∧ i < l.length then v else l.getD j 0 := by
  rw [List.getD_eq_getElem?_getD, List.getD_eq_getElem?_getD, List.getElem?_set]
  by_cases hij : i = j
  · subst hij
    by_cases hl : i < l.length
    · simp [hl]
    · have hn : l[i]? = none := List.getElem?_eq_none (by omega)
      simp [hl, hn]
  · simp [hij]

theorem findBucket_secondaryHash_lt (t : Table) (key1 key2 : Nat) :
    (findBucket t key1 key2).2 < 2 ^ 16 := by
  have := hashValue_lt key1 key2
  simp only [findBucket, Nat.shiftRight_eq_div_pow]
  omega

/-- A valid `(ptr, type)` is stored as a referant entry that matches its
secondary hash, has no chain pointer and is not available. -/
theorem setReferant_ok (typeBits sh ptr type : Nat) (htb : typeBits ≤ 8) (hsh : sh < 2 ^ 16)
    (hptr0 : ptr ≠ 0) (hptr : ptr < 2 ^ (47 - typeBits)) (ht8 : type < 2 ^ 8)
    (htype : typeBits = 0 ∨ type < 2 ^ typeBits) :
    ∃ v, Entry.setReferant sh ptr type typeBits = .ok v ∧
      Entry.hashMatches sh typeBits v = true ∧ (Entry.unpack typeBits v).ptr = ptr ∧
      Entry.getChainPointer typeBits v = 0 ∧ Entry.isAvailable typeBits v = false ∧
      Entry.getReferant typeBits v = .ok (ptr, if 0 < typeBits then type else 0) := by
  have hp64 : ptr < 2 ^ 64 :=
    lt_of_lt_of_le hptr (Nat.pow_le_pow_right (by decide) (by omega))
  have hs64 : sh < 2 ^ 64 := lt_trans hsh (by decide)
  have hty : (if 0 < typeBits then type else 0) < 2 ^ typeBits := by
    split
    · rcases htype with h | h
      · omega
      · exact h
    · exact Nat.two_pow_pos _
  refine ⟨sh * 2 ^ 48 + (if false = true then 1 else 0) * 2 ^ 47 +
    (if 0 < typeBits then type else 0) * 2 ^ (47 - typeBits) + ptr, ?_, ?_⟩
  · unfold Entry.setReferant
    rw [if_neg hptr0, Entry.pack_eq sh false ptr type typeBits htb hs64 hp64 ht8]
    have h1 : ¬ (ptr = 0 ∧ ¬ (sh = 0 ∧ false = false)) := fun h => hptr0 h.1
    have h2 : ¬ (0 < typeBits ∧ 2 ^ typeBits ≤ type) := by
      rintro ⟨h, h'⟩
      rcases htype with h0 | h0 <;> omega
    rw [if_neg h1, if_neg h2, if_neg (by omega), if_neg (by omega)]
  · have hu := Entry.unpack_packed typeBits sh (if 0 < typeBits then type else 0) ptr false
      htb hsh hty hptr
    simp only [Entry.hashMatches, Entry.getChainPointer, Entry.isAvailable, Entry.getReferant, hu]
    simp [hptr0]

theorem lookupEntryLoop_setEntry_inert (mem : Referants) (t : Table) (sh key1 key2 : Nat)
    (cl : LineRef) (i v : Nat)
    (hold : ¬ (Entry.hashMatches sh t.typeBits (t.entry cl i) = true ∧
      mem (Entry.unpack t.typeBits (t.entry cl i)).ptr = (key1, key2)))
    (hv : ¬ (Entry.hashMatches sh t.typeBits v = true ∧
      mem (Entry.unpack t.typeBits v).ptr = (key1, key2)))
    (hc : Entry.getChainPointer t.typeBits v = Entry.getChainPointer t.typeBits (t.entry cl i))
    (fuel : Nat) (cl0 : LineRef) :
    lookupEntryLoop mem (t.setEntry cl i v) sh key1 key2 fuel cl0 =
      lookupEntryLoop mem t sh key1 key2 fuel cl0 := by
  induction fuel generalizing cl0 with
  | zero => simp [lookupEntryLoop]
  | succ fuel ih =>
    simp only [lookupEntryLoop, line?_setEntry, (setEntry_typeBits t cl i v).1]
    by_cases hcl : cl0 = cl
    · subst hcl
      rw [if_pos rfl]
      cases hl : t.line? cl0 with
      | none => simp
      | some line =>
        have he : t.entry cl0 i = line.getD i 0 := entry_eq_getD t cl0 i line hl
        rw [he] at hold hc
        simp only [Option.map_some']
        rw [scanLine_set_inert mem t.typeBits sh key1 key2 line 0 i v hold hv]
        have hnext : Entry.getChainPointer t.typeBits
            ((line.set i v).getD (ENTRIES_PER_CACHE_LINE - 1) 0) =
            Entry.getChainPointer t.typeBits (line.getD (ENTRIES_PER_CACHE_LINE - 1) 0) := by
          rw [getD_set_eq]
          split
          · rename_i h
            rw [hc, h.1]
          · rfl
        rw [hnext]
        simp only [ih]
    · rw [if_neg hcl]
      simp only [ih]

theorem lookup_setEntry_inert (mem : Referants) (t : Table) (key1 key2 : Nat)
    (cl : LineRef) (i v : Nat)
    (hold : ¬ (Entry.hashMatches (findBucket t key1 key2).2 t.typeBits (t.entry cl i) = true ∧
      mem (Entry.unpack t.typeBits (t.entry cl i)).ptr = (key1, key2)))
    (hv : ¬ (Entry.hashMatches (findBucket t key1 key2).2 t.typeBits v = true ∧
      mem (Entry.unpack t.typeBits v).ptr = (key1, key2)))
    (hc : Entry.getChainPointer t.typeBits v =
      Entry.getChainPointer t.typeBits (t.entry cl i)) :
    lookup mem (t.setEntry cl i v) key1 key2 = lookup mem t key1 key2 := by
  unfold lookup
  rw [findBucket_setEntry]
  rcases hfb : findBucket t key1 key2 with ⟨b, sh⟩
  rw [hfb] at hold hv
  simp only
  unfold lookupEntry
  rw [setEntry_heap_length, lookupEntryLoop_setEntry_inert mem t sh key1 key2 cl i v hold hv hc]
  cases hle : lookupEntryLoop mem t sh key1 key2 (t.heap.length + 1) (.bucket b) with
  | ok found =>
    cases found with
    | none => rfl
    | some loc =>
      obtain ⟨cl', i'⟩ := loc
      obtain ⟨line, hline, hi, hm, hk⟩ := lookupEntryLoop_some _ _ _ _ _ _ _ _ _ hle
      have hne : (cl', i') ≠ (cl, i) := by
        intro h
        obtain ⟨h1, h2⟩ := Prod.mk.inj h
        subst h1; subst h2
        exact hold ⟨hm, hk⟩
      simp only [entry_setEntry_other t cl i v cl' i' hne, (setEntry_typeBits t cl i v).1]
  | thrown => rfl
  | aborted => rfl
  | undefined => rfl
  | diverges => rfl

/-- Overwriting the entry a lookup finds by another matching entry: the lookup
finds the same slot. -/
theorem lookupEntryLoop_setEntry_found (mem : Referants) (t : Table) (sh key1 key2 : Nat)
    (cl : LineRef) (i v : Nat)
    (hv : Entry.hashMatches sh t.typeBits v = true ∧
      mem (Entry.unpack t.typeBits v).ptr = (key1, key2))
    (fuel : Nat) (cl0 : LineRef)
    (h : lookupEntryLoop mem t sh key1 key2 fuel cl0 = .ok (some (cl, i))) :
    lookupEntryLoop mem (t.setEntry cl i v) sh key1 key2 fuel cl0 = .ok (some (cl, i)) := by
  induction fuel generalizing cl0 with
  | zero => simp [lookupEntryLoop] at h
  | succ fuel ih =>
    simp only [lookupEntryLoop] at h
    simp only [lookupEntryLoop, line?_setEntry, (setEntry_typeBits t cl i v).1]
    cases hl : t.line? cl0 with
    | none => simp [hl] at h
    | some line =>
      simp only [hl] at h
      cases hs : scanLine mem t.typeBits sh key1 key2 line 0 with
      | some j =>
        simp only [hs] at h
        injection h with h; injection h with h
        obtain ⟨h1, h2⟩ := Prod.mk.inj h
        subst h1; subst h2
        rw [if_pos rfl, hl]
        simp only [Option.map_some']
        obtain ⟨_, hj, _, _⟩ := scanLine_some _ _ _ _ _ _ _ _ hs
        have hmin := scanLine_some_min _ _ _ _ _ _ _ _ hs
        rw [scanLine_set_first mem t.typeBits sh key1 key2 line 0 j v (by simpa using hj)
          (fun x hx => hmin x (by simpa using hx)) hv]
        simp
      | none =>
        simp only [hs] at h
        split at h
        · simp at h
        · rename_i hnext
          have hcl : cl0 ≠ cl := by
            intro hc
            subst hc
            obtain ⟨line', hline', hi, hm, hk⟩ := lookupEntryLoop_some _ _ _ _ _ _ _ _ _ h
            rw [hl] at hline'
            injection hline' with hline'
            subst hline'
            rw [entry_eq_getD t cl0 i line hl] at hm hk
            exact scanLine_none _ _ _ _ _ _ _ hs i hi ⟨hm, hk⟩
          rw [if_neg hcl]
          simp only [hs, if_neg hnext]
          exact ih _ h

end HashTable
end RAMCloud

namespace RAMCloud
namespace HashTable

theorem getChainPointer_zero (typeBits : Nat) : Entry.getChainPointer typeBits 0 = 0 := by
  simp [Entry.getChainPointer, Entry.unpack]

theorem isAvailable_zero (typeBits : Nat) : Entry.isAvailable typeBits 0 = true := by
  simp [Entry.isAvailable, Entry.unpack]

theorem hashMatches_zero (sh typeBits : Nat) : Entry.hashMatches sh typeBits 0 = false := by
  simp [Entry.hashMatches, Entry.unpack]

/-- When the walk of `forEachInBucket` along a chain ends, so does the walk of a
lookup along the same chain after a referant entry has been cleared. -/
theorem lookupEntryLoop_ok_of_forEach (mem : Referants) (t : Table) (sh key1 key2 : Nat)
    (cl : LineRef) (i : Nat)
    (hc0 : Entry.getChainPointer t.typeBits (t.entry cl i) = 0)
    (fuel : Nat) (cl0 : LineRef) (calls : List (Nat × Nat)) (n : Nat)
    (h : ∃ r, forEachInBucketLoop t fuel cl0 calls n = .ok r) :
    ∃ o, lookupEntryLoop mem (t.setEntry cl i 0) sh key1 key2 fuel cl0 = .ok o := by
  induction fuel generalizing cl0 calls n with
  | zero => obtain ⟨r, hr⟩ := h; simp [forEachInBucketLoop] at hr
  | succ fuel ih =>
    obtain ⟨r, hr⟩ := h
    simp only [forEachInBucketLoop] at hr
    simp only [lookupEntryLoop, line?_setEntry, (setEntry_typeBits t cl i 0).1]
    cases hl : t.line? cl0 with
    | none => simp [hl] at hr
    | some line =>
      simp only [hl] at hr
      have hline : (if cl0 = cl then (t.line? cl).map (fun l => l.set i 0) else some line) =
          some (if cl0 = cl then line.set i 0 else line) := by
        split
        · rename_i hc; subst hc; rw [hl]; rfl
        · rfl
      rw [hline]
      simp only
      have hnext : Entry.getChainPointer t.typeBits
          ((if cl0 = cl then line.set i 0 else line).getD (ENTRIES_PER_CACHE_LINE - 1) 0) =
          Entry.getChainPointer t.typeBits (line.getD (ENTRIES_PER_CACHE_LINE - 1) 0) := by
        split
        · rename_i hc
          subst hc
          rw [getD_set_eq]
          split
          · rename_i h7
            rw [getChainPointer_zero, ← h7.1, ← entry_eq_getD t cl0 i line hl, hc0]
          · rfl
        · rfl
      cases hs : scanLine mem t.typeBits sh key1 key2 (if cl0 = cl then line.set i 0 else line) 0 with
      | some j => exact ⟨_, rfl⟩
      | none =>
        simp only [hnext]
        split
        · exact ⟨_, rfl⟩
        · rename_i hne
          rw [if_neg hne] at hr
          exact ih _ _ _ ⟨r, hr⟩

/-- After the entry a lookup finds has been cleared, and when the key is then
no longer found, the insertion loop of `replace` stores the new entry in an
available slot without allocating, and a lookup finds it there. -/
theorem insertLoop_after_remove (mem : Referants) (t : Table) (sh key1 key2 : Nat)
    (alloc ptr type : Nat) (cl : LineRef) (i v : Nat)
    (hset : Entry.setReferant sh ptr type t.typeBits = .ok v)
    (hv : Entry.hashMatches sh t.typeBits v = true ∧
      mem (Entry.unpack t.typeBits v).ptr = (key1, key2))
    (fuel : Nat) (cl0 : LineRef)
    (h : lookupEntryLoop mem t sh key1 key2 fuel cl0 = .ok (some (cl, i)))
    (hu : lookupEntryLoop mem (t.setEntry cl i 0) sh key1 key2 fuel cl0 = .ok none) :
    ∃ p : LineRef × Nat,
      insertLoop alloc sh ptr type (fuel + 1) (t.setEntry cl i 0) cl0 =
        (.ok false, (t.setEntry cl i 0).setEntry p.1 p.2 v) ∧
      lookupEntryLoop mem ((t.setEntry cl i 0).setEntry p.1 p.2 v) sh key1 key2 fuel cl0 =
        .ok (some p) ∧
      ∃ line, (t.setEntry cl i 0).line? p.1 = some line ∧ p.2 < line.length ∧
        Entry.isAvailable t.typeBits (line.getD p.2 0) = true := by
  have htb : (t.setEntry cl i 0).typeBits = t.typeBits := (setEntry_typeBits t cl i 0).1
  induction fuel generalizing cl0 with
  | zero => simp [lookupEntryLoop] at h
  | succ fuel ih =>
    simp only [lookupEntryLoop] at h
    cases hl : t.line? cl0 with
    | none => simp [hl] at h
    | some line =>
      simp only [hl] at h
      cases hs : scanLine mem t.typeBits sh key1 key2 line 0 with
      | some j =>
        simp only [hs] at h
        injection h with h; injection h with h
        obtain ⟨h1, h2⟩ := Prod.mk.inj h
        subst h1; subst h2
        obtain ⟨_, hj, _, _⟩ := scanLine_some _ _ _ _ _ _ _ _ hs
        have hj' : j < line.length := by simpa using hj
        have hmin := scanLine_some_min _ _ _ _ _ _ _ _ hs
        have hul : (t.setEntry cl0 j 0).line? cl0 = some (line.set j 0) := by
          rw [line?_setEntry, if_pos rfl, hl]; rfl
        have hav : Entry.isAvailable t.typeBits ((line.set j 0).getD j 0) = true := by
          rw [getD_set_eq, if_pos ⟨rfl, hj'⟩]; exact isAvailable_zero _
        obtain ⟨j', hj'le, hfa⟩ := firstAvailable_of_available t.typeBits (line.set j 0) 0 j
          (by simpa using hj') hav
        rw [Nat.zero_add] at hfa
        obtain ⟨_, hfa2, hfa3⟩ := firstAvailable_some _ _ _ _ hfa
        simp only [Nat.sub_zero] at hfa2 hfa3
        refine ⟨(cl0, j'), ?_, ?_, ⟨line.set j 0, hul, hfa2, hfa3⟩⟩
        · rw [insertLoop]
          simp only [hul, htb, hfa, hset]
        · simp only [lookupEntryLoop, line?_setEntry, if_pos, hul, Option.map_some',
            (setEntry_typeBits _ cl0 j' v).1, htb]
          rw [scanLine_set_first mem t.typeBits sh key1 key2 (line.set j 0) 0 j' v hfa2 ?_ hv]
          · simp
          · intro x hx
            rw [getD_set_eq, if_neg (by omega)]
            exact hmin x (by omega)
      | none =>
        simp only [hs] at h
        split at h
        · simp at h
        · rename_i hnext
          have hcl : cl0 ≠ cl := by
            intro hc
            subst hc
            obtain ⟨line', hline', hi, hm, hk⟩ := lookupEntryLoop_some _ _ _ _ _ _ _ _ _ h
            rw [hl] at hline'
            injection hline' with hline'
            subst hline'
            rw [entry_eq_getD t cl0 i line hl] at hm hk
            exact scanLine_none _ _ _ _ _ _ _ hs i hi ⟨hm, hk⟩
          have hul : (t.setEntry cl i 0).line? cl0 = some line := by
            rw [line?_setEntry, if_neg hcl, hl]
          simp only [lookupEntryLoop, hul, htb, hs, if_neg hnext] at hu
          have hnone := scanLine_none _ _ _ _ _ _ _ hs
          cases hfa : firstAvailable t.typeBits line 0 with
          | some j' =>
            obtain ⟨_, hfa2, hfa3⟩ := firstAvailable_some _ _ _ _ hfa
            simp only [Nat.sub_zero] at hfa2 hfa3
            refine ⟨(cl0, j'), ?_, ?_, ⟨line, hul, hfa2, hfa3⟩⟩
            · rw [insertLoop]
              simp only [hul, htb, hfa, hset]
            · simp only [lookupEntryLoop, line?_setEntry, if_pos, hul, Option.map_some',
                (setEntry_typeBits _ cl0 j' v).1, htb]
              rw [scanLine_set_first mem t.typeBits sh key1 key2 line 0 j' v hfa2
                (fun x hx => hnone x (by omega)) hv]
              simp
          | none =>
            obtain ⟨p, hp1, hp2, line', hp3, hp4, hp5⟩ := ih _ h hu
            have hpne : cl0 ≠ p.1 := by
              intro hc
              rw [← hc, hul] at hp3
              injection hp3 with hp3
              subst hp3
              have := firstAvailable_none _ _ _ hfa p.2 hp4
              rw [this] at hp5
              cases hp5
            refine ⟨p, ?_, ?_, ⟨line', hp3, hp4, hp5⟩⟩
            · rw [insertLoop]
              simp only [hul, htb, hfa, if_neg hnext]
              exact hp1
            · simp only [lookupEntryLoop, line?_setEntry, if_neg hpne, hul,
                (setEntry_typeBits _ p.1 p.2 v).1, htb, hs, if_neg hnext]
              exact hp2

end HashTable
end RAMCloud

namespace RAMCloud
namespace HashTable

theorem getChainPointer_of_hashMatches (sh typeBits e : Nat)
    (h : Entry.hashMatches sh typeBits e = true) : Entry.getChainPointer typeBits e = 0 := by
  simp only [Entry.hashMatches, decide_eq_true_eq] at h
  simp [Entry.getChainPointer, h.1]

theorem not_hashMatches_of_isAvailable (sh typeBits e : Nat)
    (h : Entry.isAvailable typeBits e = true) :
    Entry.hashMatches sh typeBits e = false ∧ Entry.getChainPointer typeBits e = 0 := by
  simp only [Entry.isAvailable, decide_eq_true_eq] at h
  constructor
  · simp [Entry.hashMatches, h]
  · simp only [Entry.getChainPointer]
    split
    · rfl
    · exact h

/-- A lookup that finds the entry `v` returns the referant of `v`. -/
theorem lookup_of_found (mem : Referants) (t : Table) (key1 key2 : Nat) (cl : LineRef)
    (i v : Nat) (r : Nat × Nat)
    (hfound : lookupEntryLoop mem t (findBucket t key1 key2).2 key1 key2 (t.heap.length + 1)
      (.bucket (findBucket t key1 key2).1) = .ok (some (cl, i)))
    (he : t.entry cl i = v) (hg : Entry.getReferant t.typeBits v = .ok r) :
    lookup mem t key1 key2 = .ok (some r) := by
  unfold lookup lookupEntry
  simp only [hfound, he, hg]

/-- The table after `replace` has overwritten or inserted: it is the table
`u` with the new entry stored in a slot whose old entry either matched the
key or was available, and a lookup of the key finds that slot. -/
theorem replace_after_remove (mem : Referants) (t : Table) (alloc ptr type : Nat)
    (b sh : Nat) (cl : LineRef) (i v : Nat)
    (hptr0 : ptr ≠ 0)
    (hfb : findBucket t (mem ptr).1 (mem ptr).2 = (b, sh))
    (hset : Entry.setReferant sh ptr type t.typeBits = .ok v)
    (hv : Entry.hashMatches sh t.typeBits v = true ∧
      mem (Entry.unpack t.typeBits v).ptr = ((mem ptr).1, (mem ptr).2))
    (hle : lookupEntryLoop mem t sh (mem ptr).1 (mem ptr).2 (t.heap.length + 1) (.bucket b) =
      .ok (some (cl, i)))
    (hok : ∃ o, lookupEntryLoop mem (t.setEntry cl i 0) sh (mem ptr).1 (mem ptr).2
      (t.heap.length + 1) (.bucket b) = .ok o) :
    ∃ p : LineRef × Nat,
      (replace mem (t.setEntry cl i 0) alloc ptr type).2 = (t.setEntry cl i 0).setEntry p.1 p.2 v ∧
      lookupEntryLoop mem ((t.setEntry cl i 0).setEntry p.1 p.2 v) sh (mem ptr).1 (mem ptr).2
        (t.heap.length + 1) (.bucket b) = .ok (some p) ∧
      (∃ line, (t.setEntry cl i 0).line? p.1 = some line ∧ p.2 < line.length) ∧
      ((Entry.hashMatches sh t.typeBits ((t.setEntry cl i 0).entry p.1 p.2) = true ∧
          mem (Entry.unpack t.typeBits ((t.setEntry cl i 0).entry p.1 p.2)).ptr =
            ((mem ptr).1, (mem ptr).2)) ∨
        Entry.isAvailable t.typeBits ((t.setEntry cl i 0).entry p.1 p.2) = true) := by
  have htb : (t.setEntry cl i 0).typeBits = t.typeBits := (setEntry_typeBits t cl i 0).1
  have hhl : (t.setEntry cl i 0).heap.length = t.heap.length := setEntry_heap_length t cl i 0
  have hfb' : findBucket (t.setEntry cl i 0) (mem ptr).1 (mem ptr).2 = (b, sh) := by
    rw [findBucket_setEntry, hfb]
  obtain ⟨o, ho⟩ := hok
  cases o with
  | some loc =>
    obtain ⟨cl2, i2⟩ := loc
    obtain ⟨line2, hline2, hi2, hm2, hk2⟩ := lookupEntryLoop_some _ _ _ _ _ _ _ _ _ ho
    rw [htb] at hm2 hk2
    have hg2 := getReferant_of_hashMatches _ _ _ hm2
    refine ⟨(cl2, i2), ?_, ?_, ⟨line2, hline2, hi2⟩, Or.inl ⟨hm2, hk2⟩⟩
    · unfold replace lookupEntry
      simp only [if_neg hptr0, hfb', hhl, ho, htb, hg2, hset]
    · have := lookupEntryLoop_setEntry_found mem (t.setEntry cl i 0) sh (mem ptr).1 (mem ptr).2
        cl2 i2 v (by rw [htb]; exact hv) (t.heap.length + 1) (.bucket b) ho
      exact this
  | none =>
    obtain ⟨p, hp1, hp2, linep, hp3, hp4, hp5⟩ := insertLoop_after_remove mem t sh
      (mem ptr).1 (mem ptr).2 alloc ptr type cl i v hset hv (t.heap.length + 1) (.bucket b) hle ho
    refine ⟨p, ?_, hp2, ⟨linep, hp3, hp4⟩, Or.inr ?_⟩
    · unfold replace lookupEntry
      simp only [if_neg hptr0, hfb', hhl, ho, hp1]
    · rw [entry_eq_getD _ _ _ _ hp3]
      exact hp5

/-- Where the chain of the key's bucket can be walked to its end (forEachInBucket
returns), replace agrees with remove followed by replace: for every valid
(ptr, type) - ptr not null and below 2^(47 - typeBits), type an 8-bit value
below 2^typeBits when typeBits > 0 - lookup of every key returns the same in
the state left by replace(ptr, type) as in the state left by
remove(ptr.key1, ptr.key2) followed by replace(ptr, type). -/
theorem replace_same_as_remove_then_replace (mem : Referants) (t : Table)
    (alloc ptr type : Nat) (htb : t.typeBits ≤ 8) (hptr0 : ptr ≠ 0)
    (hptr : ptr < 2 ^ (47 - t.typeBits)) (ht8 : type < 2 ^ 8)
    (htype : t.typeBits = 0 ∨ type < 2 ^ t.typeBits)
    (hchain : ∃ r, forEachInBucket t (findBucket t (mem ptr).1 (mem ptr).2).1 = .ok r)
    (key1 key2 : Nat) :
    lookup mem (replace mem t alloc ptr type).2 key1 key2 =
      lookup mem
        (replace mem (remove mem t (mem ptr).1 (mem ptr).2).2 alloc ptr type).2 key1 key2 := by
  rcases hfb : findBucket t (mem ptr).1 (mem ptr).2 with ⟨b, sh⟩
  have hsh : sh < 2 ^ 16 := by
    have := findBucket_secondaryHash_lt t (mem ptr).1 (mem ptr).2
    rw [hfb] at this; exact this
  obtain ⟨v, hset, hvm, hvp, hvc, hva, hvg⟩ :=
    setReferant_ok t.typeBits sh ptr type htb hsh hptr0 hptr ht8 htype
  have hv : Entry.hashMatches sh t.typeBits v = true ∧
      mem (Entry.unpack t.typeBits v).ptr = ((mem ptr).1, (mem ptr).2) := ⟨hvm, by rw [hvp]⟩
  cases hle : lookupEntry mem t b sh (mem ptr).1 (mem ptr).2 with
  | ok found =>
    cases found with
    | none =>
      have hrem : (remove mem t (mem ptr).1 (mem ptr).2).2 = t := by
        unfold remove; simp only [hfb, hle]
      rw [hrem]
    | some loc =>
      obtain ⟨cl, i⟩ := loc
      have hle' := hle
      unfold lookupEntry at hle'
      obtain ⟨line, hline, hi, hm, hk⟩ := lookupEntryLoop_some _ _ _ _ _ _ _ _ _ hle'
      have hg := getReferant_of_hashMatches _ _ _ hm
      have hgc := getChainPointer_of_hashMatches _ _ _ hm
      have hrem : (remove mem t (mem ptr).1 (mem ptr).2).2 = t.setEntry cl i 0 := by
        unfold remove; simp only [hfb, hle, hg]; rfl
      have hrep : (replace mem t alloc ptr type).2 = t.setEntry cl i v := by
        unfold replace; simp only [if_neg hptr0, hfb, hle, hg, hset]
      have hok : ∃ o, lookupEntryLoop mem (t.setEntry cl i 0) sh (mem ptr).1 (mem ptr).2
          (t.heap.length + 1) (.bucket b) = .ok o := by
        rw [hfb] at hchain
        exact lookupEntryLoop_ok_of_forEach mem t sh _ _ cl i hgc _ _ _ _ hchain
      obtain ⟨p, hp1, hp2, ⟨linep, hp3, hp4⟩, hp5⟩ := replace_after_remove mem t alloc ptr type
        b sh cl i v hptr0 hfb hset hv hle' hok
      rw [hrem, hrep, hp1]
      have htu : (t.setEntry cl i 0).typeBits = t.typeBits := (setEntry_typeBits t cl i 0).1
      by_cases hq : (key1, key2) = ((mem ptr).1, (mem ptr).2)
      · obtain ⟨h1, h2⟩ := Prod.mk.inj hq
        subst h1; subst h2
        rw [lookup_of_found mem (t.setEntry cl i v) _ _ cl i v _
            (by rw [findBucket_setEntry, hfb, setEntry_heap_length]
                exact lookupEntryLoop_setEntry_found mem t sh _ _ cl i v hv _ _ hle')
            (entry_setEntry_same t cl i v line hline hi)
            (by rw [(setEntry_typeBits t cl i v).1]; exact hvg),
          lookup_of_found mem ((t.setEntry cl i 0).setEntry p.1 p.2 v) _ _ p.1 p.2 v _
            (by rw [findBucket_setEntry, findBucket_setEntry, hfb, setEntry_heap_length,
                  setEntry_heap_length]
                exact hp2)
            (entry_setEntry_same _ p.1 p.2 v linep hp3 hp4)
            (by rw [(setEntry_typeBits _ p.1 p.2 v).1, htu]; exact hvg)]
      · have hvq : ∀ s, ¬ (Entry.hashMatches s t.typeBits v = true ∧
            mem (Entry.unpack t.typeBits v).ptr = (key1, key2)) := by
          rintro s ⟨_, h⟩
          rw [hvp] at h
          exact hq h.symm
        have holdq : ∀ s, ¬ (Entry.hashMatches s t.typeBits (t.entry cl i) = true ∧
            mem (Entry.unpack t.typeBits (t.entry cl i)).ptr = (key1, key2)) := by
          rintro s ⟨_, h⟩
          rw [hk] at h
          exact hq h.symm
        have e1 : lookup mem (t.setEntry cl i v) key1 key2 = lookup mem t key1 key2 :=
          lookup_setEntry_inert mem t key1 key2 cl i v (holdq _) (hvq _) (by rw [hvc, hgc])
        have e2 : lookup mem (t.setEntry cl i 0) key1 key2 = lookup mem t key1 key2 :=
          lookup_setEntry_inert mem t key1 key2 cl i 0 (holdq _)
            (by rw [hashMatches_zero]; simp) (by rw [getChainPointer_zero, hgc])
        have e3 : lookup mem ((t.setEntry cl i 0).setEntry p.1 p.2 v) key1 key2 =
            lookup mem (t.setEntry cl i 0) key1 key2 := by
          apply lookup_setEntry_inert
          · rw [htu]
            rcases hp5 with ⟨_, h⟩ | h
            · rintro ⟨_, h'⟩
              rw [h] at h'
              exact hq h'.symm
            · rw [(not_hashMatches_of_isAvailable _ _ _ h).1]; simp
          · rw [htu]; exact hvq _
          · rw [htu, hvc]
            rcases hp5 with ⟨h, _⟩ | h
            · rw [getChainPointer_of_hashMatches _ _ _ h]
            · rw [(not_hashMatches_of_isAvailable 0 _ _ h).2]
        rw [e1, e3, e2]
  | thrown =>
    have hrem : (remove mem t (mem ptr).1 (mem ptr).2).2 = t := by
      unfold remove; simp only [hfb, hle]
    rw [hrem]
  | aborted =>
    have hrem : (remove mem t (mem ptr).1 (mem ptr).2).2 = t := by
      unfold remove; simp only [hfb, hle]
    rw [hrem]
  | undefined =>
    have hrem : (remove mem t (mem ptr).1 (mem ptr).2).2 = t := by
      unfold remove; simp only [hfb, hle]
    rw [hrem]
  | diverges =>
    have hrem : (remove mem t (mem ptr).1 (mem ptr).2).2 = t := by
      unfold remove; simp only [hfb, hle]
    rw [hrem]

end HashTable
end RAMCloud

namespace RAMCloud
namespace HashTable

/-- C14: in the table with one full bucket (typeBits = 1) whose ninth referant went to a
chained line at 0x7f3a5c000040, replace of the stored referant 0x20000000 with type 0
returns true and lookup of its key then returns (0x20000000, 0); remove of the key
followed by the same replace walks past the cleared entry along the chain pointer,
which reads as 0x3f3a5c000040 where no cache line lives: that replace has no defined
result, the key stays removed, and lookup of the key does not return either. -/
theorem replace_differs_from_remove_then_replace :
    forEachInBucket exampleBrokenChain 0 = .undefined ∧
    exampleReplaceStored.1 = .ok (true, some (0x20000000, 1)) ∧
    lookup exampleMem exampleReplaceStored.2 0x20000000 0 = .ok (some (0x20000000, 0)) ∧
    (remove exampleMem exampleBrokenChain 0x20000000 0).1 = .ok (true, some (0x20000000, 1)) ∧
    exampleRemoveThenReplace.1 = .undefined ∧
    exampleRemoveThenReplace.2 = (remove exampleMem exampleBrokenChain 0x20000000 0).2 ∧
    lookup exampleMem exampleRemoveThenReplace.2 0x20000000 0 = .undefined := by
  refine ⟨?_, ?_, ?_, ?_, ?_, ?_, ?_⟩ <;> decide

/-- An instance of `replace_same_as_remove_then_replace`: the full bucket before
a line is chained, and the stored referant 0x20000040 replaced with type 0. -/
theorem replace_same_as_remove_then_replace_example :
    lookup exampleMem (replace exampleMem exampleFullBucket 0x1c3f040 0x20000040 0).2
        0x20000040 0 =
      lookup exampleMem
        (replace exampleMem (remove exampleMem exampleFullBucket
          (exampleMem 0x20000040).1 (exampleMem 0x20000040).2).2 0x1c3f040 0x20000040 0).2
        0x20000040 0 :=
  replace_same_as_remove_then_replace exampleMem exampleFullBucket 0x1c3f040 0x20000040 0
    (by decide) (by decide) (by decide) (by decide) (by decide) ⟨_, rfl⟩ 0x20000040 0

end HashTable
end RAMCloud

namespace RAMCloud
namespace FastTransport
namespace ClientSession

theorem mem_boundRpcs (s : ClientSession) (rpc : ClientRpc) :
    rpc ∈ boundRpcs s ↔ ∃ ch, ch ∈ s.channels.take s.numChannels ∧ ch.currentRpc = some rpc := by
  simp [boundRpcs, List.mem_filterMap]

theorem close_closedWithAborts (s s0 : ClientSession)
    (hq : s0.channelQueue = s.channelQueue) (hc : s0.channels = s.channels)
    (hn : s0.numChannels = s.numChannels) :
    ClosedWithAborts s (close s0) := by
  refine ⟨rfl, rfl, rfl, rfl, rfl, ?_⟩
  intro rpc hrpc
  refine ⟨?_, rfl, rfl, rfl, rfl⟩
  have hmem : rpc ∈ boundRpcs s0 ++ s0.channelQueue := by
    rw [List.mem_append, mem_boundRpcs, hq, hc, hn]
    rcases hrpc with h | h
    · exact Or.inr h
    · exact Or.inl h
  show rpc.abort ∈ s0.finished ++ (boundRpcs s0 ++ s0.channelQueue).map ClientRpc.abort
  exact List.mem_append_right _ (List.mem_map_of_mem _ hmem)

/-- C21: when the timer of the open handshake, or the timer of the outbound or
of the inbound message of a channel, fires on a client session with
currentTime - lastActivityTime > sessionTimeoutCycles (in 64-bit arithmetic),
the call returns with the session closed: the queue is empty, the session has
no channels, token and serverSessionHint are invalid, and every RPC that was
bound to a channel or waited in the queue has left the session ABORTED, so
that isReady() is true and wait() throws. -/
theorem session_timeout_closes_and_aborts (c : Constants) (sessionTimeoutCycles : Nat)
    (s : ClientSession) (now : Nat)
    (h : (now + U64 - s.lastActivityTime) % U64 > sessionTimeoutCycles) :
    ClosedWithAborts s (timerFired c sessionTimeoutCycles s now) ∧
    ∀ i, i < s.channels.length →
      ∃ s1, outboundTimerFired c sessionTimeoutCycles s i now = .ok s1 ∧
        inboundTimerFired c sessionTimeoutCycles s i now = .ok s1 ∧
        ClosedWithAborts s s1 := by
  have ht : timedOut sessionTimeoutCycles s now = true := by
    simp [timedOut, h]
  constructor
  · simp only [timerFired, ht, if_true]
    exact close_closedWithAborts s _ rfl rfl rfl
  · intro i hi
    refine ⟨close s, ?_, ?_, close_closedWithAborts s s rfl rfl rfl⟩
    · simp [outboundTimerFired, List.getElem?_eq_getElem hi, ht]
    · simp [inboundTimerFired, List.getElem?_eq_getElem hi, ht]

/-- On `exampleBusySession`, last active at time 250, the timers fire at time
5000 with a session timeout of 1000 cycles. -/
theorem session_timeout_closes_and_aborts_witness :
    (5000 + U64 - exampleBusySession.lastActivityTime) % U64 > 1000 ∧
    (ClosedWithAborts exampleBusySession
        (timerFired OutboundMessage.exampleConstants 1000 exampleBusySession 5000) ∧
      ∀ i, i < exampleBusySession.channels.length →
        ∃ s1, outboundTimerFired OutboundMessage.exampleConstants 1000 exampleBusySession i
            5000 = .ok s1 ∧
          inboundTimerFired OutboundMessage.exampleConstants 1000 exampleBusySession i
            5000 = .ok s1 ∧
          ClosedWithAborts exampleBusySession s1) :=
  ⟨by decide,
   session_timeout_closes_and_aborts OutboundMessage.exampleConstants 1000 exampleBusySession
     5000 (by decide)⟩

end ClientSession
end FastTransport
end RAMCloud
namespace RAMCloud
namespace FastTransport
namespace Transport

/-- C22: a client-to-server packet without pleaseDrop whose serverSessionHint is
outside the server session table while its payload type is not SESSION_OPEN,
or whose hinted session has a token other than the packet's sessionToken, is
answered with exactly one packet, sent to the sender of the packet: a
BAD_SESSION packet with direction server-to-client that echoes sessionToken,
rpcId, clientSessionHint, serverSessionHint and channelId; the session tables
are as before. -/
theorem handleIncomingPacket_replies_bad_session (c : Constants)
    (NUM_CHANNELS_PER_SESSION MAX_NUM_CHANNELS_PER_SESSION : Nat)
    (sessionTableGet : List ServerSession → List ServerSession × Nat) (token : Nat)
    (t : Transport) (packet : ReceivedPacket) (now : Nat)
    (hdrop : packet.pleaseDrop = false)
    (hdir : packet.direction = .CLIENT_TO_SERVER)
    (hbad : (packet.serverSessionHint ≥ t.serverSessions.length ∧
        packet.payloadType ≠ .SESSION_OPEN) ∨
      ∃ session, t.serverSessions[packet.serverSessionHint]? = some session ∧
        session.token ≠ packet.sessionToken) :
    handleIncomingPacket c NUM_CHANNELS_PER_SESSION MAX_NUM_CHANNELS_PER_SESSION
        sessionTableGet token t (some packet) now =
      .ok { serverSessions := t.serverSessions
            clientSessions := t.clientSessions
            sent := t.sent ++
              [{ address := packet.sender
                 direction := .SERVER_TO_CLIENT
                 payloadType := .BAD_SESSION
                 sessionToken := packet.sessionToken
                 rpcId := packet.rpcId
                 clientSessionHint := packet.clientSessionHint
                 serverSessionHint := packet.serverSessionHint
                 channelId := packet.channelId
                 numChannels := none }] } := by
  rcases hbad with ⟨hhint, htype⟩ | ⟨session, hsession, htoken⟩
  · simp [handleIncomingPacket, hdrop, hdir, hhint, htype, sendBadSessionError]
  · have hlt : ¬ packet.serverSessionHint ≥ t.serverSessions.length := by
      intro hge
      rw [List.getElem?_eq_none hge] at hsession
      cases hsession
    simp [handleIncomingPacket, hdrop, hdir, hlt, hsession, htoken, sendBadSessionError]

/-- The packet of `exampleUnknownHint` names a session that `exampleServer` does
not have and is no SESSION_OPEN packet; the packet of `exampleStaleToken` names
session 0 with a token that is not the session's. -/
theorem handleIncomingPacket_replies_bad_session_witness :
    exampleUnknownHint.pleaseDrop = false ∧
    exampleUnknownHint.direction = .CLIENT_TO_SERVER ∧
    handleIncomingPacket OutboundMessage.exampleConstants 8 8 exampleTableGet 77
        exampleServer (some exampleUnknownHint) 500 =
      .ok { serverSessions := exampleServer.serverSessions
            clientSessions := exampleServer.clientSessions
            sent := exampleServer.sent ++
              [{ address := exampleUnknownHint.sender
                 direction := .SERVER_TO_CLIENT
                 payloadType := .BAD_SESSION
                 sessionToken := exampleUnknownHint.sessionToken
                 rpcId := exampleUnknownHint.rpcId
                 clientSessionHint := exampleUnknownHint.clientSessionHint
                 serverSessionHint := exampleUnknownHint.serverSessionHint
                 channelId := exampleUnknownHint.channelId
                 numChannels := none }] } ∧
    exampleServer.serverSessions[exampleStaleToken.serverSessionHint]? =
      some ServerSession.exampleStarted ∧
    ServerSession.exampleStarted.token ≠ exampleStaleToken.sessionToken ∧
    handleIncomingPacket OutboundMessage.exampleConstants 8 8 exampleTableGet 77
        exampleServer (some exampleStaleToken) 500 =
      .ok { serverSessions := exampleServer.serverSessions
            clientSessions := exampleServer.clientSessions
            sent := exampleServer.sent ++
              [{ address := exampleStaleToken.sender
                 direction := .SERVER_TO_CLIENT
                 payloadType := .BAD_SESSION
                 sessionToken := exampleStaleToken.sessionToken
                 rpcId := exampleStaleToken.rpcId
                 clientSessionHint := exampleStaleToken.clientSessionHint
                 serverSessionHint := exampleStaleToken.serverSessionHint
                 channelId := exampleStaleToken.channelId
                 numChannels := none }] } :=
  ⟨by decide, by decide,
   handleIncomingPacket_replies_bad_session OutboundMessage.exampleConstants 8 8 exampleTableGet
     77 exampleServer exampleUnknownHint 500 (by decide) (by decide)
     (Or.inl ⟨by decide, by decide⟩),
   by decide, by decide,
   handleIncomingPacket_replies_bad_session OutboundMessage.exampleConstants 8 8 exampleTableGet
     77 exampleServer exampleStaleToken 500 (by decide) (by decide)
     (Or.inr ⟨ServerSession.exampleStarted, by decide, by decide⟩)⟩

end Transport
end FastTransport
end RAMCloud
namespace RAMCloud
namespace FastTransport
namespace ServerSession

theorem channels_set_other (l : List ServerChannel) (i j : Nat) (v : ServerChannel)
    (h : j ≠ i) : (l.set j v)[i]? = l[i]? := by
  rw [List.getElem?_set]
  rw [if_neg h]

theorem channels_set_self (l : List ServerChannel) (j : Nat) (v ch : ServerChannel)
    (h : l[j]? = some ch) : (l.set j v)[j]? = some v := by
  have hlt : j < l.length := by
    by_contra hc
    rw [List.getElem?_eq_none (by omega)] at h
    cases h
  rw [List.getElem?_set, if_pos rfl, if_pos hlt]

/-- What `processReceivedData` does to the channels: only channel `j` changes, its
rpcId stays, and it leaves the state it is in only from RECEIVING to PROCESSING. -/
theorem processReceivedData_channels (c : Constants) (s s1 : ServerSession) (j : Nat)
    (received : Received) (now : Nat) (chj : ServerChannel)
    (hj : s.channels[j]? = some chj)
    (h : processReceivedData c s j received now = .ok s1) :
    (∀ i, i ≠ j → s1.channels[i]? = s.channels[i]?) ∧
    ∃ ch1, s1.channels[j]? = some ch1 ∧ ch1.rpcId = chj.rpcId ∧
      (ch1.state = chj.state ∨ (chj.state = .RECEIVING ∧ ch1.state = .PROCESSING)) := by
  unfold processReceivedData at h
  rw [hj] at h
  simp only at h
  cases hst : chj.state with
  | IDLE =>
    rw [hst] at h
    simp only [Outcome.ok.injEq] at h
    subst h
    exact ⟨fun _ _ => rfl, chj, hj, rfl, Or.inl hst⟩
  | RECEIVING =>
    rw [hst] at h
    simp only at h
    cases hr : InboundMessage.processReceivedData c chj.inboundMsg received now with
    | ok r =>
      rw [hr] at h
      simp only [Outcome.bind] at h
      split at h
      · simp only [Outcome.ok.injEq] at h
        subst h
        exact ⟨fun i hi => channels_set_other _ i j _ (Ne.symm hi), _,
          channels_set_self _ j _ chj hj, rfl, Or.inr ⟨rfl, rfl⟩⟩
      · simp only [Outcome.ok.injEq] at h
        subst h
        exact ⟨fun i hi => channels_set_other _ i j _ (Ne.symm hi), _,
          channels_set_self _ j _ chj hj, rfl, Or.inl rfl⟩
    | thrown => rw [hr] at h; simp [Outcome.bind] at h
    | aborted => rw [hr] at h; simp [Outcome.bind] at h
    | undefined => rw [hr] at h; simp [Outcome.bind] at h
    | diverges => rw [hr] at h; simp [Outcome.bind] at h
  | PROCESSING =>
    rw [hst] at h
    simp only at h
    split at h
    · simp only [Outcome.ok.injEq] at h
      subst h
      exact ⟨fun i hi => channels_set_other _ i j _ (Ne.symm hi), _,
        channels_set_self _ j _ chj hj, rfl, Or.inl rfl⟩
    · simp only [Outcome.ok.injEq] at h
      subst h
      exact ⟨fun _ _ => rfl, chj, hj, rfl, Or.inl hst⟩
  | SENDING_WAITING =>
    rw [hst] at h
    simp only [Outcome.ok.injEq] at h
    subst h
    exact ⟨fun i hi => channels_set_other _ i j _ (Ne.symm hi), _,
      channels_set_self _ j _ chj hj, rfl, Or.inl rfl⟩

/-- What `processReceivedAck` does to the channels: only channel `j` changes, and
neither its state nor its rpcId. -/
theorem processReceivedAck_channels (c : Constants) (s s1 : ServerSession) (j : Nat)
    (ack : Option AckResponse) (now : Nat) (chj : ServerChannel)
    (hj : s.channels[j]? = some chj)
    (h : processReceivedAck c s j ack now = .ok s1) :
    (∀ i, i ≠ j → s1.channels[i]? = s.channels[i]?) ∧
    ∃ ch1, s1.channels[j]? = some ch1 ∧ ch1.rpcId = chj.rpcId ∧ ch1.state = chj.state := by
  unfold processReceivedAck at h
  rw [hj] at h
  simp only at h
  split at h
  · simp only [Outcome.ok.injEq] at h
    subst h
    exact ⟨fun i hi => channels_set_other _ i j _ (Ne.symm hi), _,
      channels_set_self _ j _ chj hj, rfl, rfl⟩
  · simp only [Outcome.ok.injEq] at h
    subst h
    exact ⟨fun _ _ => rfl, chj, hj, rfl, rfl⟩

/-- A server channel that is SENDING_WAITING stays so, with its rpcId, whatever packet
the session processes, unless the packet is a DATA packet for this channel that
carries the next rpcId: then the channel takes that rpcId and is RECEIVING, or
PROCESSING when the packet is the whole request. -/
theorem processInboundPacket_keeps_sending_waiting (c : Constants)
    (NUM_CHANNELS_PER_SESSION : Nat) (s s1 : ServerSession) (packet : InboundPacket)
    (now : Nat) (i : Nat) (channel : ServerChannel)
    (hch : s.channels[i]? = some channel)
    (hstate : channel.state = .SENDING_WAITING)
    (h : processInboundPacket c NUM_CHANNELS_PER_SESSION s packet now = .ok s1) :
    ∃ ch1, s1.channels[i]? = some ch1 ∧
      ((ch1.state = .SENDING_WAITING ∧ ch1.rpcId = channel.rpcId) ∨
        (packet.channelId = i ∧ packet.payloadType = .DATA ∧
          packet.rpcId = (channel.rpcId + 1) % 2 ^ 32 ∧ ch1.rpcId = packet.rpcId ∧
          (ch1.state = .RECEIVING ∨ ch1.state = .PROCESSING))) := by
  unfold processInboundPacket at h
  simp only at h
  split at h
  · simp only [Outcome.ok.injEq] at h
    subst h
    exact ⟨channel, hch, Or.inl ⟨hstate, rfl⟩⟩
  · cases hj : s.channels[packet.channelId]? with
    | none => rw [hj] at h; cases h
    | some chj =>
      rw [hj] at h
      simp only at h
      split at h
      · -- the packet carries the rpcId of its channel
        cases hp : packet.payloadType with
        | DATA =>
          rw [hp] at h
          simp only at h
          obtain ⟨hother, ch1, h1, h2, h3⟩ := processReceivedData_channels c
            { s with lastActivityTime := now } s1 packet.channelId packet.received now chj hj h
          by_cases hij : i = packet.channelId
          · subst hij
            rw [hch] at hj
            cases hj
            refine ⟨ch1, h1, Or.inl ⟨?_, h2⟩⟩
            rcases h3 with h3 | ⟨h3, _⟩
            · rw [h3, hstate]
            · rw [hstate] at h3; cases h3
          · rw [hother i hij]
            exact ⟨channel, hch, Or.inl ⟨hstate, rfl⟩⟩
        | ACK =>
          rw [hp] at h
          simp only at h
          obtain ⟨hother, ch1, h1, h2, h3⟩ := processReceivedAck_channels c
            { s with lastActivityTime := now } s1 packet.channelId packet.ack now chj hj h
          by_cases hij : i = packet.channelId
          · subst hij
            rw [hch] at hj
            cases hj
            exact ⟨ch1, h1, Or.inl ⟨by rw [h3, hstate], h2⟩⟩
          · rw [hother i hij]
            exact ⟨channel, hch, Or.inl ⟨hstate, rfl⟩⟩
        | SESSION_OPEN =>
          rw [hp] at h
          simp only [Outcome.ok.injEq] at h
          subst h
          exact ⟨channel, hch, Or.inl ⟨hstate, rfl⟩⟩
        | RESERVED =>
          rw [hp] at h
          simp only [Outcome.ok.injEq] at h
          subst h
          exact ⟨channel, hch, Or.inl ⟨hstate, rfl⟩⟩
        | BAD_SESSION =>
          rw [hp] at h
          simp only [Outcome.ok.injEq] at h
          subst h
          exact ⟨channel, hch, Or.inl ⟨hstate, rfl⟩⟩
      · split at h
        · -- the packet carries the next rpcId
          rename_i hnext
          cases hp : packet.payloadType with
          | DATA =>
            rw [hp] at h
            simp only at h
            have hset := channels_set_self s.channels packet.channelId
              { state := .RECEIVING
                rpcId := packet.rpcId
                currentRpc := ServerRpc.setup s.id packet.channelId
                inboundMsg := InboundMessage.init c (InboundMessage.reset c chj.inboundMsg)
                  packet.received.header.totalFrags
                  (ServerRpc.setup s.id packet.channelId).recvPayload now
                outboundMsg := OutboundMessage.reset c chj.outboundMsg } chj hj
            obtain ⟨hother, ch1, h1, h2, h3⟩ := processReceivedData_channels c _ s1
              packet.channelId packet.received now _ hset h
            by_cases hij : i = packet.channelId
            · subst hij
              rw [hch] at hj
              cases hj
              refine ⟨ch1, h1, Or.inr ⟨rfl, rfl, hnext.symm, h2, ?_⟩⟩
              rcases h3 with h3 | ⟨_, h3⟩
              · exact Or.inl h3
              · exact Or.inr h3
            · rw [hother i hij]
              simp only
              rw [channels_set_other _ i _ _ (Ne.symm hij)]
              exact ⟨channel, hch, Or.inl ⟨hstate, rfl⟩⟩
          | ACK =>
            rw [hp] at h
            simp only [Outcome.ok.injEq] at h
            subst h
            exact ⟨channel, hch, Or.inl ⟨hstate, rfl⟩⟩
          | SESSION_OPEN =>
            rw [hp] at h
            simp only [Outcome.ok.injEq] at h
            subst h
            exact ⟨channel, hch, Or.inl ⟨hstate, rfl⟩⟩
          | RESERVED =>
            rw [hp] at h
            simp only [Outcome.ok.injEq] at h
            subst h
            exact ⟨channel, hch, Or.inl ⟨hstate, rfl⟩⟩
          | BAD_SESSION =>
            rw [hp] at h
            simp only [Outcome.ok.injEq] at h
            subst h
            exact ⟨channel, hch, Or.inl ⟨hstate, rfl⟩⟩
        · simp only [Outcome.ok.injEq] at h
          subst h
          exact ⟨channel, hch, Or.inl ⟨hstate, rfl⟩⟩

/-- C23: on a server channel that is SENDING_WAITING, processReceivedAck hands
the ACK to the outbound message and changes nothing else: also after the ACK
with which the outbound message reports the reply fully acknowledged
(firstMissingFrag == totalFrags) the channel is SENDING_WAITING, not IDLE,
with its rpcId and its RPC unchanged. -/
theorem processReceivedAck_stays_sending_waiting (c : Constants) (s : ServerSession) (i : Nat)
    (ack : Option AckResponse) (now : Nat) (channel : ServerChannel)
    (hch : s.channels[i]? = some channel)
    (hstate : channel.state = .SENDING_WAITING)
    (hfull : (OutboundMessage.processReceivedAck c channel.outboundMsg ack now).1 = true) :
    ∃ s1 ch1, processReceivedAck c s i ack now = .ok s1 ∧
      s1 = { s with channels := s.channels.set i ch1 } ∧
      s1.channels[i]? = some ch1 ∧
      ch1.state = .SENDING_WAITING ∧ ch1.rpcId = channel.rpcId ∧
      ch1.currentRpc = channel.currentRpc ∧ ch1.inboundMsg = channel.inboundMsg ∧
      ch1.outboundMsg = (OutboundMessage.processReceivedAck c channel.outboundMsg ack now).2 ∧
      ch1.outboundMsg.firstMissingFrag = ch1.outboundMsg.totalFrags := by
  have hlt : i < s.channels.length := by
    rcases Nat.lt_or_ge i s.channels.length with h | h
    · exact h
    · rw [List.getElem?_eq_none h] at hch; cases hch
  simp only [processReceivedAck, hch, hstate, if_true]
  refine ⟨_, _, rfl, rfl, ?_, rfl, rfl, rfl, rfl, rfl, ?_⟩
  · simp [List.getElem?_set, hlt]
  · have h := hfull
    unfold OutboundMessage.processReceivedAck at h ⊢
    split at h
    · cases h
    · rename_i hbuf
      simp only [hbuf, if_false]
      cases ack with
      | none => cases h
      | some a =>
        simp only at h ⊢
        exact beq_iff_eq.mp h

/-- On `exampleReplyingSession` the ACK for both fragments of the reply is
processed at time 400. -/
theorem processReceivedAck_stays_sending_waiting_witness :
    exampleReplyingSession.channels[0]? = some exampleReplyingChannel ∧
    exampleReplyingChannel.state = .SENDING_WAITING ∧
    (OutboundMessage.processReceivedAck OutboundMessage.exampleConstants
      exampleReplyingChannel.outboundMsg (some ⟨2, 0⟩) 400).1 = true ∧
    ∃ s1 ch1, processReceivedAck OutboundMessage.exampleConstants exampleReplyingSession 0
        (some ⟨2, 0⟩) 400 = .ok s1 ∧
      s1 = { exampleReplyingSession with
             channels := exampleReplyingSession.channels.set 0 ch1 } ∧
      s1.channels[0]? = some ch1 ∧
      ch1.state = .SENDING_WAITING ∧ ch1.rpcId = exampleReplyingChannel.rpcId ∧
      ch1.currentRpc = exampleReplyingChannel.currentRpc ∧
      ch1.inboundMsg = exampleReplyingChannel.inboundMsg ∧
      ch1.outboundMsg = (OutboundMessage.processReceivedAck OutboundMessage.exampleConstants
        exampleReplyingChannel.outboundMsg (some ⟨2, 0⟩) 400).2 ∧
      ch1.outboundMsg.firstMissingFrag = ch1.outboundMsg.totalFrags :=
  ⟨by decide, by decide, by decide,
   processReceivedAck_stays_sending_waiting OutboundMessage.exampleConstants
     exampleReplyingSession 0 (some ⟨2, 0⟩) 400 exampleReplyingChannel
     (by decide) (by decide) (by decide)⟩

/-- The reply of `exampleReplying` has two fragments, none acknowledged; after
the ACK packet of `exampleFinalAck`, which acknowledges both, channel 0 is
still SENDING_WAITING with rpcId 0. -/
theorem fully_acked_reply_leaves_channel_sending_waiting :
    exampleReplying.toOption.map
        (fun s => s.channels.take 1 |>.map (fun ch =>
          (ch.state, ch.rpcId, ch.outboundMsg.firstMissingFrag, ch.outboundMsg.totalFrags))) =
      some [(.SENDING_WAITING, 0, 0, 2)] ∧
    exampleReplyAcked.toOption.map
        (fun s => s.channels.take 1 |>.map (fun ch =>
          (ch.state, ch.rpcId, ch.outboundMsg.firstMissingFrag, ch.outboundMsg.totalFrags))) =
      some [(.SENDING_WAITING, 0, 2, 2)] := by
  refine ⟨?_, ?_⟩ <;> decide

end ServerSession
end FastTransport
end RAMCloud
namespace RAMCloud
namespace FastTransport
namespace ServerSession

/-- C24: on a server channel that is PROCESSING, a DATA packet that carries the
rpcId of the channel leaves the channel PROCESSING with rpcId, current RPC
(and so the request received), outbound message, the ready queue and every
other channel untouched; the session's lastActivityTime becomes the current
time, and exactly one ACK is sent when the packet's requestAck bit is set,
nothing otherwise. -/
theorem processInboundPacket_data_while_processing (c : Constants)
    (NUM_CHANNELS_PER_SESSION : Nat) (s : ServerSession) (packet : InboundPacket) (now : Nat)
    (channel : ServerChannel)
    (hid : packet.channelId < NUM_CHANNELS_PER_SESSION)
    (hch : s.channels[packet.channelId]? = some channel)
    (hstate : channel.state = .PROCESSING)
    (hdata : packet.payloadType = .DATA)
    (hrpc : packet.rpcId = channel.rpcId) :
    ∃ s1 ch1, processInboundPacket c NUM_CHANNELS_PER_SESSION s packet now = .ok s1 ∧
      s1 = { s with lastActivityTime := now, channels := s.channels.set packet.channelId ch1 } ∧
      s1.channels[packet.channelId]? = some ch1 ∧
      ch1.state = .PROCESSING ∧ ch1.rpcId = channel.rpcId ∧
      ch1.currentRpc = channel.currentRpc ∧ ch1.outboundMsg = channel.outboundMsg ∧
      (packet.received.header.requestAck = true →
        ch1.inboundMsg = InboundMessage.sendAck channel.inboundMsg ∧
        ch1.inboundMsg.acks.length = channel.inboundMsg.acks.length + 1 ∧
        ch1.inboundMsg.dataBuffer = channel.inboundMsg.dataBuffer) ∧
      (packet.received.header.requestAck = false → ch1 = channel) := by
  have hlt : packet.channelId < s.channels.length := by
    rcases Nat.lt_or_ge packet.channelId s.channels.length with h | h
    · exact h
    · rw [List.getElem?_eq_none h] at hch; cases hch
  have hnot : ¬ packet.channelId ≥ NUM_CHANNELS_PER_SESSION := by omega
  cases hreq : packet.received.header.requestAck with
  | true =>
    refine ⟨_, { channel with inboundMsg := InboundMessage.sendAck channel.inboundMsg }, ?_, rfl,
      ?_, hstate, rfl, rfl, rfl, ?_, ?_⟩
    · simp [processInboundPacket, hnot, hch, hrpc, hdata, processReceivedData, hstate, hreq]
    · simp [List.getElem?_set, hlt]
    · intro _
      exact ⟨rfl, by simp [InboundMessage.sendAck], rfl⟩
    · intro h; cases h
  | false =>
    refine ⟨_, channel, ?_, rfl, ?_, hstate, rfl, rfl, rfl, ?_, ?_⟩
    · simp only [processInboundPacket, hnot, hch, hrpc, hdata, processReceivedData, hstate, hreq,
        if_false, if_true, Bool.false_eq_true]
      have hset : s.channels.set packet.channelId channel = s.channels := by
        apply List.ext_getElem?
        intro j
        by_cases hj : packet.channelId = j
        · subst hj
          simp [List.getElem?_set, hlt, hch]
        · simp [List.getElem?_set, hj]
      rw [hset]
    · simp [List.getElem?_set, hlt]
    · intro h; cases h
    · intro _; rfl

/-- On `exampleProcessingSession` a retransmission of the request that asks for an
ACK arrives at time 250. -/
theorem processInboundPacket_data_while_processing_witness :
    exampleRequestAgain.channelId < 8 ∧
    exampleProcessingSession.channels[exampleRequestAgain.channelId]? =
      some exampleProcessingChannel ∧
    exampleProcessingChannel.state = .PROCESSING ∧
    exampleRequestAgain.payloadType = .DATA ∧
    exampleRequestAgain.rpcId = exampleProcessingChannel.rpcId ∧
    ∃ s1 ch1, processInboundPacket OutboundMessage.exampleConstants 8 exampleProcessingSession
        exampleRequestAgain 250 = .ok s1 ∧
      s1 = { exampleProcessingSession with
             lastActivityTime := 250
             channels := exampleProcessingSession.channels.set exampleRequestAgain.channelId
               ch1 } ∧
      s1.channels[exampleRequestAgain.channelId]? = some ch1 ∧
      ch1.state = .PROCESSING ∧ ch1.rpcId = exampleProcessingChannel.rpcId ∧
      ch1.currentRpc = exampleProcessingChannel.currentRpc ∧
      ch1.outboundMsg = exampleProcessingChannel.outboundMsg ∧
      (exampleRequestAgain.received.header.requestAck = true →
        ch1.inboundMsg = InboundMessage.sendAck exampleProcessingChannel.inboundMsg ∧
        ch1.inboundMsg.acks.length = exampleProcessingChannel.inboundMsg.acks.length + 1 ∧
        ch1.inboundMsg.dataBuffer = exampleProcessingChannel.inboundMsg.dataBuffer) ∧
      (exampleRequestAgain.received.header.requestAck = false →
        ch1 = exampleProcessingChannel) :=
  ⟨by decide, by decide, by decide, by decide, by decide,
   processInboundPacket_data_while_processing OutboundMessage.exampleConstants 8
     exampleProcessingSession exampleRequestAgain 250 exampleProcessingChannel
     (by decide) (by decide) (by decide) (by decide) (by decide)⟩

/-- Channel 0 of `exampleProcessing` is PROCESSING the RPC with rpcId 0, whose
request has the bytes 1, 2, 3.  The DATA packet of `exampleNextRequest`, with
rpcId 1, leaves it RECEIVING with rpcId 1, the request replaced by the bytes
of the packet and the RPC taken off the ready queue; the DATA packet of
`exampleStrayRequest`, with rpcId 7 and requestAck set, changes nothing on
the channel and no ACK is sent. -/
theorem data_with_other_rpcId_while_processing :
    exampleProcessing.toOption.map
        (fun s => (s.channels.take 1 |>.map (fun ch =>
          (ch.state, ch.rpcId, ch.currentRpc.recvPayload.map (fun p => p.data),
            ch.inboundMsg.acks)), s.readyQueue)) =
      some ([(.PROCESSING, 0, [[1, 2, 3]], [])], [0]) ∧
    exampleOverrun.toOption.map
        (fun s => (s.channels.take 1 |>.map (fun ch =>
          (ch.state, ch.rpcId, ch.currentRpc.recvPayload.map (fun p => p.data),
            ch.inboundMsg.acks)), s.readyQueue)) =
      some ([(.RECEIVING, 1, [[4, 5, 6, 7]], [])], []) ∧
    exampleStray.toOption.map
        (fun s => (s.channels.take 1 |>.map (fun ch =>
          (ch.state, ch.rpcId, ch.currentRpc.recvPayload.map (fun p => p.data),
            ch.inboundMsg.acks)), s.readyQueue)) =
      some ([(.PROCESSING, 0, [[1, 2, 3]], [])], [0]) := by
  refine ⟨?_, ?_, ?_⟩ <;> rfl

end ServerSession
end FastTransport
end RAMCloud
namespace RAMCloud
namespace FastTransport
namespace ClientSession

theorem assignQueued_fresh (c : Constants) (now : Nat) (fresh : ClientChannel)
    (hfresh : fresh.outboundMsg.sendBuffer = none) :
    ∀ (n : Nat) (queue : List ClientRpc),
      ∃ chs, assignQueued c now (List.replicate n fresh) queue = .ok (chs, queue.drop n) ∧
        chs.length = n ∧
        ∀ i, i < n → ∃ ch, chs[i]? = some ch ∧
          (∀ rpc, queue[i]? = some rpc →
            ch.state = .SENDING ∧ ch.currentRpc = some rpc ∧ ch.rpcId = fresh.rpcId ∧
            OutboundMessage.beginSending c fresh.outboundMsg rpc.requestBuffer now =
              .ok ch.outboundMsg) ∧
          (queue.length ≤ i → ch = fresh) := by
  intro n
  induction n with
  | zero =>
    intro queue
    refine ⟨[], ?_, rfl, ?_⟩
    · cases queue <;> simp [assignQueued]
    · intro i hi; omega
  | succ n ih =>
    intro queue
    cases queue with
    | nil =>
      refine ⟨List.replicate (n + 1) fresh, ?_, by simp, ?_⟩
      · simp [List.replicate_succ, assignQueued]
      · intro i hi
        refine ⟨fresh, ?_, ?_, fun _ => rfl⟩
        · rw [List.getElem?_replicate]; simp [hi]
        · intro rpc h; simp at h
    | cons rpc queue =>
      obtain ⟨chs, heq, hlen, hall⟩ := ih queue
      obtain ⟨out, hbegin⟩ : ∃ out, OutboundMessage.beginSending c fresh.outboundMsg
          rpc.requestBuffer now = .ok out := by
        simp [OutboundMessage.beginSending, hfresh]
      refine ⟨{ fresh with state := .SENDING, currentRpc := some rpc, outboundMsg := out } :: chs,
        ?_, by simp [hlen], ?_⟩
      · simp only [List.replicate_succ, assignQueued, hbegin, Outcome.bind, heq, List.drop_succ_cons]
      · intro i hi
        cases i with
        | zero =>
          refine ⟨_, List.getElem?_cons_zero, ?_, ?_⟩
          · intro rpc1 h
            simp only [List.getElem?_cons_zero, Option.some.injEq] at h
            subst h
            exact ⟨rfl, rfl, rfl, hbegin⟩
          · intro h; simp at h
        | succ i =>
          obtain ⟨ch, hch, hq, hidle⟩ := hall i (by omega)
          refine ⟨ch, by simpa using hch, ?_, ?_⟩
          · intro rpc1 h
            exact hq rpc1 (by simpa using h)
          · intro h
            exact hidle (by simpa using h)

/-- C25: when a session without channels processes a SESSION_OPEN response it
stores serverSessionHint and token, sets numChannels to the smaller of the
announced number and MAX_NUM_CHANNELS_PER_SESSION and allocates that many
channels; channel i is SENDING the i-th queued RPC (its outbound message has
begun sending the request) for every i below the length of the queue, every
other channel is as setup left it, IDLE without an RPC, and the RPCs that did
not get a channel stay queued in order.  A session that has channels is left
unchanged. -/
theorem processSessionOpenResponse_binds_queue_in_order (c : Constants)
    (MAX_NUM_CHANNELS_PER_SESSION : Nat) (s : ClientSession) (packet : InboundPacket)
    (now : Nat) :
    (s.numChannels = 0 →
      ∃ s1, processSessionOpenResponse c MAX_NUM_CHANNELS_PER_SESSION s packet now = .ok s1 ∧
        s1.serverSessionHint = packet.serverSessionHint ∧
        s1.token = packet.sessionToken ∧
        s1.numChannels = min packet.numChannels MAX_NUM_CHANNELS_PER_SESSION ∧
        s1.channels.length = s1.numChannels ∧
        s1.channelQueue = s.channelQueue.drop s1.numChannels ∧
        s1.finished = s.finished ∧
        ∀ i, i < s1.numChannels → ∃ ch, s1.channels[i]? = some ch ∧
          (∀ rpc, s.channelQueue[i]? = some rpc →
            ch.state = .SENDING ∧ ch.currentRpc = some rpc ∧
            OutboundMessage.beginSending c (ClientChannel.setup c).outboundMsg
              rpc.requestBuffer now = .ok ch.outboundMsg) ∧
          (s.channelQueue.length ≤ i →
            ch.state = .IDLE ∧ ch.currentRpc = none ∧ ch = ClientChannel.setup c)) ∧
    (0 < s.numChannels →
      processSessionOpenResponse c MAX_NUM_CHANNELS_PER_SESSION s packet now = .ok s) := by
  constructor
  · intro h0
    have hnum : (if MAX_NUM_CHANNELS_PER_SESSION < packet.numChannels
        then MAX_NUM_CHANNELS_PER_SESSION else packet.numChannels) =
        min packet.numChannels MAX_NUM_CHANNELS_PER_SESSION := by
      split <;> omega
    obtain ⟨chs, heq, hlen, hall⟩ := assignQueued_fresh c now (ClientChannel.setup c) rfl
      (min packet.numChannels MAX_NUM_CHANNELS_PER_SESSION) s.channelQueue
    refine ⟨{ s with timer := none, serverSessionHint := packet.serverSessionHint
                     token := packet.sessionToken
                     numChannels := min packet.numChannels MAX_NUM_CHANNELS_PER_SESSION
                     channels := chs
                     channelQueue := s.channelQueue.drop
                       (min packet.numChannels MAX_NUM_CHANNELS_PER_SESSION) },
      ?_, rfl, rfl, rfl, hlen, rfl, rfl, ?_⟩
    · simp only [processSessionOpenResponse, h0, allocateChannels, hnum, heq, Outcome.bind]
      simp
    · intro i hi
      obtain ⟨ch, hch, hq, hidle⟩ := hall i hi
      refine ⟨ch, hch, ?_, ?_⟩
      · intro rpc hrpc
        obtain ⟨a, b, _, d⟩ := hq rpc hrpc
        exact ⟨a, b, d⟩
      · intro hle
        rw [hidle hle]
        exact ⟨rfl, rfl, rfl⟩
  · intro hpos
    simp [processSessionOpenResponse, hpos]

/-- The session of `exampleOpening` has no channels and one queued RPC, which
the response of `exampleOpenResponse` binds to channel 0; the session of
`exampleConnected` has 8 channels and is left as it is. -/
theorem processSessionOpenResponse_binds_queue_in_order_witness :
    (∃ s1, processSessionOpenResponse OutboundMessage.exampleConstants 8 exampleOpeningSession
          exampleOpenResponse 200 = .ok s1 ∧
        s1.serverSessionHint = exampleOpenResponse.serverSessionHint ∧
        s1.token = exampleOpenResponse.sessionToken ∧
        s1.numChannels = min exampleOpenResponse.numChannels 8 ∧
        s1.channels.length = s1.numChannels ∧
        s1.channelQueue = exampleOpeningSession.channelQueue.drop s1.numChannels ∧
        s1.finished = exampleOpeningSession.finished ∧
        ∀ i, i < s1.numChannels → ∃ ch, s1.channels[i]? = some ch ∧
          (∀ rpc, exampleOpeningSession.channelQueue[i]? = some rpc →
            ch.state = .SENDING ∧ ch.currentRpc = some rpc ∧
            OutboundMessage.beginSending OutboundMessage.exampleConstants
              (ClientChannel.setup OutboundMessage.exampleConstants).outboundMsg
              rpc.requestBuffer 200 = .ok ch.outboundMsg) ∧
          (exampleOpeningSession.channelQueue.length ≤ i →
            ch.state = .IDLE ∧ ch.currentRpc = none ∧
            ch = ClientChannel.setup OutboundMessage.exampleConstants)) ∧
    processSessionOpenResponse OutboundMessage.exampleConstants 8 exampleConnectedSession
      exampleOpenResponse 200 = .ok exampleConnectedSession :=
  ⟨(processSessionOpenResponse_binds_queue_in_order OutboundMessage.exampleConstants 8
      exampleOpeningSession exampleOpenResponse 200).1 (by decide),
   (processSessionOpenResponse_binds_queue_in_order OutboundMessage.exampleConstants 8
      exampleConnectedSession exampleOpenResponse 200).2 (by decide)⟩

end ClientSession
end FastTransport
end RAMCloud
namespace RAMCloud
namespace FastTransport
namespace ClientSession

/-- C26: on a client channel that is SENDING or RECEIVING an RPC, a DATA packet
with which the InboundMessage reports the response complete makes the RPC
COMPLETED (it leaves the session with the response), advances the rpcId of
the channel by one in 32-bit arithmetic (4294967295 is followed by 0) and
leaves the channel IDLE without an RPC when the queue is empty, otherwise
SENDING the RPC that was at the front of the queue, which is removed from the
queue; the other channels are untouched.  A DATA packet on an IDLE channel
changes nothing. -/
theorem processReceivedData_completes_and_reassigns (c : Constants) (s : ClientSession)
    (i : Nat) (received : Received) (now : Nat) (channel : ClientChannel) :
    (∀ (rpc : ClientRpc) (im : InboundMessage),
      s.channels[i]? = some channel →
      channel.state = .SENDING ∨ channel.state = .RECEIVING →
      channel.currentRpc = some rpc →
      InboundMessage.processReceivedData c
        (if channel.state = .SENDING then
          InboundMessage.init c channel.inboundMsg received.header.totalFrags
            rpc.responseBuffer now
         else channel.inboundMsg) received now = .ok (true, im) →
      ∃ s1 ch2, processReceivedData c s i received now = .ok s1 ∧
        s1.channels = s.channels.set i ch2 ∧ s1.channels[i]? = some ch2 ∧
        s1.finished = s.finished ++
          [{ rpc with state := .COMPLETED
                      responseBuffer := im.dataBuffer.getD rpc.responseBuffer }] ∧
        ch2.rpcId = (channel.rpcId + 1) % 2 ^ 32 ∧
        (channel.rpcId + 1 < 2 ^ 32 → ch2.rpcId = channel.rpcId + 1) ∧
        (s.channelQueue = [] →
          ch2.state = .IDLE ∧ ch2.currentRpc = none ∧ s1.channelQueue = []) ∧
        (∀ next rest, s.channelQueue = next :: rest →
          ch2.state = .SENDING ∧ ch2.currentRpc = some next ∧ s1.channelQueue = rest ∧
          ch2.outboundMsg.sendBuffer = some next.requestBuffer)) ∧
    (s.channels[i]? = some channel → channel.state = .IDLE →
      processReceivedData c s i received now = .ok s) := by
  constructor
  · intro rpc im hch hstate hrpc hdone
    have hlt : i < s.channels.length := by
      rcases Nat.lt_or_ge i s.channels.length with h | h
      · exact h
      · rw [List.getElem?_eq_none h] at hch; cases hch
    have hidle : channel.state ≠ .IDLE := by
      rcases hstate with h | h <;> rw [h] <;> decide
    have hwrap : channel.rpcId + 1 < 2 ^ 32 →
        (channel.rpcId + 1) % 2 ^ 32 = channel.rpcId + 1 := fun h => Nat.mod_eq_of_lt h
    by_cases hs : channel.state = .SENDING
    · rw [if_pos hs] at hdone
      cases hq : s.channelQueue with
      | nil =>
        simp only [processReceivedData, hch, hidle, hs, hrpc, if_true, if_false, Outcome.bind,
          hdone, hq]
        refine ⟨_, _, rfl, rfl, ?_, rfl, rfl, hwrap, fun _ => ⟨rfl, rfl, rfl⟩, ?_⟩
        · simp [List.getElem?_set, hlt]
        · intro next rest h; cases h
      | cons next rest =>
        simp only [processReceivedData, hch, hidle, hs, hrpc, if_true, if_false, Outcome.bind,
          hdone, hq, OutboundMessage.beginSending, OutboundMessage.reset, Option.isSome_none,
          Bool.false_eq_true]
        refine ⟨_, _, rfl, rfl, ?_, rfl, rfl, hwrap, ?_, ?_⟩
        · simp [List.getElem?_set, hlt]
        · intro h; cases h
        · intro next1 rest1 h
          cases h
          refine ⟨rfl, rfl, rfl, ?_⟩
          exact (OutboundMessage.send_frame c _ now).2.2.2.1
    · have hr : channel.state = .RECEIVING := by
        rcases hstate with h | h
        · exact absurd h hs
        · exact h
      rw [if_neg hs] at hdone
      cases hq : s.channelQueue with
      | nil =>
        simp only [processReceivedData, hch, hidle, hs, hrpc, if_true, if_false, Outcome.bind,
          hdone, hq]
        refine ⟨_, _, rfl, rfl, ?_, rfl, rfl, hwrap, fun _ => ⟨rfl, rfl, rfl⟩, ?_⟩
        · simp [List.getElem?_set, hlt]
        · intro next rest h; cases h
      | cons next rest =>
        simp only [processReceivedData, hch, hidle, hs, hrpc, if_true, if_false, Outcome.bind,
          hdone, hq, OutboundMessage.beginSending, OutboundMessage.reset, Option.isSome_none,
          Bool.false_eq_true]
        refine ⟨_, _, rfl, rfl, ?_, rfl, rfl, hwrap, ?_, ?_⟩
        · simp [List.getElem?_set, hlt]
        · intro h; cases h
        · intro next1 rest1 h
          cases h
          refine ⟨rfl, rfl, rfl, ?_⟩
          exact (OutboundMessage.send_frame c _ now).2.2.2.1
  · intro hch hidle
    simp [processReceivedData, hch, hidle]

end ClientSession
end FastTransport
end RAMCloud
namespace RAMCloud
namespace FastTransport
namespace ClientSession

/-- On `exampleConnectedSession` the response of one fragment completes the RPC
of channel 0, whose rpcId goes from 0 to 1, and leaves channel 1, which is
IDLE, alone. -/
theorem processReceivedData_completes_and_reassigns_witness :
    (∃ s1 ch2, processReceivedData OutboundMessage.exampleConstants exampleConnectedSession 0
          exampleResponse 400 = .ok s1 ∧
        s1.channels = exampleConnectedSession.channels.set 0 ch2 ∧
        s1.channels[0]? = some ch2 ∧
        s1.finished = exampleConnectedSession.finished ++
          [{ exampleRpc with
             state := .COMPLETED
             responseBuffer := exampleCompleteInbound.dataBuffer.getD exampleRpc.responseBuffer }] ∧
        ch2.rpcId = (exampleSendingChannel.rpcId + 1) % 2 ^ 32 ∧
        (exampleSendingChannel.rpcId + 1 < 2 ^ 32 →
          ch2.rpcId = exampleSendingChannel.rpcId + 1) ∧
        (exampleConnectedSession.channelQueue = [] →
          ch2.state = .IDLE ∧ ch2.currentRpc = none ∧ s1.channelQueue = []) ∧
        (∀ next rest, exampleConnectedSession.channelQueue = next :: rest →
          ch2.state = .SENDING ∧ ch2.currentRpc = some next ∧ s1.channelQueue = rest ∧
          ch2.outboundMsg.sendBuffer = some next.requestBuffer)) ∧
    processReceivedData OutboundMessage.exampleConstants exampleConnectedSession 1
      exampleResponse 400 = .ok exampleConnectedSession :=
  ⟨(processReceivedData_completes_and_reassigns OutboundMessage.exampleConstants
      exampleConnectedSession 0 exampleResponse 400 exampleSendingChannel).1
      exampleRpc exampleCompleteInbound (by decide) (by decide) (by decide) (by rfl),
   (processReceivedData_completes_and_reassigns OutboundMessage.exampleConstants
      exampleConnectedSession 1 exampleResponse 400
      (ClientChannel.setup OutboundMessage.exampleConstants)).2 (by decide) (by decide)⟩

/-- Channel 0 of `exampleLastRpcId` has the rpcId 4294967295; when the response
completes its RPC, the channel is IDLE with the rpcId 0, which is not one
more than 4294967295. -/
theorem rpcId_wraps_to_zero :
    exampleLastRpcId.channels.map (fun ch => (ch.state, ch.rpcId)) =
      [(.SENDING, 4294967295), (.IDLE, 0), (.IDLE, 0), (.IDLE, 0), (.IDLE, 0), (.IDLE, 0),
       (.IDLE, 0), (.IDLE, 0)] ∧
    (processReceivedData OutboundMessage.exampleConstants exampleLastRpcId 0
        exampleResponse 400).toOption.map
      (fun s => (s.channels.map (fun ch => (ch.state, ch.rpcId)),
        s.finished.map (fun r => (r.handle, r.state)))) =
      some ([(.IDLE, 0), (.IDLE, 0), (.IDLE, 0), (.IDLE, 0), (.IDLE, 0), (.IDLE, 0),
       (.IDLE, 0), (.IDLE, 0)], [(1, .COMPLETED)]) := by
  refine ⟨?_, ?_⟩ <;> decide

end ClientSession
end FastTransport
end RAMCloud
namespace RAMCloud
namespace FastTransport

theorem ServerSession.expireChannel_idle (c : Constants) (channel : ServerChannel) :
    (ServerSession.expireChannel c channel).state = .IDLE := by
  unfold ServerSession.expireChannel
  split
  · assumption
  · rfl

/-- C27: expire() of a server session returns true exactly when none of its
channels is PROCESSING; channels that are RECEIVING or SENDING_WAITING do not
prevent it, the call resets them, so that every channel is IDLE after a call
that returns true.  expire() of a client session returns true exactly when
refCount is 0, no channel has a current RPC and the queue is empty; the
session is then closed and has no channels. -/
theorem expire_returns_true_iff (c : Constants) (server : ServerSession)
    (client : ClientSession) :
    ((ServerSession.expire c server).1 = true ↔
      ∀ ch, ch ∈ server.channels → ch.state ≠ .PROCESSING) ∧
    ((ServerSession.expire c server).1 = true →
      (∀ ch, ch ∈ (ServerSession.expire c server).2.channels → ch.state = .IDLE) ∧
      (ServerSession.expire c server).2.channels.length = server.channels.length ∧
      (ServerSession.expire c server).2.token = INVALID_TOKEN) ∧
    ((ServerSession.expire c server).1 = false → (ServerSession.expire c server).2 = server) ∧
    ((ClientSession.expire client).1 = true ↔
      client.refCount = 0 ∧ client.channelQueue = [] ∧
      ∀ ch, ch ∈ client.channels.take client.numChannels → ch.currentRpc = none) ∧
    ((ClientSession.expire client).1 = true →
      (ClientSession.expire client).2 = ClientSession.close client ∧
      (ClientSession.expire client).2.channels = [] ∧
      (ClientSession.expire client).2.numChannels = 0) ∧
    ((ClientSession.expire client).1 = false → (ClientSession.expire client).2 = client) := by
  refine ⟨?_, ?_, ?_, ?_, ?_, ?_⟩
  · unfold ServerSession.expire
    split
    · rename_i h
      simp only [Bool.false_eq_true, false_iff]
      intro hall
      rw [List.any_eq_true] at h
      obtain ⟨ch, hmem, hp⟩ := h
      exact hall ch hmem (by simpa using hp)
    · rename_i h
      simp only [true_iff]
      intro ch hmem hp
      apply h
      rw [List.any_eq_true]
      exact ⟨ch, hmem, by simpa using hp⟩
  · unfold ServerSession.expire
    split
    · intro h; cases h
    · intro _
      refine ⟨?_, by simp, rfl⟩
      intro ch hmem
      simp only [List.mem_map] at hmem
      obtain ⟨ch0, _, rfl⟩ := hmem
      exact ServerSession.expireChannel_idle c ch0
  · unfold ServerSession.expire
    split
    · intro _; rfl
    · intro h; cases h
  · unfold ClientSession.expire
    by_cases hr : client.refCount > 0
    · simp only [hr, if_true, Bool.false_eq_true, false_iff]
      intro h; omega
    · simp only [hr, if_false]
      by_cases hb : (client.channels.take client.numChannels).any
          (fun ch => ch.currentRpc.isSome) = true
      · simp only [hb, if_true, Bool.false_eq_true, false_iff]
        rw [List.any_eq_true] at hb
        obtain ⟨ch, hmem, hsome⟩ := hb
        intro h
        rw [h.2.2 ch hmem] at hsome
        cases hsome
      · simp only [hb, if_false]
        have hnone : ∀ ch, ch ∈ client.channels.take client.numChannels →
            ch.currentRpc = none := by
          intro ch hmem
          cases hcur : ch.currentRpc with
          | none => rfl
          | some rpc =>
            exfalso
            apply hb
            rw [List.any_eq_true]
            exact ⟨ch, hmem, by simp [hcur]⟩
        cases hq : client.channelQueue with
        | nil =>
          simp only [List.isEmpty_nil, Bool.not_true, Bool.false_eq_true, if_false, true_iff]
          exact ⟨by omega, trivial, hnone⟩
        | cons rpc rest =>
          simp
  · unfold ClientSession.expire
    split
    · intro h; cases h
    · split
      · intro h; cases h
      · split
        · intro h; cases h
        · intro _; exact ⟨rfl, rfl, rfl⟩
  · unfold ClientSession.expire
    split
    · intro _; rfl
    · split
      · intro _; rfl
      · split
        · intro _; rfl
        · intro h; cases h

/-- On the session of `exampleReceiving`, whose channel 0 is RECEIVING a request,
`expire()` returns true and leaves every channel IDLE; on the session of
`exampleProcessing` it returns false. -/
theorem expire_true_with_receiving_channel :
    ServerSession.exampleReceiving.toOption.map
        (fun s => (s.channels.map (fun ch => ch.state),
          (ServerSession.expire OutboundMessage.exampleConstants s).1,
          (ServerSession.expire OutboundMessage.exampleConstants s).2.channels.map
            (fun ch => (ch.state, ch.rpcId)))) =
      some ([.RECEIVING, .IDLE, .IDLE, .IDLE, .IDLE, .IDLE, .IDLE, .IDLE], true,
        [(.IDLE, 4294967295), (.IDLE, 4294967295), (.IDLE, 4294967295), (.IDLE, 4294967295),
         (.IDLE, 4294967295), (.IDLE, 4294967295), (.IDLE, 4294967295),
         (.IDLE, 4294967295)]) ∧
    ServerSession.exampleProcessing.toOption.map
        (fun s => (ServerSession.expire OutboundMessage.exampleConstants s).1) =
      some false := by
  refine ⟨?_, ?_⟩ <;> decide

end FastTransport
end RAMCloud

namespace RAMCloud
namespace Buffer

theorem peekPointer_within (chunks : List (List Nat)) :
    ∀ (offset index : Nat), offset < (chunks.map List.length).sum →
      ∃ i k chunk, peekPointer chunks offset index = some (index + i, k) ∧
        chunks[i]? = some chunk ∧ k < chunk.length ∧
        ((chunks.take i).map List.length).sum + k = offset ∧
        peekRun chunks offset = chunk.drop k ∧
        chunk[k]? = chunks.flatten[offset]? := by
  induction chunks with
  | nil => intro offset index h; simp at h
  | cons first rest ih =>
    intro offset index h
    by_cases hlt : offset < first.length
    · refine ⟨0, offset, first, ?_, List.getElem?_cons_zero, hlt, by simp, ?_, ?_⟩
      · simp [peekPointer, hlt]
      · simp [peekRun, hlt]
      · rw [List.flatten_cons, List.getElem?_append_left hlt]
    · have hrest : offset - first.length < (rest.map List.length).sum := by
        simp only [List.map_cons, List.sum_cons] at h
        omega
      obtain ⟨i, k, chunk, hp, hc, hk, hsum, hrun, hbyte⟩ :=
        ih (offset - first.length) (index + 1) hrest
      refine ⟨i + 1, k, chunk, ?_, by simpa using hc, hk, ?_, ?_, ?_⟩
      · simp only [peekPointer, hlt, if_false, hp]
        congr 2
        omega
      · simp only [List.take_succ_cons, List.map_cons, List.sum_cons]
        omega
      · simp only [peekRun, hlt, if_false, hrun]
      · rw [hbyte, List.flatten_cons, List.getElem?_append_right (Nat.le_of_not_lt hlt)]

theorem peekRun_beyond (chunks : List (List Nat)) :
    ∀ (offset index : Nat), (chunks.map List.length).sum ≤ offset →
      peekRun chunks offset = [] ∧ peekPointer chunks offset index = none := by
  induction chunks with
  | nil => intro offset index _; exact ⟨rfl, rfl⟩
  | cons first rest ih =>
    intro offset index h
    simp only [List.map_cons, List.sum_cons] at h
    have hlt : ¬ offset < first.length := by omega
    simp only [peekRun, peekPointer, hlt, if_false]
    exact ih (offset - first.length) (index + 1) (by omega)

/-- C28: for every offset below totalLength, peek(offset) stores a pointer to
the byte with that offset: it points into the chunk the offset falls in (the
chunk with index i, k bytes from its start, where the chunks before it hold
offset - k bytes), the byte there is the byte of the buffer at the offset, and
the length returned is the number of bytes from there to the end of that
chunk; on three chunks of 10 bytes peek(0) = 10, peek(9) = 1, peek(10) = 10
and peek(25) = 5. -/
theorem peek_points_into_chunk (b : Buffer) (offset : Nat) (h : offset < b.totalLength) :
    (∃ i k chunk, peekPointer b.chunks offset 0 = some (i, k) ∧
      b.chunks[i]? = some chunk ∧ k < chunk.length ∧
      ((b.chunks.take i).map List.length).sum + k = offset ∧
      chunk[k]? = b.chunks.flatten[offset]? ∧
      b.peek offset = chunk.length - k ∧
      peekRun b.chunks offset = chunk.drop k) ∧
    ∀ c1 c2 c3 : List Nat, c1.length = 10 → c2.length = 10 → c3.length = 10 →
      peek ⟨[c1, c2, c3]⟩ 0 = 10 ∧ peek ⟨[c1, c2, c3]⟩ 9 = 1 ∧
      peek ⟨[c1, c2, c3]⟩ 10 = 10 ∧ peek ⟨[c1, c2, c3]⟩ 25 = 5 := by
  constructor
  · obtain ⟨i, k, chunk, hp, hc, hk, hsum, hrun, hbyte⟩ := peekPointer_within b.chunks offset 0 h
    refine ⟨i, k, chunk, by simpa using hp, hc, hk, hsum, hbyte, ?_, hrun⟩
    simp [peek, hrun]
  · intro c1 c2 c3 h1 h2 h3
    simp [peek, peekRun, h1, h2, h3]

/-- On the buffer of the tests, `peek(25)` points 5 bytes into the third chunk
and returns 5. -/
theorem peek_points_into_chunk_witness :
    (25 < exampleTestBuffer.totalLength) ∧
    ((∃ i k chunk, peekPointer exampleTestBuffer.chunks 25 0 = some (i, k) ∧
      exampleTestBuffer.chunks[i]? = some chunk ∧ k < chunk.length ∧
      ((exampleTestBuffer.chunks.take i).map List.length).sum + k = 25 ∧
      chunk[k]? = exampleTestBuffer.chunks.flatten[25]? ∧
      exampleTestBuffer.peek 25 = chunk.length - k ∧
      peekRun exampleTestBuffer.chunks 25 = chunk.drop k) ∧
    ∀ c1 c2 c3 : List Nat, c1.length = 10 → c2.length = 10 → c3.length = 10 →
      peek ⟨[c1, c2, c3]⟩ 0 = 10 ∧ peek ⟨[c1, c2, c3]⟩ 9 = 1 ∧
      peek ⟨[c1, c2, c3]⟩ 10 = 10 ∧ peek ⟨[c1, c2, c3]⟩ 25 = 5) :=
  ⟨by decide, peek_points_into_chunk exampleTestBuffer 25 (by decide)⟩

/-- C29: peek at an offset that is not below totalLength returns the length 0
and the null pointer; getRange(offset, length) returns null exactly when
length is 0 or offset + length exceeds totalLength; copy(offset, length,
dest) returns the smaller of length and totalLength - offset when offset is
below totalLength and 0 otherwise, and writes exactly that many bytes, the
bytes of the buffer from the offset on. -/
theorem out_of_range_peek_getRange_copy (b : Buffer) (offset length : Nat) :
    (b.totalLength ≤ offset → b.peek offset = 0 ∧ peekPointer b.chunks offset 0 = none) ∧
    (getRange b offset length = none ↔ length = 0 ∨ offset + length > b.totalLength) ∧
    (copy b offset length).1 =
      (if offset < b.totalLength then min length (b.totalLength - offset) else 0) ∧
    (copy b offset length).2.length = (copy b offset length).1 ∧
    (copy b offset length).2 =
      (b.chunks.flatten.drop offset).take (copy b offset length).1 := by
  refine ⟨?_, ?_, ?_, ?_, ?_⟩
  · intro h
    obtain ⟨hrun, hptr⟩ := peekRun_beyond b.chunks offset 0 h
    exact ⟨by simp [peek, hrun], hptr⟩
  · rw [getRange_eq]
    split
    · rename_i hc; simp [hc]
    · rename_i hc; simp [hc]
  · unfold copy
    by_cases hlt : offset < b.totalLength
    · have hge : ¬ offset ≥ b.totalLength := by omega
      simp only [hge, hlt, if_true, if_false, Nat.min_def]
      split <;> split <;> omega
    · have hge : offset ≥ b.totalLength := by omega
      simp only [hge, hlt, if_true, if_false]
  · unfold copy
    split
    · rfl
    · rename_i hlt
      simp only [copyChunks_eq, List.length_take, List.length_drop,
        ← totalLength_eq_length_flatten, Nat.min_def]
      split <;> split <;> omega
  · unfold copy
    split
    · simp
    · simp only [copyChunks_eq]

/-- On the buffer of the tests: `peek(30)`, `getRange(29, 2)` and `copy(25, 6)`. -/
theorem out_of_range_peek_getRange_copy_witness :
    exampleTestBuffer.totalLength ≤ 30 ∧
    (exampleTestBuffer.peek 30 = 0 ∧ peekPointer exampleTestBuffer.chunks 30 0 = none) ∧
    getRange exampleTestBuffer 29 2 = none ∧
    copy exampleTestBuffer 25 6 = (5, [112, 113, 114, 115, 0]) ∧
    copy exampleTestBuffer 30 1 = (0, []) :=
  ⟨by decide,
   (out_of_range_peek_getRange_copy exampleTestBuffer 30 1).1 (by decide),
   ((out_of_range_peek_getRange_copy exampleTestBuffer 29 2).2.1).2 (Or.inr (by decide)),
   by decide, by decide⟩

end Buffer
end RAMCloud
namespace RAMCloud
namespace Segment

theorem freeBytes_eq (s : Segment) (hcap : s.capacity < 2 ^ 32) (htail : s.tail ≤ s.capacity) :
    freeBytes s = s.capacity - s.tail := by
  unfold freeBytes
  have h1 : s.capacity + 2 ^ 32 - s.tail = (s.capacity - s.tail) + 2 ^ 32 := by omega
  rw [h1, Nat.add_mod_right, Nat.mod_eq_of_lt (by omega)]

theorem forceAppendBlob_fits (s : Segment) (length : Nat) (hopen : s.closed = false)
    (hcap : s.capacity < 2 ^ 32) (hfit : s.tail + length ≤ s.capacity) :
    forceAppendBlob s length = .ok { s with tail := s.tail + length } := by
  have hm : (s.tail + length) % 2 ^ 32 = s.tail + length := Nat.mod_eq_of_lt (by omega)
  have hb : ¬ s.tail + length > s.capacity := by omega
  unfold forceAppendBlob
  rw [hm, if_neg hb, hopen]
  rfl

theorem forceAppendWithEntry_fits (sz : Sizes) (s : Segment) (type : LogEntryType)
    (buffer : List Nat) (hopen : s.closed = false) (hcap : s.capacity < 2 ^ 32)
    (hfit : s.tail + (sz.entry + buffer.length) ≤ s.capacity) :
    forceAppendWithEntry sz s type buffer false =
      .ok (some s.tail,
        { s with tail := s.tail + (sz.entry + buffer.length)
                 entries := s.entries ++ [(type, buffer)] }) := by
  have hfree := freeBytes_eq s hcap (by omega)
  have hnot : ¬ freeBytes s < sz.entry + buffer.length := by omega
  have h1 := forceAppendBlob_fits s sz.entry hopen hcap (by omega)
  have h2 : forceAppendBlob { s with tail := s.tail + sz.entry } buffer.length =
      .ok { s with tail := s.tail + sz.entry + buffer.length } :=
    forceAppendBlob_fits { s with tail := s.tail + sz.entry } buffer.length hopen hcap
      (by show s.tail + sz.entry + buffer.length ≤ s.capacity; omega)
  unfold forceAppendWithEntry
  rw [hopen, if_neg (by decide), if_neg hnot, if_neg (by decide), h1]
  simp only [Outcome.bind]
  rw [h2]
  simp only [Nat.add_assoc, hopen]

theorem append_with_room (sz : Sizes) (s : Segment) (type : LogEntryType) (buffer : List Nat)
    (hopen : s.closed = false) (hcap : s.capacity < 2 ^ 32) (htail : s.tail ≤ s.capacity)
    (hroom : sz.entry + sz.footer ≤ s.capacity - s.tail) (htype : type ≠ .SEGFOOTER) :
    ∃ appendable, appendableBytes sz s = .ok appendable ∧
      (buffer.length ≤ appendable →
        append sz s type buffer false =
          .ok (some s.tail,
            { s with tail := s.tail + (sz.entry + buffer.length)
                     entries := s.entries ++ [(type, buffer)] })) ∧
      (appendable < buffer.length → append sz s type buffer false = .ok (none, s)) ∧
      (buffer.length ≤ appendable → (0 < buffer.length ∨ sz.entry ≤ appendable) →
        sz.entry + sz.footer ≤ s.capacity - (s.tail + (sz.entry + buffer.length))) := by
  have hfree := freeBytes_eq s hcap htail
  have hnot : ¬ freeBytes s < sz.entry + sz.footer := by omega
  by_cases hsmall : freeBytes s - (sz.entry + sz.footer) < sz.entry
  · have happ : appendableBytes sz s = .ok 0 := by
      simp [appendableBytes, hopen, hnot, hsmall]
    refine ⟨0, happ, ?_, ?_, ?_⟩
    · intro hlen
      have hforce := forceAppendWithEntry_fits sz s type buffer hopen hcap (by omega)
      have hnlt : ¬ 0 < buffer.length := by omega
      simp only [append, hopen, htype, happ, Outcome.bind, hnlt, hforce, Bool.false_eq_true,
        false_or, if_false]
    · intro hlen
      simp only [append, hopen, htype, happ, Outcome.bind, hlen, Bool.false_eq_true,
        false_or, if_false, if_true]
    · intro hlen hpos
      omega
  · have happ : appendableBytes sz s =
        .ok (freeBytes s - (sz.entry + sz.footer) - sz.entry) := by
      simp [appendableBytes, hopen, hnot, hsmall]
    refine ⟨_, happ, ?_, ?_, ?_⟩
    · intro hlen
      have hforce := forceAppendWithEntry_fits sz s type buffer hopen hcap (by omega)
      have hnlt : ¬ freeBytes s - (sz.entry + sz.footer) - sz.entry < buffer.length := by omega
      simp only [append, hopen, htype, happ, Outcome.bind, hnlt, hforce, Bool.false_eq_true,
        false_or, if_false]
    · intro hlen
      simp only [append, hopen, htype, happ, Outcome.bind, hlen, Bool.false_eq_true,
        false_or, if_false, if_true]
    · intro hlen _
      omega

theorem zero_length_append_leaves_no_room (sz : Sizes) (s : Segment) (type : LogEntryType)
    (hopen : s.closed = false) (hcap : s.capacity < 2 ^ 32) (htail : s.tail ≤ s.capacity)
    (hroom : sz.entry + sz.footer ≤ s.capacity - s.tail)
    (hfull : s.capacity - s.tail - (sz.entry + sz.footer) < sz.entry)
    (htype : type ≠ .SEGFOOTER) :
    appendableBytes sz s = .ok 0 ∧
    append sz s type [] false =
      .ok (some s.tail,
        { s with tail := s.tail + sz.entry, entries := s.entries ++ [(type, [])] }) ∧
    s.capacity - (s.tail + sz.entry) < sz.entry + sz.footer ∧
    close sz { s with tail := s.tail + sz.entry, entries := s.entries ++ [(type, [])] } =
      .aborted := by
  have hfree := freeBytes_eq s hcap htail
  obtain ⟨appendable, happ, hfit, _, _⟩ := append_with_room sz s type [] hopen hcap htail hroom
    htype
  have hzero : appendableBytes sz s = .ok 0 := by
    have hnot : ¬ freeBytes s < sz.entry + sz.footer := by omega
    have hsmall : freeBytes s - (sz.entry + sz.footer) < sz.entry := by omega
    simp [appendableBytes, hopen, hnot, hsmall]
  refine ⟨hzero, ?_, by omega, ?_⟩
  · have := hfit (Nat.zero_le _)
    simpa using this
  · have hfree1 : freeBytes { s with tail := s.tail + sz.entry
                                     entries := s.entries ++ [(type, [])] } =
        s.capacity - (s.tail + sz.entry) :=
      freeBytes_eq _ hcap (by show s.tail + sz.entry ≤ s.capacity; omega)
    have hless : freeBytes { s with tail := s.tail + sz.entry
                                    entries := s.entries ++ [(type, [])] } <
        sz.entry + (List.replicate sz.footer 0).length := by
      rw [hfree1, List.length_replicate]; omega
    unfold close
    rw [if_neg (by simp [hopen])]
    unfold forceAppendWithEntry
    rw [if_neg (by simp [hopen]), if_pos hless]
    rfl

/-- C30: the segment of 64 bytes constructed without an initial entry (entry
header of 12 bytes, segment header of 20, footer of 4) has its tail at 32 and
4 appendable bytes; the append of 4 bytes succeeds and leaves 16 bytes, the
room of the footer and its entry, with appendableBytes() = 0.  The append of
a buffer of length 0, which is not larger than appendableBytes(), succeeds
and advances the tail by the 12 bytes of its entry header: now capacity - tail
is 4, less than the 16 bytes the footer needs, so that appendableBytes() and
close() fail their assertions.  This segment is reached by successful appends
from a segment constructed without an initial entry. -/
theorem zero_length_append_takes_the_room_of_the_footer :
    exampleSmall.toOption.map (fun s => (s.tail, appendableBytes exampleSizes s)) =
      some (32, .ok 4) ∧
    exampleFilled.toOption.map
        (fun r => (r.1, r.2.tail, r.2.capacity - r.2.tail, appendableBytes exampleSizes r.2)) =
      some (some 32, 48, 16, .ok 0) ∧
    exampleOverfilled.toOption.map (fun r => (r.1, r.2.tail, r.2.capacity - r.2.tail)) =
      some (some 48, 60, 4) ∧
    exampleOverfilled.toOption.map
        (fun r => (appendableBytes exampleSizes r.2, close exampleSizes r.2)) =
      some (.aborted, .aborted) ∧
    ∃ s, Appended exampleSizes s ∧ s.closed = false ∧
      s.capacity - s.tail < exampleSizes.entry + exampleSizes.footer ∧
      close exampleSizes s = .aborted := by
  refine ⟨by decide, by decide, by decide, by decide, ?_⟩
  refine ⟨{ capacity := 64, tail := 60, bytesFreed := 0, closed := false
            entries := [(.SEGHEADER, List.replicate 20 0), (.OTHER, [1, 2, 3, 4]),
              (.OTHER, [])] }, ?_, rfl, by decide, by decide⟩
  refine Appended.append
    { capacity := 64, tail := 48, bytesFreed := 0, closed := false
      entries := [(.SEGHEADER, List.replicate 20 0), (.OTHER, [1, 2, 3, 4])] }
    .OTHER [] 48 _ ?_ (by decide)
  refine Appended.append
    { capacity := 64, tail := 32, bytesFreed := 0, closed := false
      entries := [(.SEGHEADER, List.replicate 20 0)] }
    .OTHER [1, 2, 3, 4] 32 _ ?_ (by decide)
  exact Appended.create 64 _ (by decide)

end Segment
end RAMCloud

namespace RAMCloud
namespace HashTable

/-- C31: in the table with one bucket and one type bit the first nine of the
seventeen replace calls all return false, the ninth chains the cache line that
xmemalign puts at 0x7f3a5c000200; the chain pointer is read back as
0x3f3a5c000200, so that the walk along the chain of the bucket and
forEachInBucket leave the table after the first line instead of visiting two
lines and reporting nine referants.  In the table without type bits the
seventeen calls leave a chain of three lines and forEachInBucket reports the
seventeen referants. -/
theorem nine_referants_chain_is_cut :
    outcomes exampleMem exampleOneBucket ((exampleSeventeenCalls 1).take 9) =
      List.replicate 9 (.ok (false, none)) ∧
    exampleNineTyped.heap.map (fun l => l.1) = [0x7f3a5c000200] ∧
    Entry.getChainPointer 1 (exampleNineTyped.entry (.bucket 0) 7) = 0x3f3a5c000200 ∧
    chain exampleNineTyped 0 = .undefined ∧
    forEachInBucket exampleNineTyped 0 = .undefined ∧
    outcomes exampleMem exampleUntyped (exampleSeventeenCalls 0) =
      List.replicate 17 (.ok (false, none)) ∧
    chain exampleSeventeen 0 =
      .ok [.bucket 0, .chained 0x7f3a5c000200, .chained 0x7f3a5c0003c0] ∧
    forEachInBucket exampleSeventeen 0 =
      .ok ((List.range 17).map (fun i => (0x20000000 + 64 * i, 0)), 17) := by
  refine ⟨?_, ?_, ?_, ?_, ?_, ?_, ?_, ?_⟩ <;> decide

end HashTable
end RAMCloud

namespace RAMCloud
namespace HashTable

theorem scanLineCounted_eq (mem : Referants) (typeBits sh key1 key2 : Nat) (line : CacheLine)
    (i : Nat) :
    (scanLineCounted mem typeBits sh key1 key2 line i).1 =
      scanLine mem typeBits sh key1 key2 line i ∧
    (scanLineCounted mem typeBits sh key1 key2 line i).2 =
      (match scanLine mem typeBits sh key1 key2 line i with
       | some j => (line.take (j - i + 1)).countP (Collides mem typeBits sh key1 key2)
       | none => line.countP (Collides mem typeBits sh key1 key2)) ∧
    (∀ j, scanLine mem typeBits sh key1 key2 line i = some j → i ≤ j) := by
  induction line generalizing i with
  | nil => simp [scanLineCounted, scanLine]
  | cons e es ih =>
    obtain ⟨ih1, ih2, ih3⟩ := ih (i + 1)
    unfold scanLineCounted scanLine
    by_cases hm : Entry.hashMatches sh typeBits e = true
    · by_cases hk : mem (Entry.unpack typeBits e).ptr = (key1, key2)
      · have hc : Collides mem typeBits sh key1 key2 e = false := by
          simp [Collides, hk]
        simp [hm, hk, hc]
      · have hc : Collides mem typeBits sh key1 key2 e = true := by
          simp [Collides, hm, hk]
        simp only [hm, hk, and_false, if_false, if_true, ih1, ih2, true_and]
        refine ⟨?_, fun j hj => Nat.le_of_succ_le (ih3 j hj)⟩
        cases hs : scanLine mem typeBits sh key1 key2 es (i + 1) with
        | none => simp [List.countP_cons, hc]
        | some j =>
          have hle := ih3 j hs
          have e1 : j - i + 1 = (j - (i + 1) + 1) + 1 := by omega
          simp only [e1, List.take_succ_cons, List.countP_cons, hc, if_true]
    · have hc : Collides mem typeBits sh key1 key2 e = false := by
        simp [Collides, hm]
      simp only [hm, false_and, if_false, ih1, ih2, true_and, Bool.false_eq_true]
      refine ⟨?_, fun j hj => Nat.le_of_succ_le (ih3 j hj)⟩
      cases hs : scanLine mem typeBits sh key1 key2 es (i + 1) with
      | none => simp [List.countP_cons, hc]
      | some j =>
        have hle := ih3 j hs
        have e1 : j - i + 1 = (j - (i + 1) + 1) + 1 := by omega
        simp only [e1, List.take_succ_cons, List.countP_cons, hc, Bool.false_eq_true, if_false,
          Nat.add_zero]

theorem lookupEntryCountedLoop_eq (mem : Referants) (t : Table) (sh key1 key2 : Nat)
    (fuel : Nat) (cl : LineRef) (counters : PerfCounters) :
    (lookupEntryCountedLoop mem t sh key1 key2 fuel cl counters).1 =
      lookupEntryLoop mem t sh key1 key2 fuel cl ∧
    (lookupEntryCountedLoop mem t sh key1 key2 fuel cl counters).2.lookupEntryHashCollisions =
      counters.lookupEntryHashCollisions +
        (touchedLoop mem t sh key1 key2 fuel cl).countP (Collides mem t.typeBits sh key1 key2) ∧
    (lookupEntryCountedLoop mem t sh key1 key2 fuel cl counters).2.lookupEntryCalls =
      counters.lookupEntryCalls := by
  induction fuel generalizing cl counters with
  | zero => simp [lookupEntryCountedLoop, lookupEntryLoop, touchedLoop]
  | succ fuel ih =>
    unfold lookupEntryCountedLoop lookupEntryLoop touchedLoop
    cases hl : t.line? cl with
    | none => simp
    | some line =>
      obtain ⟨s1, s2, _⟩ := scanLineCounted_eq mem t.typeBits sh key1 key2 line 0
      simp only [s1, s2]
      cases hs : scanLine mem t.typeBits sh key1 key2 line 0 with
      | some i => simp
      | none =>
        simp only
        split
        · simp
        · obtain ⟨i1, i2, i3⟩ := ih
            (.chained (Entry.getChainPointer t.typeBits (line.getD (ENTRIES_PER_CACHE_LINE - 1) 0)))
            { counters with
              lookupEntryHashCollisions := counters.lookupEntryHashCollisions +
                line.countP (Collides mem t.typeBits sh key1 key2)
              lookupEntryChainsFollowed := counters.lookupEntryChainsFollowed + 1 }
          refine ⟨i1, ?_, i3⟩
          rw [i2, List.countP_append]
          simp only
          omega

/-- C32: a lookup returns what it returns without the counters, and during the
call lookupEntryHashCollisions increases by the number of entries that the scan
of the key's bucket touches and that are referant entries with the secondary
hash of the query whose referant has another key: by one for each such entry,
by nothing when no such entry is touched. -/
theorem lookup_counts_each_hash_collision (mem : Referants) (t : Table)
    (counters : PerfCounters) (key1 key2 : Nat) :
    (lookupCounted mem t counters key1 key2).1 = lookup mem t key1 key2 ∧
    (lookupCounted mem t counters key1 key2).2.lookupEntryHashCollisions =
      counters.lookupEntryHashCollisions +
        (touched mem t key1 key2).countP
          (Collides mem t.typeBits (findBucket t key1 key2).2 key1 key2) ∧
    ((∀ e, e ∈ touched mem t key1 key2 →
        Collides mem t.typeBits (findBucket t key1 key2).2 key1 key2 e = false) →
      (lookupCounted mem t counters key1 key2).2.lookupEntryHashCollisions =
        counters.lookupEntryHashCollisions) ∧
    (lookupCounted mem t counters key1 key2).2.lookupEntryCalls =
      counters.lookupEntryCalls + 1 := by
  obtain ⟨e1, e2, e3⟩ := lookupEntryCountedLoop_eq mem t (findBucket t key1 key2).2 key1 key2
    (t.heap.length + 1) (.bucket (findBucket t key1 key2).1)
    { counters with lookupEntryCalls := counters.lookupEntryCalls + 1 }
  have hboth : (lookupCounted mem t counters key1 key2).2 =
      (lookupEntryCountedLoop mem t (findBucket t key1 key2).2 key1 key2 (t.heap.length + 1)
        (.bucket (findBucket t key1 key2).1)
        { counters with lookupEntryCalls := counters.lookupEntryCalls + 1 }).2 ∧
      (lookupCounted mem t counters key1 key2).1 = lookup mem t key1 key2 := by
    unfold lookupCounted lookupEntryCounted lookup lookupEntry
    simp only
    rw [← e1]
    generalize lookupEntryCountedLoop mem t (findBucket t key1 key2).2 key1 key2
      (t.heap.length + 1) (.bucket (findBucket t key1 key2).1)
      { counters with lookupEntryCalls := counters.lookupEntryCalls + 1 } = p
    obtain ⟨o, c1⟩ := p
    rcases o with (_ | ⟨cl, i⟩) | _ | _ | _ | _
    · exact ⟨rfl, rfl⟩
    · simp only
      cases Entry.getReferant t.typeBits (t.entry cl i) <;> exact ⟨rfl, rfl⟩
    · exact ⟨rfl, rfl⟩
    · exact ⟨rfl, rfl⟩
    · exact ⟨rfl, rfl⟩
    · exact ⟨rfl, rfl⟩
  obtain ⟨hsnd, hfst⟩ := hboth
  refine ⟨hfst, ?_, ?_, ?_⟩
  · rw [hsnd, e2]; rfl
  · intro hnone
    rw [hsnd, e2]
    have : (touched mem t key1 key2).countP
        (Collides mem t.typeBits (findBucket t key1 key2).2 key1 key2) = 0 := by
      rw [List.countP_eq_zero]
      intro e he
      simp [hnone e he]
    unfold touched at this
    simp only at this ⊢
    omega
  · rw [hsnd, e3]

/-- The table of `exampleCollisions` holds two referants whose keys have the
secondary hash of the key (0x20014880, 0): the lookup of that key touches both
and finds nothing, and the counter goes from 0 to 2. -/
theorem lookup_counts_two_hash_collisions :
    (findBucket exampleCollisions 0x2000c0c0 0, findBucket exampleCollisions 0x2000e780 0,
      findBucket exampleCollisions 0x20014880 0) = ((0, 12851), (0, 12851), (0, 12851)) ∧
    lookup exampleMem exampleCollisions 0x20014880 0 = .ok none ∧
    (lookupCounted exampleMem exampleCollisions PerfCounters.zero 0x20014880 0).1 = .ok none ∧
    (lookupCounted exampleMem exampleCollisions PerfCounters.zero 0x20014880
      0).2.lookupEntryHashCollisions = 2 := by
  refine ⟨?_, ?_, ?_, ?_⟩ <;> decide

end HashTable
end RAMCloud

namespace RAMCloud
namespace HashTable

/-- What `setChainPointer(p)` stores and what `unpack(typeBits)` reads from it: the
chain bit, and the pointer cut to its low `47 - typeBits` bits. -/
theorem setChainPointer_unpack (typeBits p : Nat) (htb : typeBits ≤ 8) (hp0 : p ≠ 0)
    (hp : p < 2 ^ 47) :
    Entry.setChainPointer p = .ok (2 ^ 47 + p) ∧
    (Entry.unpack typeBits (2 ^ 47 + p)).chain = true ∧
    (Entry.unpack typeBits (2 ^ 47 + p)).ptr = p % 2 ^ (47 - typeBits) := by
  have hp64 : p < 2 ^ 64 := lt_trans hp (by decide)
  refine ⟨?_, ?_, ?_⟩
  · unfold Entry.setChainPointer
    rw [if_neg hp0, Entry.pack_eq 0 true p 0 0 (by omega) (by decide) hp64 (by decide)]
    have c1 : ¬ (p = 0 ∧ ¬ ((0 : Nat) = 0 ∧ true = false)) := fun h => hp0 h.1
    rw [if_neg c1, if_neg (by omega), if_neg (by omega), if_neg (by decide)]
    congr 1
  · unfold Entry.unpack
    simp only [Nat.shiftRight_eq_div_pow, Nat.and_one_is_mod]
    have : (2 ^ 47 + p) / 2 ^ 47 % 2 = 1 := by omega
    rw [this]
    decide
  · unfold Entry.unpack
    simp only [ptrMask_eq _ htb, Nat.and_pow_two_sub_one_eq_mod]
    interval_cases typeBits <;> omega

/-- Where the chain pointer does come back: in a table without type bits, and for
a cache line below `2 ^ (47 - typeBits)`. -/
theorem setChainPointer_roundtrip (typeBits p : Nat) (htb : typeBits ≤ 8) (hp0 : p ≠ 0)
    (hp : p < 2 ^ (47 - typeBits)) :
    ∃ v, Entry.setChainPointer p = .ok v ∧ Entry.isAvailable typeBits v = false ∧
      (∀ sh, Entry.hashMatches sh typeBits v = false) ∧
      Entry.getChainPointer typeBits v = p := by
  have hp47 : p < 2 ^ 47 :=
    lt_of_lt_of_le hp (Nat.pow_le_pow_right (by decide) (by omega))
  obtain ⟨h1, h2, h3⟩ := setChainPointer_unpack typeBits p htb hp0 hp47
  rw [Nat.mod_eq_of_lt hp] at h3
  refine ⟨_, h1, ?_, ?_, ?_⟩
  · simp only [Entry.isAvailable, h3, decide_eq_false_iff_not]
    exact hp0
  · intro sh
    simp only [Entry.hashMatches, h2, Bool.true_eq_false, false_and, decide_False]
  · simp only [Entry.getChainPointer, h2, h3, Bool.true_eq_false, if_false]

/-- C33: for every typeBits up to 8 and every cache-line address p that fits in
47 bits but not in 47 - typeBits bits (typeBits is then at least 1),
setChainPointer(p) stores the entry
2^47 + p, which matches no secondary hash, but getChainPointer(typeBits) returns
p mod 2^(47 - typeBits) for it, not p, and the entry is available when that is
0; getChainPointer returns NULL on the empty entry and on every entry that
matches a secondary hash. -/
theorem getChainPointer_truncates_chain_pointer (typeBits p : Nat) (h8 : typeBits ≤ 8)
    (hlow : 2 ^ (47 - typeBits) ≤ p) (hp : p < 2 ^ 47) :
    Entry.setChainPointer p = .ok (2 ^ 47 + p) ∧
    Entry.getChainPointer typeBits (2 ^ 47 + p) = p % 2 ^ (47 - typeBits) ∧
    Entry.getChainPointer typeBits (2 ^ 47 + p) ≠ p ∧
    (Entry.isAvailable typeBits (2 ^ 47 + p) = true ↔ p % 2 ^ (47 - typeBits) = 0) ∧
    (∀ sh, Entry.hashMatches sh typeBits (2 ^ 47 + p) = false) ∧
    Entry.getChainPointer typeBits Entry.clear = 0 ∧
    (∀ sh e, Entry.hashMatches sh typeBits e = true → Entry.getChainPointer typeBits e = 0) := by
  have hp0 : p ≠ 0 := by
    have : 0 < 2 ^ (47 - typeBits) := Nat.two_pow_pos _
    omega
  obtain ⟨e1, e2, e3⟩ := setChainPointer_unpack typeBits p h8 hp0 hp
  have hmod : p % 2 ^ (47 - typeBits) < 2 ^ (47 - typeBits) := Nat.mod_lt _ (Nat.two_pow_pos _)
  have hget : Entry.getChainPointer typeBits (2 ^ 47 + p) = p % 2 ^ (47 - typeBits) := by
    simp only [Entry.getChainPointer, e2, e3, Bool.true_eq_false, if_false]
  refine ⟨e1, hget, ?_, ?_, ?_, getChainPointer_zero typeBits, ?_⟩
  · rw [hget]; omega
  · simp only [Entry.isAvailable, e3, decide_eq_true_eq]
  · intro sh
    simp only [Entry.hashMatches, e2, Bool.true_eq_false, false_and, decide_False]
  · intro sh e h
    exact getChainPointer_of_hashMatches sh typeBits e h

/-- With one type bit the cache line at 0x7f3a5c000040 is read back as the line at
0x3f3a5c000040, and the chain pointer to the line at 0x400000000000 as NULL, in an
entry that counts as available. -/
theorem getChainPointer_truncates_chain_pointer_witness :
    (Entry.setChainPointer 0x7f3a5c000040 = .ok (2 ^ 47 + 0x7f3a5c000040) ∧
      Entry.getChainPointer 1 (2 ^ 47 + 0x7f3a5c000040) = 0x7f3a5c000040 % 2 ^ (47 - 1) ∧
      Entry.getChainPointer 1 (2 ^ 47 + 0x7f3a5c000040) ≠ 0x7f3a5c000040 ∧
      (Entry.isAvailable 1 (2 ^ 47 + 0x7f3a5c000040) = true ↔
        0x7f3a5c000040 % 2 ^ (47 - 1) = 0) ∧
      (∀ sh, Entry.hashMatches sh 1 (2 ^ 47 + 0x7f3a5c000040) = false) ∧
      Entry.getChainPointer 1 Entry.clear = 0 ∧
      (∀ sh e, Entry.hashMatches sh 1 e = true → Entry.getChainPointer 1 e = 0)) ∧
    Entry.getChainPointer 1 (2 ^ 47 + 0x7f3a5c000040) = 0x3f3a5c000040 ∧
    Entry.getChainPointer 1 (2 ^ 47 + 0x400000000000) = 0 ∧
    Entry.isAvailable 1 (2 ^ 47 + 0x400000000000) = true :=
  ⟨getChainPointer_truncates_chain_pointer 1 0x7f3a5c000040 (by decide) (by decide)
     (by decide),
   by decide, by decide, by decide⟩

end HashTable
end RAMCloud

namespace RAMCloud
namespace HashTable

/-- C34: after the ninth replace on the full bucket, with the new cache line at
0x400000000000, the last entry of the bucket's line is a chain-pointer entry
(its chain bit is set) but getChainPointer(typeBits) returns NULL for it: the
line is the last line of the chain as lookup, replace and forEachInBucket walk
it, and its last slot holds a chain pointer.  After the sixteen calls of
exampleCycleCalls, which all return false, the chain pointer from the line at
0x1c3f040 to the line at 0x400001c3f040 is read back as 0x1c3f040, the line it is
stored in: the chain of the bucket has no end, and the lookup of the last key
inserted does not return. -/
theorem chain_pointer_in_terminal_line_and_cycle :
    exampleNinthReplace.1 = .ok (false, none) ∧
    (Entry.unpack 1 (exampleNinthReplace.2.entry (.bucket 0) 7)).chain = true ∧
    Entry.getChainPointer 1 (exampleNinthReplace.2.entry (.bucket 0) 7) = 0 ∧
    chain exampleNinthReplace.2 0 = .ok [.bucket 0] ∧
    outcomes exampleMem exampleOneBucket exampleCycleCalls =
      List.replicate 16 (.ok (false, none)) ∧
    exampleCycle.heap.map (fun l => l.1) = [0x400001c3f040, 0x1c3f040] ∧
    Entry.getChainPointer 1 (exampleCycle.entry (.bucket 0) 7) = 0x1c3f040 ∧
    Entry.getChainPointer 1 (exampleCycle.entry (.chained 0x1c3f040) 7) = 0x1c3f040 ∧
    chain exampleCycle 0 = .diverges ∧
    lookup exampleMem exampleCycle 0x200003c0 0 = .diverges := by
  refine ⟨?_, ?_, ?_, ?_, ?_, ?_, ?_, ?_, ?_, ?_⟩ <;> decide

end HashTable
end RAMCloud

namespace RAMCloud
namespace FastTransport

theorem OutboundMessage.sendLoop_timer (c : Constants) (now : Nat) (cnt frag : Nat)
    (m : OutboundMessage) :
    (OutboundMessage.sendLoop c now cnt frag m).timer = m.timer := by
  induction cnt generalizing frag m with
  | zero => simp [OutboundMessage.sendLoop]
  | succ n ih =>
    simp only [OutboundMessage.sendLoop]
    split
    · exact ih _ _
    · split
      · rfl
      · rw [ih]
        rfl

theorem OutboundMessage.send_timer (c : Constants) (m : OutboundMessage) (now : Nat) :
    (OutboundMessage.send c m now).timer = m.timer ∨
    (OutboundMessage.send c m now).timer = some (now + c.timeoutCycles) := by
  unfold OutboundMessage.send
  simp only
  split
  · split
    · right; rfl
    · left; exact OutboundMessage.sendLoop_timer _ _ _ _ _
  · left; exact OutboundMessage.sendLoop_timer _ _ _ _ _

/-- C35: `send()` does not arm the timer at the minimum `sentTime` plus
`TIMEOUT_CYCLES`: whenever it arms the timer, the timer fires `timeoutCycles()`
after the time of the call.  A message of two fragments with timers enabled
whose `beginSending` ran at time 100 has both fragments sent at 100 and the
timer at 1100; when an ACK that acknowledges nothing is processed at time
600, `send()` sends nothing, both fragments still have the `sentTime` 100 and
are not ACKED, and the timer is re-armed to fire at 1600, not at 1100. -/
theorem send_arms_timer_from_now :
    (∀ (c : Constants) (m : OutboundMessage) (now : Nat),
      (OutboundMessage.send c m now).timer = m.timer ∨
      (OutboundMessage.send c m now).timer = some (now + c.timeoutCycles)) ∧
    OutboundMessage.exampleTimed.toOption.map
      (fun m => (m.timer, m.sentTimes.get 0, m.sentTimes.get 1, m.totalFrags, m.packets.length)) =
      some (some 1100, 100, 100, 2, 2) ∧
    OutboundMessage.exampleTimedAgain.toOption.map
      (fun r => (r.2.timer, r.2.sentTimes.get 0, r.2.sentTimes.get 1, r.2.firstMissingFrag,
        r.2.packets.length)) = some (some 1600, 100, 100, 0, 2) ∧
    OutboundMessage.exampleConstants.timeoutCycles = 1000 ∧
    OutboundMessage.exampleConstants.ACKED ≠ 100 := by
  refine ⟨OutboundMessage.send_timer, ?_, ?_, ?_, ?_⟩ <;> decide

end FastTransport
end RAMCloud

namespace RAMCloud
namespace Buffer
namespace Allocation

theorem step_spec (a : Allocation) (request : Request) (h2 : a.appendTop ≤ a.chunkTop) :
    (step a request).2.prependTop ≤ a.prependTop ∧
    a.appendTop ≤ (step a request).2.appendTop ∧
    (step a request).2.appendTop ≤ (step a request).2.chunkTop ∧
    (step a request).2.chunkTop ≤ a.chunkTop ∧
    ((step a request).1 = none → (step a request).2 = a) ∧
    (∀ offset, (step a request).1 = some offset →
      (offset + request.size ≤ a.prependTop ∧ (step a request).2.prependTop ≤ offset) ∨
      (a.appendTop ≤ offset ∧ offset + request.size ≤ (step a request).2.appendTop) ∨
      ((step a request).2.chunkTop ≤ offset ∧ offset + request.size ≤ a.chunkTop)) := by
  cases request with
  | prepend size =>
    simp only [step, allocatePrepend, Request.size]
    split
    · simp; omega
    · refine ⟨by simp, Nat.le_refl _, h2, Nat.le_refl _, by simp, ?_⟩
      intro offset ho
      simp only [Option.some.injEq] at ho
      subst ho
      left
      simp only
      omega
  | append size =>
    simp only [step, allocateAppend, Request.size]
    split
    · simp; omega
    · refine ⟨Nat.le_refl _, by simp, by simp only; omega, Nat.le_refl _, by simp, ?_⟩
      intro offset ho
      simp only [Option.some.injEq] at ho
      subst ho
      right; left
      simp only
      omega
  | chunk size =>
    simp only [step, allocateChunk, Request.size]
    split
    · simp; omega
    · refine ⟨Nat.le_refl _, Nat.le_refl _, by simp only; omega, by simp, by simp, ?_⟩
      intro offset ho
      simp only [Option.some.injEq] at ho
      subst ho
      right; right
      simp only
      omega

theorem final_spec (requests : List Request) :
    ∀ (a : Allocation), a.prependTop ≤ a.appendTop → a.appendTop ≤ a.chunkTop →
      (final a requests).prependTop ≤ a.prependTop ∧
      a.appendTop ≤ (final a requests).appendTop ∧
      (final a requests).appendTop ≤ (final a requests).chunkTop ∧
      (final a requests).chunkTop ≤ a.chunkTop := by
  induction requests with
  | nil => intro a _ h2; exact ⟨Nat.le_refl _, Nat.le_refl _, h2, Nat.le_refl _⟩
  | cons request rest ih =>
    intro a h1 h2
    obtain ⟨s1, s2, s3, s4, _, _⟩ := step_spec a request h2
    obtain ⟨f1, f2, f3, f4⟩ := ih (step a request).2 (by omega) s3
    simp only [final]
    omega

theorem regions_within (requests : List Request) :
    ∀ (a : Allocation), a.prependTop ≤ a.appendTop → a.appendTop ≤ a.chunkTop →
      ∀ r, r ∈ regions a requests →
        r.1 + r.2 ≤ a.prependTop ∨ (a.appendTop ≤ r.1 ∧ r.1 + r.2 ≤ a.chunkTop) := by
  induction requests with
  | nil => intro a _ _ r hr; simp [regions] at hr
  | cons request rest ih =>
    intro a h1 h2 r hr
    obtain ⟨s1, s2, s3, s4, _, s6⟩ := step_spec a request h2
    have hrest : ∀ r, r ∈ regions (step a request).2 rest →
        r.1 + r.2 ≤ a.prependTop ∨ (a.appendTop ≤ r.1 ∧ r.1 + r.2 ≤ a.chunkTop) := by
      intro r hr
      rcases ih (step a request).2 (by omega) s3 r hr with h | h
      · left; omega
      · right; omega
    simp only [regions] at hr
    cases ho : (step a request).1 with
    | none =>
      rw [ho] at hr
      exact hrest r hr
    | some offset =>
      rw [ho] at hr
      simp only [List.mem_cons] at hr
      rcases hr with hr | hr
      · subst hr
        rcases s6 offset ho with h | h | h
        · left; exact h.1
        · right; simp only; omega
        · right; simp only; omega
      · exact hrest r hr

theorem regions_pairwise (requests : List Request) :
    ∀ (a : Allocation), a.prependTop ≤ a.appendTop → a.appendTop ≤ a.chunkTop →
      (regions a requests).Pairwise Disjoint := by
  induction requests with
  | nil => intro a _ _; simp [regions]
  | cons request rest ih =>
    intro a h1 h2
    obtain ⟨s1, s2, s3, s4, _, s6⟩ := step_spec a request h2
    have hrest := ih (step a request).2 (by omega) s3
    simp only [regions]
    cases ho : (step a request).1 with
    | none => exact hrest
    | some offset =>
      simp only
      rw [List.pairwise_cons]
      refine ⟨?_, hrest⟩
      intro r hr
      have hin := regions_within rest (step a request).2 (by omega) s3 r hr
      unfold Disjoint
      simp only
      rcases s6 offset ho with h | h | h <;> rcases hin with g | g <;> omega

/-- C36: from a new Allocation (APPEND_START at most TOTAL_SIZE) every sequence of
prepend, append and chunk requests leaves cursors with
0 <= prependTop <= APPEND_START <= appendTop <= chunkTop <= TOTAL_SIZE; in each of these
states a prepend of size s succeeds iff s <= prependTop and returns the region
that ends at the old prependTop, an append succeeds iff s <= chunkTop - appendTop
and returns the region that starts at the old appendTop, a chunk request
succeeds iff s <= chunkTop - appendTop and returns the region that ends at the old
chunkTop; a refused request returns NULL and leaves the cursors alone; and no
two of the regions handed out overlap. -/
theorem allocation_cursors_and_regions (sz : AllocationSizes)
    (hsz : sz.APPEND_START ≤ sz.TOTAL_SIZE) (requests : List Request) :
    (0 ≤ (final (create sz) requests).prependTop ∧
      (final (create sz) requests).prependTop ≤ sz.APPEND_START ∧
      sz.APPEND_START ≤ (final (create sz) requests).appendTop ∧
      (final (create sz) requests).appendTop ≤ (final (create sz) requests).chunkTop ∧
      (final (create sz) requests).chunkTop ≤ sz.TOTAL_SIZE) ∧
    (∀ a size, a = final (create sz) requests →
      (((allocatePrepend a size).1.isSome = true ↔ size ≤ a.prependTop) ∧
        (size ≤ a.prependTop →
          allocatePrepend a size =
            (some (a.prependTop - size), { a with prependTop := a.prependTop - size })) ∧
        (a.prependTop < size → allocatePrepend a size = (none, a))) ∧
      (((allocateAppend a size).1.isSome = true ↔ size ≤ a.chunkTop - a.appendTop) ∧
        (size ≤ a.chunkTop - a.appendTop →
          allocateAppend a size =
            (some a.appendTop, { a with appendTop := a.appendTop + size })) ∧
        (a.chunkTop - a.appendTop < size → allocateAppend a size = (none, a))) ∧
      (((allocateChunk a size).1.isSome = true ↔ size ≤ a.chunkTop - a.appendTop) ∧
        (size ≤ a.chunkTop - a.appendTop →
          allocateChunk a size =
            (some (a.chunkTop - size), { a with chunkTop := a.chunkTop - size })) ∧
        (a.chunkTop - a.appendTop < size → allocateChunk a size = (none, a)))) ∧
    (regions (create sz) requests).Pairwise Disjoint ∧
    (∀ r, r ∈ regions (create sz) requests → r.1 + r.2 ≤ sz.TOTAL_SIZE) := by
  have h1 : (create sz).prependTop ≤ (create sz).appendTop := Nat.le_refl _
  have h2 : (create sz).appendTop ≤ (create sz).chunkTop := hsz
  obtain ⟨f1, f2, f3, f4⟩ := final_spec requests (create sz) h1 h2
  refine ⟨⟨Nat.zero_le _, f1, f2, f3, f4⟩, ?_, regions_pairwise requests (create sz) h1 h2, ?_⟩
  · intro a size _
    refine ⟨⟨?_, ?_, ?_⟩, ⟨?_, ?_, ?_⟩, ⟨?_, ?_, ?_⟩⟩
    · unfold allocatePrepend; split <;> simp <;> omega
    · intro h; unfold allocatePrepend; rw [if_neg (by omega)]
    · intro h; unfold allocatePrepend; rw [if_pos h]
    · unfold allocateAppend; split <;> simp <;> omega
    · intro h; unfold allocateAppend; rw [if_neg (by omega)]
    · intro h; unfold allocateAppend; rw [if_pos h]
    · unfold allocateChunk; split <;> simp <;> omega
    · intro h; unfold allocateChunk; rw [if_neg (by omega)]
    · intro h; unfold allocateChunk; rw [if_pos h]
  · intro r hr
    rcases regions_within requests (create sz) h1 h2 r hr with h | h
    · have : (create sz).prependTop = sz.APPEND_START := rfl
      omega
    · have : (create sz).chunkTop = sz.TOTAL_SIZE := rfl
      omega

/-- The requests of `test_allocateChunk`, `test_allocatePrepend` and
`test_allocateAppend` on allocations of 2048 bytes with APPEND_START 256. -/
theorem allocation_cursors_and_regions_witness :
    exampleSizes.APPEND_START ≤ exampleSizes.TOTAL_SIZE ∧
    regions (create exampleSizes) [.chunk 0, .chunk 1782, .chunk 10, .chunk 1, .append 1] =
      [(2048, 0), (266, 1782), (256, 10)] ∧
    regions (create exampleSizes) [.prepend 0, .prepend 246, .prepend 10, .prepend 1] =
      [(256, 0), (10, 246), (0, 10)] ∧
    regions (create exampleSizes) [.append 0, .append 1782, .append 10, .append 1, .chunk 1] =
      [(256, 0), (256, 1782), (2038, 10)] ∧
    (regions (create exampleSizes)
      [.append 0, .append 1782, .append 10, .append 1, .chunk 1]).Pairwise Disjoint :=
  ⟨by decide, by decide, by decide, by decide,
   (allocation_cursors_and_regions exampleSizes (by decide)
     [.append 0, .append 1782, .append 10, .append 1, .chunk 1]).2.2.1⟩

end Allocation
end Buffer
end RAMCloud

namespace RAMCloud
namespace HashTable

/-- C37: on the full bucket the lookup of the key of the referant at 0x200001c0,
which sits in the last slot, returns that referant; after the replace of the
referant at 0x20000200, which has another key, returns false (it chains the
cache line at 0x400000000000 and moves the entry of the last slot there), the
lookup of the same key returns NULL. -/
theorem replace_changes_lookup_of_relocated_key :
    exampleMem 0x200001c0 ≠ exampleMem 0x20000200 ∧
    lookup exampleMem exampleFullBucket 0x200001c0 0 = .ok (some (0x200001c0, 1)) ∧
    exampleNinthReplace.1 = .ok (false, none) ∧
    lookup exampleMem exampleNinthReplace.2 0x200001c0 0 = .ok none ∧
    lookup exampleMem exampleNinthReplaceHigh.2 0x200001c0 0 = .undefined := by
  refine ⟨?_, ?_, ?_, ?_, ?_⟩ <;> decide

end HashTable
end RAMCloud

namespace RAMCloud
namespace FastTransport

theorem InboundMessage.delivered_bound (n : Nat) (initial : List PayloadChunk)
    (dataBuffer : Option (List PayloadChunk)) (k : Nat)
    (hd : InboundMessage.Delivered (fun r => r.header.fragNumber < n) initial dataBuffer k) :
    k ≤ n := by
  obtain ⟨chunks, _, hmap, hall⟩ := hd
  cases k with
  | zero => exact Nat.zero_le _
  | succ k =>
    have hmem : k ∈ chunks.map (fun chunk => chunk.payload.header.fragNumber) := by
      rw [hmap]
      exact List.mem_range.mpr (Nat.lt_succ_self k)
    obtain ⟨chunk, hc, hk⟩ := List.mem_map.mp hmem
    have := (hall chunk hc).2
    simp only at this hk
    omega

theorem InboundMessage.receiveAll_firstMissingFrag_le (c : Constants) (m0 : InboundMessage)
    (n : Nat) (initial : List PayloadChunk) (now0 : Nat) (pkts : List (Received × Nat))
    (hfrag : ∀ p ∈ pkts, p.1.header.fragNumber < n) :
    ∃ m, InboundMessage.receiveAll c (InboundMessage.init c m0 n initial now0) pkts = .ok m ∧
      m.firstMissingFrag ≤ n := by
  obtain ⟨hs, hd⟩ := InboundMessage.init_staged c (fun r => r.header.fragNumber < n) m0 n
    initial now0
  obtain ⟨m, e, _, hd1⟩ := InboundMessage.receiveAll_ok c (fun r => r.header.fragNumber < n)
    initial pkts _ hs hd hfrag
  exact ⟨m, e, InboundMessage.delivered_bound n initial _ _ hd1⟩

/-- C38: `processReceivedData` accepts a fragment number that is not below
`totalFrags`, so `firstMissingFrag` can pass `totalFrags`.  An `InboundMessage`
initialised for 2 fragments returns true once the fragments 0 and 1 have
arrived (`firstMissingFrag` 2, two chunks); a further packet with `totalFrags` 2
and the fragment number 2 is appended as a third chunk, `firstMissingFrag`
becomes 3 and the call returns false.  When the packets arrive with the
fragment numbers 0, 2, 1 the message jumps from 1 to 3 and never returns
true. -/
theorem processReceivedData_passes_totalFrags :
    InboundMessage.exampleComplete.toOption.map
      (fun r => (r.1, r.2.firstMissingFrag, r.2.totalFrags,
        r.2.dataBuffer.map (fun b => b.map (fun chunk => chunk.data)))) =
      some (true, 2, 2, some [[1], [2]]) ∧
    InboundMessage.exampleOverrun.toOption.map
      (fun r => (r.1, r.2.firstMissingFrag, r.2.totalFrags,
        r.2.dataBuffer.map (fun b => b.map (fun chunk => chunk.data)))) =
      some (false, 3, 2, some [[1], [2], [3]]) ∧
    InboundMessage.exampleSkipped.toOption.map
      (fun r => (r.1, r.2.firstMissingFrag, r.2.totalFrags,
        r.2.dataBuffer.map (fun b => b.map (fun chunk => chunk.data)))) =
      some (false, 3, 2, some [[1], [2], [3]]) := by
  refine ⟨?_, ?_, ?_⟩ <;> decide

end FastTransport
end RAMCloud

namespace RAMCloud
namespace FastTransport
namespace OutboundMessage

/-- The receiver of `exampleReceiverOfFour` has the fragments 0 to 3 of a message
of five fragments, so that its firstMissingFrag is 4; the sender of
`exampleSenderOfFive` has the same totalFrags 5 and firstMissingFrag 0, and its
window of sentTimes has three slots.  The ACK that the receiver's sendAck builds
is dropped: after processReceivedAck the sender's firstMissingFrag is 0 and
numAcked is 0, not 4. -/
theorem ack_beyond_sender_window_is_dropped :
    (exampleSenderOfFive.firstMissingFrag, exampleSenderOfFive.totalFrags,
      exampleSenderOfFive.sentTimes.getLength, exampleSenderOfFive.sendBuffer.isSome) =
      (0, 5, 3, true) ∧
    exampleReceiverOfFour.toOption.map
        (fun r => (r.firstMissingFrag, r.totalFrags, r.acks)) = some (4, 5, [⟨4, 0⟩]) ∧
    (processReceivedAck exampleSmallWindow exampleSenderOfFive (some ⟨4, 0⟩)
      60).2.firstMissingFrag = 0 ∧
    (processReceivedAck exampleSmallWindow exampleSenderOfFive (some ⟨4, 0⟩) 60).2.numAcked = 0 ∧
    (processReceivedAck exampleSmallWindow exampleSenderOfFive (some ⟨4, 0⟩) 60).1 = false := by
  refine ⟨?_, ?_, ?_, ?_, ?_⟩ <;> decide

end OutboundMessage
end FastTransport
end RAMCloud

namespace RAMCloud
namespace HashTable

/-- C40: on the full bucket of the table with one type bit, replace(0x20000200, 2)
throws, because the type 2 needs more than one bit, after it has chained the
cache line at 0x400000000000: forEach reported eight referants before the call
and reports seven after it, and the lookup of the key of the referant at
0x200001c0, which was moved to the new line, returns NULL.  In the table
without type bits, where the chain pointer is read back whole, the replace of
a pointer that does not fit in 47 bits throws and forEach reports the same
eight referants as before. -/
theorem throwing_replace_loses_relocated_referant :
    exampleThrowingReplace.1 = .thrown ∧
    forEach exampleFullBucket =
      .ok ([(0x20000000, 1), (0x20000040, 1), (0x20000080, 1), (0x200000c0, 1),
            (0x20000100, 1), (0x20000140, 1), (0x20000180, 1), (0x200001c0, 1)], 8) ∧
    forEach exampleThrowingReplace.2 =
      .ok ([(0x20000000, 1), (0x20000040, 1), (0x20000080, 1), (0x200000c0, 1),
            (0x20000100, 1), (0x20000140, 1), (0x20000180, 1)], 7) ∧
    lookup exampleMem exampleFullBucket 0x200001c0 0 = .ok (some (0x200001c0, 1)) ∧
    lookup exampleMem exampleThrowingReplace.2 0x200001c0 0 = .ok none ∧
    exampleThrowingUntyped.1 = .thrown ∧
    chain exampleThrowingUntyped.2 0 = .ok [.bucket 0, .chained 0x7f3a5c000040] ∧
    forEach exampleThrowingUntyped.2 =
      .ok ((List.range 8).map (fun i => (0x20000000 + 64 * i, 0)), 8) := by
  refine ⟨?_, ?_, ?_, ?_, ?_, ?_, ?_, ?_⟩ <;> decide

end HashTable
end RAMCloud
